import Mathlib

/-!
# Monte Carlo simulation engine (ql/experimental/templatemodels/montecarlo)

A shallow embedding of `MCSimulationT` (mcsimulationT.hpp).  The numeric
template parameters `DateType`, `PassiveType`, `ActiveType` are all
instantiated by one linearly ordered field `α` (exact arithmetic);
`std::vector` is `List`, a thrown `QL_REQUIRE` is `Except.error`.
-/

namespace QuantLib

/-! ## Definitions -/

section Definitions

variable {α : Type} [LinearOrderedField α]

/-- Reading `v[i]` in a `std::vector` of numbers; the value 0 is only met out
of bounds. -/
def numAt (v : List α) (i : Nat) : α := v.getD i 0

/-- Reading `m[i]` in a `std::vector` of vectors; the empty vector is only met
out of bounds. -/
def rowAt {β : Type} (m : List (List β)) (i : Nat) : List β := m.getD i []

/-- Modelled from the spec: the helper `TemplateAuxilliaries::idx(v, t)` of
auxilliariesT.hpp, a file that is not among the sources.  It returns the index
n with v[n-1] < t <= v[n], clamped to the valid index range: the first n with
t <= v[n], the last index when t is above every entry, 0 for an empty vector. -/
def TemplateAuxilliaries.idx : List α → α → Nat
  | [], _ => 0
  | [_], _ => 0
  | a :: b :: rest, t => if t ≤ a then 0 else TemplateAuxilliaries.idx (b :: rest) t + 1

/-- The stochastic process interface `StochasticProcessT` as far as the
simulation uses it; every member is a pure function of its arguments.  A
member that throws ends the calling routine with that error, a case the
statements about successful calls do not meet. -/
structure ProcessType (α : Type) where
  size : Nat
  factors : Nat
  initialValues : List α
  numeraire : α → List α → α
  zeroBond : α → α → List α → α
  asset : α → List α → String → α
  forwardAsset : α → α → List α → String → α
  /-- The overload `zeroBond(t, T, X, alias)`. -/
  zeroBondAlias : α → α → List α → String → α
  assetVolatility : α → List α → String → α
  /-- The step `evolve(t0, X0, dt, dW, X1)`: the last argument is the content of
  the output vector `X1` before the call, the result its content afterwards. -/
  evolve : α → List α → α → List α → List α → List α
  /-- The in-place `truncate(t, X)`: the returned flag and the content of `X`
  afterwards. -/
  truncate : α → List α → Bool × List α

/-- The state of the random sequence generator `rsg_`: the dimension and the
seed it was made with and the number of sequences drawn so far. -/
structure RsgState where
  dimension : Nat
  seed : Nat
  calls : Nat

/-- The data members of `MCSimulationT` (mcsimulationT.hpp, lines 57-101). -/
structure MCSimulationT (α : Type) where
  process_ : ProcessType α
  simTimes_ : List α
  obsTimes_ : List α
  seed_ : Nat
  richardsonExtrapolation_ : Bool
  timeInterpolation_ : Bool
  storeBrownians_ : Bool
  rsg_ : Option RsgState
  dW_ : List (List (List α))
  X_ : List (List (List α))
  addObsTimes_ : List α
  Y_ : List (List (List α))
  applyNumeraireAdjuster_ : Bool
  numeraireObservTimes_ : List α
  numeraireAdjuster_ : List α
  applyZcbAdjuster_ : Bool
  zcbObservTimes_ : List α
  zcbOffsetTimes_ : List α
  zcbAdjuster_ : List (List α)
  applyAssetAdjuster_ : Bool
  assetIndex_ : List (String × Nat)
  assetObservTimes_ : List α
  assetAdjuster_ : List (List α)

/-- The tolerance `DateType OneDay = 1.0/365.25` (line 321). -/
def OneDay : α := 1 / 365.25

/-- The input check `for k=1..size-1: QL_REQUIRE(v[k-1] < v[k])` (lines 306, 308). -/
def ascendingCheck : List α → Bool
  | a :: b :: rest => decide (a < b) && ascendingCheck (b :: rest)
  | _ => true

/-- The scan `while ((i < v.size()) && (v[i] <= 0)) ++i` (lines 314, 316);
the result is the part of `v` from the final index on. -/
def skipNonPositive : List α → List α
  | [] => []
  | t :: ts => if t ≤ 0 then skipNonPositive ts else t :: ts

/-- The merge loop of the constructor (lines 322-339).  The two arguments are
the unread parts `simTimes[sim_idx..]` and `obsTimes_[obs_idx..]`; the result
lists the values pushed to `simTimes_`, in the order of the pushes. -/
def mergeTimes : List α → List α → List α
  | [], [] => []
  | s :: ss, [] => s :: mergeTimes ss []
  | [], o :: os => o :: mergeTimes [] os
  | s :: ss, o :: os =>
    if |s - o| < OneDay then o :: mergeTimes ss os
    else if s < o then s :: mergeTimes ss (o :: os)
    else o :: mergeTimes (s :: ss) os
termination_by s o => s.length + o.length

/-- The observation grid `obsTimes_` of the constructor (lines 310-311):
zero, then the positive observation times. -/
def buildObsTimes (obsTimes : List α) : List α :=
  0 :: obsTimes.filter (fun t => decide (0 < t))

/-- The simulation grid `simTimes_` of the constructor (lines 313-339). -/
def buildSimTimes (simTimes obsTimes : List α) : List α :=
  0 :: mergeTimes (skipNonPositive simTimes) (skipNonPositive (buildObsTimes obsTimes))

/-- The allocation `reallocateMemory` (lines 108-132). -/
def MCSimulationT.reallocateMemory (sim : MCSimulationT α) (nPaths : Nat) : MCSimulationT α :=
  { sim with
    dW_ := if sim.storeBrownians_ then List.replicate nPaths [] else [[]]
    X_ := List.replicate nPaths
            (List.replicate sim.obsTimes_.length (List.replicate sim.process_.size 0)) }

/-- The body of the constructor after its input checks (lines 309-346): the
two grids, the allocation, and the three adjusters switched off. -/
def MCSimulationT.build (process : ProcessType α) (simTimes obsTimes : List α)
    (nPaths : Nat) (seed : Nat) (richardsonExtrapolation timeInterpolation storeBrownians : Bool) :
    MCSimulationT α :=
  let sim : MCSimulationT α :=
    { process_ := process
      simTimes_ := buildSimTimes simTimes obsTimes
      obsTimes_ := buildObsTimes obsTimes
      seed_ := seed
      richardsonExtrapolation_ := richardsonExtrapolation
      timeInterpolation_ := timeInterpolation
      storeBrownians_ := storeBrownians
      rsg_ := none
      dW_ := []
      X_ := []
      addObsTimes_ := []
      Y_ := []
      applyNumeraireAdjuster_ := false
      numeraireObservTimes_ := []
      numeraireAdjuster_ := []
      applyZcbAdjuster_ := false
      zcbObservTimes_ := []
      zcbOffsetTimes_ := []
      zcbAdjuster_ := []
      applyAssetAdjuster_ := false
      assetIndex_ := []
      assetObservTimes_ := []
      assetAdjuster_ := [] }
  sim.reallocateMemory nPaths

/-- The constructor `MCSimulationT::MCSimulationT` (lines 294-348): the four
input checks of lines 305-308, then the body. -/
def MCSimulationT.construct (process : ProcessType α) (simTimes obsTimes : List α)
    (nPaths : Nat) (seed : Nat) (richardsonExtrapolation timeInterpolation storeBrownians : Bool) :
    Except String (MCSimulationT α) :=
  if simTimes.length = 0 then
    .error "TemplateMCSimulation: non-empty simulation times required"
  else if !ascendingCheck simTimes then
    .error "TemplateMCSimulation: simulation times in ascending order required"
  else if obsTimes.length = 0 then
    .error "TemplateMCSimulation: non-empty observation times required"
  else if !ascendingCheck obsTimes then
    .error "TemplateMCSimulation: observation times in ascending order required"
  else
    .ok (MCSimulationT.build process simTimes obsTimes nPaths seed
      richardsonExtrapolation timeInterpolation storeBrownians)

/-- The inspector `nPaths()` (line 442). -/
def MCSimulationT.nPaths (sim : MCSimulationT α) : Nat := sim.X_.length

/-- The linear state interpolation of `state` for all paths (lines 470-475):
the matrix `y` with `y[p][k] = (1-rho)*X_[p][t_idx-1][k] + rho*X_[p][t_idx][k]`. -/
def MCSimulationT.interpolatedStates (sim : MCSimulationT α) (t_idx : Nat) (t : α) :
    List (List α) :=
  let rho := (t - numAt sim.obsTimes_ (t_idx - 1)) /
    (numAt sim.obsTimes_ t_idx - numAt sim.obsTimes_ (t_idx - 1))
  (List.range sim.nPaths).map fun p =>
    (List.range sim.process_.size).map fun k =>
      (1 - rho) * numAt (rowAt (rowAt sim.X_ p) (t_idx - 1)) k
        + rho * numAt (rowAt (rowAt sim.X_ p) t_idx) k

/-- The index vector of lines 480-482: `sorted[k] = k`, then
`std::sort(sorted.begin(), sorted.end(), LessByVector(v))`.  The sort is an
insertion sort here; on pairwise distinct keys every sort gives this result. -/
def sortedIndices (v : List α) : List Nat :=
  (List.range v.length).insertionSort (fun a b => numAt v a ≤ numAt v b)

/-- The tail of `state` (lines 470-486): the interpolated states `y` of all
paths are appended to the cache (`addObsTimes_.push_back(t)`,
`Y_.push_back(y)`), then both cache vectors are re-ordered by the sorted index
vector: `addObsTimes_[k] = tmpTimes[sorted[k]]`, `Y_[k] = tmpY[sorted[k]]`. -/
def MCSimulationT.addInterpolatedState (sim : MCSimulationT α) (t_idx : Nat) (t : α) :
    MCSimulationT α :=
  let y := sim.interpolatedStates t_idx t
  let tmpTimes := sim.addObsTimes_ ++ [t]
  let tmpY := sim.Y_ ++ [y]
  let sorted := sortedIndices tmpTimes
  { sim with
    addObsTimes_ := (List.range tmpTimes.length).map fun k => numAt tmpTimes (sorted.getD k 0)
    Y_ := (List.range tmpY.length).map fun k => rowAt tmpY (sorted.getD k 0) }

/-- The query `state(idx, t)` (lines 456-489).  The result is the returned
state vector, or the error raised, together with the simulation object after
the call (the call may extend the cache `addObsTimes_`, `Y_`). -/
def MCSimulationT.state (sim : MCSimulationT α) (idx : Nat) (t : α) :
    Except String (List α) × MCSimulationT α :=
  if ¬ idx < sim.X_.length then
    (.error "TemplateMCSimulation: path out of bounds.", sim)
  else
    let t_idx := TemplateAuxilliaries.idx sim.obsTimes_ t
    if t = numAt sim.obsTimes_ t_idx then (.ok (rowAt (rowAt sim.X_ idx) t_idx), sim)
    else if ¬ sim.timeInterpolation_ then
      (.error "TemplateMCSimulation: time interpolation not allowed", sim)
    else if t < numAt sim.obsTimes_ 0 then (.ok (rowAt (rowAt sim.X_ idx) 0), sim)
    else if t > numAt sim.obsTimes_ (sim.obsTimes_.length - 1) then
      (.ok (rowAt (rowAt sim.X_ idx) ((rowAt sim.X_ idx).length - 1)), sim)
    else if sim.addObsTimes_.length > 0 ∧
        t = numAt sim.addObsTimes_ (TemplateAuxilliaries.idx sim.addObsTimes_ t) then
      (.ok (rowAt (rowAt sim.Y_ (TemplateAuxilliaries.idx sim.addObsTimes_ t)) idx), sim)
    else
      (.ok (rowAt (sim.interpolatedStates t_idx t) idx), sim.addInterpolatedState t_idx t)

/-- The read `numeraireAdjuster(t)` (lines 524-536); `exp` is the exponential
function of the numeric type. -/
def MCSimulationT.numeraireAdjuster (exp : α → α) (sim : MCSimulationT α) (t : α) : α :=
  if !sim.applyNumeraireAdjuster_ then 1
  else
    let obsIdx := TemplateAuxilliaries.idx sim.numeraireObservTimes_ t
    let obsIdx := if obsIdx < 1 then 1 else obsIdx
    let rhoObs := (t - numAt sim.numeraireObservTimes_ (obsIdx - 1)) /
      (numAt sim.numeraireObservTimes_ obsIdx - numAt sim.numeraireObservTimes_ (obsIdx - 1))
    let rhoObs := if rhoObs < 0 then 0 else rhoObs
    let rhoObs := if rhoObs > 1 then 1 else rhoObs
    let z := numAt sim.numeraireAdjuster_ (obsIdx - 1) * (1 - rhoObs)
      + numAt sim.numeraireAdjuster_ obsIdx * rhoObs
    exp (z * t)

/-- The read `zcbAdjuster(t, T)` (lines 577-599). -/
def MCSimulationT.zcbAdjuster (exp : α → α) (sim : MCSimulationT α) (t T : α) : α :=
  if !sim.applyZcbAdjuster_ then 1
  else
    let dt := T - t
    let obsIdx := TemplateAuxilliaries.idx sim.zcbObservTimes_ t
    let offIdx := TemplateAuxilliaries.idx sim.zcbOffsetTimes_ dt
    let obsIdx := if obsIdx < 1 then 1 else obsIdx
    let offIdx := if offIdx < 1 then 1 else offIdx
    let rhoObs := (t - numAt sim.zcbObservTimes_ (obsIdx - 1)) /
      (numAt sim.zcbObservTimes_ obsIdx - numAt sim.zcbObservTimes_ (obsIdx - 1))
    let rhoOff := (dt - numAt sim.zcbOffsetTimes_ (offIdx - 1)) /
      (numAt sim.zcbOffsetTimes_ offIdx - numAt sim.zcbOffsetTimes_ (offIdx - 1))
    let rhoObs := if rhoObs < 0 then 0 else rhoObs
    let rhoObs := if rhoObs > 1 then 1 else rhoObs
    let rhoOff := if rhoOff < 0 then 0 else rhoOff
    let rhoOff := if rhoOff > 1 then 1 else rhoOff
    let z := numAt (rowAt sim.zcbAdjuster_ (obsIdx - 1)) (offIdx - 1) * (1 - rhoObs) * (1 - rhoOff)
      + numAt (rowAt sim.zcbAdjuster_ obsIdx) (offIdx - 1) * rhoObs * (1 - rhoOff)
      + numAt (rowAt sim.zcbAdjuster_ (obsIdx - 1)) offIdx * (1 - rhoObs) * rhoOff
      + numAt (rowAt sim.zcbAdjuster_ obsIdx) offIdx * rhoObs * rhoOff
    exp (-z * (T - t))

/-- The read `zcbAdjuster(t, T, alias)` (lines 601-603). -/
def MCSimulationT.zcbAdjusterAlias (_sim : MCSimulationT α) (_t _T : α) (_alias : String) : α := 1

/-- The lookup `assetIndex_.at(alias)` of the `std::map`, which throws on an
unknown key. -/
def mapAt (m : List (String × Nat)) (key : String) : Except String Nat :=
  match m.find? (fun p => p.1 == key) with
  | some p => .ok p.2
  | none => .error "map::at"

/-- The read `assetAdjuster(t, alias)` (lines 642-653). -/
def MCSimulationT.assetAdjuster (sim : MCSimulationT α) (t : α) (alias_ : String) :
    Except String α :=
  if !sim.applyAssetAdjuster_ then .ok 0
  else
    let obsIdx := TemplateAuxilliaries.idx sim.assetObservTimes_ t
    let obsIdx := if obsIdx < 1 then 1 else obsIdx
    let rhoObs := (t - numAt sim.assetObservTimes_ (obsIdx - 1)) /
      (numAt sim.assetObservTimes_ obsIdx - numAt sim.assetObservTimes_ (obsIdx - 1))
    let rhoObs := if rhoObs < 0 then 0 else rhoObs
    let rhoObs := if rhoObs > 1 then 1 else rhoObs
    match mapAt sim.assetIndex_ alias_ with
    | .error e => .error e
    | .ok row =>
      .ok ((1 - rhoObs) * numAt (rowAt sim.assetAdjuster_ row) (obsIdx - 1)
        + rhoObs * numAt (rowAt sim.assetAdjuster_ row) obsIdx)

/-- A counted loop `for (i = 0; i < n; ++i) body(i)` over the listed indices on
a loop state; a body that throws ends the loop with the state reached. -/
def forLoop {σ : Type} (body : Nat → σ → Except String Unit × σ) :
    List Nat → σ → Except String Unit × σ
  | [], s => (.ok (), s)
  | i :: rest, s =>
    match body i s with
    | (.ok _, s1) => forLoop body rest s1
    | (.error e, s1) => (.error e, s1)

/-- The body of the double loop of `calculateNumeraireAdjuster` (lines 508-509)
for path `k` and calibration time index `i`. -/
def MCSimulationT.numeraireAdjusterStep (k i : Nat) (sim : MCSimulationT α) :
    Except String Unit × MCSimulationT α :=
  match sim.state k (numAt sim.numeraireObservTimes_ i) with
  | (.error e, sim1) => (.error e, sim1)
  | (.ok s, sim1) =>
    (.ok (), { sim1 with
      numeraireAdjuster_ := sim1.numeraireAdjuster_.set i
        (numAt sim1.numeraireAdjuster_ i
          + 1 / sim1.process_.numeraire (numAt sim1.numeraireObservTimes_ i) s) })

/-- The calibration `calculateNumeraireAdjuster` (lines 498-520); `log` is the
logarithm of the numeric type.  The result is the outcome together with the
simulation object after the call. -/
def MCSimulationT.calculateNumeraireAdjuster (log : α → α) (sim : MCSimulationT α)
    (numeraireObservTimes : List α) : Except String Unit × MCSimulationT α :=
  let sim1 := { sim with numeraireObservTimes_ := numeraireObservTimes }
  if ¬ sim1.numeraireObservTimes_.length > 1 then
    (.error "TemplateMCSimulation: at least two numeraireObservTimes_ required", sim1)
  else if ¬ numAt sim1.numeraireObservTimes_ 0 > 0 then
    (.error "TemplateMCSimulation: numeraireObservTimes_[0]>0 required", sim1)
  else if !ascendingCheck sim1.numeraireObservTimes_ then
    (.error "TemplateMCSimulation: numeraireObservTimes_ in ascending order required", sim1)
  else
    let sim2 := { sim1 with
      numeraireAdjuster_ := List.replicate sim1.numeraireObservTimes_.length 0 }
    match forLoop (fun k => forLoop (MCSimulationT.numeraireAdjusterStep k)
        (List.range sim2.numeraireObservTimes_.length)) (List.range sim2.nPaths) sim2 with
    | (.error e, sim3) => (.error e, sim3)
    | (.ok _, sim3) =>
      (.ok (), { sim3 with
        numeraireAdjuster_ := (List.range sim3.numeraireObservTimes_.length).map fun i =>
          log (numAt sim3.numeraireAdjuster_ i / (sim3.nPaths : α)
            / sim3.process_.zeroBond 0 (numAt sim3.numeraireObservTimes_ i)
                sim3.process_.initialValues)
            / numAt sim3.numeraireObservTimes_ i
        applyNumeraireAdjuster_ := true })

/-- The body of the double loop of `calculateZCBAdjuster` (lines 556-560) for
path `k` and observation index `i`; the loop state is the local matrix `zcb`
with the simulation object. -/
def MCSimulationT.zcbAdjusterStep (exp : α → α) (k i : Nat)
    (st : List (List α) × MCSimulationT α) :
    Except String Unit × (List (List α) × MCSimulationT α) :=
  match st.2.state k (numAt st.2.zcbObservTimes_ i) with
  | (.error e, sim1) => (.error e, (st.1, sim1))
  | (.ok s, sim1) =>
    let num := sim1.numeraireAdjuster exp (numAt sim1.zcbObservTimes_ i)
      * sim1.process_.numeraire (numAt sim1.zcbObservTimes_ i) s
    (.ok (), (st.1.set i ((List.range sim1.zcbOffsetTimes_.length).map fun j =>
      numAt (rowAt st.1 i) j
        + sim1.process_.zeroBond (numAt sim1.zcbObservTimes_ i)
            (numAt sim1.zcbObservTimes_ i + numAt sim1.zcbOffsetTimes_ j) s / num), sim1))

/-- The calibration `calculateZCBAdjuster` (lines 540-573). -/
def MCSimulationT.calculateZCBAdjuster (exp log : α → α) (sim : MCSimulationT α)
    (zcbObservTimes zcbOffsetTimes : List α) : Except String Unit × MCSimulationT α :=
  let sim1 := { sim with zcbObservTimes_ := zcbObservTimes, zcbOffsetTimes_ := zcbOffsetTimes }
  if ¬ sim1.zcbObservTimes_.length > 1 then
    (.error "TemplateMCSimulation: at least two zcbObservTimes_ required", sim1)
  else if ¬ numAt sim1.zcbObservTimes_ 0 > 0 then
    (.error "TemplateMCSimulation: zcbObservTimes_[0]>0 required", sim1)
  else if !ascendingCheck sim1.zcbObservTimes_ then
    (.error "TemplateMCSimulation: zcbObservTimes_ in ascending order required", sim1)
  else if ¬ sim1.zcbOffsetTimes_.length > 1 then
    (.error "TemplateMCSimulation: at least two zcbOffsetTimes_ required", sim1)
  else if ¬ numAt sim1.zcbOffsetTimes_ 0 > 0 then
    (.error "TemplateMCSimulation: zcbOffsetTimes_[0]>0 required", sim1)
  else if !ascendingCheck sim1.zcbOffsetTimes_ then
    (.error "TemplateMCSimulation: zcbOffsetTimes_ in ascending order required", sim1)
  else
    let zeros := List.replicate sim1.zcbObservTimes_.length
      (List.replicate sim1.zcbOffsetTimes_.length (0 : α))
    let sim2 := { sim1 with zcbAdjuster_ := zeros }
    match forLoop (fun k => forLoop (MCSimulationT.zcbAdjusterStep exp k)
        (List.range sim2.zcbObservTimes_.length)) (List.range sim2.nPaths) (zeros, sim2) with
    | (.error e, st) => (.error e, st.2)
    | (.ok _, st) =>
      (.ok (), { st.2 with
        zcbAdjuster_ := (List.range st.2.zcbObservTimes_.length).map fun i =>
          (List.range st.2.zcbOffsetTimes_.length).map fun j =>
            - log (st.2.process_.zeroBond 0
                (numAt st.2.zcbObservTimes_ i + numAt st.2.zcbOffsetTimes_ j)
                st.2.process_.initialValues
              / (numAt (rowAt st.1 i) j / (st.2.nPaths : α)))
              / numAt st.2.zcbOffsetTimes_ j
        applyZcbAdjuster_ := true })

/-- The assignment `assetIndex_[key] = v` of the `std::map`: the value of an
existing key is replaced, a new key is added. -/
def mapAssign (m : List (String × Nat)) (key : String) (v : Nat) : List (String × Nat) :=
  if m.any (fun p => p.1 == key) then m.map (fun p => if p.1 == key then (p.1, v) else p)
  else m ++ [(key, v)]

/-- The body of the innermost loop of `calculateAssetAdjuster` (lines 624-626)
for alias index `k`, time index `i` and path `j`; the loop state is the pair of
local vectors `avAsset`, `avZero` with the simulation object. -/
def MCSimulationT.assetAdjusterStep (exp : α → α) (aliases : List String) (k i j : Nat)
    (st : List α × List α × MCSimulationT α) :
    Except String Unit × (List α × List α × MCSimulationT α) :=
  match st.2.2.state j (numAt st.2.2.assetObservTimes_ i) with
  | (.error e, sim1) => (.error e, (st.1, st.2.1, sim1))
  | (.ok s, sim1) =>
    let num := sim1.numeraireAdjuster exp (numAt sim1.assetObservTimes_ i)
      * sim1.process_.numeraire (numAt sim1.assetObservTimes_ i) s
    (.ok (), (st.1.set i (numAt st.1 i
        + sim1.process_.asset (numAt sim1.assetObservTimes_ i) s (aliases.getD k "") / num),
      st.2.1.set i (numAt st.2.1 i + 1 / num), sim1))

/-- The body of the loop over the time index `i` of `calculateAssetAdjuster`
(lines 622-634) for alias index `k`. -/
def MCSimulationT.assetAdjusterTime (exp : α → α) (aliases : List String) (k i : Nat)
    (st : List α × List α × MCSimulationT α) :
    Except String Unit × (List α × List α × MCSimulationT α) :=
  match forLoop (MCSimulationT.assetAdjusterStep exp aliases k i)
      (List.range st.2.2.nPaths) st with
  | (.error e, st1) => (.error e, st1)
  | (.ok _, st1) =>
    let avAsset := st1.1.set i (numAt st1.1 i / (st1.2.2.nPaths : α))
    let avZero := st1.2.1.set i (numAt st1.2.1 i / (st1.2.2.nPaths : α))
    let target := st1.2.2.process_.zeroBond 0 (numAt st1.2.2.assetObservTimes_ i)
        st1.2.2.process_.initialValues
      * st1.2.2.process_.forwardAsset 0 (numAt st1.2.2.assetObservTimes_ i)
          st1.2.2.process_.initialValues (aliases.getD k "")
    (.ok (), (avAsset, avZero, { st1.2.2 with
      assetAdjuster_ := st1.2.2.assetAdjuster_.set k
        ((rowAt st1.2.2.assetAdjuster_ k).set i
          ((target - numAt avAsset i) / numAt avZero i)) }))

/-- The body of the loop over the alias index `k` of `calculateAssetAdjuster`
(lines 619-636). -/
def MCSimulationT.assetAdjusterRow (exp : α → α) (aliases : List String) (k : Nat)
    (sim : MCSimulationT α) : Except String Unit × MCSimulationT α :=
  let avAsset := List.replicate sim.assetObservTimes_.length (0 : α)
  let avZero := List.replicate sim.assetObservTimes_.length (0 : α)
  match forLoop (MCSimulationT.assetAdjusterTime exp aliases k)
      (List.range sim.assetObservTimes_.length) (avAsset, avZero, sim) with
  | (.error e, st) => (.error e, st.2.2)
  | (.ok _, st) => (.ok (), st.2.2)

/-- The calibration `calculateAssetAdjuster` (lines 607-638). -/
def MCSimulationT.calculateAssetAdjuster (exp : α → α) (sim : MCSimulationT α)
    (assetObservTimes : List α) (aliases : List String) :
    Except String Unit × MCSimulationT α :=
  let sim1 := { sim with assetObservTimes_ := assetObservTimes }
  if ¬ sim1.assetObservTimes_.length > 1 then
    (.error "TemplateMCSimulation: at least two assetObservTimes_ required", sim1)
  else if ¬ numAt sim1.assetObservTimes_ 0 ≥ 0 then
    (.error "TemplateMCSimulation: assetObservTimes_>=0 required", sim1)
  else if !ascendingCheck sim1.assetObservTimes_ then
    (.error "TemplateMCSimulation: assetObservTimes_ in ascending order required", sim1)
  else if ¬ aliases.length > 0 then
    (.error "TemplateMCSimulation: aliases required", sim1)
  else
    let sim2 := { sim1 with
      assetIndex_ := (List.range aliases.length).foldl
        (fun m k => mapAssign m (aliases.getD k "") k) sim1.assetIndex_ }
    if ¬ sim2.assetIndex_.length = aliases.length then
      (.error "TemplateMCSimulation: duplicate aliases found", sim2)
    else
      let sim3 := { sim2 with
        assetAdjuster_ := List.replicate aliases.length
          (List.replicate sim2.assetObservTimes_.length 0) }
      match forLoop (MCSimulationT.assetAdjusterRow exp aliases)
          (List.range sim3.assetAdjuster_.length) sim3 with
      | (.error e, sim4) => (.error e, sim4)
      | (.ok _, sim4) => (.ok (), { sim4 with applyAssetAdjuster_ := true })

/-- The cache invariant of `state`: the cached times are strictly ascending
and there is one cached matrix per cached time.  The constructor establishes
it with an empty cache and every `state` call keeps it. -/
def MCSimulationT.cacheSorted (sim : MCSimulationT α) : Prop :=
  sim.addObsTimes_.Sorted (· < ·) ∧ sim.Y_.length = sim.addObsTimes_.length

/-- The vector `state(idx, t)` returns, the empty vector where it throws. -/
def MCSimulationT.stateValue (sim : MCSimulationT α) (idx : Nat) (t : α) : List α :=
  match (sim.state idx t).1 with
  | .ok s => s
  | .error _ => []

/-- The vector `state(idx, t)` returns in its last two branches (lines
465-488): the cached state if `t` is a cached time, else the interpolated one. -/
def MCSimulationT.cachedOrInterpolated (sim : MCSimulationT α) (idx : Nat) (t : α) : List α :=
  if sim.addObsTimes_.length > 0 ∧
      t = numAt sim.addObsTimes_ (TemplateAuxilliaries.idx sim.addObsTimes_ t) then
    rowAt (rowAt sim.Y_ (TemplateAuxilliaries.idx sim.addObsTimes_ t)) idx
  else rowAt (sim.interpolatedStates (TemplateAuxilliaries.idx sim.obsTimes_ t) t) idx

/-- The simulation object `s` is `base` up to the interpolation cache: it has
the cache invariant, every `state` call returns the same on both, and all
other data members are equal. -/
def MCSimulationT.cacheVariant (base s : MCSimulationT α) : Prop :=
  s.cacheSorted ∧ (∀ k t, (s.state k t).1 = (base.state k t).1) ∧
    ∃ T Y, s = { base with addObsTimes_ := T, Y_ := Y }

/-- The bracketing index of the adjuster reads (lines 527-528, 582-585,
645-646): `idx(v, t)`, raised to 1 when it is 0. -/
def interpIndex (v : List α) (t : α) : Nat :=
  if TemplateAuxilliaries.idx v t < 1 then 1 else TemplateAuxilliaries.idx v t

/-- The interpolation weight of the adjuster reads (lines 529-532, 586-592,
647-650): the position of `t` between the bracketing times, clamped to [0, 1]. -/
def interpWeight (v : List α) (t : α) : α :=
  if (if (t - numAt v (interpIndex v t - 1)) /
        (numAt v (interpIndex v t) - numAt v (interpIndex v t - 1)) < 0 then 0
      else (t - numAt v (interpIndex v t - 1)) /
        (numAt v (interpIndex v t) - numAt v (interpIndex v t - 1))) > 1 then 1
  else if (t - numAt v (interpIndex v t - 1)) /
        (numAt v (interpIndex v t) - numAt v (interpIndex v t - 1)) < 0 then 0
      else (t - numAt v (interpIndex v t - 1)) /
        (numAt v (interpIndex v t) - numAt v (interpIndex v t - 1))

/-- The term path `j` adds to `avZero[i]` at the calibration time `t` (line
626): one over the adjusted numeraire at the state of path `j`. -/
def MCSimulationT.zeroTerm (exp : α → α) (sim : MCSimulationT α) (t : α) (j : Nat) : α :=
  1 / (sim.numeraireAdjuster exp t * sim.process_.numeraire t (sim.stateValue j t))

/-- The term path `j` adds to `avAsset[i]` at the calibration time `t` (line
625): the asset over the adjusted numeraire at the state of path `j`. -/
def MCSimulationT.assetTerm (exp : α → α) (sim : MCSimulationT α) (aliasName : String) (t : α)
    (j : Nat) : α :=
  sim.process_.asset t (sim.stateValue j t) aliasName
    / (sim.numeraireAdjuster exp t * sim.process_.numeraire t (sim.stateValue j t))

/-- The value lines 628-633 store in `assetAdjuster_[k][i]` for the alias
`aliasName` and the calibration time `t`. -/
def MCSimulationT.assetCorrection (exp : α → α) (sim : MCSimulationT α) (aliasName : String)
    (t : α) : α :=
  (sim.process_.zeroBond 0 t sim.process_.initialValues
      * sim.process_.forwardAsset 0 t sim.process_.initialValues aliasName
    - (∑ j ∈ Finset.range sim.nPaths, sim.assetTerm exp aliasName t j) / (sim.nPaths : α))
  / ((∑ j ∈ Finset.range sim.nPaths, sim.zeroTerm exp t j) / (sim.nPaths : α))

/-- The cache of `state` is coherent with the stored paths: the matrix cached
for the time `addObsTimes_[k]` is the interpolation of the stored states at
that time (lines 470-477 store it so, and `simulate()` empties the cache
before the stored states change). -/
def MCSimulationT.cacheCoherent (sim : MCSimulationT α) : Prop :=
  ∀ k, k < sim.addObsTimes_.length →
    rowAt sim.Y_ k =
      sim.interpolatedStates (TemplateAuxilliaries.idx sim.obsTimes_ (numAt sim.addObsTimes_ k))
        (numAt sim.addObsTimes_ k)

/-- The call `initialiseRSG()` (lines 134-137): a new generator of dimension
`ndWt * factors` with the seed `seed_`. -/
def MCSimulationT.initialiseRSG (sim : MCSimulationT α) : MCSimulationT α :=
  let ndWt := (if sim.richardsonExtrapolation_ then 2 else 1) * (sim.simTimes_.length - 1)
  { sim with rsg_ := some { dimension := ndWt * sim.process_.factors, seed := sim.seed_,
                            calls := 0 } }

/-- The call `getNextBrownianIncrements()` (lines 140-153).  The library
generator is the parameter `rsg`: `rsg dimension seed n` is the sequence the
`n`-th call of `nextSequence()` returns on a generator made with that dimension
and seed.  A call before any `initialiseRSG()` has no generator to draw from. -/
def MCSimulationT.getNextBrownianIncrements (rsg : Nat → Nat → Nat → List α)
    (sim : MCSimulationT α) : Except String (List (List α)) × MCSimulationT α :=
  match sim.rsg_ with
  | none => (.error "rsg_ is not initialised", sim)
  | some g =>
    let sequence := rsg g.dimension g.seed g.calls
    let sim1 := { sim with rsg_ := some { g with calls := g.calls + 1 } }
    let ndWt := (if sim.richardsonExtrapolation_ then 2 else 1) * (sim.simTimes_.length - 1)
    let nFac := sim.process_.factors
    if sequence.length ≠ ndWt * nFac then
      (.error "TemplateMCSimulation: dimension mismatch", sim1)
    else
      (.ok ((List.range ndWt).map fun i => (List.range nFac).map fun j =>
          numAt sequence (i * nFac + j)), sim1)

/-- The call `getBrownianIncrementsByPath(path)` (lines 156-165). -/
def MCSimulationT.getBrownianIncrementsByPath (rsg : Nat → Nat → Nat → List α)
    (sim : MCSimulationT α) (path : Nat) : Except String (List (List α)) × MCSimulationT α :=
  if sim.storeBrownians_ then
    if ¬ path < sim.dW_.length then
      (.error "TemplateMCSimulation: path index out of bounds.", sim)
    else (.ok (rowAt sim.dW_ path), sim)
  else
    match sim.getNextBrownianIncrements rsg with
    | (.error e, sim1) => (.error e, sim1)
    | (.ok dW, sim1) => (.ok dW, { sim1 with dW_ := sim1.dW_.set 0 dW })

/-- The local variables of `simulatePath` (lines 173-177) together with the
row `X_[path]` the loop writes to. -/
structure PathLoopState (α : Type) where
  X0 : List α
  X1 : List α
  X12 : List α
  dW : List α
  obs_idx : Nat
  Xpath : List (List α)

/-- One pass of the loop of `simulatePath` (lines 179-201) for the simulation
index `sim_idx`; `dWt` holds the increments of the path and `sqrt` is the
square root of the numeric type. -/
def MCSimulationT.simulateStep (sqrt : α → α) (sim : MCSimulationT α) (dWt : List (List α))
    (sim_idx : Nat) (c : PathLoopState α) : PathLoopState α :=
  let dt := numAt sim.simTimes_ sim_idx - numAt sim.simTimes_ (sim_idx - 1)
  let c1 : PathLoopState α :=
    if sim.richardsonExtrapolation_ then
      let dW := (List.range c.dW.length).map fun k =>
        (numAt (rowAt dWt (2 * (sim_idx - 1))) k + numAt (rowAt dWt (2 * (sim_idx - 1) + 1)) k)
          / sqrt 2
      let X1 := sim.process_.evolve (numAt sim.simTimes_ (sim_idx - 1)) c.X0 dt dW c.X1
      let X12 := sim.process_.evolve (numAt sim.simTimes_ (sim_idx - 1)) c.X0 (dt / 2)
        (rowAt dWt (2 * (sim_idx - 1))) c.X12
      let X0 := sim.process_.evolve (numAt sim.simTimes_ (sim_idx - 1) + dt / 2) X12 (dt / 2)
        (rowAt dWt (2 * (sim_idx - 1) + 1)) c.X0
      let X1 := (List.range X1.length).map fun k => 2 * numAt X0 k - numAt X1 k
      let X1 := (sim.process_.truncate (numAt sim.simTimes_ sim_idx) X1).2
      { c with X0 := X0, X1 := X1, X12 := X12, dW := dW }
    else
      { c with X1 := sim.process_.evolve (numAt sim.simTimes_ (sim_idx - 1)) c.X0 dt
                  (rowAt dWt (sim_idx - 1)) c.X1 }
  let c2 : PathLoopState α :=
    if c1.obs_idx < sim.obsTimes_.length ∧
        numAt sim.simTimes_ sim_idx = numAt sim.obsTimes_ c1.obs_idx then
      { c1 with Xpath := c1.Xpath.set c1.obs_idx c1.X1, obs_idx := c1.obs_idx + 1 }
    else c1
  { c2 with X0 := c2.X1 }

/-- The routine `simulatePath(path)` (lines 169-203); the row `X_[path]` is
carried through the loop and stored back after it. -/
def MCSimulationT.simulatePath (rsg : Nat → Nat → Nat → List α) (sqrt : α → α)
    (sim : MCSimulationT α) (path : Nat) : Except String Unit × MCSimulationT α :=
  if ¬ path < sim.X_.length then
    (.error "TemplateMCSimulation: path index out of bounds.", sim)
  else
    match sim.getBrownianIncrementsByPath rsg path with
    | (.error e, sim1) => (.error e, sim1)
    | (.ok dWt, sim1) =>
      let X0 := sim1.process_.initialValues
      let c0 : PathLoopState α :=
        { X0 := X0
          X1 := List.replicate X0.length 0
          X12 := List.replicate X0.length 0
          dW := List.replicate sim1.process_.factors 0
          obs_idx := 1
          Xpath := (rowAt sim1.X_ path).set 0 X0 }
      let c := ((List.range (sim1.simTimes_.length - 1)).map (· + 1)).foldl
        (fun c sim_idx => sim1.simulateStep sqrt dWt sim_idx c) c0
      (.ok (), { sim1 with X_ := sim1.X_.set path c.Xpath })

/-- The body `dW_[k] = getNextBrownianIncrements()` of the first loop of
`simulate()` (line 355). -/
def MCSimulationT.storeIncrements (rsg : Nat → Nat → Nat → List α) (k : Nat)
    (sim : MCSimulationT α) : Except String Unit × MCSimulationT α :=
  match sim.getNextBrownianIncrements rsg with
  | (.error e, sim1) => (.error e, sim1)
  | (.ok dW, sim1) => (.ok (), { sim1 with dW_ := sim1.dW_.set k dW })

/-- The routine `simulate()` (lines 350-357). -/
def MCSimulationT.simulate (rsg : Nat → Nat → Nat → List α) (sqrt : α → α)
    (sim : MCSimulationT α) : Except String Unit × MCSimulationT α :=
  let sim1 := { sim with addObsTimes_ := [], Y_ := [] }
  let sim2 := sim1.initialiseRSG
  match (if sim2.storeBrownians_ then
      forLoop (fun k s => MCSimulationT.storeIncrements rsg k s) (List.range sim2.dW_.length) sim2
    else (.ok (), sim2)) with
  | (.error e, sim3) => (.error e, sim3)
  | (.ok _, sim3) =>
    forLoop (fun k s => s.simulatePath rsg sqrt k) (List.range sim3.X_.length) sim3

/-- A list of writes `row[i] = x` applied in order to a row of stored states. -/
def applyWrites {β : Type} (W : List (Nat × β)) (r : List β) : List β :=
  W.foldl (fun acc w => acc.set w.1 w.2) r

/-- The Brownian increments `getNextBrownianIncrements()` builds from the
`n`-th sequence of the generator `initialiseRSG()` makes. -/
def MCSimulationT.increments (rsg : Nat → Nat → Nat → List α) (sim : MCSimulationT α)
    (n : Nat) : List (List α) :=
  (List.range ((if sim.richardsonExtrapolation_ then 2 else 1) * (sim.simTimes_.length - 1))).map
    fun i => (List.range sim.process_.factors).map fun j =>
      numAt (rsg ((if sim.richardsonExtrapolation_ then 2 else 1) * (sim.simTimes_.length - 1)
          * sim.process_.factors) sim.seed_ n) (i * sim.process_.factors + j)

/-- The simulation object after the first loop of `simulate()` (lines 351-355)
when the increments are stored: the cache is empty, the generator has been made
anew and has drawn one sequence per entry of `dW_`, and `dW_[k]` holds the
increments built from the `k`-th sequence. -/
def MCSimulationT.withIncrements (rsg : Nat → Nat → Nat → List α) (sim : MCSimulationT α) :
    MCSimulationT α :=
  { sim with
    addObsTimes_ := []
    Y_ := []
    rsg_ := some ⟨(if sim.richardsonExtrapolation_ then 2 else 1)
      * (sim.simTimes_.length - 1) * sim.process_.factors, sim.seed_, sim.dW_.length⟩
    dW_ := (List.range sim.dW_.length).map (sim.increments rsg) }

/-- The read `Path::numeraire(obsTime)` (lines 226-229) of the path `idx_` of
the simulation `sim`; the result comes with the simulation object after the
call, whose cache the `state` call may have extended. -/
def Path.numeraire (exp : α → α) (sim : MCSimulationT α) (idx_ : Nat) (obsTime : α) :
    Except String α × MCSimulationT α :=
  match sim.state idx_ obsTime with
  | (.error e, sim1) => (.error e, sim1)
  | (.ok X, sim1) =>
    (.ok (sim1.numeraireAdjuster exp obsTime * sim1.process_.numeraire obsTime X), sim1)

/-- The read `Path::zeroBond(obsTime, payTime)` (lines 231-234). -/
def Path.zeroBond (exp : α → α) (sim : MCSimulationT α) (idx_ : Nat) (obsTime payTime : α) :
    Except String α × MCSimulationT α :=
  match sim.state idx_ obsTime with
  | (.error e, sim1) => (.error e, sim1)
  | (.ok X, sim1) =>
    (.ok (sim1.zcbAdjuster exp obsTime payTime * sim1.process_.zeroBond obsTime payTime X), sim1)

/-- The read `Path::zeroBond(obsTime, payTime, alias)` (lines 236-239). -/
def Path.zeroBondAlias (sim : MCSimulationT α) (idx_ : Nat) (obsTime payTime : α)
    (alias_ : String) : Except String α × MCSimulationT α :=
  match sim.state idx_ obsTime with
  | (.error e, sim1) => (.error e, sim1)
  | (.ok X, sim1) =>
    (.ok (sim1.zcbAdjusterAlias obsTime payTime alias_
      * sim1.process_.zeroBondAlias obsTime payTime X alias_), sim1)

/-- The read `Path::asset(obsTime, alias)` (lines 241-244); the left operand
of the sum is evaluated first. -/
def Path.asset (sim : MCSimulationT α) (idx_ : Nat) (obsTime : α) (alias_ : String) :
    Except String α × MCSimulationT α :=
  match sim.assetAdjuster obsTime alias_ with
  | .error e => (.error e, sim)
  | .ok a =>
    match sim.state idx_ obsTime with
    | (.error e, sim1) => (.error e, sim1)
    | (.ok X, sim1) => (.ok (a + sim1.process_.asset obsTime X alias_), sim1)

/-- The first loop of `Path::assetBarrierNoHit` (lines 256-259) over the
observation times not yet visited: the times it pushes. -/
def barrierGridTimes (tStart tEnd : α) : List α → List α
  | [] => []
  | o :: rest =>
    (if tStart < o ∧ o < tEnd then [o] else []) ++
      (if o ≥ tEnd then [] else barrierGridTimes tStart tEnd rest)

/-- The vector `times` of `Path::assetBarrierNoHit` (lines 254-260). -/
def Path.barrierTimes (sim : MCSimulationT α) (tStart tEnd : α) : List α :=
  tStart :: (barrierGridTimes tStart tEnd sim.obsTimes_ ++ [tEnd])

/-- The second loop of `Path::assetBarrierNoHit` (lines 264-282) from the pass
`k` on: the first argument lists `times[k..]`, `tPrev` is `times[k-1]`, and
`noHitProb`, `S2`, `sigma2` are the loop variables before the pass. -/
def Path.barrierLoop (exp log : α → α) (idx_ : Nat) (downBarrier upBarrier downOrUpOrBoth : α)
    (alias_ : String) :
    List α → Nat → α → α → α → α → MCSimulationT α → Except String α × MCSimulationT α
  | [], _, _, noHitProb, _, _, sim => (.ok noHitProb, sim)
  | t :: rest, k, tPrev, noHitProb, S2, sigma2, sim =>
    let S1 := S2
    let sigma1 := sigma2
    match sim.state idx_ t with
    | (.error e, sim1) => (.error e, sim1)
    | (.ok X2, sim1) =>
      match sim1.assetAdjuster t alias_ with
      | .error e => (.error e, sim1)
      | .ok a =>
        let S2 := a + sim1.process_.asset t X2 alias_
        if downOrUpOrBoth ≤ 0 ∧ S2 ≤ downBarrier then (.ok 0, sim1)
        else if downOrUpOrBoth ≥ 0 ∧ S2 ≥ upBarrier then (.ok 0, sim1)
        else
          let sigma2 := sim1.process_.assetVolatility t X2 alias_
          if k = 0 then
            Path.barrierLoop exp log idx_ downBarrier upBarrier downOrUpOrBoth alias_
              rest (k + 1) t noHitProb S2 sigma2 sim1
          else
            let variance := (sigma1 * sigma1 + sigma2 * sigma2) * (t - tPrev) / 2
            let downHit := exp (-2 * log (downBarrier / S1) * log (downBarrier / S2) / variance)
            let upHit := exp (-2 * log (upBarrier / S1) * log (upBarrier / S2) / variance)
            let hit : α := 0
            let hit := if downOrUpOrBoth ≤ 0 then hit + downHit else hit
            let hit := if downOrUpOrBoth ≥ 0 then hit + upHit else hit
            let hit := if hit > 1 then 1 else hit
            Path.barrierLoop exp log idx_ downBarrier upBarrier downOrUpOrBoth alias_
              rest (k + 1) t (noHitProb * (1 - hit)) S2 sigma2 sim1

/-- The read `Path::assetBarrierNoHit(tStart, tEnd, downBarrier, upBarrier,
downOrUpOrBoth, alias)` (lines 247-285). -/
def Path.assetBarrierNoHit (exp log : α → α) (sim : MCSimulationT α) (idx_ : Nat)
    (tStart tEnd downBarrier upBarrier downOrUpOrBoth : α) (alias_ : String) :
    Except String α × MCSimulationT α :=
  Path.barrierLoop exp log idx_ downBarrier upBarrier downOrUpOrBoth alias_
    (Path.barrierTimes sim tStart tEnd) 0 0 1 0 0 sim

/-- The adjusted asset value `S2` the barrier loop computes at the node `t`
(line 268), for reads that succeed. -/
def Path.assetValue (sim : MCSimulationT α) (idx_ : Nat) (alias_ : String) (t : α) : α :=
  (match sim.assetAdjuster t alias_ with
    | .ok a => a
    | .error _ => 0) + sim.process_.asset t (sim.stateValue idx_ t) alias_

/-- The local volatility `sigma2` the barrier loop computes at the node `t`
(line 272). -/
def Path.volatility (sim : MCSimulationT α) (idx_ : Nat) (alias_ : String) (t : α) : α :=
  sim.process_.assetVolatility t (sim.stateValue idx_ t) alias_

/-- The value `hit` of one pass of the barrier loop (lines 274-280) from the
asset values `S1`, `S2` at the two nodes and the variance between them. -/
def barrierHit (exp log : α → α) (downBarrier upBarrier downOrUpOrBoth S1 S2 variance : α) : α :=
  let downHit := exp (-2 * log (downBarrier / S1) * log (downBarrier / S2) / variance)
  let upHit := exp (-2 * log (upBarrier / S1) * log (upBarrier / S2) / variance)
  let hit : α := 0
  let hit := if downOrUpOrBoth ≤ 0 then hit + downHit else hit
  let hit := if downOrUpOrBoth ≥ 0 then hit + upHit else hit
  if hit > 1 then 1 else hit

/-- The result of the barrier loop (lines 264-283) as a function of the asset
values `S t` and the volatilities `sigma t` at the nodes. -/
def barrierValue (exp log : α → α) (S sigma : α → α) (downBarrier upBarrier downOrUpOrBoth : α) :
    List α → Nat → α → α → α → α → α
  | [], _, _, noHitProb, _, _ => noHitProb
  | t :: rest, k, tPrev, noHitProb, S2, sigma2 =>
    if downOrUpOrBoth ≤ 0 ∧ S t ≤ downBarrier then 0
    else if downOrUpOrBoth ≥ 0 ∧ S t ≥ upBarrier then 0
    else if k = 0 then
      barrierValue exp log S sigma downBarrier upBarrier downOrUpOrBoth rest (k + 1) t
        noHitProb (S t) (sigma t)
    else
      barrierValue exp log S sigma downBarrier upBarrier downOrUpOrBoth rest (k + 1) t
        (noHitProb * (1 - barrierHit exp log downBarrier upBarrier downOrUpOrBoth S2 (S t)
          ((sigma2 * sigma2 + sigma t * sigma t) * (t - tPrev) / 2)))
        (S t) (sigma t)

/-- The path object `MCSimulationT::Path` as the payoffs see it: `addr` is the
identity of the object behind the `shared_ptr` (two pointers are equal exactly
when they hold the same object), the other fields are its reads.  A read
extends the interpolation cache of the simulation and does not depend on it
(`state_step`), so a read is a function of its arguments here. -/
structure PathType (α : Type) where
  addr : Nat
  numeraire : α → Except String α
  zeroBond : α → α → Except String α
  /-- The overload `zeroBond(obsTime, payTime, alias)`. -/
  zeroBondAlias : α → α → String → Except String α
  asset : α → String → Except String α
  assetBarrierNoHit : α → α → α → α → α → String → Except String α

/-- The path object `path(idx)` of a simulation (line 444), allocated at the
address `addr`. -/
def MCSimulationT.path (exp log : α → α) (sim : MCSimulationT α) (idx addr : Nat) :
    PathType α where
  addr := addr
  numeraire := fun t => (Path.numeraire exp sim idx t).1
  zeroBond := fun t T => (Path.zeroBond exp sim idx t T).1
  zeroBondAlias := fun t T a => (Path.zeroBondAlias sim idx t T a).1
  asset := fun t a => (Path.asset sim idx t a).1
  assetBarrierNoHit := fun tStart tEnd down up side a =>
    (Path.assetBarrierNoHit exp log sim idx tStart tEnd down up side a).1

/-- The operators a `Logical` node can point to with `op_` (mcpayoffT.hpp,
lines 435-442). -/
inductive LogicalOp where
  | equal | notEqual | less | lessEqual | greater | greaterEqual | and_ | or_

/-- The call `(*op_)(x, y)`. -/
def LogicalOp.apply : LogicalOp → α → α → Bool
  | .equal, x, y => decide (x = y)
  | .notEqual, x, y => decide (x ≠ y)
  | .less, x, y => decide (x < y)
  | .lessEqual, x, y => decide (x ≤ y)
  | .greater, x, y => decide (x > y)
  | .greaterEqual, x, y => decide (x ≥ y)
  | .and_, x, y => decide (x ≠ 0) && decide (y ≠ 0)
  | .or_, x, y => decide (x ≠ 0) || decide (y ≠ 0)

/-- The choice of `op_` in the constructor of `Logical` (lines 451-459). -/
def LogicalOp.ofString (op : String) : LogicalOp :=
  if op = "||" then .or_
  else if op = "&&" then .and_
  else if op = ">=" then .greaterEqual
  else if op = ">" then .greater
  else if op = "<=" then .lessEqual
  else if op = "<" then .less
  else if op = "!=" then .notEqual
  else .equal

/-- The payoff nodes of `BasePayoffT` (mcpayoffT.hpp, lines 128-524) and the
nodes `GeneralSwaption` and `SwapRate` of `RatesPayoffT` (ratespayoffT.hpp,
lines 39-145), each with its data members; a `shared_ptr` to a node is the
node, and a node shared by two parents is held by each of them.  The member
`observationTime_` of the base class is never assigned after construction and
is read off the node by `Payoff.observationTime`.  For `SwapRate` the pair
`swapIndex_`, `discYTS_` is the schedule the library builds from them for a
fixing time: float times, float weights, fixed times, annuity weights. -/
inductive Payoff (α : Type) where
  | Clone (observationTime : α) (x_ : Payoff α)
  | FixedAmount (amount_ : α)
  | Pay (x_ : Payoff α) (payTime : α)
  | Cash (obsTime payTime_ : α)
  | ZeroBond (obsTime payTime_ : α) (alias_ : String)
  | Asset (obsTime : α) (alias_ : String) (history_ : List (α × α)) (fixedAssetValue_ : α)
  | AssetBarrierNoHit (tStart_ tEnd_ downBarrier_ upBarrier_ downOrUpOrBoth_ : α)
      (alias_ : String)
  | VanillaOption (obsTime : α) (alias_ : String) (strike_ callOrPut_ : α)
  | Cache (x_ : Payoff α) (lastPath_ : Option Nat) (lastPayoff_ : α)
  | Axpy (a_ : α) (x_ : Payoff α) (y_ : Option (Payoff α))
  | Mult (x_ y_ : Payoff α)
  | Division (x_ y_ : Payoff α)
  | Max (x_ y_ : Payoff α)
  | Min (x_ y_ : Payoff α)
  | Exponential (x_ : Payoff α)
  | Logarithm (x_ : Payoff α)
  | Squareroot (x_ : Payoff α)
  | Logical (x_ y_ : Payoff α) (op_ : LogicalOp)
  | IfThenElse (x_ y_ z_ : Payoff α)
  | Basket (underlyings_ : List (Payoff α)) (weights_ : List α) (rainbow_ : Bool)
  | GeneralSwaption (obsTime : α) (floatTimes_ floatWeights_ fixedTimes_ fixedWeights_ : List α)
      (strikeRate_ payOrRec_ : α)
  | SwapRate (obsTime : α) (floatTimes_ floatWeights_ fixedTimes_ fixedWeights_ : List α)
      (index_ : Option (α → List α × List α × List α × List α))

/-- The inspector `observationTime()` (mcpayoffT.hpp, line 38): the value each
constructor passes to the base class. -/
def Payoff.observationTime : Payoff α → α
  | .Clone t _ => t
  | .FixedAmount _ => 0
  | .Pay _ payTime => payTime
  | .Cash obsTime _ => obsTime
  | .ZeroBond obsTime _ _ => obsTime
  | .Asset obsTime _ _ _ => obsTime
  | .AssetBarrierNoHit _ tEnd _ _ _ _ => tEnd
  | .VanillaOption obsTime _ _ _ => obsTime
  | .Cache x _ _ => x.observationTime
  | .Axpy _ _ _ => 0
  | .Mult _ _ => 0
  | .Division _ _ => 0
  | .Max _ _ => 0
  | .Min _ _ => 0
  | .Exponential _ => 0
  | .Logarithm _ => 0
  | .Squareroot _ => 0
  | .Logical _ _ _ => 0
  | .IfThenElse _ _ _ => 0
  | .Basket _ _ _ => 0
  | .GeneralSwaption obsTime _ _ _ _ _ _ => obsTime
  | .SwapRate obsTime _ _ _ _ _ => obsTime

mutual
/-- The virtual `observationTimes()` (mcpayoffT.hpp, line 40 and the
overrides); a `std::set` is a `Finset`, `unionTimes` is the union. -/
def Payoff.observationTimes : Payoff α → Finset α
  | .Clone _ x => x.observationTimes
  | .FixedAmount _ => {0}
  | .Pay x payTime => {payTime} ∪ x.observationTimes
  | .Cash obsTime _ => {obsTime}
  | .ZeroBond obsTime _ _ => {obsTime}
  | .Asset obsTime _ _ _ => {obsTime}
  | .AssetBarrierNoHit tStart tEnd _ _ _ _ => {tStart, tEnd}
  | .VanillaOption obsTime _ _ _ => {obsTime}
  | .Cache x _ _ => x.observationTimes
  | .Axpy _ x none => x.observationTimes
  | .Axpy _ x (some y) => x.observationTimes ∪ y.observationTimes
  | .Mult x y => x.observationTimes ∪ y.observationTimes
  | .Division x y => x.observationTimes ∪ y.observationTimes
  | .Max x y => x.observationTimes ∪ y.observationTimes
  | .Min x y => x.observationTimes ∪ y.observationTimes
  | .Exponential x => x.observationTimes
  | .Logarithm x => x.observationTimes
  | .Squareroot x => x.observationTimes
  | .Logical x y _ => x.observationTimes ∪ y.observationTimes
  | .IfThenElse x y z => (x.observationTimes ∪ y.observationTimes) ∪ z.observationTimes
  | .Basket underlyings _ _ => Payoff.observationTimesList underlyings
  | .GeneralSwaption obsTime _ _ _ _ _ _ => {obsTime}
  | .SwapRate obsTime _ _ _ _ _ => {obsTime}
/-- The loop of `Basket::observationTimes()` (lines 517-521). -/
def Payoff.observationTimesList : List (Payoff α) → Finset α
  | [] => ∅
  | x :: rest => x.observationTimes ∪ Payoff.observationTimesList rest
end

/-- The loop `for k = size-1; k > 0; --k` of `addFixings` (lines 234-239)
from the index `k` down: the value of the first fixing `history_[k-1]` met
whose date is not after the observation time. -/
def findFixing (history : List (α × α)) (obsTime : α) : Nat → Option α
  | 0 => none
  | k + 1 =>
    if (history.getD k (0, 0)).1 ≤ obsTime then some (history.getD k (0, 0)).2
    else findFixing history obsTime k

/-- The pass `for k = size-1; k > 0; --k: QL_REQUIRE(history_[k-1].first <
history_[k].first)` of `addFixings` (lines 222-224). -/
def fixingDatesAscending : List (α × α) → Bool
  | a :: b :: rest => decide (a.1 < b.1) && fixingDatesAscending (b :: rest)
  | _ => true

/-- The member `Asset::addFixings(fixings)` (lines 218-242) on a node with the
observation time `obsTime` and the members `history_`, `fixedAssetValue_`: the
two members after the call.  `std::sort` orders the pairs by date, then by
value; it is an insertion sort here. -/
def addFixings (obsTime : α) (history_ : List (α × α)) (fixedAssetValue_ : α)
    (fixings : List (α × α)) : Except String (List (α × α) × α) :=
  if fixings.length = 0 then .ok (history_, fixedAssetValue_)
  else
    let history := (history_ ++ fixings).insertionSort
      (fun a b => a.1 < b.1 ∨ (a.1 = b.1 ∧ a.2 ≤ b.2))
    if !fixingDatesAscending history then .error "history_[k-1].first<history_[k].first required."
    else if obsTime ≥ 0 then .ok (history, fixedAssetValue_)
    else if history.length = 0 then .ok (history, fixedAssetValue_)
    else if (history.getD 0 (0, 0)).1 > obsTime then .ok (history, fixedAssetValue_)
    else if history.length = 1 then .ok (history, (history.getD 0 (0, 0)).2)
    else
      match findFixing history obsTime (history.length - 1) with
      | some v => .ok (history, v)
      | none => .error "BasePayoffT::Asset: Error in fixing times."

/-- The constructor `Asset(obsTime, alias, fixings)` (lines 204-207); the
member `fixedAssetValue_` is not initialised and is 0 here. -/
def Payoff.mkAsset (obsTime : α) (alias_ : String) (fixings : List (α × α)) :
    Except String (Payoff α) :=
  match addFixings obsTime [] 0 fixings with
  | .error e => .error e
  | .ok (history, fixed) => .ok (.Asset obsTime alias_ history fixed)

/-- The constructor `AssetBarrierNoHit(...)` (lines 253-258). -/
def Payoff.mkAssetBarrierNoHit (tStart tEnd downBarrier upBarrier downOrUpOrBoth : α)
    (alias_ : String) : Except String (Payoff α) :=
  if ¬ tStart < tEnd then .error "AssetBarrierNoHit: tStart < tEnd required."
  else if ¬ downBarrier < upBarrier then
    .error "AssetBarrierNoHit: downBarrier < upBarrier required."
  else .ok (.AssetBarrierNoHit tStart tEnd downBarrier upBarrier downOrUpOrBoth alias_)

/-- The constructor `Cache(x)` (line 288); `lastPath_` is null and
`lastPayoff_` is not initialised, 0 here. -/
def Payoff.mkCache (x : Payoff α) : Payoff α := .Cache x none 0

/-- The constructor `Basket(underlyings, weights, rainbow)` (lines 498-504). -/
def Payoff.mkBasket (underlyings : List (Payoff α)) (weights : List α) (rainbow : Bool) :
    Except String (Payoff α) :=
  if ¬ underlyings.length > 0 then .error "Basket underlyings required"
  else if ¬ underlyings.length = weights.length then .error "Basket dimension mismatch"
  else .ok (.Basket underlyings weights rainbow)

/-- The check `for k = 1..size-1: QL_REQUIRE(times[k] >= times[k-1])` of
`checkForConsistency` (lines 53, 58). -/
def timesNotDescending : List α → Bool
  | a :: b :: rest => decide (b ≥ a) && timesNotDescending (b :: rest)
  | _ => true

/-- The member `GeneralSwaption::checkForConsistency()` (ratespayoffT.hpp,
lines 47-61). -/
def checkForConsistency (floatTimes_ floatWeights_ fixedTimes_ fixedWeights_ : List α) :
    Except String Unit :=
  if ¬ floatWeights_.length > 0 then .error "GeneralSwaption: empty float weights."
  else if ¬ floatTimes_.length = floatWeights_.length then
    .error "GeneralSwaption: float sizes mismatch."
  else if ¬ numAt floatTimes_ 0 > 0 then .error "GeneralSwaption: future float times required"
  else if !timesNotDescending floatTimes_ then
    .error "GeneralSwaption: ascending float times required"
  else if ¬ fixedWeights_.length > 0 then .error "GeneralSwaption: empty fixed weights."
  else if ¬ fixedTimes_.length = fixedWeights_.length then
    .error "GeneralSwaption: fixed sizes mismatch."
  else if ¬ numAt fixedTimes_ 0 > 0 then .error "GeneralSwaption: future fixed times required"
  else if !timesNotDescending fixedTimes_ then
    .error "GeneralSwaption: ascending fixed times required"
  else .ok ()

/-- The constructor `GeneralSwaption(obsTime, floatTimes, floatWeights,
fixedTimes, fixedWeights, strikeRate, payOrRec)` (ratespayoffT.hpp, lines
63-73). -/
def Payoff.mkGeneralSwaption (obsTime : α)
    (floatTimes floatWeights fixedTimes fixedWeights : List α) (strikeRate payOrRec : α) :
    Except String (Payoff α) :=
  match checkForConsistency floatTimes floatWeights fixedTimes fixedWeights with
  | .error e => .error e
  | .ok _ =>
    .ok (.GeneralSwaption obsTime floatTimes floatWeights fixedTimes fixedWeights
      strikeRate payOrRec)

/-- The constructor `SwapRate(obsTime, floatTimes, floatWeights, fixedTimes,
annuityWeights)` (ratespayoffT.hpp, lines 116-120), which keeps no index. -/
def Payoff.mkSwapRate (obsTime : α)
    (floatTimes floatWeights fixedTimes annuityWeights : List α) : Except String (Payoff α) :=
  match checkForConsistency floatTimes floatWeights fixedTimes annuityWeights with
  | .error e => .error e
  | .ok _ => .ok (.SwapRate obsTime floatTimes floatWeights fixedTimes annuityWeights none)

/-- The constructor `SwapRate(fixingTime, swapIndex, discYTS)` (ratespayoffT.hpp,
lines 122-125) for the schedule `index` the library builds from the index and
the curve. -/
def Payoff.mkSwapRateIndex (fixingTime : α) (index : α → List α × List α × List α × List α) :
    Except String (Payoff α) :=
  match checkForConsistency (index fixingTime).1 (index fixingTime).2.1 (index fixingTime).2.2.1
      (index fixingTime).2.2.2 with
  | .error e => .error e
  | .ok _ =>
    .ok (.SwapRate fixingTime (index fixingTime).1 (index fixingTime).2.1
      (index fixingTime).2.2.1 (index fixingTime).2.2.2 (some index))

mutual
/-- The virtual clone `at(t)` (mcpayoffT.hpp, line 46 and the overrides;
ratespayoffT.hpp, lines 139-142).  The node kinds without an override run the
`QL_FAIL` of the base class.  `Axpy::at(t)` calls `y_->at(t)` without the null
check of `Axpy::at(p)`; the call on a null pointer is an error here. -/
def Payoff.atTime : Payoff α → α → Except String (Payoff α)
  | .Clone _ x, t =>
    match x.atTime t with
    | .error e => .error e
    | .ok x1 => .ok (.Clone t x1)
  | .FixedAmount amount, _ => .ok (.FixedAmount amount)
  | .Pay x payTime, t =>
    match x.atTime t with
    | .error e => .error e
    | .ok x1 => .ok (.Pay x1 payTime)
  | .Cash _ payTime, t => .ok (.Cash t payTime)
  | .ZeroBond _ payTime alias_, t => .ok (.ZeroBond t payTime alias_)
  | .Asset _ alias_ history _, t => Payoff.mkAsset t alias_ history
  | .AssetBarrierNoHit _ _ _ _ _ _, _ => .error "at(t) not implemented."
  | .VanillaOption _ _ _ _, _ => .error "at(t) not implemented."
  | .Cache x _ _, t =>
    match x.atTime t with
    | .error e => .error e
    | .ok x1 => .ok (Payoff.mkCache x1)
  | .Axpy a x (some y), t =>
    match x.atTime t with
    | .error e => .error e
    | .ok x1 =>
      match y.atTime t with
      | .error e => .error e
      | .ok y1 => .ok (.Axpy a x1 (some y1))
  | .Axpy _ x none, t =>
    match x.atTime t with
    | .error e => .error e
    | .ok _ => .error "null pointer"
  | .Mult x y, t =>
    match x.atTime t with
    | .error e => .error e
    | .ok x1 =>
      match y.atTime t with
      | .error e => .error e
      | .ok y1 => .ok (.Mult x1 y1)
  | .Division x y, t =>
    match x.atTime t with
    | .error e => .error e
    | .ok x1 =>
      match y.atTime t with
      | .error e => .error e
      | .ok y1 => .ok (.Division x1 y1)
  | .Max x y, t =>
    match x.atTime t with
    | .error e => .error e
    | .ok x1 =>
      match y.atTime t with
      | .error e => .error e
      | .ok y1 => .ok (.Max x1 y1)
  | .Min x y, t =>
    match x.atTime t with
    | .error e => .error e
    | .ok x1 =>
      match y.atTime t with
      | .error e => .error e
      | .ok y1 => .ok (.Min x1 y1)
  | .Exponential x, t =>
    match x.atTime t with
    | .error e => .error e
    | .ok x1 => .ok (.Exponential x1)
  | .Logarithm x, t =>
    match x.atTime t with
    | .error e => .error e
    | .ok x1 => .ok (.Logarithm x1)
  | .Squareroot x, t =>
    match x.atTime t with
    | .error e => .error e
    | .ok x1 => .ok (.Squareroot x1)
  | .Logical _ _ _, _ => .error "at(t) not implemented."
  | .IfThenElse _ _ _, _ => .error "at(t) not implemented."
  | .Basket underlyings weights rainbow, t =>
    match Payoff.atTimeList underlyings t with
    | .error e => .error e
    | .ok underlyingsAt => Payoff.mkBasket underlyingsAt weights rainbow
  | .GeneralSwaption _ _ _ _ _ _ _, _ => .error "at(t) not implemented."
  | .SwapRate _ _ _ _ _ (some index), t => Payoff.mkSwapRateIndex t index
  | .SwapRate _ _ _ _ _ none, _ => .error "Can not clone swap rate"
/-- The loop of `Basket::at(t)` (lines 512-513). -/
def Payoff.atTimeList : List (Payoff α) → α → Except String (List (Payoff α))
  | [], _ => .ok []
  | x :: rest, t =>
    match x.atTime t with
    | .error e => .error e
    | .ok x1 =>
      match Payoff.atTimeList rest t with
      | .error e => .error e
      | .ok rest1 => .ok (x1 :: rest1)
end

/-- The constructor `Clone(x, observationTime)` (lines 132-133), which stores
`x->at(observationTime)`. -/
def Payoff.mkClone (x : Payoff α) (observationTime : α) : Except String (Payoff α) :=
  match x.atTime observationTime with
  | .error e => .error e
  | .ok x1 => .ok (.Clone observationTime x1)

mutual
/-- The height of a payoff tree. -/
def Payoff.height : Payoff α → Nat
  | .Clone _ x => x.height + 1
  | .FixedAmount _ => 0
  | .Pay x _ => x.height + 1
  | .Cash _ _ => 0
  | .ZeroBond _ _ _ => 0
  | .Asset _ _ _ _ => 0
  | .AssetBarrierNoHit _ _ _ _ _ _ => 0
  | .VanillaOption _ _ _ _ => 0
  | .Cache x _ _ => x.height + 1
  | .Axpy _ x none => x.height + 1
  | .Axpy _ x (some y) => max x.height y.height + 1
  | .Mult x y => max x.height y.height + 1
  | .Division x y => max x.height y.height + 1
  | .Max x y => max x.height y.height + 1
  | .Min x y => max x.height y.height + 1
  | .Exponential x => x.height + 1
  | .Logarithm x => x.height + 1
  | .Squareroot x => x.height + 1
  | .Logical x y _ => max x.height y.height + 1
  | .IfThenElse x y z => max (max x.height y.height) z.height + 1
  | .Basket underlyings _ _ => Payoff.heightList underlyings + 1
  | .GeneralSwaption _ _ _ _ _ _ _ => 0
  | .SwapRate _ _ _ _ _ _ => 0
/-- The largest height in a list of payoff trees. -/
def Payoff.heightList : List (Payoff α) → Nat
  | [] => 0
  | x :: rest => max x.height (Payoff.heightList rest)
end

/-- A loop that evaluates the listed nodes in order with `f` and collects the
values; a throw ends it and leaves the nodes not yet reached as they are. -/
def evalEach (f : Payoff α → Except String α × Payoff α) :
    List (Payoff α) → Except String (List α) × List (Payoff α)
  | [] => (.ok [], [])
  | x :: rest =>
    match f x with
    | (.error e, x1) => (.error e, x1 :: rest)
    | (.ok v, x1) =>
      match evalEach f rest with
      | (.error e, rest1) => (.error e, x1 :: rest1)
      | (.ok vs, rest1) => (.ok (v :: vs), x1 :: rest1)

/-- The loop `for k: res += weights_[k] * underlyings_[k]->at(p)` of
`Basket::at(p)` (line 508) from the index `k` on, for the underlyings not yet
visited; `f` evaluates one node on the path. -/
def basketSum (f : Payoff α → Except String α × Payoff α) (weights_ : List α) :
    List (Payoff α) → Nat → α → Except String α × List (Payoff α)
  | [], _, res => (.ok res, [])
  | x :: rest, k, res =>
    match f x with
    | (.error e, x1) => (.error e, x1 :: rest)
    | (.ok v, x1) =>
      match basketSum f weights_ rest (k + 1) (res + numAt weights_ k * v) with
      | (r, rest1) => (r, x1 :: rest1)

/-- The sum `sum_k weights[k] * P(obsTime, times[k])` of the two loops of
`GeneralSwaption::at(p)` and `SwapRate::at(p)` (ratespayoffT.hpp, lines 97-99,
131-133) from the index `k` on. -/
def legSum (p : PathType α) (obsTime : α) (weights : List α) :
    List α → Nat → α → Except String α
  | [], _, res => .ok res
  | T :: rest, k, res =>
    match p.zeroBond obsTime T with
    | .error e => .error e
    | .ok P => legSum p obsTime weights rest (k + 1) (res + numAt weights k * P)

/-- The virtual `at(p)` of every node kind (mcpayoffT.hpp, ratespayoffT.hpp)
on a tree of height below `fuel`: the value returned, or the error thrown, and
the node after the call.  Operands are evaluated from left to right.  The
comparisons of `std::sort` in `Basket::at(p)` evaluate the underlyings on the
path; here every underlying is evaluated once and the sort is an insertion
sort on these values. -/
def Payoff.atPathFuel (exp log sqrt : α → α) :
    Nat → Payoff α → PathType α → Except String α × Payoff α
  | 0, x, _ => (.error "out of fuel", x)
  | n + 1, .Clone t x, p =>
    match Payoff.atPathFuel exp log sqrt n x p with
    | (r, x1) => (r, .Clone t x1)
  | _ + 1, .FixedAmount amount, _ => (.ok amount, .FixedAmount amount)
  | n + 1, .Pay x payTime, p =>
    match Payoff.atPathFuel exp log sqrt n x p with
    | (r, x1) => (r, .Pay x1 payTime)
  | _ + 1, .Cash obsTime payTime, p => (p.zeroBond obsTime payTime, .Cash obsTime payTime)
  | _ + 1, .ZeroBond obsTime payTime alias_, p =>
    (p.zeroBondAlias obsTime payTime alias_, .ZeroBond obsTime payTime alias_)
  | _ + 1, .Asset obsTime alias_ history fixed, p =>
    (if obsTime < 0 ∧ history.length > 0 ∧ (history.getD 0 (0, 0)).1 ≤ obsTime then .ok fixed
      else p.asset obsTime alias_, .Asset obsTime alias_ history fixed)
  | _ + 1, .AssetBarrierNoHit tStart tEnd down up side alias_, p =>
    (p.assetBarrierNoHit tStart tEnd down up side alias_,
      .AssetBarrierNoHit tStart tEnd down up side alias_)
  | _ + 1, .VanillaOption obsTime alias_ strike callOrPut, p =>
    (match p.asset obsTime alias_ with
      | .error e => .error e
      | .ok S => .ok (if callOrPut * (S - strike) > 0 then callOrPut * (S - strike) else 0),
      .VanillaOption obsTime alias_ strike callOrPut)
  | n + 1, .Cache x lastPath lastPayoff, p =>
    if lastPath ≠ some p.addr then
      match Payoff.atPathFuel exp log sqrt n x p with
      | (.error e, x1) => (.error e, .Cache x1 (some p.addr) lastPayoff)
      | (.ok v, x1) => (.ok v, .Cache x1 (some p.addr) v)
    else (.ok lastPayoff, .Cache x lastPath lastPayoff)
  | n + 1, .Axpy a x none, p =>
    match Payoff.atPathFuel exp log sqrt n x p with
    | (.error e, x1) => (.error e, .Axpy a x1 none)
    | (.ok v, x1) => (.ok (a * v), .Axpy a x1 none)
  | n + 1, .Axpy a x (some y), p =>
    match Payoff.atPathFuel exp log sqrt n x p with
    | (.error e, x1) => (.error e, .Axpy a x1 (some y))
    | (.ok v, x1) =>
      match Payoff.atPathFuel exp log sqrt n y p with
      | (.error e, y1) => (.error e, .Axpy a x1 (some y1))
      | (.ok w, y1) => (.ok (a * v + w), .Axpy a x1 (some y1))
  | n + 1, .Mult x y, p =>
    match Payoff.atPathFuel exp log sqrt n x p with
    | (.error e, x1) => (.error e, .Mult x1 y)
    | (.ok v, x1) =>
      match Payoff.atPathFuel exp log sqrt n y p with
      | (.error e, y1) => (.error e, .Mult x1 y1)
      | (.ok w, y1) => (.ok (v * w), .Mult x1 y1)
  | n + 1, .Division x y, p =>
    match Payoff.atPathFuel exp log sqrt n x p with
    | (.error e, x1) => (.error e, .Division x1 y)
    | (.ok v, x1) =>
      match Payoff.atPathFuel exp log sqrt n y p with
      | (.error e, y1) => (.error e, .Division x1 y1)
      | (.ok w, y1) => (.ok (v / w), .Division x1 y1)
  | n + 1, .Max x y, p =>
    match Payoff.atPathFuel exp log sqrt n x p with
    | (.error e, x1) => (.error e, .Max x1 y)
    | (.ok v, x1) =>
      match Payoff.atPathFuel exp log sqrt n y p with
      | (.error e, y1) => (.error e, .Max x1 y1)
      | (.ok w, y1) =>
        if v > w then
          match Payoff.atPathFuel exp log sqrt n x1 p with
          | (r, x2) => (r, .Max x2 y1)
        else
          match Payoff.atPathFuel exp log sqrt n y1 p with
          | (r, y2) => (r, .Max x1 y2)
  | n + 1, .Min x y, p =>
    match Payoff.atPathFuel exp log sqrt n x p with
    | (.error e, x1) => (.error e, .Min x1 y)
    | (.ok v, x1) =>
      match Payoff.atPathFuel exp log sqrt n y p with
      | (.error e, y1) => (.error e, .Min x1 y1)
      | (.ok w, y1) =>
        if v < w then
          match Payoff.atPathFuel exp log sqrt n x1 p with
          | (r, x2) => (r, .Min x2 y1)
        else
          match Payoff.atPathFuel exp log sqrt n y1 p with
          | (r, y2) => (r, .Min x1 y2)
  | n + 1, .Exponential x, p =>
    match Payoff.atPathFuel exp log sqrt n x p with
    | (.error e, x1) => (.error e, .Exponential x1)
    | (.ok v, x1) => (.ok (exp v), .Exponential x1)
  | n + 1, .Logarithm x, p =>
    match Payoff.atPathFuel exp log sqrt n x p with
    | (.error e, x1) => (.error e, .Logarithm x1)
    | (.ok v, x1) => (.ok (log v), .Logarithm x1)
  | n + 1, .Squareroot x, p =>
    match Payoff.atPathFuel exp log sqrt n x p with
    | (.error e, x1) => (.error e, .Squareroot x1)
    | (.ok v, x1) => (.ok (sqrt v), .Squareroot x1)
  | n + 1, .Logical x y op, p =>
    match Payoff.atPathFuel exp log sqrt n x p with
    | (.error e, x1) => (.error e, .Logical x1 y op)
    | (.ok v, x1) =>
      match Payoff.atPathFuel exp log sqrt n y p with
      | (.error e, y1) => (.error e, .Logical x1 y1 op)
      | (.ok w, y1) => (.ok (if op.apply v w then 1 else 0), .Logical x1 y1 op)
  | n + 1, .IfThenElse x y z, p =>
    match Payoff.atPathFuel exp log sqrt n x p with
    | (.error e, x1) => (.error e, .IfThenElse x1 y z)
    | (.ok v, x1) =>
      if v ≠ 0 then
        match Payoff.atPathFuel exp log sqrt n y p with
        | (r, y1) => (r, .IfThenElse x1 y1 z)
      else
        match Payoff.atPathFuel exp log sqrt n z p with
        | (r, z1) => (r, .IfThenElse x1 y z1)
  | n + 1, .Basket underlyings weights rainbow, p =>
    if rainbow then
      match evalEach (fun u => Payoff.atPathFuel exp log sqrt n u p) underlyings with
      | (.error e, us1) => (.error e, .Basket us1 weights rainbow)
      | (.ok vs, us1) =>
        match basketSum (fun u => Payoff.atPathFuel exp log sqrt n u p) weights
            (((vs.zip us1).insertionSort (fun a b => a.1 ≥ b.1)).map (·.2)) 0 0 with
        | (r, us2) => (r, .Basket us2 weights rainbow)
    else
      match basketSum (fun u => Payoff.atPathFuel exp log sqrt n u p) weights underlyings 0 0 with
      | (r, us1) => (r, .Basket us1 weights rainbow)
  | _ + 1, .GeneralSwaption obsTime floatTimes floatWeights fixedTimes fixedWeights strikeRate
      payOrRec, p =>
    (match legSum p obsTime floatWeights floatTimes 0 0 with
      | .error e => .error e
      | .ok floatleg =>
        match legSum p obsTime fixedWeights fixedTimes 0 0 with
        | .error e => .error e
        | .ok annuity =>
          .ok (if (floatleg - strikeRate * annuity) * payOrRec > 0
            then (floatleg - strikeRate * annuity) * payOrRec else 0),
      .GeneralSwaption obsTime floatTimes floatWeights fixedTimes fixedWeights strikeRate payOrRec)
  | _ + 1, .SwapRate obsTime floatTimes floatWeights fixedTimes fixedWeights index, p =>
    (match legSum p obsTime floatWeights floatTimes 0 0 with
      | .error e => .error e
      | .ok floatleg =>
        match legSum p obsTime fixedWeights fixedTimes 0 0 with
        | .error e => .error e
        | .ok annuity => .ok (floatleg / annuity),
      .SwapRate obsTime floatTimes floatWeights fixedTimes fixedWeights index)

/-- The virtual `at(p)`: the value returned, or the error thrown, and the node
after the call. -/
def Payoff.atPath (exp log sqrt : α → α) (x : Payoff α) (p : PathType α) :
    Except String α × Payoff α :=
  Payoff.atPathFuel exp log sqrt (x.height + 1) x p

/-- The virtual `discountedAt(p)` (mcpayoffT.hpp, line 44), which `SwapRate`
overrides (ratespayoffT.hpp, line 144). -/
def Payoff.discountedAt (exp log sqrt : α → α) (x : Payoff α) (p : PathType α) :
    Except String α × Payoff α :=
  match x with
  | .SwapRate _ _ _ _ _ _ => x.atPath exp log sqrt p
  | _ =>
    match x.atPath exp log sqrt p with
    | (.error e, x1) => (.error e, x1)
    | (.ok v, x1) =>
      match p.numeraire x.observationTime with
      | .error e => (.error e, x1)
      | .ok N => (.ok (v / N), x1)

/-- The inner loop `for n: npvk += payoffs[k]->discountedAt(simulation->path(n))`
of `Pricer::NPV` (lines 86-89) over the path indices not yet visited.  The
path object `simulation->path(n)` of each pass is a new object; `path n a` is
that object when it is allocated at the address `a`, and the passes take the
addresses `alloc`, `alloc + 1`, and so on. -/
def Pricer.sumPaths (exp log sqrt : α → α) (path : Nat → Nat → PathType α) :
    List Nat → Nat → Payoff α → α → Except String α × Payoff α
  | [], _, x, npvk => (.ok npvk, x)
  | n :: rest, alloc, x, npvk =>
    match x.discountedAt exp log sqrt (path n alloc) with
    | (.error e, x1) => (.error e, x1)
    | (.ok v, x1) => Pricer.sumPaths exp log sqrt path rest (alloc + 1) x1 (npvk + v)

/-- The outer loop of `Pricer::NPV` (lines 84-91) over the payoffs not yet
visited. -/
def Pricer.sumPayoffs (exp log sqrt : α → α) (path : Nat → Nat → PathType α) (nPaths : Nat) :
    List (Payoff α) → Nat → α → Except String α × List (Payoff α)
  | [], _, npv => (.ok npv, [])
  | x :: rest, alloc, npv =>
    match Pricer.sumPaths exp log sqrt path (List.range nPaths) alloc x 0 with
    | (.error e, x1) => (.error e, x1 :: rest)
    | (.ok npvk, x1) =>
      match Pricer.sumPayoffs exp log sqrt path nPaths rest (alloc + nPaths) (npv + npvk) with
      | (r, rest1) => (r, x1 :: rest1)

/-- The static `Pricer::NPV(payoffs, simulation)` (lines 82-93): the value
returned and the payoffs after the call. -/
def Pricer.NPV (exp log sqrt : α → α) (payoffs : List (Payoff α))
    (path : Nat → Nat → PathType α) (nPaths alloc : Nat) : Except String α × List (Payoff α) :=
  match Pricer.sumPayoffs exp log sqrt path nPaths payoffs alloc 0 with
  | (.error e, payoffs1) => (.error e, payoffs1)
  | (.ok npv, payoffs1) => (.ok (npv / (nPaths : α)), payoffs1)

/-- The inner loop `for k: res[k] += payoffs[k]->discountedAt(simulation->path(n))`
of `Pricer::NPVs` (lines 99-101) for the path `n`, over the payoffs not yet
visited and their entries of `res`. -/
def Pricer.addPath (exp log sqrt : α → α) (path : Nat → Nat → PathType α) (n : Nat) :
    List (Payoff α) → List α → Nat → Except String (List α) × List (Payoff α)
  | [], _, _ => (.ok [], [])
  | x :: rest, res, alloc =>
    match x.discountedAt exp log sqrt (path n alloc) with
    | (.error e, x1) => (.error e, x1 :: rest)
    | (.ok v, x1) =>
      match Pricer.addPath exp log sqrt path n rest res.tail (alloc + 1) with
      | (.error e, rest1) => (.error e, x1 :: rest1)
      | (.ok res1, rest1) => (.ok ((res.headD 0 + v) :: res1), x1 :: rest1)

/-- The outer loop of `Pricer::NPVs` (lines 98-102) over the path indices not
yet visited. -/
def Pricer.addPaths (exp log sqrt : α → α) (path : Nat → Nat → PathType α) :
    List Nat → List (Payoff α) → List α → Nat → Except String (List α) × List (Payoff α)
  | [], payoffs, res, _ => (.ok res, payoffs)
  | n :: rest, payoffs, res, alloc =>
    match Pricer.addPath exp log sqrt path n payoffs res alloc with
    | (.error e, payoffs1) => (.error e, payoffs1)
    | (.ok res1, payoffs1) =>
      Pricer.addPaths exp log sqrt path rest payoffs1 res1 (alloc + payoffs.length)

/-- The static `Pricer::NPVs(payoffs, simulation)` (lines 95-107). -/
def Pricer.NPVs (exp log sqrt : α → α) (payoffs : List (Payoff α))
    (path : Nat → Nat → PathType α) (nPaths alloc : Nat) :
    Except String (List α) × List (Payoff α) :=
  match Pricer.addPaths exp log sqrt path (List.range nPaths) payoffs
      (List.replicate payoffs.length 0) alloc with
  | (.error e, payoffs1) => (.error e, payoffs1)
  | (.ok res, payoffs1) => (.ok (res.map fun r => r / (nPaths : α)), payoffs1)

/-- The sum `res + sum_i weights[k+i] * values[i]`. -/
def weightedSum (weights : List α) : List α → Nat → α → α
  | [], _, res => res
  | v :: rest, k, res => weightedSum weights rest (k + 1) (res + numAt weights k * v)

mutual
/-- The value `at(p)` returns on a node that holds no memoized value for the
path: a function of the node and the reads of the path. -/
def Payoff.value (exp log sqrt : α → α) : Payoff α → PathType α → Except String α
  | .Clone _ x, p => x.value exp log sqrt p
  | .FixedAmount amount, _ => .ok amount
  | .Pay x _, p => x.value exp log sqrt p
  | .Cash obsTime payTime, p => p.zeroBond obsTime payTime
  | .ZeroBond obsTime payTime alias_, p => p.zeroBondAlias obsTime payTime alias_
  | .Asset obsTime alias_ history fixed, p =>
    if obsTime < 0 ∧ history.length > 0 ∧ (history.getD 0 (0, 0)).1 ≤ obsTime then .ok fixed
    else p.asset obsTime alias_
  | .AssetBarrierNoHit tStart tEnd down up side alias_, p =>
    p.assetBarrierNoHit tStart tEnd down up side alias_
  | .VanillaOption obsTime alias_ strike callOrPut, p =>
    match p.asset obsTime alias_ with
    | .error e => .error e
    | .ok S => .ok (if callOrPut * (S - strike) > 0 then callOrPut * (S - strike) else 0)
  | .Cache x _ _, p => x.value exp log sqrt p
  | .Axpy a x none, p =>
    match x.value exp log sqrt p with
    | .error e => .error e
    | .ok v => .ok (a * v)
  | .Axpy a x (some y), p =>
    match x.value exp log sqrt p with
    | .error e => .error e
    | .ok v =>
      match y.value exp log sqrt p with
      | .error e => .error e
      | .ok w => .ok (a * v + w)
  | .Mult x y, p =>
    match x.value exp log sqrt p with
    | .error e => .error e
    | .ok v =>
      match y.value exp log sqrt p with
      | .error e => .error e
      | .ok w => .ok (v * w)
  | .Division x y, p =>
    match x.value exp log sqrt p with
    | .error e => .error e
    | .ok v =>
      match y.value exp log sqrt p with
      | .error e => .error e
      | .ok w => .ok (v / w)
  | .Max x y, p =>
    match x.value exp log sqrt p with
    | .error e => .error e
    | .ok v =>
      match y.value exp log sqrt p with
      | .error e => .error e
      | .ok w => .ok (if v > w then v else w)
  | .Min x y, p =>
    match x.value exp log sqrt p with
    | .error e => .error e
    | .ok v =>
      match y.value exp log sqrt p with
      | .error e => .error e
      | .ok w => .ok (if v < w then v else w)
  | .Exponential x, p =>
    match x.value exp log sqrt p with
    | .error e => .error e
    | .ok v => .ok (exp v)
  | .Logarithm x, p =>
    match x.value exp log sqrt p with
    | .error e => .error e
    | .ok v => .ok (log v)
  | .Squareroot x, p =>
    match x.value exp log sqrt p with
    | .error e => .error e
    | .ok v => .ok (sqrt v)
  | .Logical x y op, p =>
    match x.value exp log sqrt p with
    | .error e => .error e
    | .ok v =>
      match y.value exp log sqrt p with
      | .error e => .error e
      | .ok w => .ok (if op.apply v w then 1 else 0)
  | .IfThenElse x y z, p =>
    match x.value exp log sqrt p with
    | .error e => .error e
    | .ok v => if v ≠ 0 then y.value exp log sqrt p else z.value exp log sqrt p
  | .Basket underlyings weights rainbow, p =>
    match Payoff.valueList exp log sqrt underlyings p with
    | .error e => .error e
    | .ok vs =>
      .ok (weightedSum weights (if rainbow then vs.insertionSort (· ≥ ·) else vs) 0 0)
  | .GeneralSwaption obsTime floatTimes floatWeights fixedTimes fixedWeights strikeRate
      payOrRec, p =>
    match legSum p obsTime floatWeights floatTimes 0 0 with
    | .error e => .error e
    | .ok floatleg =>
      match legSum p obsTime fixedWeights fixedTimes 0 0 with
      | .error e => .error e
      | .ok annuity =>
        .ok (if (floatleg - strikeRate * annuity) * payOrRec > 0
          then (floatleg - strikeRate * annuity) * payOrRec else 0)
  | .SwapRate obsTime floatTimes floatWeights fixedTimes fixedWeights _, p =>
    match legSum p obsTime floatWeights floatTimes 0 0 with
    | .error e => .error e
    | .ok floatleg =>
      match legSum p obsTime fixedWeights fixedTimes 0 0 with
      | .error e => .error e
      | .ok annuity => .ok (floatleg / annuity)
/-- The values of the listed nodes on the path. -/
def Payoff.valueList (exp log sqrt : α → α) : List (Payoff α) → PathType α →
    Except String (List α)
  | [], _ => .ok []
  | x :: rest, p =>
    match x.value exp log sqrt p with
    | .error e => .error e
    | .ok v =>
      match Payoff.valueList exp log sqrt rest p with
      | .error e => .error e
      | .ok vs => .ok (v :: vs)
end

mutual
/-- The memoized values of the `Cache` nodes of a tree are right for the path
objects `heap` holds: a `Cache` node whose `lastPath_` is the object at the
address `a` holds in `lastPayoff_` the value of its child on that object. -/
def Payoff.coherent (exp log sqrt : α → α) (heap : Nat → Option (PathType α)) :
    Payoff α → Prop
  | .Clone _ x => x.coherent exp log sqrt heap
  | .FixedAmount _ => True
  | .Pay x _ => x.coherent exp log sqrt heap
  | .Cash _ _ => True
  | .ZeroBond _ _ _ => True
  | .Asset _ _ _ _ => True
  | .AssetBarrierNoHit _ _ _ _ _ _ => True
  | .VanillaOption _ _ _ _ => True
  | .Cache x lastPath lastPayoff =>
    x.coherent exp log sqrt heap ∧
      ∀ a q, lastPath = some a → heap a = some q → x.value exp log sqrt q = .ok lastPayoff
  | .Axpy _ x none => x.coherent exp log sqrt heap
  | .Axpy _ x (some y) => x.coherent exp log sqrt heap ∧ y.coherent exp log sqrt heap
  | .Mult x y => x.coherent exp log sqrt heap ∧ y.coherent exp log sqrt heap
  | .Division x y => x.coherent exp log sqrt heap ∧ y.coherent exp log sqrt heap
  | .Max x y => x.coherent exp log sqrt heap ∧ y.coherent exp log sqrt heap
  | .Min x y => x.coherent exp log sqrt heap ∧ y.coherent exp log sqrt heap
  | .Exponential x => x.coherent exp log sqrt heap
  | .Logarithm x => x.coherent exp log sqrt heap
  | .Squareroot x => x.coherent exp log sqrt heap
  | .Logical x y _ => x.coherent exp log sqrt heap ∧ y.coherent exp log sqrt heap
  | .IfThenElse x y z =>
    x.coherent exp log sqrt heap ∧ y.coherent exp log sqrt heap ∧ z.coherent exp log sqrt heap
  | .Basket underlyings _ _ => Payoff.coherentList exp log sqrt heap underlyings
  | .GeneralSwaption _ _ _ _ _ _ _ => True
  | .SwapRate _ _ _ _ _ _ => True
/-- Every listed node is coherent. -/
def Payoff.coherentList (exp log sqrt : α → α) (heap : Nat → Option (PathType α)) :
    List (Payoff α) → Prop
  | [] => True
  | x :: rest => x.coherent exp log sqrt heap ∧ Payoff.coherentList exp log sqrt heap rest
end

/-- The node `x1` is the node `x` after evaluations that succeeded: its
memoized values are right, its height is that of `x`, and it has the value of
`x` on every path on which `x` has a value. -/
def Payoff.updated (exp log sqrt : α → α) (heap : Nat → Option (PathType α))
    (x x1 : Payoff α) : Prop :=
  x1.coherent exp log sqrt heap ∧ x1.height = x.height ∧
    ∀ q w, x.value exp log sqrt q = .ok w → x1.value exp log sqrt q = .ok w

mutual
/-- No `Cache` node of the tree holds a memoized value for a path object at an
address in `S`: its `lastPath_` is null or an object at an address outside `S`. -/
def Payoff.noMemoFor (S : Nat → Prop) : Payoff α → Prop
  | .Clone _ x => x.noMemoFor S
  | .FixedAmount _ => True
  | .Pay x _ => x.noMemoFor S
  | .Cash _ _ => True
  | .ZeroBond _ _ _ => True
  | .Asset _ _ _ _ => True
  | .AssetBarrierNoHit _ _ _ _ _ _ => True
  | .VanillaOption _ _ _ _ => True
  | .Cache x lastPath _ => x.noMemoFor S ∧ ∀ a, lastPath = some a → ¬ S a
  | .Axpy _ x none => x.noMemoFor S
  | .Axpy _ x (some y) => x.noMemoFor S ∧ y.noMemoFor S
  | .Mult x y => x.noMemoFor S ∧ y.noMemoFor S
  | .Division x y => x.noMemoFor S ∧ y.noMemoFor S
  | .Max x y => x.noMemoFor S ∧ y.noMemoFor S
  | .Min x y => x.noMemoFor S ∧ y.noMemoFor S
  | .Exponential x => x.noMemoFor S
  | .Logarithm x => x.noMemoFor S
  | .Squareroot x => x.noMemoFor S
  | .Logical x y _ => x.noMemoFor S ∧ y.noMemoFor S
  | .IfThenElse x y z => x.noMemoFor S ∧ y.noMemoFor S ∧ z.noMemoFor S
  | .Basket underlyings _ _ => Payoff.noMemoForList S underlyings
  | .GeneralSwaption _ _ _ _ _ _ _ => True
  | .SwapRate _ _ _ _ _ _ => True
/-- No listed tree holds a memoized value for a path object at an address in
`S`. -/
def Payoff.noMemoForList (S : Nat → Prop) : List (Payoff α) → Prop
  | [] => True
  | x :: rest => x.noMemoFor S ∧ Payoff.noMemoForList S rest
end

/-- The value `discountedAt(p)` returns on a node that holds no memoized value
for the path. -/
def Payoff.discountedValue (exp log sqrt : α → α) (x : Payoff α) (p : PathType α) :
    Except String α :=
  match x with
  | .SwapRate _ _ _ _ _ _ => x.value exp log sqrt p
  | _ =>
    match x.value exp log sqrt p with
    | .error e => .error e
    | .ok v =>
      match p.numeraire x.observationTime with
      | .error e => .error e
      | .ok N => .ok (v / N)

/-- The node is a `SwapRate`. -/
def Payoff.isSwapRate : Payoff α → Bool
  | .SwapRate _ _ _ _ _ _ => true
  | _ => false

/-- The node `x1` is the node `x` after calls of `at(p)` and `discountedAt(p)`
that succeeded: it is `x` up to memoized values and the order of rainbow
underlyings, so it has the observation time and the kind of `x`. -/
def Payoff.after (exp log sqrt : α → α) (heap : Nat → Option (PathType α))
    (x x1 : Payoff α) : Prop :=
  Payoff.updated exp log sqrt heap x x1 ∧ x1.observationTime = x.observationTime ∧
    x1.isSwapRate = x.isSwapRate

/-- The node is of a kind whose clone `at(t)` is built with the time `t` as
its observation time: `Clone`, `Cash`, `ZeroBond`, `Asset`, `SwapRate`, and a
`Cache` of such a node.  The clones of the other kinds are built with the
observation time of the node (`Pay`) or with 0 (`FixedAmount` and the
arithmetic nodes). -/
def Payoff.anchored : Payoff α → Bool
  | .Clone _ _ => true
  | .FixedAmount _ => false
  | .Pay _ _ => false
  | .Cash _ _ => true
  | .ZeroBond _ _ _ => true
  | .Asset _ _ _ _ => true
  | .AssetBarrierNoHit _ _ _ _ _ _ => false
  | .VanillaOption _ _ _ _ => false
  | .Cache x _ _ => x.anchored
  | .Axpy _ _ _ => false
  | .Mult _ _ => false
  | .Division _ _ => false
  | .Max _ _ => false
  | .Min _ _ => false
  | .Exponential _ => false
  | .Logarithm _ => false
  | .Squareroot _ => false
  | .Logical _ _ _ => false
  | .IfThenElse _ _ _ => false
  | .Basket _ _ _ => false
  | .GeneralSwaption _ _ _ _ _ _ _ => false
  | .SwapRate _ _ _ _ _ _ => true

mutual
/-- Every node of the tree is of a kind that overrides `at(t)` and can be
rebuilt at the time `t`: an `Axpy` node has its second operand, the fixing
dates of an `Asset` node are strictly ascending once sorted, a `Basket` has as
many weights as underlyings and at least one, and a `SwapRate` holds an index
whose schedule for `t` passes `checkForConsistency`. -/
def Payoff.supportsClone (t : α) : Payoff α → Bool
  | .Clone _ x => x.supportsClone t
  | .FixedAmount _ => true
  | .Pay x _ => x.supportsClone t
  | .Cash _ _ => true
  | .ZeroBond _ _ _ => true
  | .Asset _ _ history _ =>
    fixingDatesAscending (history.insertionSort (fun a b => a.1 < b.1 ∨ (a.1 = b.1 ∧ a.2 ≤ b.2)))
  | .AssetBarrierNoHit _ _ _ _ _ _ => false
  | .VanillaOption _ _ _ _ => false
  | .Cache x _ _ => x.supportsClone t
  | .Axpy _ _ none => false
  | .Axpy _ x (some y) => x.supportsClone t && y.supportsClone t
  | .Mult x y => x.supportsClone t && y.supportsClone t
  | .Division x y => x.supportsClone t && y.supportsClone t
  | .Max x y => x.supportsClone t && y.supportsClone t
  | .Min x y => x.supportsClone t && y.supportsClone t
  | .Exponential x => x.supportsClone t
  | .Logarithm x => x.supportsClone t
  | .Squareroot x => x.supportsClone t
  | .Logical _ _ _ => false
  | .IfThenElse _ _ _ => false
  | .Basket underlyings weights _ =>
    decide (underlyings.length > 0) && decide (underlyings.length = weights.length)
      && Payoff.supportsCloneList t underlyings
  | .GeneralSwaption _ _ _ _ _ _ _ => false
  | .SwapRate _ _ _ _ _ (some index) =>
    match checkForConsistency (index t).1 (index t).2.1 (index t).2.2.1 (index t).2.2.2 with
    | .ok _ => true
    | .error _ => false
  | .SwapRate _ _ _ _ _ none => false
/-- Every listed tree supports the clone at `t`. -/
def Payoff.supportsCloneList (t : α) : List (Payoff α) → Bool
  | [] => true
  | x :: rest => x.supportsClone t && Payoff.supportsCloneList t rest
end

mutual
/-- Every node of the tree that carries an observation time of its own
(`Cash`, `ZeroBond`, `Asset`, `SwapRate`) is observed at `t`, and the members
of such a node are those its constructor leaves: for an `Asset` the sorted
history and the fixed value of `addFixings`, for a `SwapRate` with an index
the schedule of the index for `t`. -/
def Payoff.anchoredAt (t : α) : Payoff α → Prop
  | .Clone _ x => x.anchoredAt t
  | .FixedAmount _ => True
  | .Pay x _ => x.anchoredAt t
  | .Cash obsTime _ => obsTime = t
  | .ZeroBond obsTime _ _ => obsTime = t
  | .Asset obsTime _ history fixed =>
    obsTime = t ∧ addFixings obsTime [] 0 history = .ok (history, fixed)
  | .AssetBarrierNoHit _ tEnd _ _ _ _ => tEnd = t
  | .VanillaOption obsTime _ _ _ => obsTime = t
  | .Cache x _ _ => x.anchoredAt t
  | .Axpy _ x none => x.anchoredAt t
  | .Axpy _ x (some y) => x.anchoredAt t ∧ y.anchoredAt t
  | .Mult x y => x.anchoredAt t ∧ y.anchoredAt t
  | .Division x y => x.anchoredAt t ∧ y.anchoredAt t
  | .Max x y => x.anchoredAt t ∧ y.anchoredAt t
  | .Min x y => x.anchoredAt t ∧ y.anchoredAt t
  | .Exponential x => x.anchoredAt t
  | .Logarithm x => x.anchoredAt t
  | .Squareroot x => x.anchoredAt t
  | .Logical x y _ => x.anchoredAt t ∧ y.anchoredAt t
  | .IfThenElse x y z => x.anchoredAt t ∧ y.anchoredAt t ∧ z.anchoredAt t
  | .Basket underlyings _ _ => Payoff.anchoredAtList t underlyings
  | .GeneralSwaption obsTime _ _ _ _ _ _ => obsTime = t
  | .SwapRate obsTime floatTimes floatWeights fixedTimes fixedWeights (some index) =>
    obsTime = t ∧ index t = (floatTimes, floatWeights, fixedTimes, fixedWeights)
  | .SwapRate obsTime _ _ _ _ none => obsTime = t
/-- Every listed tree is anchored at `t`. -/
def Payoff.anchoredAtList (t : α) : List (Payoff α) → Prop
  | [] => True
  | x :: rest => x.anchoredAt t ∧ Payoff.anchoredAtList t rest
end

mutual
/-- The tree holds no `AssetBarrierNoHit` node. -/
def Payoff.noBarrier : Payoff α → Bool
  | .Clone _ x => x.noBarrier
  | .FixedAmount _ => true
  | .Pay x _ => x.noBarrier
  | .Cash _ _ => true
  | .ZeroBond _ _ _ => true
  | .Asset _ _ _ _ => true
  | .AssetBarrierNoHit _ _ _ _ _ _ => false
  | .VanillaOption _ _ _ _ => true
  | .Cache x _ _ => x.noBarrier
  | .Axpy _ x none => x.noBarrier
  | .Axpy _ x (some y) => x.noBarrier && y.noBarrier
  | .Mult x y => x.noBarrier && y.noBarrier
  | .Division x y => x.noBarrier && y.noBarrier
  | .Max x y => x.noBarrier && y.noBarrier
  | .Min x y => x.noBarrier && y.noBarrier
  | .Exponential x => x.noBarrier
  | .Logarithm x => x.noBarrier
  | .Squareroot x => x.noBarrier
  | .Logical x y _ => x.noBarrier && y.noBarrier
  | .IfThenElse x y z => x.noBarrier && y.noBarrier && z.noBarrier
  | .Basket underlyings _ _ => Payoff.noBarrierList underlyings
  | .GeneralSwaption _ _ _ _ _ _ _ => true
  | .SwapRate _ _ _ _ _ _ => true
/-- No listed tree holds an `AssetBarrierNoHit` node. -/
def Payoff.noBarrierList : List (Payoff α) → Bool
  | [] => true
  | x :: rest => x.noBarrier && Payoff.noBarrierList rest
end

/-- The reads of the two path objects at the time `t` coincide: numeraire,
zero bonds of every maturity and alias, assets of every alias. -/
def PathType.sameReadsAt (p q : PathType α) (t : α) : Prop :=
  p.numeraire t = q.numeraire t ∧ (∀ T, p.zeroBond t T = q.zeroBond t T) ∧
    (∀ T a, p.zeroBondAlias t T a = q.zeroBondAlias t T a) ∧ ∀ a, p.asset t a = q.asset t a

/-- The data members of `TwoFactorMeanReversionModelT`
(twofactormeanreversionmodelT.hpp, lines 44-55); the curve `futureTS_` is the
function `t ↦ futureTS_->value(t)`. -/
structure TwoFactorMeanReversionModelT (α : Type) where
  futureTS_ : α → α
  times_ : List α
  sigma_ : List α
  eta_ : List α
  a_ : α
  b_ : α
  rho_ : α

/-- The virtual `futureAsset(t, T, Y, Z)` of the base model (lines 130-133). -/
def TwoFactorMeanReversionModelT.futureAssetYZ (_m : TwoFactorMeanReversionModelT α)
    (_t _T _Y _Z : α) : Except String α :=
  .error "futureAsset() should be overloaded in derived classes"

/-- The virtual `varianceFuture(startTime, expiryTime, settlementTime)` of the
base model (lines 136-139). -/
def TwoFactorMeanReversionModelT.varianceFuture (_m : TwoFactorMeanReversionModelT α)
    (_startTime _expiryTime _settlementTime : α) : Except String α :=
  .error "varianceFuture() should be overloaded in derived classes"

/-- The virtual `averageFuture(settlementTimes, settlementWeights)` of the base
model (lines 143-146). -/
def TwoFactorMeanReversionModelT.averageFuture (_m : TwoFactorMeanReversionModelT α)
    (_settlementTimes _settlementWeights : List α) : Except String α :=
  .error "averageFuture() should be overloaded in derived classes"

/-- The virtual `varianceAverageFuture(expiryTime, settlementTimes,
settlementWeights)` of the base model (lines 148-151). -/
def TwoFactorMeanReversionModelT.varianceAverageFuture (_m : TwoFactorMeanReversionModelT α)
    (_expiryTime : α) (_settlementTimes _settlementWeights : List α) : Except String α :=
  .error "varianceAverageFuture() should be overloaded in derived classes"

/-- The virtual `vanillaOption(expiryTime, settlementTimes, settlementWeights,
strike, callOrPut)` of the base model (lines 153-156). -/
def TwoFactorMeanReversionModelT.vanillaOption (_m : TwoFactorMeanReversionModelT α)
    (_expiryTime : α) (_settlementTimes _settlementWeights : List α) (_strike : α)
    (_callOrPut : Int) : Except String α :=
  .error "vanillaOption() should be overloaded in derived classes"

/-- The member `asset(t, X, alias)` (line 208), which calls the virtual
`futureAsset(t, t, X[0], X[1])`; on the model itself, not a derived class, that
is the member above. -/
def TwoFactorMeanReversionModelT.asset (m : TwoFactorMeanReversionModelT α) (t : α)
    (X : List α) (_alias : String) : Except String α :=
  m.futureAssetYZ t t (numAt X 0) (numAt X 1)

/-- The member `futureAsset(t, T, X, alias)` (line 209). -/
def TwoFactorMeanReversionModelT.futureAsset (m : TwoFactorMeanReversionModelT α) (t T : α)
    (X : List α) (_alias : String) : Except String α :=
  m.futureAssetYZ t T (numAt X 0) (numAt X 1)

/-- The data members of `QuasiGaussianModelT` (quasigaussianmodelT.hpp, lines
55-83) that `drift`, `shortRate` and `truncate` read.  The curve
`termStructure_` is the function `t ↦ termStructure_->forwardRate(t, t,
Continuous)`.  The member function `sigma_xT(t, x, y)` (lines 431-450) reads
the curve and the matrices `DfT_`, `HHfInv_` the constructor factors with
routines outside these sources; it is the function field `sigma_xT`. -/
structure QuasiGaussianModelT (α : Type) where
  termStructure_ : α → α
  d_ : Nat
  chi_ : List α
  theta_ : α
  z0_ : α
  procLimit_ : List α
  sigma_xT : α → List α → List (List α) → List (List α)

/-- The container `QuasiGaussianModelT::State` (lines 86-117). -/
structure QuasiGaussianModelT.State (α : Type) where
  x : List α
  y : List (List α)
  z : α
  s : α

/-- The constructor `State(X, d)` (lines 93-103): `y` is read row-wise. -/
def QuasiGaussianModelT.State.ofVec (X : List α) (d : Nat) :
    Except String (QuasiGaussianModelT.State α) :=
  if ¬ X.length = d + d * d + 1 + 1 then
    .error "TemplateQuasiGaussianModel::State Constructor: Dimensions mismatch."
  else
    .ok { x := (List.range d).map fun k => numAt X k
          y := (List.range d).map fun i => (List.range d).map fun j => numAt X (d + i * d + j)
          z := numAt X (d + d * d)
          s := numAt X (d + d * d + 1) }

/-- The member `size()` (line 465). -/
def QuasiGaussianModelT.size (m : QuasiGaussianModelT α) : Nat := m.d_ + m.d_ * m.d_ + 1 + 1

/-- The member `shortRate(t, x)` (lines 384-388). -/
def QuasiGaussianModelT.shortRate (m : QuasiGaussianModelT α) (t : α) (x : List α) : α :=
  (List.range m.d_).foldl (fun r k => r + numAt x k) (m.termStructure_ t)

/-- The member `shortRate(t0, dt, X0, X1)` (line 392). -/
def QuasiGaussianModelT.shortRatePeriod (_m : QuasiGaussianModelT α) (_t0 _dt : α)
    (_X0 _X1 : List α) : Except String α :=
  .error "QuasiGaussianModelT: shortRate not implemented"

/-- The member `drift(t, X)` (lines 481-508).  The vector `a` is written once
per index, in the order of the indices: the entries `a[k]` of the x-block, the
entries `a[d + i*d + j]` of the y-block row by row, then the z- and the
s-entry. -/
def QuasiGaussianModelT.drift (m : QuasiGaussianModelT α) (t : α) (X : List α) :
    Except String (List α) :=
  match QuasiGaussianModelT.State.ofVec X m.d_ with
  | .error e => .error e
  | .ok state =>
    let xBlock := (List.range m.d_).map fun k =>
      (List.range m.d_).foldl (fun a j => a + numAt (rowAt state.y k) j)
        (-(numAt m.chi_ k) * numAt state.x k)
    let sigmaxT := m.sigma_xT t state.x state.y
    let yBlock := (List.range m.d_).flatMap fun i => (List.range m.d_).map fun j =>
      (List.range m.d_).foldl
          (fun a k => a + numAt (rowAt sigmaxT i) k * numAt (rowAt sigmaxT k) j) 0
        * (if state.z > 0 then state.z else 0)
        - (numAt m.chi_ i + numAt m.chi_ j) * numAt (rowAt state.y i) j
    .ok (xBlock ++ yBlock ++ [m.theta_ * (m.z0_ - state.z), m.shortRate t state.x])

/-- The vector field of the file documentation (lines 13-16) as the
specification reads it: `y*1 - chi.x` for `x`,
`z^+ * (sigma_x^T sigma_x)[i][j] - (chi_i + chi_j) * y[i][j]` for `y` with
`(sigma_x^T sigma_x)[i][j] = sum_k sigma_xT[i][k] * sigma_xT[j][k]`,
`theta * (z0 - z)` for `z` and the short rate for `s`. -/
def QuasiGaussianModelT.documentedDrift (m : QuasiGaussianModelT α) (t : α) (X : List α) :
    Except String (List α) :=
  match QuasiGaussianModelT.State.ofVec X m.d_ with
  | .error e => .error e
  | .ok state =>
    let xBlock := (List.range m.d_).map fun k =>
      ((List.range m.d_).map fun j => numAt (rowAt state.y k) j).sum
        - numAt m.chi_ k * numAt state.x k
    let sigmaxT := m.sigma_xT t state.x state.y
    let yBlock := (List.range m.d_).flatMap fun i => (List.range m.d_).map fun j =>
      (if state.z > 0 then state.z else 0)
          * ((List.range m.d_).map fun k =>
              numAt (rowAt sigmaxT i) k * numAt (rowAt sigmaxT j) k).sum
        - (numAt m.chi_ i + numAt m.chi_ j) * numAt (rowAt state.y i) j
    .ok (xBlock ++ yBlock ++ [m.theta_ * (m.z0_ - state.z), m.shortRate t state.x])

/-- The two statements `if (X[k] < lo) { X[k] = lo; trunc = true; }
if (X[k] > hi) { X[k] = hi; trunc = true; }` of `truncate` (lines 640-641,
646-647, 651-652) on the pair of `trunc` and `X`. -/
def clampEntry (lo hi : α) (st : Bool × List α) (k : Nat) : Bool × List α :=
  let st1 := if numAt st.2 k < lo then (true, st.2.set k lo) else st
  if numAt st1.2 k > hi then (true, st1.2.set k hi) else st1

/-- The member `truncate(t, X)` (lines 635-656): the returned flag and the
content of `X` afterwards. -/
def QuasiGaussianModelT.truncate (m : QuasiGaussianModelT α) (_t : α) (X : List α) :
    Bool × List α :=
  let st : Bool × List α := (false, X)
  let st :=
    if numAt m.procLimit_ 2 > 0 then
      (List.range m.d_).foldl (clampEntry (-(numAt m.procLimit_ 2)) (numAt m.procLimit_ 2)) st
    else st
  let st :=
    if numAt m.procLimit_ 1 > 0 then
      ((List.range (m.d_ * m.d_)).map (· + m.d_)).foldl
        (clampEntry (-(numAt m.procLimit_ 1)) (numAt m.procLimit_ 1)) st
    else st
  if numAt m.procLimit_ 0 > 0 then
    clampEntry 0 (numAt m.procLimit_ 0) st (m.d_ + m.d_ * m.d_)
  else st

mutual
/-- The tree with the memo fields `lastPath_`, `lastPayoff_` of every `Cache`
node reset: two trees with the same image agree in every field of every node
but these. -/
def Payoff.eraseMemo : Payoff α → Payoff α
  | .Clone t x => .Clone t x.eraseMemo
  | .FixedAmount amount => .FixedAmount amount
  | .Pay x payTime => .Pay x.eraseMemo payTime
  | .Cash obsTime payTime => .Cash obsTime payTime
  | .ZeroBond obsTime payTime alias_ => .ZeroBond obsTime payTime alias_
  | .Asset obsTime alias_ history fixed => .Asset obsTime alias_ history fixed
  | .AssetBarrierNoHit tStart tEnd down up side alias_ =>
    .AssetBarrierNoHit tStart tEnd down up side alias_
  | .VanillaOption obsTime alias_ strike callOrPut =>
    .VanillaOption obsTime alias_ strike callOrPut
  | .Cache x _ _ => .Cache x.eraseMemo none 0
  | .Axpy a x none => .Axpy a x.eraseMemo none
  | .Axpy a x (some y) => .Axpy a x.eraseMemo (some y.eraseMemo)
  | .Mult x y => .Mult x.eraseMemo y.eraseMemo
  | .Division x y => .Division x.eraseMemo y.eraseMemo
  | .Max x y => .Max x.eraseMemo y.eraseMemo
  | .Min x y => .Min x.eraseMemo y.eraseMemo
  | .Exponential x => .Exponential x.eraseMemo
  | .Logarithm x => .Logarithm x.eraseMemo
  | .Squareroot x => .Squareroot x.eraseMemo
  | .Logical x y op => .Logical x.eraseMemo y.eraseMemo op
  | .IfThenElse x y z => .IfThenElse x.eraseMemo y.eraseMemo z.eraseMemo
  | .Basket underlyings weights rainbow =>
    .Basket (Payoff.eraseMemoList underlyings) weights rainbow
  | .GeneralSwaption obsTime floatTimes floatWeights fixedTimes fixedWeights strikeRate
      payOrRec =>
    .GeneralSwaption obsTime floatTimes floatWeights fixedTimes fixedWeights strikeRate payOrRec
  | .SwapRate obsTime floatTimes floatWeights fixedTimes fixedWeights index =>
    .SwapRate obsTime floatTimes floatWeights fixedTimes fixedWeights index
/-- The listed trees with their memo fields reset. -/
def Payoff.eraseMemoList : List (Payoff α) → List (Payoff α)
  | [] => []
  | x :: rest => x.eraseMemo :: Payoff.eraseMemoList rest
end

mutual
/-- The tree holds no `Basket` node with `rainbow_` set. -/
def Payoff.noRainbow : Payoff α → Bool
  | .Clone _ x => x.noRainbow
  | .FixedAmount _ => true
  | .Pay x _ => x.noRainbow
  | .Cash _ _ => true
  | .ZeroBond _ _ _ => true
  | .Asset _ _ _ _ => true
  | .AssetBarrierNoHit _ _ _ _ _ _ => true
  | .VanillaOption _ _ _ _ => true
  | .Cache x _ _ => x.noRainbow
  | .Axpy _ x none => x.noRainbow
  | .Axpy _ x (some y) => x.noRainbow && y.noRainbow
  | .Mult x y => x.noRainbow && y.noRainbow
  | .Division x y => x.noRainbow && y.noRainbow
  | .Max x y => x.noRainbow && y.noRainbow
  | .Min x y => x.noRainbow && y.noRainbow
  | .Exponential x => x.noRainbow
  | .Logarithm x => x.noRainbow
  | .Squareroot x => x.noRainbow
  | .Logical x y _ => x.noRainbow && y.noRainbow
  | .IfThenElse x y z => x.noRainbow && y.noRainbow && z.noRainbow
  | .Basket underlyings _ rainbow => !rainbow && Payoff.noRainbowList underlyings
  | .GeneralSwaption _ _ _ _ _ _ _ => true
  | .SwapRate _ _ _ _ _ _ => true
/-- No listed tree holds a rainbow `Basket` node. -/
def Payoff.noRainbowList : List (Payoff α) → Bool
  | [] => true
  | x :: rest => x.noRainbow && Payoff.noRainbowList rest
end

/-- The draw `rsg_->nextSequence().value` of the sliced simulation (lines 403,
404, 427) on the generator `rsg_`; see `getNextBrownianIncrements` for the
parameter `rsg`. -/
def MCSimulationT.nextSequence (rsg : Nat → Nat → Nat → List α) (sim : MCSimulationT α) :
    Except String (List α) × MCSimulationT α :=
  match sim.rsg_ with
  | none => (.error "rsg_ is not initialised", sim)
  | some g =>
    (.ok (rsg g.dimension g.seed g.calls), { sim with rsg_ := some { g with calls := g.calls + 1 } })

/-- The check `simTimes_[k] == obsTimes_[k]` for every `k` of
`prepareForSlicedSimulation` (lines 366-367). -/
def sameTimes : List α → List α → Bool
  | a :: as, b :: bs => decide (a = b) && sameTimes as bs
  | _, _ => true

/-- The routine `prepareForSlicedSimulation()` (lines 362-376). -/
def MCSimulationT.prepareForSlicedSimulation (rsg : Nat → Nat → Nat → List α)
    (sim : MCSimulationT α) : Except String Unit × MCSimulationT α :=
  if ¬ sim.simTimes_.length = sim.obsTimes_.length then
    (.error "TemplateMCSimulation: simTimes_ == obsTimes required", sim)
  else if !sameTimes sim.simTimes_ sim.obsTimes_ then
    (.error "TemplateMCSimulation: simTimes_ == obsTimes required", sim)
  else if sim.storeBrownians_ then
    forLoop (fun k s => MCSimulationT.storeIncrements rsg k s) (List.range sim.dW_.length)
      sim.initialiseRSG
  else
    (.ok (), { sim with
      rsg_ := some { dimension := sim.process_.factors, seed := sim.seed_, calls := 0 }
      dW_ := sim.dW_.set 0 ((List.range 2).map fun k => rowAt (rowAt sim.dW_ 0) k) })

/-- The locals `X0T`, `X1T`, `X12T`, `dWT` of the Richardson branch of
`simulate(idx)` (lines 391-395), which live across the passes of its loop,
together with the simulation object. -/
structure SliceLoopState (α : Type) where
  X0T : List α
  X1T : List α
  X12T : List α
  dWT : List α
  sim : MCSimulationT α

/-- The two increments `*dW1`, `*dW2` of a pass of the Richardson loop of
`simulate(idx)` (lines 397-407): the stored ones of the path, or two new draws
written to `dW_[0][0]` and `dW_[0][1]`. -/
def MCSimulationT.sliceIncrements (rsg : Nat → Nat → Nat → List α) (sim : MCSimulationT α)
    (idx path : Nat) : Except String (List α × List α) × MCSimulationT α :=
  if sim.storeBrownians_ then
    (.ok (rowAt (rowAt sim.dW_ path) (2 * (idx - 1)),
      rowAt (rowAt sim.dW_ path) (2 * (idx - 1) + 1)), sim)
  else
    match sim.nextSequence rsg with
    | (.error e, s1) => (.error e, s1)
    | (.ok v1, s1) =>
      match ({ s1 with dW_ := s1.dW_.set 0 ((rowAt s1.dW_ 0).set 0 v1) }).nextSequence rsg with
      | (.error e, s2) => (.error e, s2)
      | (.ok v2, s2) =>
        (.ok (rowAt ((rowAt s2.dW_ 0).set 1 v2) 0, rowAt ((rowAt s2.dW_ 0).set 1 v2) 1),
          { s2 with dW_ := s2.dW_.set 0 ((rowAt s2.dW_ 0).set 1 v2) })

/-- One pass of the Richardson loop of `simulate(idx)` (lines 396-418) for the
path `path`; `dt` is `obsTimes_[idx] - obsTimes_[idx-1]`. -/
def MCSimulationT.sliceRichardsonStep (rsg : Nat → Nat → Nat → List α) (sqrt : α → α)
    (idx : Nat) (dt : α) (path : Nat) (c : SliceLoopState α) :
    Except String Unit × SliceLoopState α :=
  match c.sim.sliceIncrements rsg idx path with
  | (.error e, s) => (.error e, { c with sim := s })
  | (.ok dW, s) =>
    let dWT := (List.range c.dWT.length).map fun k => (numAt dW.1 k + numAt dW.2 k) / sqrt 2
    let X1T := s.process_.evolve (numAt s.obsTimes_ (idx - 1))
      (rowAt (rowAt s.X_ path) (idx - 1)) dt dWT c.X1T
    let X12T := s.process_.evolve (numAt s.obsTimes_ (idx - 1))
      (rowAt (rowAt s.X_ path) (idx - 1)) (dt / 2) dW.1 c.X12T
    let X0T := s.process_.evolve (numAt s.obsTimes_ (idx - 1) + dt / 2) X12T (dt / 2) dW.2
      c.X0T
    let X1T := (List.range X1T.length).map fun k => 2 * numAt X0T k - numAt X1T k
    let X1T := (s.process_.truncate (numAt s.obsTimes_ idx) X1T).2
    let row := (List.range X1T.length).foldl (fun r k => r.set k (numAt X1T k))
      (rowAt (rowAt s.X_ path) idx)
    (.ok (), { X0T := X0T, X1T := X1T, X12T := X12T, dWT := dWT
               sim := { s with X_ := s.X_.set path ((rowAt s.X_ path).set idx row) } })

/-- One pass of the Euler loop of `simulate(idx)` (lines 422-432) for the path
`path`. -/
def MCSimulationT.sliceEulerStep (rsg : Nat → Nat → Nat → List α) (idx : Nat) (dt : α)
    (path : Nat) (sim : MCSimulationT α) : Except String Unit × MCSimulationT α :=
  match (if sim.storeBrownians_ then
      ((.ok (rowAt (rowAt sim.dW_ path) (idx - 1)), sim) :
        Except String (List α) × MCSimulationT α)
    else
      match sim.nextSequence rsg with
      | (.error e, s1) => (.error e, s1)
      | (.ok v, s1) =>
        (.ok (rowAt ((rowAt s1.dW_ 0).set 0 v) 0),
          { s1 with dW_ := s1.dW_.set 0 ((rowAt s1.dW_ 0).set 0 v) })) with
  | (.error e, s) => (.error e, s)
  | (.ok dW, s) =>
    (.ok (), { s with
      X_ := s.X_.set path ((rowAt s.X_ path).set idx
        (s.process_.evolve (numAt s.obsTimes_ (idx - 1)) (rowAt (rowAt s.X_ path) (idx - 1)) dt
          dW (rowAt (rowAt s.X_ path) idx))) })

/-- The sliced routine `simulate(idx, clearInterpolation)` (lines 378-433);
the default of `clearInterpolation` is `false`. -/
def MCSimulationT.simulateIdx (rsg : Nat → Nat → Nat → List α) (sqrt : α → α)
    (sim : MCSimulationT α) (idx : Nat) (clearInterpolation : Bool) :
    Except String Unit × MCSimulationT α :=
  let sim1 := if clearInterpolation then { sim with addObsTimes_ := [], Y_ := [] } else sim
  if ¬ idx < sim1.obsTimes_.length then (.error "idx<obsTimes_.size() required", sim1)
  else if idx = 0 then
    (.ok (), { sim1 with X_ := sim1.X_.map fun row => row.set 0 sim1.process_.initialValues })
  else
    let dt := numAt sim1.obsTimes_ idx - numAt sim1.obsTimes_ (idx - 1)
    if sim1.richardsonExtrapolation_ then
      match forLoop (MCSimulationT.sliceRichardsonStep rsg sqrt idx dt)
          (List.range sim1.X_.length)
          { X0T := sim1.process_.initialValues
            X1T := List.replicate sim1.process_.initialValues.length 0
            X12T := List.replicate sim1.process_.initialValues.length 0
            dWT := List.replicate sim1.process_.factors 0
            sim := sim1 } with
      | (r, c) => (r, c.sim)
    else forLoop (MCSimulationT.sliceEulerStep rsg idx dt) (List.range sim1.X_.length) sim1

/-- The factor of one sub-interval of the barrier loop as the specification
words it: one factor `1 - exp(-2 ln(B/S1) ln(B/S2) / variance)` for each
active barrier side `B`. -/
def barrierFactorSpec (exp log : α → α) (downBarrier upBarrier downOrUpOrBoth S1 S2 variance : α) :
    α :=
  (if downOrUpOrBoth ≤ 0 then
      1 - exp (-2 * log (downBarrier / S1) * log (downBarrier / S2) / variance)
    else 1)
    * (if downOrUpOrBoth ≥ 0 then
        1 - exp (-2 * log (upBarrier / S1) * log (upBarrier / S2) / variance)
      else 1)

/-- The product over the sub-intervals between consecutive listed nodes of
`factor` at the asset values and the variance
`(sigma1^2 + sigma2^2) * (t2 - t1) / 2` of the sub-interval. -/
def noHitProduct (factor : α → α → α → α) (S sigma : α → α) : List α → α
  | t1 :: t2 :: rest =>
    factor (S t1) (S t2) ((sigma t1 * sigma t1 + sigma t2 * sigma t2) * (t2 - t1) / 2)
      * noHitProduct factor S sigma (t2 :: rest)
  | _ => 1

/-- The entries of `X` that `truncate` visits, in the order of the visits,
each with the lower and the upper bound it is clamped to. -/
def QuasiGaussianModelT.truncateOps (m : QuasiGaussianModelT α) : List (Nat × α × α) :=
  (if numAt m.procLimit_ 2 > 0 then
      (List.range m.d_).map fun k => (k, -(numAt m.procLimit_ 2), numAt m.procLimit_ 2)
    else [])
  ++ (if numAt m.procLimit_ 1 > 0 then
      ((List.range (m.d_ * m.d_)).map (· + m.d_)).map fun k =>
        (k, -(numAt m.procLimit_ 1), numAt m.procLimit_ 1)
    else [])
  ++ (if numAt m.procLimit_ 0 > 0 then [(m.d_ + m.d_ * m.d_, 0, numAt m.procLimit_ 0)] else [])

/-- The object `s` is `sim` up to the interpolation cache and up to the
calibration times and the table of the numeraire adjuster. -/
def MCSimulationT.numeraireFrame (sim s : MCSimulationT α) : Prop :=
  ∃ T Y nt na, s = { sim with
    addObsTimes_ := T
    Y_ := Y
    numeraireObservTimes_ := nt
    numeraireAdjuster_ := na }

/-- The object `s` is `sim` up to the interpolation cache and up to the
calibration times and the table of the zero-bond adjuster. -/
def MCSimulationT.zcbFrame (sim s : MCSimulationT α) : Prop :=
  ∃ T Y zt zo za, s = { sim with
    addObsTimes_ := T
    Y_ := Y
    zcbObservTimes_ := zt
    zcbOffsetTimes_ := zo
    zcbAdjuster_ := za }

/-- The object `s` is `sim` up to the interpolation cache and up to the
calibration times, the alias map and the table of the asset adjuster. -/
def MCSimulationT.assetFrame (sim s : MCSimulationT α) : Prop :=
  ∃ T Y ai at_ aa, s = { sim with
    addObsTimes_ := T
    Y_ := Y
    assetIndex_ := ai
    assetObservTimes_ := at_
    assetAdjuster_ := aa }

mutual
/-- The node `y` has the fields of the node `x`, and so has every node below
it, apart from the memo fields `lastPath_`, `lastPayoff_` of `Cache` nodes and
the order of the `underlyings_` of `Basket` nodes with `rainbow_` set: the
first argument is `x`, the second is `y`. -/
def Payoff.sameFrame : Payoff α → Payoff α → Prop
  | .FixedAmount amount, w =>
    w = .FixedAmount amount
  | .Cash obsTime payTime, w =>
    w = .Cash obsTime payTime
  | .ZeroBond obsTime payTime alias_, w =>
    w = .ZeroBond obsTime payTime alias_
  | .Asset obsTime alias_ history fixed, w =>
    w = .Asset obsTime alias_ history fixed
  | .AssetBarrierNoHit tStart tEnd down up side alias_, w =>
    w = .AssetBarrierNoHit tStart tEnd down up side alias_
  | .VanillaOption obsTime alias_ strike callOrPut, w =>
    w = .VanillaOption obsTime alias_ strike callOrPut
  | .GeneralSwaption obsTime floatTimes floatWeights fixedTimes fixedWeights strikeRate payOrRec, w =>
    w = .GeneralSwaption obsTime floatTimes floatWeights fixedTimes fixedWeights strikeRate payOrRec
  | .SwapRate obsTime floatTimes floatWeights fixedTimes fixedWeights index, w =>
    w = .SwapRate obsTime floatTimes floatWeights fixedTimes fixedWeights index
  | .Clone t x, w =>
    ∃ x1, w = .Clone t x1 ∧ Payoff.sameFrame x x1
  | .Pay x payTime, w =>
    ∃ x1, w = .Pay x1 payTime ∧ Payoff.sameFrame x x1
  | .Axpy a x none, w =>
    ∃ x1, w = .Axpy a x1 none ∧ Payoff.sameFrame x x1
  | .Axpy a x (some y), w =>
    ∃ x1 y1, w = .Axpy a x1 (some y1) ∧ Payoff.sameFrame x x1 ∧ Payoff.sameFrame y y1
  | .Mult x y, w =>
    ∃ x1 y1, w = .Mult x1 y1 ∧ Payoff.sameFrame x x1 ∧ Payoff.sameFrame y y1
  | .Division x y, w =>
    ∃ x1 y1, w = .Division x1 y1 ∧ Payoff.sameFrame x x1 ∧ Payoff.sameFrame y y1
  | .Max x y, w =>
    ∃ x1 y1, w = .Max x1 y1 ∧ Payoff.sameFrame x x1 ∧ Payoff.sameFrame y y1
  | .Min x y, w =>
    ∃ x1 y1, w = .Min x1 y1 ∧ Payoff.sameFrame x x1 ∧ Payoff.sameFrame y y1
  | .Exponential x, w =>
    ∃ x1, w = .Exponential x1 ∧ Payoff.sameFrame x x1
  | .Logarithm x, w =>
    ∃ x1, w = .Logarithm x1 ∧ Payoff.sameFrame x x1
  | .Squareroot x, w =>
    ∃ x1, w = .Squareroot x1 ∧ Payoff.sameFrame x x1
  | .Logical x y op, w =>
    ∃ x1 y1, w = .Logical x1 y1 op ∧ Payoff.sameFrame x x1 ∧ Payoff.sameFrame y y1
  | .IfThenElse x y z, w =>
    ∃ x1 y1 z1, w = .IfThenElse x1 y1 z1 ∧ Payoff.sameFrame x x1 ∧ Payoff.sameFrame y y1 ∧ Payoff.sameFrame z z1
  | .Cache x _ _, w =>
    ∃ x1 lastPath1 lastPayoff1, w = .Cache x1 lastPath1 lastPayoff1 ∧ Payoff.sameFrame x x1
  | .Basket underlyings weights true, w =>
    ∃ us1 l, w = .Basket us1 weights true ∧ List.Perm l us1
      ∧ Payoff.sameFrameList underlyings l
  | .Basket underlyings weights false, w =>
    ∃ us1, w = .Basket us1 weights false ∧ Payoff.sameFrameList underlyings us1
/-- The listed nodes have, one by one, the fields of the nodes of the first
list in the sense of `Payoff.sameFrame`. -/
def Payoff.sameFrameList : List (Payoff α) → List (Payoff α) → Prop
  | [], l => l = []
  | x :: rest, l => ∃ x1 rest1, l = x1 :: rest1 ∧ Payoff.sameFrame x x1
      ∧ Payoff.sameFrameList rest rest1
end

/-- The adjustment of the process limits at the end of `checkModelParameters`
(lines 197-200): three entries `[z-limit, y-limit, x-limit]`, a missing or a
negative entry becomes 0, which stands for no limit. -/
def adjustProcLimit (procLimit_ : List α) : List α :=
  (List.range 3).map fun k =>
    if k < procLimit_.length then (if numAt procLimit_ k < 0 then 0 else numAt procLimit_ k)
    else 0

/-- One Richardson step as the specification words it: with the full step
`X_full = evolve(t, X0, dt, (dWa + dWb) / sqrt(2))` and the two half steps
`X_half = evolve(t + dt/2, evolve(t, X0, dt/2, dWa), dt/2, dWb)` the result is
`truncate(t + dt, 2 * X_half - X_full)`; `ev` is `evolve` as a function of its
four inputs and `trunc` the vector `truncate` leaves. -/
def richardsonStepSpec (ev : α → List α → α → List α → List α) (trunc : α → List α → List α)
    (sqrt : α → α) (t : α) (X0 : List α) (dt : α) (dWa dWb : List α) : List α :=
  trunc (t + dt)
    (List.zipWith (fun h f => 2 * h - f)
      (ev (t + dt / 2) (ev t X0 (dt / 2) dWa) (dt / 2) dWb)
      (ev t X0 dt (List.zipWith (fun a b => (a + b) / sqrt 2) dWa dWb)))

/-- Every cached time of `state` is a time the cache was extended for: it is
no observation time and lies between the first and the last observation time
(lines 459-463 return before the cache is looked at otherwise). -/
def MCSimulationT.cacheOffGrid (sim : MCSimulationT α) : Prop :=
  ∀ u ∈ sim.addObsTimes_,
    ¬ u = numAt sim.obsTimes_ (TemplateAuxilliaries.idx sim.obsTimes_ u)
      ∧ ¬ u < numAt sim.obsTimes_ 0
      ∧ ¬ u > numAt sim.obsTimes_ (sim.obsTimes_.length - 1)

/-- The arguments of the constructor of `QuasiGaussianModelT` (lines 303-324)
as far as `checkModelParameters` and `rescaleAlphaB` read them; `discount` is
`termStructure_->discount`. -/
structure QuasiGaussianArguments (α : Type) where
  discount : α → α
  d : Nat
  times : List α
  lambda : List (List α)
  alpha : List (List α)
  b : List (List α)
  eta : List α
  delta : List α
  chi : List α
  Gamma : List (List α)
  theta : α
  procLimit : List α
  useSwapRateScaling : Bool

/-- A sequence of `QL_REQUIRE(condition, message)` statements: the first
condition that fails raises its message. -/
def requireAll : List (Bool × String) → Except String Unit
  | [] => .ok ()
  | (c, msg) :: rest => if c then requireAll rest else .error msg

/-- The checks of `checkModelParameters(throwException = true)` (lines 123-196)
in the order of the source, each with the condition it requires. -/
def QuasiGaussianArguments.checks (p : QuasiGaussianArguments α) : List (Bool × String) :=
  [(decide (¬ p.d < 1), "QuasiGaussianModel number of factors larger zero required."),
   (decide (¬ p.times.length < 1), "QuasiGaussianModel non-empty time-grid required."),
   (decide (p.lambda.length = p.d), "QuasiGaussianModel wrong lambda dimension."),
   (decide (p.alpha.length = p.d), "QuasiGaussianModel wrong alpha dimension."),
   (decide (p.b.length = p.d), "QuasiGaussianModel wrong b dimension.")]
  ++ ((List.range p.d).flatMap fun k =>
    [(decide ((rowAt p.lambda k).length = p.times.length),
        "QuasiGaussianModel wrong lambda time dimension."),
     (decide ((rowAt p.alpha k).length = p.times.length),
        "QuasiGaussianModel wrong alpha time dimension."),
     (decide ((rowAt p.b k).length = p.times.length),
        "QuasiGaussianModel wrong b time dimension.")])
  ++ [(decide (p.eta.length = p.times.length), "QuasiGaussianModel wrong eta time dimension."),
      (decide (p.delta.length = p.d), "QuasiGaussianModel wrong delta dimension."),
      (decide (p.chi.length = p.d), "QuasiGaussianModel wrong chi i-dimension."),
      (decide (p.Gamma.length = p.d), "QuasiGaussianModel wrong Gamma j-dimension.")]
  ++ ((List.range p.d).map fun k =>
    (decide ((rowAt p.Gamma k).length = p.d), "QuasiGaussianModel wrong Gamma dimension."))
  ++ ((List.range (p.times.length - 1)).map fun k =>
    (decide (¬ numAt p.times k ≥ numAt p.times (k + 1)),
      "QuasiGaussianModel ascending time-grid required."))
  ++ ((List.range p.times.length).flatMap fun j =>
    ((List.range p.d).flatMap fun i =>
      [(decide (¬ numAt (rowAt p.lambda i) j < 0), "QuasiGaussianModel lambda>=0 required."),
       (decide (¬ numAt (rowAt p.alpha i) j < 0), "QuasiGaussianModel alpha>=0 required."),
       (decide (¬ numAt (rowAt p.b i) j < 0), "QuasiGaussianModel b>=0 required.")])
    ++ [(decide (¬ numAt p.eta j < 0), "QuasiGaussianModel eta>=0 required.")])
  ++ [(decide (¬ numAt p.delta 0 ≤ 0), "QuasiGaussianModel delta>0 required."),
      (decide (¬ numAt p.chi 0 ≤ 0), "QuasiGaussianModel chi>0 required.")]
  ++ ((List.range (p.d - 1)).flatMap fun k =>
    [(decide (¬ numAt p.delta k ≥ numAt p.delta (k + 1)),
        "QuasiGaussianModel ascending delta values required."),
     (decide (¬ numAt p.chi k ≥ numAt p.chi (k + 1)),
        "QuasiGaussianModel ascending chi values required.")])
  ++ ((List.range p.d).flatMap fun i =>
    ((List.range (p.d - i)).map (· + i)).flatMap fun j =>
      [(decide (i = j → numAt (rowAt p.Gamma i) j = 1),
          "QuasiGaussianModel Gamma[i][i]=1 required."),
       (decide (numAt (rowAt p.Gamma i) j = numAt (rowAt p.Gamma j) i),
          "QuasiGaussianModel Gamma[i][j]=Gamma[j][i] required.")])
  ++ [(decide (¬ p.theta ≤ 0), "QuasiGaussianModel theta>0 required.")]

/-- The member `checkModelParameters(throwException = true)` (lines 123-203):
the error of the first check that fails, else the adjusted `procLimit_`.  The
member `z0_` is 1 by the constructor, which passes the check of line 196. -/
def QuasiGaussianArguments.checkModelParameters (p : QuasiGaussianArguments α) :
    Except String (List α) :=
  match requireAll p.checks with
  | .error e => .error e
  | .ok _ => .ok (adjustProcLimit p.procLimit)

/-- The read `v[i]` of a `std::vector` with the index checked: a read out of
the bounds of the vector, undefined in the source, is the error here. -/
def checkedAt (v : List α) (i : Nat) : Except String α :=
  if i < v.length then .ok (numAt v i) else .error "vector index out of range"

/-- The formula `G(i, t, T)` (line 381), which reads `chi_[i]`. -/
def QuasiGaussianArguments.G (exp : α → α) (p : QuasiGaussianArguments α) (i : Nat) (t T : α) :
    Except String α :=
  match checkedAt p.chi i with
  | .error e => .error e
  | .ok c => .ok ((1 - exp (-c * (T - t))) / c)

/-- The loop of `zcbGradient` (line 253) over the listed indices. -/
def QuasiGaussianArguments.zcbGradientLoop (exp : α → α) (p : QuasiGaussianArguments α)
    (T : α) : List Nat → Except String (List α)
  | [] => .ok []
  | k :: rest =>
    match p.G exp k 0 T with
    | .error e => .error e
    | .ok g =>
      match QuasiGaussianArguments.zcbGradientLoop exp p T rest with
      | .error e => .error e
      | .ok gs => .ok (-(p.discount T) * g :: gs)

/-- The member `zcbGradient(T)` (lines 250-255): a vector of `d_` entries. -/
def QuasiGaussianArguments.zcbGradient (exp : α → α) (p : QuasiGaussianArguments α) (T : α) :
    Except String (List α) :=
  p.zcbGradientLoop exp T (List.range p.d)

/-- The second loop of `swapGrad` (lines 271-275) over the listed period
starts `Ti`. -/
def QuasiGaussianArguments.swapGradLoop (exp : α → α) (p : QuasiGaussianArguments α)
    (TN dSdAnnuity : α) : List α → List α → Except String (List α)
  | [], grad => .ok grad
  | Ti :: rest, grad =>
    match p.zcbGradient exp (if Ti + 1 > TN then TN else Ti + 1) with
    | .error e => .error e
    | .ok gZCB =>
      QuasiGaussianArguments.swapGradLoop exp p TN dSdAnnuity rest
        ((List.range grad.length).map fun k =>
          numAt grad k
            + dSdAnnuity * ((if Ti + 1 > TN then TN else Ti + 1) - Ti) * numAt gZCB k)

/-- The member `swapGrad(T0, TN, swapRate)` (lines 258-277): the gradient and
the swap rate.  The loops `for (Ti = T0; Ti < TN; Ti += 1.0)` run over the
period starts `T0 + m` for the integers `0 <= m < TN - T0`. -/
def QuasiGaussianArguments.swapGrad [FloorRing α] (exp : α → α)
    (p : QuasiGaussianArguments α) (T0 TN : α) : Except String (List α × α) :=
  let starts := (List.range ⌈TN - T0⌉₊).map fun m => T0 + (m : α)
  let den := starts.foldl (fun den Ti =>
    den + ((if Ti + 1 > TN then TN else Ti + 1) - Ti)
      * p.discount (if Ti + 1 > TN then TN else Ti + 1)) 0
  let swapRate := (p.discount T0 - p.discount TN) / den
  match p.zcbGradient exp T0 with
  | .error e => .error e
  | .ok grad =>
    match p.zcbGradient exp TN with
    | .error e => .error e
    | .ok gZCB =>
      match p.swapGradLoop exp TN (-swapRate / den) starts
          ((List.range grad.length).map fun k => (numAt grad k - numAt gZCB k) / den) with
      | .error e => .error e
      | .ok grad1 => .ok (grad1, swapRate)

/-- The innermost loop of `rescaleAlphaB` (line 288) over the listed indices
`j`: `D_[k][i] += grad[j] * exp(-chi_[j] * delta_[i])`. -/
def QuasiGaussianArguments.rescaleSum (exp : α → α) (p : QuasiGaussianArguments α)
    (grad : List α) (i : Nat) : List Nat → α → Except String α
  | [], D => .ok D
  | j :: rest, D =>
    match checkedAt grad j with
    | .error e => .error e
    | .ok g =>
      match checkedAt p.chi j with
      | .error e => .error e
      | .ok c =>
        match checkedAt p.delta i with
        | .error e => .error e
        | .ok dl => QuasiGaussianArguments.rescaleSum exp p grad i rest (D + g * exp (-c * dl))

/-- The body of the double loop of `rescaleAlphaB` (lines 286-288) for the
factor `k` and the time index `i`: the entries `S0_[k][i]` and `D_[k][i]`. -/
def QuasiGaussianArguments.rescaleEntry [FloorRing α] (exp : α → α)
    (p : QuasiGaussianArguments α) (k i : Nat) : Except String (α × α) :=
  match checkedAt p.times i with
  | .error e => .error e
  | .ok ti =>
    match checkedAt p.delta k with
    | .error e => .error e
    | .ok dk =>
      match p.swapGrad exp ti (ti + dk) with
      | .error e => .error e
      | .ok (grad, S0) =>
        match p.rescaleSum exp grad i (List.range p.d) 0 with
        | .error e => .error e
        | .ok D => .ok (S0, D)

/-- A loop that collects the results of `f` at the listed indices and ends at
the first error. -/
def collectEach {β : Type} (f : Nat → Except String β) : List Nat → Except String (List β)
  | [] => .ok []
  | i :: rest =>
    match f i with
    | .error e => .error e
    | .ok y =>
      match collectEach f rest with
      | .error e => .error e
      | .ok ys => .ok (y :: ys)

/-- The member `rescaleAlphaB()` (lines 279-294): the matrices `S0_` and
`D_`, both `d_` by `times_.size()` after the `resize` calls, filled row by
row. -/
def QuasiGaussianArguments.rescaleAlphaB [FloorRing α] (exp : α → α)
    (p : QuasiGaussianArguments α) : Except String (List (List α) × List (List α)) :=
  match collectEach (fun k => collectEach (fun i => p.rescaleEntry exp k i)
      (List.range p.times.length)) (List.range p.d) with
  | .error e => .error e
  | .ok rows => .ok (rows.map fun r => r.map (·.1), rows.map fun r => r.map (·.2))

/-- The constructor of `QuasiGaussianModelT` (lines 303-331): the parameter
check, the factorisation `factorMatrices()` (a parameter here, it calls the
Cholesky and singular value routines of files that are not among the sources)
and, with `useSwapRateScaling`, `rescaleAlphaB()`.  The result is the adjusted
`procLimit_` with the matrices `S0_` and `D_`. -/
def QuasiGaussianArguments.construct [FloorRing α] (exp : α → α)
    (factorMatrices : QuasiGaussianArguments α → Except String Unit)
    (p : QuasiGaussianArguments α) :
    Except String (List α × List (List α) × List (List α)) :=
  match p.checkModelParameters with
  | .error e => .error e
  | .ok procLimit_ =>
    match factorMatrices p with
    | .error e => .error e
    | .ok _ =>
      if p.useSwapRateScaling then
        match p.rescaleAlphaB exp with
        | .error e => .error e
        | .ok (S0_, D_) => .ok (procLimit_, S0_, D_)
      else .ok (procLimit_, [], [])

/-- The recursion `divide(x, idx, degree)` of `Regression` (regressionT.hpp,
lines 31-41) on the member `multIdx_`, which is passed in and returned.  The
vector `x` is the copy the call works on; each pass of the loop overwrites
`x[idx]`.  Sizes and degrees are natural numbers.  For an empty `x` the
bound `x.size()-1` wraps and the write `x[idx]` is out of bounds, and for
`idx` past the last index of `x` the recursion of the source does not end:
there is no result in both cases. -/
def Regression.divide (x : List Nat) (idx degree : Nat) (multIdx_ : List (List Nat)) :
    Option (List (List Nat)) :=
  if x.length = 0 then none
  else if idx = x.length - 1 then some (multIdx_ ++ [x.set idx degree])
  else if _h : idx < x.length - 1 then
    (List.range (degree + 1)).foldl
      (fun acc k =>
        match acc with
        | none => none
        | some m => Regression.divide (x.set idx k) (idx + 1) (degree - k) m)
      (some multIdx_)
  else none
termination_by x.length - idx
decreasing_by
  simp only [List.length_set]
  omega

/-- The member `setUpMultiIndex(dim, maxDegree)` (lines 44-48): the content of
`multIdx_` afterwards. -/
def Regression.setUpMultiIndex (dim maxDegree : Nat) : Option (List (List Nat)) :=
  (List.range (maxDegree + 1)).foldl
    (fun acc k =>
      match acc with
      | none => none
      | some m => Regression.divide (List.replicate dim 0) 0 k m)
    (some [])

/-- The member `monomials(x)` (lines 80-90) for the multi-index table
`multIdx_`: the powers are formed by repeated multiplication. -/
def Regression.monomials (multIdx_ : List (List Nat)) (x : List α) : List α :=
  if multIdx_.length = 0 ∨ (rowAt multIdx_ 0).length ≠ x.length then
    List.replicate multIdx_.length 0
  else
    (List.range multIdx_.length).map fun i =>
      (List.range x.length).foldl
        (fun y j =>
          (List.range ((rowAt multIdx_ i).getD j 0)).foldl (fun y _ => y * numAt x j) y)
        1

/-- The multi-indices with `n + 1` entries and the sum `degree`, in
lexicographic order: the list the specification gives for one total degree. -/
def compositions : Nat → Nat → List (List Nat)
  | 0, degree => [[degree]]
  | n + 1, degree =>
    (List.range (degree + 1)).flatMap fun k => (compositions n (degree - k)).map (k :: ·)

/-- The local variables of `simulatePath` (lines 173-177) after the first `n`
passes of its loop (lines 179-201), for the increments `dWt` of the path and
the content `row` of `X_[path]` at the call. -/
def MCSimulationT.pathLoop (sqrt : α → α) (sim : MCSimulationT α) (dWt : List (List α))
    (row : List (List α)) (n : Nat) : PathLoopState α :=
  ((List.range n).map (· + 1)).foldl (fun c sim_idx => sim.simulateStep sqrt dWt sim_idx c)
    { X0 := sim.process_.initialValues
      X1 := List.replicate sim.process_.initialValues.length 0
      X12 := List.replicate sim.process_.initialValues.length 0
      dW := List.replicate sim.process_.factors 0
      obs_idx := 1
      Xpath := row.set 0 sim.process_.initialValues }

/-- The counter `obs_idx` of `simulatePath` after the first `n` passes of its
loop: it starts at one and moves by the test of line 195 on the two grids. -/
def MCSimulationT.obsIndex (sim : MCSimulationT α) : Nat → Nat
  | 0 => 1
  | n + 1 =>
    if sim.obsIndex n < sim.obsTimes_.length ∧
        numAt sim.simTimes_ (n + 1) = numAt sim.obsTimes_ (sim.obsIndex n) then
      sim.obsIndex n + 1
    else sim.obsIndex n

/-- The simulation object after `prepareForSlicedSimulation()` (lines 362-376)
when the increments are stored and the two grids agree: the generator has been
made anew and has drawn one sequence per entry of `dW_`, and `dW_[k]` holds
the increments built from the `k`-th sequence. -/
def MCSimulationT.prepared (rsg : Nat → Nat → Nat → List α) (sim : MCSimulationT α) :
    MCSimulationT α :=
  { sim with
    rsg_ := some ⟨(if sim.richardsonExtrapolation_ then 2 else 1)
      * (sim.simTimes_.length - 1) * sim.process_.factors, sim.seed_, sim.dW_.length⟩
    dW_ := (List.range sim.dW_.length).map (sim.increments rsg) }

/-- The state `X1` one pass of the loop of `simulatePath` reaches from the
state `X0` at the simulation index `sim_idx`, with empty output buffers. -/
def MCSimulationT.stepFrom (sqrt : α → α) (sim : MCSimulationT α) (dWt : List (List α))
    (sim_idx : Nat) (X0 : List α) : List α :=
  (sim.simulateStep sqrt dWt sim_idx
    { X0 := X0, X1 := [], X12 := [], dW := List.replicate sim.process_.factors 0
      obs_idx := 0, Xpath := [] }).X1

/-- The state of a path after its first `n` steps as the specification words
it: the path starts from the initial values `X0`, and the step `n + 1` takes
the state over the interval from `simTimes[n]` to `simTimes[n + 1]`, by one
`evolve` with the increment `dWt[n]`, or with Richardson extrapolation by the
step `richardsonStepSpec` on the two increments `dWt[2 n]`, `dWt[2 n + 1]`;
`ev` is `evolve` as a function of its four inputs and `trunc` the vector
`truncate` leaves. -/
def steppedStateSpec (ev : α → List α → α → List α → List α) (trunc : α → List α → List α)
    (sqrt : α → α) (richardson : Bool) (simTimes : List α) (dWt : List (List α))
    (X0 : List α) : Nat → List α
  | 0 => X0
  | n + 1 =>
    if richardson then
      richardsonStepSpec ev trunc sqrt (numAt simTimes n)
        (steppedStateSpec ev trunc sqrt richardson simTimes dWt X0 n)
        (numAt simTimes (n + 1) - numAt simTimes n) (rowAt dWt (2 * n)) (rowAt dWt (2 * n + 1))
    else
      ev (numAt simTimes n) (steppedStateSpec ev trunc sqrt richardson simTimes dWt X0 n)
        (numAt simTimes (n + 1) - numAt simTimes n) (rowAt dWt n)

end Definitions

/-- A process with constant formulas, used to instantiate the statements; its
one state component moves by `dt + dW[0]` in a step. -/
def unitProcess (α : Type) [LinearOrderedField α] : ProcessType α where
  size := 1
  factors := 1
  initialValues := [0]
  numeraire := fun _ _ => 1
  zeroBond := fun _ _ _ => 1
  asset := fun _ _ _ => 1
  forwardAsset := fun _ _ _ _ => 1
  zeroBondAlias := fun _ _ _ _ => 1
  assetVolatility := fun _ _ _ => 1
  evolve := fun _ X0 dt dW _ => [numAt X0 0 + dt + numAt dW 0]
  truncate := fun _ X => (false, X)

/-- A simulator of two paths on the observation grid 0, 1, 2 with time
interpolation enabled and the stored states of a finished run. -/
def sampleSimulation : MCSimulationT ℚ :=
  { MCSimulationT.build (unitProcess ℚ) [1, 2] [1, 2] 2 1234 false true true with
    X_ := [[[0], [1], [3]], [[0], [2], [5]]] }

/-- A sequence generator used to instantiate the statements: the `n`-th
sequence of dimension `d` made with seed `s` is `s + n, s + n + 1, ...`. -/
def sampleRsg (α : Type) [LinearOrderedField α] : Nat → Nat → Nat → List α :=
  fun d s n => (List.range d).map fun i => ((s + n + i : Nat) : α)

/-- A process whose asset is its first state component, with unit volatility,
unit numeraire and unit zero bonds. -/
def assetProcess (α : Type) [LinearOrderedField α] : ProcessType α where
  size := 1
  factors := 1
  initialValues := [1]
  numeraire := fun _ _ => 1
  zeroBond := fun _ _ _ => 1
  asset := fun _ X _ => numAt X 0
  forwardAsset := fun _ _ _ _ => 1
  zeroBondAlias := fun _ _ _ _ => 1
  assetVolatility := fun _ _ _ => 1
  evolve := fun _ X0 dt dW _ => [numAt X0 0 + dt + numAt dW 0]
  truncate := fun _ X => (false, X)

/-- A simulator of `assetProcess` with two paths on the observation grid
0, 1, 2: both paths hold the asset value 2 at the times 0 and 2; at the time 1
the first path holds 4 and the second path 2. -/
def barrierSimulation (α : Type) [LinearOrderedField α] : MCSimulationT α :=
  { MCSimulationT.build (assetProcess α) [1, 2] [1, 2] 2 1234 false false true with
    X_ := [[[2], [4], [2]], [[2], [2], [2]]] }

/-- A simulator of `unitProcess` in the state a zero-bond adjuster calibration
on the times 1, 2 and the offsets 1, 2 leaves when every calibrated rate is 1. -/
def calibratedSimulation (α : Type) [LinearOrderedField α] : MCSimulationT α :=
  { MCSimulationT.build (unitProcess α) [1, 2] [1, 2] 2 1234 false false true with
    X_ := [[[0], [1], [3]], [[0], [2], [5]]]
    applyZcbAdjuster_ := true
    zcbObservTimes_ := [1, 2]
    zcbOffsetTimes_ := [1, 2]
    zcbAdjuster_ := [[1, 1], [1, 1]] }

/-- A process with the flat zero bond 0.95 and otherwise the formulas of
`unitProcess`. -/
def bondProcess (α : Type) [LinearOrderedField α] : ProcessType α :=
  { unitProcess α with zeroBond := fun _ _ _ => 19 / 20 }

/-- A simulator of `bondProcess` with one path on the observation grid 0, 1. -/
def bondSimulation (α : Type) [LinearOrderedField α] : MCSimulationT α :=
  { MCSimulationT.build (bondProcess α) [1] [1] 1 1234 false false true with
    X_ := [[[0], [1]]] }

/-- A quasi-Gaussian model with two factors, mean reversions 1 and 2, a flat
curve at 0, no process limits, and the constant matrix `sigma_xT` with the rows
(1, 1) and (0, 1). -/
def skewModel (α : Type) [LinearOrderedField α] : QuasiGaussianModelT α where
  termStructure_ := fun _ => 0
  d_ := 2
  chi_ := [1, 2]
  theta_ := 1
  z0_ := 1
  procLimit_ := [0, 0, 0]
  sigma_xT := fun _ _ _ => [[1, 1], [0, 1]]

/-- A quasi-Gaussian model with one factor and the process limits 4 for `z`,
3 for `y` and 2 for `x`. -/
def limitedModel (α : Type) [LinearOrderedField α] : QuasiGaussianModelT α where
  termStructure_ := fun _ => 0
  d_ := 1
  chi_ := [1]
  theta_ := 1
  z0_ := 1
  procLimit_ := [4, 3, 2]
  sigma_xT := fun _ _ _ => [[1]]

/-- A simulator of `unitProcess` with two paths on the grid 0, 1, 2 for sliced
simulation: the seed 0, no Richardson extrapolation, time interpolation
enabled, increments not stored. -/
def slicedSimulation : MCSimulationT ℚ :=
  MCSimulationT.build (unitProcess ℚ) [1, 2] [1, 2] 2 0 false true false

/-- The simulator `slicedSimulation` after `prepareForSlicedSimulation()` and
the slices `simulate(0)`, `simulate(1)`, `simulate(2)` with the generator
`sampleRsg`. -/
def slicedRun : MCSimulationT ℚ :=
  ((((slicedSimulation.prepareForSlicedSimulation (sampleRsg ℚ)).2.simulateIdx (sampleRsg ℚ)
    (fun x => x) 0 false).2.simulateIdx (sampleRsg ℚ) (fun x => x) 1 false).2.simulateIdx
    (sampleRsg ℚ) (fun x => x) 2 false).2

/-- The simulator `slicedRun` after the query `state(0, 3/2)`. -/
def slicedQueried : MCSimulationT ℚ := (slicedRun.state 0 (3 / 2)).2

/-- A simulator of `assetProcess` with two paths on the grid 0, 1, 2 as the
constructor leaves it: the seed 0, no Richardson extrapolation, increments
stored, and the stored states at their allocation default. -/
def freshSimulation : MCSimulationT ℚ :=
  MCSimulationT.build (assetProcess ℚ) [1, 2] [1, 2] 2 0 false false true

/-- Arguments with one factor and the time grid 0, 1: all parameters are 1,
the curve is flat at the discount factor 1, and the defaults are used for the
process limits and the swap rate scaling. -/
def oneFactorArguments : QuasiGaussianArguments ℚ where
  discount := fun _ => 1
  d := 1
  times := [0, 1]
  lambda := [[1, 1]]
  alpha := [[1, 1]]
  b := [[1, 1]]
  eta := [1, 1]
  delta := [1]
  chi := [1]
  Gamma := [[1]]
  theta := 1
  procLimit := []
  useSwapRateScaling := true

/-- A simulator of `assetProcess` with two paths on the grid 0, 1, 2 as the
constructor leaves it, with Richardson extrapolation and stored increments. -/
def richardsonSimulation : MCSimulationT ℚ :=
  MCSimulationT.build (assetProcess ℚ) [1, 2] [1, 2] 2 0 true false true

/-- The simulator `slicedQueried` after a further slice `simulate(2)` with the
default `clearInterpolation = false`. -/
def slicedRerun : MCSimulationT ℚ :=
  (slicedQueried.simulateIdx (sampleRsg ℚ) (fun x => x) 2 false).2

/-! ## Theorems -/

section Grid

variable {α : Type} [LinearOrderedField α]

theorem ascendingCheck_iff (v : List α) : ascendingCheck v = true ↔ v.Sorted (· < ·) := by
  induction v with
  | nil => simp [ascendingCheck]
  | cons a t ih =>
    cases t with
    | nil => simp [ascendingCheck]
    | cons b rest =>
      simp only [ascendingCheck, Bool.and_eq_true, decide_eq_true_eq, ih]
      constructor
      · rintro ⟨hab, hs⟩
        refine List.sorted_cons.2 ⟨?_, hs⟩
        intro x hx
        rcases List.mem_cons.1 hx with rfl | hx
        · exact hab
        · exact lt_trans hab (List.rel_of_sorted_cons hs x hx)
      · intro hs
        exact ⟨List.rel_of_sorted_cons hs b (List.mem_cons_self _ _), List.Sorted.of_cons hs⟩

theorem mem_mergeTimes_right (s o : List α) : ∀ t ∈ o, t ∈ mergeTimes s o := by
  induction s, o using mergeTimes.induct with
  | case1 => simp
  | case2 s ss ih => simp
  | case3 o os ih =>
    intro t ht
    rw [mergeTimes]
    rcases List.mem_cons.1 ht with rfl | ht
    · simp
    · exact List.mem_cons_of_mem _ (ih t ht)
  | case4 s ss o os h ih =>
    intro t ht
    rw [mergeTimes, if_pos h]
    rcases List.mem_cons.1 ht with rfl | ht
    · simp
    · exact List.mem_cons_of_mem _ (ih t ht)
  | case5 s ss o os h h2 ih =>
    intro t ht
    rw [mergeTimes, if_neg h, if_pos h2]
    exact List.mem_cons_of_mem _ (ih t ht)
  | case6 s ss o os h h2 ih =>
    intro t ht
    rw [mergeTimes, if_neg h, if_neg h2]
    rcases List.mem_cons.1 ht with rfl | ht
    · simp
    · exact List.mem_cons_of_mem _ (ih t ht)

theorem mem_mergeTimes_left (s o : List α) :
    ∀ t ∈ s, t ∈ mergeTimes s o ∨ ∃ u ∈ o, |t - u| < OneDay ∧ u ∈ mergeTimes s o := by
  induction s, o using mergeTimes.induct with
  | case1 => simp
  | case2 s ss ih =>
    intro t ht
    rw [mergeTimes]
    rcases List.mem_cons.1 ht with rfl | ht
    · simp
    · rcases ih t ht with h | ⟨u, hu, _⟩
      · exact Or.inl (List.mem_cons_of_mem _ h)
      · simp at hu
  | case3 o os ih => simp
  | case4 s ss o os h ih =>
    intro t ht
    rw [mergeTimes, if_pos h]
    rcases List.mem_cons.1 ht with rfl | ht
    · exact Or.inr ⟨o, List.mem_cons_self _ _, h, List.mem_cons_self _ _⟩
    · rcases ih t ht with h1 | ⟨u, hu, hd, hm⟩
      · exact Or.inl (List.mem_cons_of_mem _ h1)
      · exact Or.inr ⟨u, List.mem_cons_of_mem _ hu, hd, List.mem_cons_of_mem _ hm⟩
  | case5 s ss o os h h2 ih =>
    intro t ht
    rw [mergeTimes, if_neg h, if_pos h2]
    rcases List.mem_cons.1 ht with rfl | ht
    · simp
    · rcases ih t ht with h1 | ⟨u, hu, hd, hm⟩
      · exact Or.inl (List.mem_cons_of_mem _ h1)
      · exact Or.inr ⟨u, hu, hd, List.mem_cons_of_mem _ hm⟩
  | case6 s ss o os h h2 ih =>
    intro t ht
    rw [mergeTimes, if_neg h, if_neg h2]
    rcases ih t ht with h1 | ⟨u, hu, hd, hm⟩
    · exact Or.inl (List.mem_cons_of_mem _ h1)
    · exact Or.inr ⟨u, List.mem_cons_of_mem _ hu, hd, List.mem_cons_of_mem _ hm⟩

theorem skipNonPositive_of_pos (l : List α) (h : ∀ t ∈ l, 0 < t) : skipNonPositive l = l := by
  cases l with
  | nil => rfl
  | cons a t => simp [skipNonPositive, not_le.2 (h a (List.mem_cons_self _ _))]

theorem skipNonPositive_buildObsTimes (obsTimes : List α) :
    skipNonPositive (buildObsTimes obsTimes) = obsTimes.filter (fun t => decide (0 < t)) := by
  rw [buildObsTimes, skipNonPositive, if_pos le_rfl]
  apply skipNonPositive_of_pos
  intro t ht
  simpa using (List.mem_filter.1 ht).2

theorem mem_skipNonPositive (l : List α) (hl : l.Sorted (· < ·)) :
    ∀ t ∈ l, 0 < t → t ∈ skipNonPositive l := by
  induction l with
  | nil => simp
  | cons a r ih =>
    intro t ht hpos
    rw [skipNonPositive]
    split_ifs with ha
    · rcases List.mem_cons.1 ht with rfl | ht
      · exact absurd hpos (not_lt.2 ha)
      · exact ih (List.Sorted.of_cons hl) t ht hpos
    · exact ht

theorem construct_eq_ok {process : ProcessType α} {simTimes obsTimes : List α}
    {nPaths seed : Nat} {re ti sb : Bool} {sim : MCSimulationT α}
    (h : MCSimulationT.construct process simTimes obsTimes nPaths seed re ti sb = .ok sim) :
    sim = MCSimulationT.build process simTimes obsTimes nPaths seed re ti sb := by
  unfold MCSimulationT.construct at h
  split_ifs at h
  exact (Except.ok.inj h).symm

theorem construct_of_valid (process : ProcessType α) (simTimes obsTimes : List α)
    (nPaths seed : Nat) (re ti sb : Bool)
    (hs : simTimes ≠ []) (hsa : simTimes.Sorted (· < ·))
    (ho : obsTimes ≠ []) (hoa : obsTimes.Sorted (· < ·)) :
    MCSimulationT.construct process simTimes obsTimes nPaths seed re ti sb =
      .ok (MCSimulationT.build process simTimes obsTimes nPaths seed re ti sb) := by
  unfold MCSimulationT.construct
  rw [if_neg (by simpa using hs), if_neg (by simpa using (ascendingCheck_iff simTimes).2 hsa),
    if_neg (by simpa using ho), if_neg (by simpa using (ascendingCheck_iff obsTimes).2 hoa)]

/-- C4: the constructor raises an error exactly when one of the two input
sequences is empty or not strictly ascending. -/
theorem construct_error_iff (process : ProcessType α) (simTimes obsTimes : List α)
    (nPaths seed : Nat) (re ti sb : Bool) :
    (∃ e, MCSimulationT.construct process simTimes obsTimes nPaths seed re ti sb = .error e) ↔
      (simTimes = [] ∨ obsTimes = [] ∨
        ¬ simTimes.Sorted (· < ·) ∨ ¬ obsTimes.Sorted (· < ·)) := by
  constructor
  · rintro ⟨e, he⟩
    by_contra hcon
    push_neg at hcon
    rw [construct_of_valid process simTimes obsTimes nPaths seed re ti sb
      hcon.1 hcon.2.2.1 hcon.2.1 hcon.2.2.2] at he
    cases he
  · intro h
    unfold MCSimulationT.construct
    by_cases h1 : simTimes.length = 0
    · exact ⟨_, if_pos h1⟩
    · rw [if_neg h1]
      by_cases h2 : (!ascendingCheck simTimes) = true
      · exact ⟨_, if_pos h2⟩
      · rw [if_neg h2]
        by_cases h3 : obsTimes.length = 0
        · exact ⟨_, if_pos h3⟩
        · rw [if_neg h3]
          by_cases h4 : (!ascendingCheck obsTimes) = true
          · exact ⟨_, if_pos h4⟩
          · exfalso
            simp only [Bool.not_eq_true', Bool.not_eq_false] at h2 h4
            rcases h with h | h | h | h
            · exact h1 (by simp [h])
            · exact h3 (by simp [h])
            · exact h ((ascendingCheck_iff _).1 h2)
            · exact h ((ascendingCheck_iff _).1 h4)

@[simp] theorem build_simTimes (process : ProcessType α) (simTimes obsTimes : List α)
    (nPaths seed : Nat) (re ti sb : Bool) :
    (MCSimulationT.build process simTimes obsTimes nPaths seed re ti sb).simTimes_ =
      buildSimTimes simTimes obsTimes := rfl

@[simp] theorem build_obsTimes (process : ProcessType α) (simTimes obsTimes : List α)
    (nPaths seed : Nat) (re ti sb : Bool) :
    (MCSimulationT.build process simTimes obsTimes nPaths seed re ti sb).obsTimes_ =
      buildObsTimes obsTimes := rfl

theorem buildObsTimes_subset (simTimes obsTimes : List α) :
    ∀ t ∈ buildObsTimes obsTimes, t ∈ buildSimTimes simTimes obsTimes := by
  intro t ht
  rw [buildSimTimes, skipNonPositive_buildObsTimes]
  rcases List.mem_cons.1 ht with rfl | ht
  · exact List.mem_cons_self _ _
  · exact List.mem_cons_of_mem _ (mem_mergeTimes_right _ _ t ht)

/-- C1: with simTimes = [1, 1 + 1/1024] and obsTimes = [1 + 1/512], both
strictly ascending, the constructor succeeds and stores the simulation grid
[0, 1 + 1/512, 1 + 1/1024], which is not strictly ascending. -/
theorem simTimes_not_ascending_example :
    List.Sorted (· < ·) ([1, 1 + 1/1024] : List ℚ) ∧
    List.Sorted (· < ·) ([1 + 1/512] : List ℚ) ∧
    ∃ sim, MCSimulationT.construct (unitProcess ℚ) [1, 1 + 1/1024] [1 + 1/512]
        1 1234 true false false = .ok sim ∧
      sim.simTimes_ = [0, 1 + 1/512, 1 + 1/1024] ∧
      ¬ sim.simTimes_.Sorted (· < ·) := by
  refine ⟨by norm_num, by norm_num, _, construct_of_valid _ _ _ _ _ _ _ _
    (by simp) (by norm_num) (by simp) (by norm_num), ?_, ?_⟩
  · norm_num [buildSimTimes, buildObsTimes, skipNonPositive, mergeTimes, OneDay, abs_lt]
  · norm_num [buildSimTimes, buildObsTimes, skipNonPositive, mergeTimes, OneDay, abs_lt]

/-- C2: for every input accepted by the constructor, the stored observation
grid has first element 0 and each of its elements occurs in the stored
simulation grid. -/
theorem obsTimes_subset_simTimes (process : ProcessType α) (simTimes obsTimes : List α)
    (nPaths seed : Nat) (re ti sb : Bool) (sim : MCSimulationT α)
    (h : MCSimulationT.construct process simTimes obsTimes nPaths seed re ti sb = .ok sim) :
    sim.obsTimes_.head? = some 0 ∧ ∀ t ∈ sim.obsTimes_, t ∈ sim.simTimes_ := by
  rw [construct_eq_ok h]
  exact ⟨rfl, buildObsTimes_subset simTimes obsTimes⟩

theorem obsTimes_subset_simTimes_witness :
    (MCSimulationT.build (unitProcess ℚ) [1/2, 1, 2] [-1, 1, 3] 2 1234 true false false
        ).obsTimes_.head? = some 0 ∧
      ∀ t ∈ (MCSimulationT.build (unitProcess ℚ) [1/2, 1, 2] [-1, 1, 3] 2 1234 true false false
        ).obsTimes_,
        t ∈ (MCSimulationT.build (unitProcess ℚ) [1/2, 1, 2] [-1, 1, 3] 2 1234 true false false
          ).simTimes_ :=
  obsTimes_subset_simTimes (unitProcess ℚ) [1/2, 1, 2] [-1, 1, 3] 2 1234 true false false _
    (by norm_num [MCSimulationT.construct, ascendingCheck])

/-- C3 as stated fails: with simTimes = [-1, 1] and obsTimes = [1] the
constructor succeeds, and the input time -1 is neither on the stored grid nor
within one day of an observation time. -/
theorem simTimes_negative_dropped :
    List.Sorted (· < ·) ([-1, 1] : List ℚ) ∧ List.Sorted (· < ·) ([1] : List ℚ) ∧
    ∃ sim, MCSimulationT.construct (unitProcess ℚ) [-1, 1] [1] 1 1234 true false false
        = .ok sim ∧
      (-1 : ℚ) ∈ [-1, (1 : ℚ)] ∧ (-1 : ℚ) ∉ sim.simTimes_ ∧
      ¬ ∃ o ∈ ([1] : List ℚ), |(-1 : ℚ) - o| < OneDay := by
  refine ⟨by norm_num, by norm_num, _, construct_of_valid _ _ _ _ _ _ _ _
    (by simp) (by norm_num) (by simp) (by norm_num), by simp, ?_, ?_⟩
  · norm_num [buildSimTimes, buildObsTimes, skipNonPositive, mergeTimes, OneDay, abs_lt]
  · norm_num [OneDay, abs_lt]

/-- C3, amended: for non-empty strictly ascending simTimes and obsTimes with
obsTimes[0] >= 0 the constructor succeeds and the stored simulation grid
contains 0, every time of obsTimes, and every non-negative time of simTimes
except one collapsed onto an observation time of the grid less than one day
away. -/
theorem simTimes_contains_inputs (process : ProcessType α) (simTimes obsTimes : List α)
    (nPaths seed : Nat) (re ti sb : Bool)
    (hs : simTimes ≠ []) (hsa : simTimes.Sorted (· < ·))
    (ho : obsTimes ≠ []) (hoa : obsTimes.Sorted (· < ·))
    (h0 : 0 ≤ obsTimes.head ho) :
    ∃ sim, MCSimulationT.construct process simTimes obsTimes nPaths seed re ti sb = .ok sim ∧
      0 ∈ sim.simTimes_ ∧
      (∀ t ∈ obsTimes, t ∈ sim.simTimes_) ∧
      (∀ t ∈ simTimes, 0 ≤ t →
        t ∈ sim.simTimes_ ∨ ∃ o ∈ obsTimes, |t - o| < OneDay ∧ o ∈ sim.simTimes_) := by
  refine ⟨_, construct_of_valid process simTimes obsTimes nPaths seed re ti sb hs hsa ho hoa,
    List.mem_cons_self _ _, ?_, ?_⟩
  · intro t ht
    apply buildObsTimes_subset
    have h0t : 0 ≤ t := by
      cases obsTimes with
      | nil => exact absurd rfl ho
      | cons a r =>
        rcases List.mem_cons.1 ht with rfl | ht
        · exact h0
        · exact le_trans h0 (le_of_lt (List.rel_of_sorted_cons hoa t ht))
    rcases eq_or_lt_of_le h0t with h | h
    · rw [← h]; exact List.mem_cons_self _ _
    · exact List.mem_cons_of_mem _ (List.mem_filter.2 ⟨ht, by simpa using h⟩)
  · intro t ht h0t
    rcases eq_or_lt_of_le h0t with h | h
    · left; rw [← h]; exact List.mem_cons_self _ _
    · rw [build_simTimes, buildSimTimes, skipNonPositive_buildObsTimes]
      rcases mem_mergeTimes_left _ _ t (mem_skipNonPositive simTimes hsa t ht h) with
        h1 | ⟨u, hu, hd, hm⟩
      · exact Or.inl (List.mem_cons_of_mem _ h1)
      · exact Or.inr ⟨u, (List.mem_filter.1 hu).1, hd, List.mem_cons_of_mem _ hm⟩

theorem simTimes_contains_inputs_witness :
    ∃ sim, MCSimulationT.construct (unitProcess ℚ) [-1, 1, 2] [1 + 1/512, 3] 2 1234 true false false
        = .ok sim ∧
      0 ∈ sim.simTimes_ ∧
      (∀ t ∈ ([1 + 1/512, 3] : List ℚ), t ∈ sim.simTimes_) ∧
      (∀ t ∈ ([-1, 1, 2] : List ℚ), 0 ≤ t →
        t ∈ sim.simTimes_ ∨
          ∃ o ∈ ([1 + 1/512, 3] : List ℚ), |t - o| < OneDay ∧ o ∈ sim.simTimes_) :=
  simTimes_contains_inputs (unitProcess ℚ) [-1, 1, 2] [1 + 1/512, 3] 2 1234 true false false
    (by simp) (by norm_num) (by simp) (by norm_num) (by norm_num)

theorem oneDay_pos : (0 : α) < OneDay := by
  unfold OneDay
  norm_num

theorem skipNonPositive_suffix (l : List α) : skipNonPositive l <:+ l := by
  induction l with
  | nil => exact List.suffix_refl _
  | cons a r ih =>
    rw [skipNonPositive]
    split_ifs
    · exact ih.trans (List.suffix_cons a r)
    · exact List.suffix_refl _

theorem skipNonPositive_pos (l : List α) (hl : l.Sorted (· < ·)) :
    ∀ t ∈ skipNonPositive l, 0 < t := by
  induction l with
  | nil => simp [skipNonPositive]
  | cons a r ih =>
    rw [skipNonPositive]
    split_ifs with ha
    · exact ih (List.Sorted.of_cons hl)
    · intro t ht
      rcases List.mem_cons.1 ht with rfl | ht
      · exact not_le.1 ha
      · exact lt_trans (not_le.1 ha) (List.rel_of_sorted_cons hl t ht)

/-- The merge keeps the order when the simulation times still to be merged
are pairwise at least one day apart. -/
theorem mergeTimes_sorted (s o : List α) :
    ∀ lo : α, s.Pairwise (fun a b => a + OneDay ≤ b) → o.Sorted (· < ·) →
      (∀ x ∈ s, lo < x) → (∀ x ∈ o, lo < x) → (lo :: mergeTimes s o).Sorted (· < ·) := by
  induction s, o using mergeTimes.induct with
  | case1 => intro lo _ _ _ _; simp [mergeTimes]
  | case2 s ss ih =>
    intro lo hs ho hls hlo
    rw [mergeTimes]
    have hpw := List.pairwise_cons.1 hs
    have h1 := ih s hpw.2 ho
      (fun x hx => lt_of_lt_of_le (lt_add_of_pos_right s oneDay_pos) (hpw.1 x hx))
      (fun x hx => by simp at hx)
    refine List.sorted_cons.2 ⟨?_, h1⟩
    intro x hx
    rcases List.mem_cons.1 hx with rfl | hx
    · exact hls _ (List.mem_cons_self _ _)
    · exact lt_trans (hls s (List.mem_cons_self _ _)) (List.rel_of_sorted_cons h1 x hx)
  | case3 o os ih =>
    intro lo hs ho hls hlo
    rw [mergeTimes]
    have h1 := ih o hs (List.Sorted.of_cons ho) (fun x hx => by simp at hx)
      (fun x hx => List.rel_of_sorted_cons ho x hx)
    refine List.sorted_cons.2 ⟨?_, h1⟩
    intro x hx
    rcases List.mem_cons.1 hx with rfl | hx
    · exact hlo _ (List.mem_cons_self _ _)
    · exact lt_trans (hlo o (List.mem_cons_self _ _)) (List.rel_of_sorted_cons h1 x hx)
  | case4 s ss o os h ih =>
    intro lo hs ho hls hlo
    rw [mergeTimes, if_pos h]
    have hpw := List.pairwise_cons.1 hs
    have hso : o < s + OneDay := by
      have := (abs_lt.1 h).1
      linarith
    have h1 := ih o hpw.2 (List.Sorted.of_cons ho)
      (fun x hx => lt_of_lt_of_le hso (hpw.1 x hx))
      (fun x hx => List.rel_of_sorted_cons ho x hx)
    refine List.sorted_cons.2 ⟨?_, h1⟩
    intro x hx
    rcases List.mem_cons.1 hx with rfl | hx
    · exact hlo _ (List.mem_cons_self _ _)
    · exact lt_trans (hlo o (List.mem_cons_self _ _)) (List.rel_of_sorted_cons h1 x hx)
  | case5 s ss o os h h2 ih =>
    intro lo hs ho hls hlo
    rw [mergeTimes, if_neg h, if_pos h2]
    have hpw := List.pairwise_cons.1 hs
    have h1 := ih s hpw.2 ho
      (fun x hx => lt_of_lt_of_le (lt_add_of_pos_right s oneDay_pos) (hpw.1 x hx))
      (fun x hx => by
        rcases List.mem_cons.1 hx with rfl | hx
        · exact h2
        · exact lt_trans h2 (List.rel_of_sorted_cons ho x hx))
    refine List.sorted_cons.2 ⟨?_, h1⟩
    intro x hx
    rcases List.mem_cons.1 hx with rfl | hx
    · exact hls _ (List.mem_cons_self _ _)
    · exact lt_trans (hls s (List.mem_cons_self _ _)) (List.rel_of_sorted_cons h1 x hx)
  | case6 s ss o os h h2 ih =>
    intro lo hs ho hls hlo
    rw [mergeTimes, if_neg h, if_neg h2]
    have hos : o < s := by
      rcases lt_or_eq_of_le (not_lt.1 h2) with hlt | heq
      · exact hlt
      · exact absurd (by rw [heq, sub_self, abs_zero]; exact oneDay_pos) h
    have h1 := ih o hs (List.Sorted.of_cons ho)
      (fun x hx => by
        rcases List.mem_cons.1 hx with rfl | hx
        · exact hos
        · exact lt_trans hos (lt_of_lt_of_le (lt_add_of_pos_right s oneDay_pos)
            ((List.pairwise_cons.1 hs).1 x hx)))
      (fun x hx => List.rel_of_sorted_cons ho x hx)
    refine List.sorted_cons.2 ⟨?_, h1⟩
    intro x hx
    rcases List.mem_cons.1 hx with rfl | hx
    · exact hlo _ (List.mem_cons_self _ _)
    · exact lt_trans (hlo o (List.mem_cons_self _ _)) (List.rel_of_sorted_cons h1 x hx)

/-- The stored simulation grid is strictly ascending whenever the simulation
times are pairwise at least one day apart and the observation times are
strictly ascending. -/
theorem buildSimTimes_sorted_of_spaced (simTimes obsTimes : List α)
    (hs : simTimes.Pairwise (fun a b => a + OneDay ≤ b)) (ho : obsTimes.Sorted (· < ·)) :
    (buildSimTimes simTimes obsTimes).Sorted (· < ·) := by
  have hsorted : simTimes.Sorted (· < ·) :=
    hs.imp (fun h => lt_of_lt_of_le (lt_add_of_pos_right _ oneDay_pos) h)
  rw [buildSimTimes, skipNonPositive_buildObsTimes]
  apply mergeTimes_sorted
  · exact hs.sublist (skipNonPositive_suffix simTimes).sublist
  · exact List.Pairwise.filter _ ho
  · exact skipNonPositive_pos simTimes hsorted
  · intro x hx
    simpa using (List.mem_filter.1 hx).2

end Grid

section Simulation

variable {α : Type} [LinearOrderedField α]

/-! ### The index helper and the state query -/

theorem numAt_cons_succ (a : α) (v : List α) (j : Nat) : numAt (a :: v) (j + 1) = numAt v j := rfl

theorem numAt_cons_zero (a : α) (v : List α) : numAt (a :: v) 0 = a := rfl

theorem numAt_eq_getElem (v : List α) (j : Nat) (hj : j < v.length) : numAt v j = v[j] :=
  List.getD_eq_getElem _ _ hj

theorem rowAt_eq_getElem {β : Type} (m : List (List β)) (j : Nat) (hj : j < m.length) :
    rowAt m j = m[j] :=
  List.getD_eq_getElem _ _ hj

theorem numAt_mem (v : List α) (j : Nat) (hj : j < v.length) : numAt v j ∈ v := by
  rw [numAt_eq_getElem v j hj]
  exact List.getElem_mem hj

theorem idx_lt_length (v : List α) (t : α) (hv : v ≠ []) :
    TemplateAuxilliaries.idx v t < v.length := by
  induction v with
  | nil => exact absurd rfl hv
  | cons a r ih =>
    cases r with
    | nil => simp [TemplateAuxilliaries.idx]
    | cons b rest =>
      rw [TemplateAuxilliaries.idx]
      split_ifs
      · simp
      · have := ih (by simp)
        simpa using this

theorem idx_numAt (v : List α) (hs : v.Sorted (· < ·)) (j : Nat) (hj : j < v.length) :
    TemplateAuxilliaries.idx v (numAt v j) = j := by
  induction v generalizing j with
  | nil => simp at hj
  | cons a r ih =>
    cases r with
    | nil =>
      simp only [List.length_singleton, Nat.lt_one_iff] at hj
      simp [TemplateAuxilliaries.idx, hj]
    | cons b rest =>
      rw [TemplateAuxilliaries.idx]
      cases j with
      | zero => simp [numAt_cons_zero]
      | succ j =>
        have hj' : j < (b :: rest).length := by simpa using hj
        rw [numAt_cons_succ]
        have hlt : a < numAt (b :: rest) j :=
          List.rel_of_sorted_cons hs _ (numAt_mem _ _ hj')
        rw [if_neg (not_le.2 hlt), ih (List.Sorted.of_cons hs) j hj']

theorem numAt_idx_of_mem (v : List α) (hs : v.Sorted (· < ·)) (t : α) (ht : t ∈ v) :
    numAt v (TemplateAuxilliaries.idx v t) = t := by
  obtain ⟨j, hj, rfl⟩ := List.getElem_of_mem ht
  rw [← numAt_eq_getElem v j hj, idx_numAt v hs j hj]

theorem buildObsTimes_sorted (obsTimes : List α) (ho : obsTimes.Sorted (· < ·)) :
    (buildObsTimes obsTimes).Sorted (· < ·) := by
  refine List.sorted_cons.2 ⟨?_, ?_⟩
  · intro t ht
    simpa using (List.mem_filter.1 ht).2
  · exact List.Pairwise.filter _ ho

theorem construct_obsTimes_sorted {process : ProcessType α} {simTimes obsTimes : List α}
    {nPaths seed : Nat} {re ti sb : Bool} {sim : MCSimulationT α}
    (h : MCSimulationT.construct process simTimes obsTimes nPaths seed re ti sb = .ok sim) :
    sim.obsTimes_.Sorted (· < ·) ∧ sim.obsTimes_ ≠ [] := by
  have hb := construct_eq_ok h
  subst hb
  unfold MCSimulationT.construct at h
  split_ifs at h with h1 h2 h3 h4
  refine ⟨buildObsTimes_sorted _ ((ascendingCheck_iff _).1 (by simpa using h4)), ?_⟩
  simp [buildObsTimes]

theorem construct_cacheSorted {process : ProcessType α} {simTimes obsTimes : List α}
    {nPaths seed : Nat} {re ti sb : Bool} {sim : MCSimulationT α}
    (h : MCSimulationT.construct process simTimes obsTimes nPaths seed re ti sb = .ok sim) :
    sim.cacheSorted := by
  rw [construct_eq_ok h]
  exact ⟨List.sorted_nil, rfl⟩

/-- C8: on a freshly constructed simulator the numeraire and zero-bond
adjusters are 1 and the asset adjuster is 0, for all times and every alias. -/
theorem fresh_adjusters_identity (process : ProcessType α) (simTimes obsTimes : List α)
    (nPaths seed : Nat) (re ti sb : Bool) (sim : MCSimulationT α)
    (h : MCSimulationT.construct process simTimes obsTimes nPaths seed re ti sb = .ok sim)
    (exp : α → α) (t T : α) (alias_ : String) :
    sim.numeraireAdjuster exp t = 1 ∧ sim.zcbAdjuster exp t T = 1 ∧
      sim.zcbAdjusterAlias t T alias_ = 1 ∧ sim.assetAdjuster t alias_ = .ok 0 := by
  rw [construct_eq_ok h]
  exact ⟨rfl, rfl, rfl, rfl⟩

theorem fresh_adjusters_identity_witness :
    (MCSimulationT.build (unitProcess ℚ) [1, 2] [1, 2] 2 1234 true false false
        ).numeraireAdjuster (fun x => x) (3/2) = 1 ∧
      (MCSimulationT.build (unitProcess ℚ) [1, 2] [1, 2] 2 1234 true false false
        ).zcbAdjuster (fun x => x) (3/2) 5 = 1 ∧
      (MCSimulationT.build (unitProcess ℚ) [1, 2] [1, 2] 2 1234 true false false
        ).zcbAdjusterAlias (3/2) 5 "EUR" = 1 ∧
      (MCSimulationT.build (unitProcess ℚ) [1, 2] [1, 2] 2 1234 true false false
        ).assetAdjuster (3/2) "EUR" = .ok 0 :=
  fresh_adjusters_identity (unitProcess ℚ) [1, 2] [1, 2] 2 1234 true false false _
    (by norm_num [MCSimulationT.construct, ascendingCheck]) (fun x => x) (3/2) 5 "EUR"

theorem state_obsTime (sim : MCSimulationT α) (p j : Nat)
    (hs : sim.obsTimes_.Sorted (· < ·)) (hp : p < sim.nPaths) (hj : j < sim.obsTimes_.length) :
    sim.state p (numAt sim.obsTimes_ j) = (.ok (rowAt (rowAt sim.X_ p) j), sim) := by
  have hp' : p < sim.X_.length := hp
  unfold MCSimulationT.state
  rw [if_neg (not_not.2 hp')]
  simp only [idx_numAt _ hs j hj, if_true]

/-- C9: for a valid path index p and the j-th observation time t, state(p, t)
returns the stored vector X_[p][j] and leaves the simulator, its interpolation
cache included, unchanged, whether or not time interpolation is enabled. -/
theorem state_on_grid (sim : MCSimulationT α) (p j : Nat)
    (hs : sim.obsTimes_.Sorted (· < ·)) (hp : p < sim.nPaths) (hj : j < sim.obsTimes_.length) :
    sim.state p (numAt sim.obsTimes_ j) = (.ok (rowAt (rowAt sim.X_ p) j), sim) :=
  state_obsTime sim p j hs hp hj

theorem state_on_grid_witness :
    (MCSimulationT.build (unitProcess ℚ) [1, 2] [1, 2] 2 1234 true true false).state 1
        (numAt (MCSimulationT.build (unitProcess ℚ) [1, 2] [1, 2] 2 1234 true true false).obsTimes_ 2)
      = (.ok (rowAt (rowAt
          (MCSimulationT.build (unitProcess ℚ) [1, 2] [1, 2] 2 1234 true true false).X_ 1) 2),
        MCSimulationT.build (unitProcess ℚ) [1, 2] [1, 2] 2 1234 true true false) :=
  state_on_grid _ 1 2 (by norm_num [MCSimulationT.build, MCSimulationT.reallocateMemory, buildObsTimes])
    (by simp [MCSimulationT.nPaths, MCSimulationT.build, MCSimulationT.reallocateMemory])
    (by simp [MCSimulationT.build, MCSimulationT.reallocateMemory, buildObsTimes])

/-- C10: with time interpolation switched off, state(p, t) for a valid path
index raises an error exactly when t is not an element of obsTimes_. -/
theorem state_error_iff (sim : MCSimulationT α) (p : Nat) (t : α)
    (hs : sim.obsTimes_.Sorted (· < ·)) (hne : sim.obsTimes_ ≠ [])
    (hti : sim.timeInterpolation_ = false) (hp : p < sim.nPaths) :
    (∃ e, (sim.state p t).1 = .error e) ↔ t ∉ sim.obsTimes_ := by
  have hp' : p < sim.X_.length := hp
  unfold MCSimulationT.state
  rw [if_neg (not_not.2 hp')]
  by_cases hmem : t ∈ sim.obsTimes_
  · simp [numAt_idx_of_mem _ hs t hmem, hmem]
  · have hne' : ¬ t = numAt sim.obsTimes_ (TemplateAuxilliaries.idx sim.obsTimes_ t) := by
      intro h
      exact hmem (h ▸ numAt_mem _ _ (idx_lt_length _ t hne))
    simp [hne', hti, hmem]

theorem state_error_iff_witness :
    (∃ e, ((MCSimulationT.build (unitProcess ℚ) [1, 2] [1, 2] 2 1234 true false false).state 0
        (1/2)).1 = .error e) ↔
      (1/2 : ℚ) ∉
        (MCSimulationT.build (unitProcess ℚ) [1, 2] [1, 2] 2 1234 true false false).obsTimes_ :=
  state_error_iff _ 0 (1/2)
    (by norm_num [MCSimulationT.build, MCSimulationT.reallocateMemory, buildObsTimes])
    (by simp [MCSimulationT.build, MCSimulationT.reallocateMemory, buildObsTimes])
    rfl
    (by simp [MCSimulationT.nPaths, MCSimulationT.build, MCSimulationT.reallocateMemory])

/-! ### The interpolation cache -/

theorem map_getD_range {β : Type} (l : List Nat) (f : Nat → β) :
    (List.range l.length).map (fun k => f (l.getD k 0)) = l.map f := by
  apply List.ext_getElem
  · simp
  · intro n h1 h2
    simp only [List.length_map, List.length_range] at h1
    simp [List.getElem?_eq_getElem h1]

theorem sortedIndices_perm (v : List α) : (sortedIndices v).Perm (List.range v.length) :=
  List.perm_insertionSort _ _

theorem sortedIndices_length (v : List α) : (sortedIndices v).length = v.length := by
  rw [(sortedIndices_perm v).length_eq, List.length_range]

theorem map_numAt_range (v : List α) : (List.range v.length).map (numAt v) = v := by
  apply List.ext_getElem
  · simp
  · intro n h1 h2
    simp [numAt_eq_getElem v n h2]

theorem sortedIndices_map_perm (v : List α) : ((sortedIndices v).map (numAt v)).Perm v := by
  have h := (sortedIndices_perm v).map (numAt v)
  rwa [map_numAt_range] at h

theorem sortedIndices_map_sorted (v : List α) (hv : v.Nodup) :
    ((sortedIndices v).map (numAt v)).Sorted (· < ·) := by
  apply List.Sorted.lt_of_le
  · have : IsTotal Nat (fun a b => numAt v a ≤ numAt v b) := ⟨fun a b => le_total _ _⟩
    have : IsTrans Nat (fun a b => numAt v a ≤ numAt v b) := ⟨fun a b c => le_trans⟩
    have hs : List.Sorted (fun a b => numAt v a ≤ numAt v b) (sortedIndices v) :=
      List.sorted_insertionSort _ _
    exact List.pairwise_map.2 hs
  · exact (sortedIndices_map_perm v).nodup_iff.2 hv

/-- Looking a member `t` of a duplicate-free vector `v` up in its sorted copy
gives the position that holds the original index of `t`. -/
theorem sortedIndices_lookup (v : List α) (hv : v.Nodup) (i : Nat) (hi : i < v.length) :
    (sortedIndices v).getD
      (TemplateAuxilliaries.idx ((sortedIndices v).map (numAt v)) (numAt v i)) 0 = i := by
  set newT := (sortedIndices v).map (numAt v) with hnewT
  have hs := sortedIndices_map_sorted v hv
  have hmem : numAt v i ∈ newT := (sortedIndices_map_perm v).mem_iff.2 (numAt_mem v i hi)
  have hne : newT ≠ [] := List.ne_nil_of_mem hmem
  have hj : TemplateAuxilliaries.idx newT (numAt v i) < (sortedIndices v).length := by
    have := idx_lt_length newT (numAt v i) hne
    simpa [hnewT] using this
  have hval := numAt_idx_of_mem newT hs (numAt v i) hmem
  have hj' : TemplateAuxilliaries.idx newT (numAt v i) < newT.length := by
    simpa [hnewT] using hj
  rw [numAt_eq_getElem newT _ hj'] at hval
  simp only [hnewT, List.getElem_map] at hval
  rw [List.getD_eq_getElem _ _ hj]
  have hlt : (sortedIndices v)[TemplateAuxilliaries.idx newT (numAt v i)] < v.length := by
    have := (sortedIndices_perm v).mem_iff.1 (List.getElem_mem hj)
    simpa using this
  rw [numAt_eq_getElem v _ hlt] at hval
  exact (hv.getElem_inj_iff).1 (hval.trans (numAt_eq_getElem v i hi))

theorem cacheHit_iff (L : List α) (hs : L.Sorted (· < ·)) (t : α) :
    (L.length > 0 ∧ t = numAt L (TemplateAuxilliaries.idx L t)) ↔ t ∈ L := by
  constructor
  · rintro ⟨hpos, ht⟩
    rw [ht]
    exact numAt_mem _ _ (idx_lt_length _ _ (List.length_pos.1 hpos))
  · intro ht
    exact ⟨List.length_pos.2 (List.ne_nil_of_mem ht), (numAt_idx_of_mem L hs t ht).symm⟩

theorem addInterpolatedState_times (sim : MCSimulationT α) (i : Nat) (t : α) :
    (sim.addInterpolatedState i t).addObsTimes_ =
      (sortedIndices (sim.addObsTimes_ ++ [t])).map (numAt (sim.addObsTimes_ ++ [t])) := by
  unfold MCSimulationT.addInterpolatedState
  simp only
  rw [← sortedIndices_length (sim.addObsTimes_ ++ [t]), map_getD_range]

theorem addInterpolatedState_Y (sim : MCSimulationT α) (i : Nat) (t : α)
    (hY : sim.Y_.length = sim.addObsTimes_.length) :
    (sim.addInterpolatedState i t).Y_ =
      (sortedIndices (sim.addObsTimes_ ++ [t])).map
        (rowAt (sim.Y_ ++ [sim.interpolatedStates i t])) := by
  unfold MCSimulationT.addInterpolatedState
  simp only
  have hlen : (sim.Y_ ++ [sim.interpolatedStates i t]).length =
      (sortedIndices (sim.addObsTimes_ ++ [t])).length := by
    rw [sortedIndices_length]; simp [hY]
  rw [hlen, map_getD_range]

theorem addInterpolatedState_cacheSorted (sim : MCSimulationT α) (hc : sim.cacheSorted)
    (i : Nat) (t : α) (ht : t ∉ sim.addObsTimes_) :
    (sim.addInterpolatedState i t).cacheSorted := by
  have hnd : (sim.addObsTimes_ ++ [t]).Nodup := by
    rw [List.nodup_append]
    refine ⟨hc.1.nodup, List.nodup_singleton t, ?_⟩
    intro a ha hb
    rw [List.mem_singleton] at hb
    exact ht (hb ▸ ha)
  constructor
  · rw [addInterpolatedState_times]
    exact sortedIndices_map_sorted _ hnd
  · rw [addInterpolatedState_times, addInterpolatedState_Y sim i t hc.2]
    simp

/-- After a cache insertion, the cached matrix found for a time of the
extended cache is the matrix stored with that time before the re-ordering. -/
theorem addInterpolatedState_lookup (sim : MCSimulationT α) (hc : sim.cacheSorted)
    (i : Nat) (t : α) (ht : t ∉ sim.addObsTimes_) (j : Nat)
    (hj : j < (sim.addObsTimes_ ++ [t]).length) :
    rowAt (sim.addInterpolatedState i t).Y_
        (TemplateAuxilliaries.idx (sim.addInterpolatedState i t).addObsTimes_
          (numAt (sim.addObsTimes_ ++ [t]) j)) =
      rowAt (sim.Y_ ++ [sim.interpolatedStates i t]) j := by
  have hnd : (sim.addObsTimes_ ++ [t]).Nodup := by
    rw [List.nodup_append]
    refine ⟨hc.1.nodup, List.nodup_singleton t, ?_⟩
    intro a ha hb
    rw [List.mem_singleton] at hb
    exact ht (hb ▸ ha)
  rw [addInterpolatedState_times, addInterpolatedState_Y sim i t hc.2]
  have hlook := sortedIndices_lookup (sim.addObsTimes_ ++ [t]) hnd j hj
  set v := sim.addObsTimes_ ++ [t] with hv
  set newT := (sortedIndices v).map (numAt v) with hnewT
  have hmem : numAt v j ∈ newT := (sortedIndices_map_perm v).mem_iff.2 (numAt_mem v j hj)
  have hlt : TemplateAuxilliaries.idx newT (numAt v j) < (sortedIndices v).length := by
    have := idx_lt_length newT (numAt v j) (List.ne_nil_of_mem hmem)
    simpa [hnewT] using this
  rw [rowAt_eq_getElem _ _ (by simpa using hlt), List.getElem_map]
  rw [List.getD_eq_getElem _ _ hlt] at hlook
  rw [hlook]

theorem state_def (sim : MCSimulationT α) (k : Nat) (t : α) :
    sim.state k t =
      if ¬ k < sim.X_.length then
        (.error "TemplateMCSimulation: path out of bounds.", sim)
      else if t = numAt sim.obsTimes_ (TemplateAuxilliaries.idx sim.obsTimes_ t) then
        (.ok (rowAt (rowAt sim.X_ k) (TemplateAuxilliaries.idx sim.obsTimes_ t)), sim)
      else if ¬ sim.timeInterpolation_ then
        (.error "TemplateMCSimulation: time interpolation not allowed", sim)
      else if t < numAt sim.obsTimes_ 0 then (.ok (rowAt (rowAt sim.X_ k) 0), sim)
      else if t > numAt sim.obsTimes_ (sim.obsTimes_.length - 1) then
        (.ok (rowAt (rowAt sim.X_ k) ((rowAt sim.X_ k).length - 1)), sim)
      else if sim.addObsTimes_.length > 0 ∧
          t = numAt sim.addObsTimes_ (TemplateAuxilliaries.idx sim.addObsTimes_ t) then
        (.ok (rowAt (rowAt sim.Y_ (TemplateAuxilliaries.idx sim.addObsTimes_ t)) k), sim)
      else
        (.ok (rowAt (sim.interpolatedStates (TemplateAuxilliaries.idx sim.obsTimes_ t) t) k),
          sim.addInterpolatedState (TemplateAuxilliaries.idx sim.obsTimes_ t) t) := rfl

theorem state_fst (sim : MCSimulationT α) (k : Nat) (t : α) :
    (sim.state k t).1 =
      if ¬ k < sim.X_.length then .error "TemplateMCSimulation: path out of bounds."
      else if t = numAt sim.obsTimes_ (TemplateAuxilliaries.idx sim.obsTimes_ t) then
        .ok (rowAt (rowAt sim.X_ k) (TemplateAuxilliaries.idx sim.obsTimes_ t))
      else if ¬ sim.timeInterpolation_ then
        .error "TemplateMCSimulation: time interpolation not allowed"
      else if t < numAt sim.obsTimes_ 0 then .ok (rowAt (rowAt sim.X_ k) 0)
      else if t > numAt sim.obsTimes_ (sim.obsTimes_.length - 1) then
        .ok (rowAt (rowAt sim.X_ k) ((rowAt sim.X_ k).length - 1))
      else .ok (sim.cachedOrInterpolated k t) := by
  rw [state_def]
  unfold MCSimulationT.cachedOrInterpolated
  split_ifs <;> rfl

theorem addInterpolatedState_mem (sim : MCSimulationT α) (i : Nat) (t t' : α) :
    t' ∈ (sim.addInterpolatedState i t).addObsTimes_ ↔ t' ∈ sim.addObsTimes_ ∨ t' = t := by
  rw [addInterpolatedState_times, (sortedIndices_map_perm _).mem_iff]
  simp

theorem cachedOrInterpolated_add (sim : MCSimulationT α) (hc : sim.cacheSorted)
    (t : α) (ht : t ∉ sim.addObsTimes_) (k : Nat) (t' : α) :
    (sim.addInterpolatedState (TemplateAuxilliaries.idx sim.obsTimes_ t) t).cachedOrInterpolated
        k t' = sim.cachedOrInterpolated k t' := by
  have hc1 := addInterpolatedState_cacheSorted sim hc (TemplateAuxilliaries.idx sim.obsTimes_ t) t ht
  unfold MCSimulationT.cachedOrInterpolated
  simp only [cacheHit_iff _ hc1.1, cacheHit_iff _ hc.1, addInterpolatedState_mem]
  by_cases h1 : t' ∈ sim.addObsTimes_
  · rw [if_pos (Or.inl h1), if_pos h1]
    obtain ⟨j, hj, hjt⟩ := List.getElem_of_mem h1
    have hj' : j < (sim.addObsTimes_ ++ [t]).length := by simp; omega
    have hnum : numAt (sim.addObsTimes_ ++ [t]) j = t' := by
      rw [numAt_eq_getElem _ _ hj', List.getElem_append_left hj, hjt]
    have := addInterpolatedState_lookup sim hc (TemplateAuxilliaries.idx sim.obsTimes_ t) t ht j hj'
    rw [hnum] at this
    rw [this]
    have hidx : TemplateAuxilliaries.idx sim.addObsTimes_ t' = j := by
      rw [← hjt, ← numAt_eq_getElem _ _ hj, idx_numAt _ hc.1 j hj]
    rw [hidx]
    have hjY : j < sim.Y_.length := by rw [hc.2]; exact hj
    unfold rowAt
    rw [List.getD_append _ _ _ _ hjY]
  · rw [if_neg h1]
    by_cases h2 : t' = t
    · rw [if_pos (Or.inr h2)]
      subst h2
      have hj' : sim.addObsTimes_.length < (sim.addObsTimes_ ++ [t']).length := by simp
      have hnum : numAt (sim.addObsTimes_ ++ [t']) sim.addObsTimes_.length = t' := by
        rw [numAt_eq_getElem _ _ hj']; simp
      have := addInterpolatedState_lookup sim hc (TemplateAuxilliaries.idx sim.obsTimes_ t') t' ht
        _ hj'
      rw [hnum] at this
      rw [this, ← hc.2]
      unfold rowAt
      rw [List.getD_append_right _ _ _ _ (le_refl _)]
      simp
    · rw [if_neg (by tauto)]
      rfl

/-- One `state` call keeps the cache invariant, changes no field but the
cache, and does not change the value of any later `state` call. -/
theorem state_step (sim : MCSimulationT α) (hc : sim.cacheSorted) (k : Nat) (t : α) :
    (sim.state k t).2.cacheSorted ∧
      (∀ k' t', ((sim.state k t).2.state k' t').1 = (sim.state k' t').1) ∧
      ∃ T Y, (sim.state k t).2 = { sim with addObsTimes_ := T, Y_ := Y } := by
  rw [state_def]
  split_ifs with h1 h2 h3 h4 h5 h6
  all_goals try exact ⟨hc, fun _ _ => rfl, _, _, rfl⟩
  have ht : t ∉ sim.addObsTimes_ := fun hmem => h6 ((cacheHit_iff _ hc.1 t).2 hmem)
  refine ⟨addInterpolatedState_cacheSorted sim hc _ t ht, ?_, _, _, rfl⟩
  intro k' t'
  rw [state_fst, state_fst, cachedOrInterpolated_add sim hc t ht]
  rfl


/-! ### Loops -/

theorem forLoop_append {σ : Type} (body : Nat → σ → Except String Unit × σ)
    (l1 l2 : List Nat) (s : σ) :
    forLoop body (l1 ++ l2) s =
      match forLoop body l1 s with
      | (.ok _, s1) => forLoop body l2 s1
      | (.error e, s1) => (.error e, s1) := by
  induction l1 generalizing s with
  | nil => rfl
  | cons i rest ih =>
    simp only [List.cons_append, forLoop]
    rcases hb : body i s with ⟨r, s1⟩
    cases r with
    | error e => rfl
    | ok u => exact ih s1

theorem forLoop_range_succ {σ : Type} (body : Nat → σ → Except String Unit × σ)
    (n : Nat) (s0 sf : σ) (h : forLoop body (List.range (n + 1)) s0 = (.ok (), sf)) :
    ∃ s1, forLoop body (List.range n) s0 = (.ok (), s1) ∧ body n s1 = (.ok (), sf) := by
  rw [List.range_succ, forLoop_append] at h
  rcases hb : forLoop body (List.range n) s0 with ⟨r, s1⟩
  rw [hb] at h
  cases r with
  | error e => simp at h
  | ok u =>
    refine ⟨s1, rfl, ?_⟩
    simp only [forLoop] at h
    rcases hb2 : body n s1 with ⟨r2, s2⟩
    rw [hb2] at h
    cases r2 with
    | error e => simp at h
    | ok u2 =>
      simp only [Prod.mk.injEq, true_and] at h
      rw [h]

/-- Loop invariant rule for a loop that ends without a throw. -/
theorem forLoop_range_ok {σ : Type} (body : Nat → σ → Except String Unit × σ)
    (P : Nat → σ → Prop) (n : Nat) (s0 sf : σ) (h0 : P 0 s0)
    (hstep : ∀ i s s1, i < n → P i s → body i s = (.ok (), s1) → P (i + 1) s1)
    (hrun : forLoop body (List.range n) s0 = (.ok (), sf)) : P n sf := by
  have key : ∀ m, m ≤ n → ∀ sf, forLoop body (List.range m) s0 = (.ok (), sf) → P m sf := by
    intro m
    induction m with
    | zero =>
      intro _ sf h
      simp only [List.range_zero, forLoop, Prod.mk.injEq, true_and] at h
      rw [← h]; exact h0
    | succ m ih =>
      intro hm sf h
      obtain ⟨s1, h1, h2⟩ := forLoop_range_succ body m s0 sf h
      exact hstep m s1 sf hm (ih (Nat.le_of_succ_le hm) s1 h1) h2
  exact key n le_rfl sf hrun

/-! ### Cache variants -/

theorem cacheVariant_refl (base : MCSimulationT α) (hc : base.cacheSorted) :
    base.cacheVariant base :=
  ⟨hc, fun _ _ => rfl, _, _, rfl⟩

theorem cacheVariant_state (base s : MCSimulationT α) (h : base.cacheVariant s)
    (k : Nat) (t : α) : base.cacheVariant (s.state k t).2 := by
  obtain ⟨h1, h2, T, Y, h3⟩ := state_step s h.1 k t
  obtain ⟨T0, Y0, h0⟩ := h.2.2
  refine ⟨h1, fun k' t' => (h2 k' t').trans (h.2.1 k' t'), T, Y, ?_⟩
  rw [h3, h0]

theorem stateValue_of_ok (sim : MCSimulationT α) (k : Nat) (t : α) (v : List α)
    (h : (sim.state k t).1 = .ok v) : sim.stateValue k t = v := by
  unfold MCSimulationT.stateValue
  rw [h]


/-! ### The numeraire adjuster -/

theorem state_with_numeraireAdjuster (c : MCSimulationT α) (A : List α) (k : Nat) (t : α) :
    ({ c with numeraireAdjuster_ := A } : MCSimulationT α).state k t =
      ((c.state k t).1, { (c.state k t).2 with numeraireAdjuster_ := A }) := by
  rw [state_def, state_def]
  dsimp only
  split_ifs <;> rfl

theorem numeraireAdjusterStep_ok (base c : MCSimulationT α) (A : List α) (k i : Nat)
    (s1 : MCSimulationT α) (hv : base.cacheVariant c)
    (h : ({ c with numeraireAdjuster_ := A } : MCSimulationT α).numeraireAdjusterStep k i
      = (.ok (), s1)) :
    ∃ c1, base.cacheVariant c1 ∧
      (base.state k (numAt base.numeraireObservTimes_ i)).1 =
        .ok (base.stateValue k (numAt base.numeraireObservTimes_ i)) ∧
      s1 = { c1 with numeraireAdjuster_ := A.set i (numAt A i +
        1 / base.process_.numeraire (numAt base.numeraireObservTimes_ i)
          (base.stateValue k (numAt base.numeraireObservTimes_ i))) } := by
  obtain ⟨T, Y, hrec⟩ := hv.2.2
  have htimes : c.numeraireObservTimes_ = base.numeraireObservTimes_ := by rw [hrec]
  have hproc : c.process_ = base.process_ := by rw [hrec]
  unfold MCSimulationT.numeraireAdjusterStep at h
  rw [state_with_numeraireAdjuster] at h
  dsimp only at h
  rw [htimes] at h
  have hread := hv.2.1 k (numAt base.numeraireObservTimes_ i)
  have hcv := cacheVariant_state base c hv k (numAt base.numeraireObservTimes_ i)
  obtain ⟨T1, Y1, hrec1⟩ := hcv.2.2
  have hproc1 : (c.state k (numAt base.numeraireObservTimes_ i)).2.process_ = base.process_ := by
    rw [hrec1]
  have htimes1 : (c.state k (numAt base.numeraireObservTimes_ i)).2.numeraireObservTimes_
      = base.numeraireObservTimes_ := by rw [hrec1]
  rcases hst : (c.state k (numAt base.numeraireObservTimes_ i)).1 with e | v
  · rw [hst] at h
    simp at h
  · rw [hst] at h hread
    simp only [Prod.mk.injEq, true_and] at h
    have hval := stateValue_of_ok base k _ v hread.symm
    refine ⟨_, hcv, ?_, ?_⟩
    · rw [hval]; exact hread.symm
    · rw [← h, hval, hproc1, htimes1]


theorem numAt_set (v : List α) (m i : Nat) (x : α) :
    numAt (v.set m x) i = if m = i ∧ m < v.length then x else numAt v i := by
  unfold numAt
  rw [List.getD_eq_getElem?_getD, List.getD_eq_getElem?_getD, List.getElem?_set]
  by_cases h1 : m = i
  · subst h1
    by_cases h2 : m < v.length
    · simp [h2]
    · simp [h2]
      rw [List.getElem?_eq_none (by omega)]
      rfl
  · simp [h1]

theorem numeraireInner_ok (base c : MCSimulationT α) (A : List α) (k n : Nat)
    (s1 : MCSimulationT α) (hv : base.cacheVariant c) (hA : A.length = n)
    (h : forLoop (MCSimulationT.numeraireAdjusterStep k) (List.range n)
      ({ c with numeraireAdjuster_ := A } : MCSimulationT α) = (.ok (), s1)) :
    ∃ c1 A1, base.cacheVariant c1 ∧ s1 = { c1 with numeraireAdjuster_ := A1 } ∧
      A1.length = n ∧
      (∀ i < n, (base.state k (numAt base.numeraireObservTimes_ i)).1 =
        .ok (base.stateValue k (numAt base.numeraireObservTimes_ i))) ∧
      ∀ i < n, numAt A1 i = numAt A i +
        1 / base.process_.numeraire (numAt base.numeraireObservTimes_ i)
          (base.stateValue k (numAt base.numeraireObservTimes_ i)) := by
  have key := forLoop_range_ok (MCSimulationT.numeraireAdjusterStep k)
    (fun m s => ∃ c1 A1, base.cacheVariant c1 ∧ s = { c1 with numeraireAdjuster_ := A1 } ∧
      A1.length = n ∧
      (∀ i < m, (base.state k (numAt base.numeraireObservTimes_ i)).1 =
        .ok (base.stateValue k (numAt base.numeraireObservTimes_ i))) ∧
      ∀ i < n, numAt A1 i = numAt A i + if i < m then
        1 / base.process_.numeraire (numAt base.numeraireObservTimes_ i)
          (base.stateValue k (numAt base.numeraireObservTimes_ i)) else 0)
    n _ s1 ⟨c, A, hv, rfl, hA, fun i hi => absurd hi (Nat.not_lt_zero i), fun i _ => by simp⟩
    ?_ h
  · obtain ⟨c1, A1, h1, h2, h3, h4, h5⟩ := key
    refine ⟨c1, A1, h1, h2, h3, h4, fun i hi => ?_⟩
    rw [h5 i hi, if_pos hi]
  · rintro m s s2 hm ⟨c1, A1, h1, rfl, h3, h4, h5⟩ hstep
    obtain ⟨c2, hc2, hok, rfl⟩ := numeraireAdjusterStep_ok base c1 A1 k m s2 h1 hstep
    refine ⟨c2, _, hc2, rfl, by simp [h3], ?_, ?_⟩
    · intro i hi
      rcases Nat.lt_succ_iff_lt_or_eq.1 hi with hlt | heq
      · exact h4 i hlt
      · rw [heq]; exact hok
    · intro i hi
      rw [numAt_set]
      by_cases hmi : m = i
      · subst hmi
        rw [if_pos ⟨rfl, by omega⟩, h5 m hm, if_neg (lt_irrefl _), if_pos (Nat.lt_succ_self _)]
        ring
      · rw [if_neg (fun hh => hmi hh.1), h5 i hi]
        have : (i < m + 1) ↔ (i < m) := by omega
        simp only [this]

theorem numeraireOuter_ok (base : MCSimulationT α) (hc : base.cacheSorted) (n p : Nat)
    (s1 : MCSimulationT α)
    (h : forLoop (fun k => forLoop (MCSimulationT.numeraireAdjusterStep k) (List.range n))
      (List.range p)
      ({ base with numeraireAdjuster_ := List.replicate n 0 } : MCSimulationT α) = (.ok (), s1)) :
    ∃ c1 A1, base.cacheVariant c1 ∧ s1 = { c1 with numeraireAdjuster_ := A1 } ∧
      A1.length = n ∧
      (∀ k < p, ∀ i < n, (base.state k (numAt base.numeraireObservTimes_ i)).1 =
        .ok (base.stateValue k (numAt base.numeraireObservTimes_ i))) ∧
      ∀ i < n, numAt A1 i = ∑ k ∈ Finset.range p,
        1 / base.process_.numeraire (numAt base.numeraireObservTimes_ i)
          (base.stateValue k (numAt base.numeraireObservTimes_ i)) := by
  refine forLoop_range_ok
    (fun k => forLoop (MCSimulationT.numeraireAdjusterStep k) (List.range n))
    (fun m s => ∃ c1 A1, base.cacheVariant c1 ∧ s = { c1 with numeraireAdjuster_ := A1 } ∧
      A1.length = n ∧
      (∀ k < m, ∀ i < n, (base.state k (numAt base.numeraireObservTimes_ i)).1 =
        .ok (base.stateValue k (numAt base.numeraireObservTimes_ i))) ∧
      ∀ i < n, numAt A1 i = ∑ k ∈ Finset.range m,
        1 / base.process_.numeraire (numAt base.numeraireObservTimes_ i)
          (base.stateValue k (numAt base.numeraireObservTimes_ i)))
    p _ s1 ⟨base, _, cacheVariant_refl base hc, rfl, by simp,
      fun k hk => absurd hk (Nat.not_lt_zero k), fun i hi => ?_⟩ ?_ h
  · simp [numAt, List.getD_eq_getElem?_getD, List.getElem?_replicate, hi]
  · rintro m s s2 _ ⟨c1, A1, h1, rfl, h3, h4, h5⟩ hstep
    obtain ⟨c2, A2, hc2, rfl, hA2, hok, hsum⟩ := numeraireInner_ok base c1 A1 m n s2 h1 h3 hstep
    refine ⟨c2, A2, hc2, rfl, hA2, ?_, ?_⟩
    · intro k hk i hi
      rcases Nat.lt_succ_iff_lt_or_eq.1 hk with hlt | heq
      · exact h4 k hlt i hi
      · rw [heq]; exact hok i hi
    · intro i hi
      rw [hsum i hi, h5 i hi, Finset.sum_range_succ]


theorem state_fst_congr (a b : MCSimulationT α) (hX : a.X_ = b.X_)
    (hobs : a.obsTimes_ = b.obsTimes_) (hti : a.timeInterpolation_ = b.timeInterpolation_)
    (hproc : a.process_ = b.process_) (hT : a.addObsTimes_ = b.addObsTimes_)
    (hY : a.Y_ = b.Y_) (k : Nat) (t : α) : (a.state k t).1 = (b.state k t).1 := by
  rw [state_fst, state_fst]
  unfold MCSimulationT.cachedOrInterpolated MCSimulationT.interpolatedStates MCSimulationT.nPaths
  rw [hX, hobs, hti, hproc, hT, hY]

/-! ### Interpolation at a calibration time -/

theorem interp_node (v : List α) (hs : v.Sorted (· < ·)) (i : Nat) (hi : i < v.length) :
    (i = 0 ∧ interpIndex v (numAt v i) = 1 ∧ interpWeight v (numAt v i) = 0) ∨
    (1 ≤ i ∧ interpIndex v (numAt v i) = i ∧ interpWeight v (numAt v i) = 1) := by
  have hidx := idx_numAt v hs i hi
  rcases Nat.eq_zero_or_pos i with h0 | hpos
  · left
    subst h0
    have hI : interpIndex v (numAt v 0) = 1 := by
      unfold interpIndex; rw [hidx]; simp
    refine ⟨rfl, hI, ?_⟩
    unfold interpWeight
    rw [hI]
    simp
  · right
    have hI : interpIndex v (numAt v i) = i := by
      unfold interpIndex; rw [hidx]; rw [if_neg (by omega)]
    refine ⟨hpos, hI, ?_⟩
    have hlt : numAt v (i - 1) < numAt v i :=
      calc numAt v (i - 1) = v[i - 1] := numAt_eq_getElem v (i - 1) (by omega)
        _ < v[i] := List.pairwise_iff_getElem.1 hs (i - 1) i (by omega) hi (by omega)
        _ = numAt v i := (numAt_eq_getElem v i hi).symm
    have hne : numAt v i - numAt v (i - 1) ≠ 0 := sub_ne_zero.2 (ne_of_gt hlt)
    unfold interpWeight
    rw [hI, div_self hne]
    norm_num

theorem numeraireAdjuster_eq (exp : α → α) (sim : MCSimulationT α) (t : α) :
    sim.numeraireAdjuster exp t =
      if !sim.applyNumeraireAdjuster_ then 1
      else exp ((numAt sim.numeraireAdjuster_ (interpIndex sim.numeraireObservTimes_ t - 1)
          * (1 - interpWeight sim.numeraireObservTimes_ t)
        + numAt sim.numeraireAdjuster_ (interpIndex sim.numeraireObservTimes_ t)
          * interpWeight sim.numeraireObservTimes_ t) * t) := rfl

theorem numeraireAdjuster_node (exp : α → α) (sim : MCSimulationT α)
    (happ : sim.applyNumeraireAdjuster_ = true)
    (hs : sim.numeraireObservTimes_.Sorted (· < ·)) (i : Nat) (hi : i < sim.numeraireObservTimes_.length) :
    sim.numeraireAdjuster exp (numAt sim.numeraireObservTimes_ i) =
      exp (numAt sim.numeraireAdjuster_ i * numAt sim.numeraireObservTimes_ i) := by
  rw [numeraireAdjuster_eq, happ]
  simp only [Bool.not_true, Bool.false_eq_true, if_false]
  rcases interp_node _ hs i hi with ⟨h0, hI, hW⟩ | ⟨_, hI, hW⟩
  · rw [hI, hW, h0]; simp
  · rw [hI, hW]; simp

theorem numAt_map_range (n : Nat) (f : Nat → α) (i : Nat) (hi : i < n) :
    numAt ((List.range n).map f) i = f i := by
  rw [numAt_eq_getElem _ _ (by simpa using hi)]
  simp

theorem calculateNumeraireAdjuster_ok (log : α → α) (sim sim' : MCSimulationT α)
    (times : List α) (hc : sim.cacheSorted)
    (hok : sim.calculateNumeraireAdjuster log times = (.ok (), sim')) :
    1 < times.length ∧ 0 < numAt times 0 ∧ times.Sorted (· < ·) ∧
    sim'.applyNumeraireAdjuster_ = true ∧ sim'.numeraireObservTimes_ = times ∧
    sim'.process_ = sim.process_ ∧ sim'.X_ = sim.X_ ∧
    (∀ k < sim.nPaths, ∀ i < times.length, ∃ v, (sim'.state k (numAt times i)).1 = .ok v) ∧
    ∀ i < times.length, numAt sim'.numeraireAdjuster_ i =
      log ((∑ k ∈ Finset.range sim.nPaths,
          1 / sim.process_.numeraire (numAt times i) (sim'.stateValue k (numAt times i)))
        / (sim.nPaths : α) / sim.process_.zeroBond 0 (numAt times i) sim.process_.initialValues)
        / numAt times i := by
  unfold MCSimulationT.calculateNumeraireAdjuster at hok
  dsimp only at hok
  by_cases h1' : 1 < times.length
  swap
  · rw [if_pos h1'] at hok; simp at hok
  rw [if_neg (not_not.2 h1')] at hok
  by_cases h2' : 0 < numAt times 0
  swap
  · rw [if_pos h2'] at hok; simp at hok
  rw [if_neg (not_not.2 h2')] at hok
  by_cases h3 : ascendingCheck times = true
  swap
  · rw [if_pos (by simpa using h3)] at hok; simp at hok
  rw [if_neg (by simpa using h3)] at hok
  have h3' : times.Sorted (· < ·) := (ascendingCheck_iff _).1 h3
  refine ⟨h1', h2', h3', ?_⟩
  set base : MCSimulationT α := { sim with numeraireObservTimes_ := times } with hbase
  have hcb : base.cacheSorted := hc
  rcases hloop : forLoop (fun k => forLoop (MCSimulationT.numeraireAdjusterStep k)
      (List.range times.length)) (List.range sim.nPaths)
      ({ base with numeraireAdjuster_ := List.replicate times.length 0 } : MCSimulationT α)
    with ⟨r, s3⟩
  have hloop' : forLoop (fun k => forLoop (MCSimulationT.numeraireAdjusterStep k)
      (List.range times.length)) (List.range
        ({ sim with numeraireObservTimes_ := times,
                    numeraireAdjuster_ := List.replicate times.length 0 } : MCSimulationT α).nPaths)
      ({ sim with numeraireObservTimes_ := times,
                  numeraireAdjuster_ := List.replicate times.length 0 } : MCSimulationT α)
      = (r, s3) := hloop
  rw [hloop'] at hok
  cases r with
  | error e => simp at hok
  | ok u =>
    simp only [Prod.mk.injEq, true_and] at hok
    obtain ⟨c1, A1, hcv, rfl, hA1, hreads, hsum⟩ :=
      numeraireOuter_ok base hcb times.length sim.nPaths s3 hloop
    have hstate : ∀ k t, (sim'.state k t).1 = (base.state k t).1 := by
      intro k t
      rw [← hcv.2.1 k t]
      exact state_fst_congr sim' c1 (by rw [← hok]) (by rw [← hok]) (by rw [← hok])
        (by rw [← hok]) (by rw [← hok]) (by rw [← hok]) k t
    obtain ⟨T, Y, hrec⟩ := hcv.2.2
    subst hrec
    refine ⟨by rw [← hok], by rw [← hok], by rw [← hok], by rw [← hok], ?_, ?_⟩
    · intro k hk i hi
      exact ⟨_, (hstate k _).trans (hreads k hk i hi)⟩
    · intro i hi
      have hsv : ∀ k, sim'.stateValue k (numAt times i) = base.stateValue k (numAt times i) := by
        intro k
        unfold MCSimulationT.stateValue
        rw [hstate]
      simp only [hsv]
      rw [← hok]
      dsimp only
      rw [numAt_map_range _ _ i hi, hsum i hi]
      rfl


theorem numAt_pos_of_sorted (v : List α) (hs : v.Sorted (· < ·)) (h0 : 0 < numAt v 0)
    (i : Nat) (hi : i < v.length) : 0 < numAt v i := by
  rcases Nat.eq_zero_or_pos i with h | h
  · rw [h]; exact h0
  · calc (0 : α) < numAt v 0 := h0
      _ = v[0] := numAt_eq_getElem v 0 (by omega)
      _ < v[i] := List.pairwise_iff_getElem.1 hs 0 i (by omega) hi h
      _ = numAt v i := (numAt_eq_getElem v i hi).symm

theorem exp_log_average (n : ℕ) (hn : 0 < n) (f : ℕ → ℝ) (hf : ∀ k, 0 < f k) (P t : ℝ)
    (hP : 0 < P) (ht : 0 < t) :
    (1 / (n : ℝ)) * ∑ k ∈ Finset.range n,
        1 / (Real.exp (Real.log ((∑ j ∈ Finset.range n, 1 / f j) / (n : ℝ) / P) / t * t) * f k)
      = P := by
  have hn' : (0 : ℝ) < n := by exact_mod_cast hn
  have hS : 0 < ∑ j ∈ Finset.range n, 1 / f j :=
    Finset.sum_pos (fun j _ => one_div_pos.2 (hf j)) ⟨0, Finset.mem_range.2 hn⟩
  have hx : 0 < (∑ j ∈ Finset.range n, 1 / f j) / (n : ℝ) / P := by positivity
  rw [div_mul_cancel₀ _ (ne_of_gt ht), Real.exp_log hx]
  have : ∀ k, 1 / ((∑ j ∈ Finset.range n, 1 / f j) / (n : ℝ) / P * f k)
      = (1 / ((∑ j ∈ Finset.range n, 1 / f j) / (n : ℝ) / P)) * (1 / f k) := by
    intro k
    rw [one_div_mul_one_div]
  simp only [this]
  rw [← Finset.mul_sum]
  field_simp

/-- C5: after a successful calculateNumeraireAdjuster(times), with at least
one path and positive numeraires and zero bonds, every state read at a
calibration time t_i succeeds and the adjusted path average of 1/numeraire
equals the analytic zero bond P(0, t_i) (real arithmetic). -/
theorem numeraireAdjuster_exact (sim sim' : MCSimulationT ℝ) (times : List ℝ)
    (hc : sim.cacheSorted)
    (hok : sim.calculateNumeraireAdjuster Real.log times = (.ok (), sim'))
    (hn : 0 < sim.nPaths)
    (hnum : ∀ t X, 0 < sim.process_.numeraire t X)
    (hzb : ∀ T, 0 < sim.process_.zeroBond 0 T sim.process_.initialValues)
    (i : Nat) (hi : i < times.length) :
    ∃ s : Nat → List ℝ,
      (∀ k < sim'.nPaths, (sim'.state k (numAt times i)).1 = .ok (s k)) ∧
      (1 / (sim'.nPaths : ℝ)) * ∑ k ∈ Finset.range sim'.nPaths,
          1 / (sim'.numeraireAdjuster Real.exp (numAt times i)
                * sim'.process_.numeraire (numAt times i) (s k))
        = sim'.process_.zeroBond 0 (numAt times i) sim'.process_.initialValues := by
  obtain ⟨hlen, h0, hs, happ, htimes, hproc, hX, hreads, hadj⟩ :=
    calculateNumeraireAdjuster_ok Real.log sim sim' times hc hok
  have hnp : sim'.nPaths = sim.nPaths := by unfold MCSimulationT.nPaths; rw [hX]
  refine ⟨fun k => sim'.stateValue k (numAt times i), ?_, ?_⟩
  · intro k hk
    obtain ⟨v, hv⟩ := hreads k (hnp ▸ hk) i hi
    show (sim'.state k (numAt times i)).1 = .ok (sim'.stateValue k (numAt times i))
    rw [stateValue_of_ok _ _ _ _ hv, hv]
  · have hnode := numeraireAdjuster_node Real.exp sim' happ (htimes ▸ hs) i
      (htimes ▸ hi)
    rw [htimes] at hnode
    show (1 / (sim'.nPaths : ℝ)) * ∑ k ∈ Finset.range sim'.nPaths,
          1 / (sim'.numeraireAdjuster Real.exp (numAt times i)
                * sim'.process_.numeraire (numAt times i) (sim'.stateValue k (numAt times i)))
        = sim'.process_.zeroBond 0 (numAt times i) sim'.process_.initialValues
    rw [hnode, hadj i hi, hnp, hproc]
    exact exp_log_average sim.nPaths hn
      (fun k => sim.process_.numeraire (numAt times i) (sim'.stateValue k (numAt times i)))
      (fun k => hnum _ _) _ _ (hzb _) (numAt_pos_of_sorted times hs h0 i hi)

theorem numeraireAdjuster_exact_witness :
    ∃ sim', (MCSimulationT.build (unitProcess ℝ) [1, 2] [1, 2] 2 1234 true false false
        ).calculateNumeraireAdjuster Real.log [1, 2] = (.ok (), sim') ∧
      ∃ s : Nat → List ℝ,
        (∀ k < sim'.nPaths, (sim'.state k (numAt [1, 2] 1)).1 = .ok (s k)) ∧
        (1 / (sim'.nPaths : ℝ)) * ∑ k ∈ Finset.range sim'.nPaths,
            1 / (sim'.numeraireAdjuster Real.exp (numAt [1, 2] 1)
                  * sim'.process_.numeraire (numAt [1, 2] 1) (s k))
          = sim'.process_.zeroBond 0 (numAt [1, 2] 1) sim'.process_.initialValues :=
  have h1 : ((MCSimulationT.build (unitProcess ℝ) [1, 2] [1, 2] 2 1234 true false false
      ).calculateNumeraireAdjuster Real.log [1, 2]).1 = .ok () := by
    norm_num [MCSimulationT.calculateNumeraireAdjuster, MCSimulationT.build,
      MCSimulationT.reallocateMemory, buildObsTimes, ascendingCheck, numAt, forLoop,
      List.range_succ, MCSimulationT.nPaths, MCSimulationT.numeraireAdjusterStep,
      state_def, TemplateAuxilliaries.idx, rowAt]
  ⟨_, Prod.ext h1 rfl,
    numeraireAdjuster_exact _ _ [1, 2] ⟨List.sorted_nil, rfl⟩ (Prod.ext h1 rfl)
      (by simp [MCSimulationT.nPaths, MCSimulationT.build, MCSimulationT.reallocateMemory])
      (fun _ _ => one_pos) (fun _ => one_pos) 1 (by simp)⟩


/-! ### The zero-bond adjuster -/

theorem rowAt_set {β : Type} (M : List (List β)) (m i : Nat) (r : List β) :
    rowAt (M.set m r) i = if m = i ∧ m < M.length then r else rowAt M i := by
  unfold rowAt
  rw [List.getD_eq_getElem?_getD, List.getD_eq_getElem?_getD, List.getElem?_set]
  by_cases h1 : m = i
  · subst h1
    by_cases h2 : m < M.length
    · simp [h2]
    · simp [h2]
      rw [List.getElem?_eq_none (by omega)]
      rfl
  · simp [h1]

theorem numeraireAdjuster_cacheVariant (exp : α → α) (base c : MCSimulationT α)
    (hv : base.cacheVariant c) (t : α) :
    c.numeraireAdjuster exp t = base.numeraireAdjuster exp t := by
  obtain ⟨T, Y, hrec⟩ := hv.2.2
  rw [hrec]
  rfl

theorem zcbAdjusterStep_ok (exp : α → α) (base c : MCSimulationT α) (Z : List (List α))
    (k i : Nat) (st : List (List α) × MCSimulationT α) (hv : base.cacheVariant c)
    (h : MCSimulationT.zcbAdjusterStep exp k i (Z, c) = (.ok (), st)) :
    base.cacheVariant st.2 ∧
      (base.state k (numAt base.zcbObservTimes_ i)).1 =
        .ok (base.stateValue k (numAt base.zcbObservTimes_ i)) ∧
      st.1 = Z.set i ((List.range base.zcbOffsetTimes_.length).map fun j =>
        numAt (rowAt Z i) j
          + base.process_.zeroBond (numAt base.zcbObservTimes_ i)
              (numAt base.zcbObservTimes_ i + numAt base.zcbOffsetTimes_ j)
              (base.stateValue k (numAt base.zcbObservTimes_ i))
            / (base.numeraireAdjuster exp (numAt base.zcbObservTimes_ i)
              * base.process_.numeraire (numAt base.zcbObservTimes_ i)
                  (base.stateValue k (numAt base.zcbObservTimes_ i)))) := by
  obtain ⟨T, Y, hrec⟩ := hv.2.2
  have htimes : c.zcbObservTimes_ = base.zcbObservTimes_ := by rw [hrec]
  unfold MCSimulationT.zcbAdjusterStep at h
  dsimp only at h
  rw [htimes] at h
  have hread := hv.2.1 k (numAt base.zcbObservTimes_ i)
  have hcv := cacheVariant_state base c hv k (numAt base.zcbObservTimes_ i)
  have hna := numeraireAdjuster_cacheVariant exp base _ hcv
  obtain ⟨T1, Y1, hrec1⟩ := hcv.2.2
  have hproc1 : (c.state k (numAt base.zcbObservTimes_ i)).2.process_ = base.process_ := by
    rw [hrec1]
  have hobs1 : (c.state k (numAt base.zcbObservTimes_ i)).2.zcbObservTimes_
      = base.zcbObservTimes_ := by rw [hrec1]
  have hoff1 : (c.state k (numAt base.zcbObservTimes_ i)).2.zcbOffsetTimes_
      = base.zcbOffsetTimes_ := by rw [hrec1]
  rcases hst : c.state k (numAt base.zcbObservTimes_ i) with ⟨r, c1⟩
  rw [hst] at h hread hproc1 hobs1 hoff1 hna hcv
  dsimp only at h hread hproc1 hobs1 hoff1 hna hcv
  cases r with
  | error e => simp at h
  | ok v =>
    simp only [Prod.mk.injEq, true_and] at h
    have hval := stateValue_of_ok base k _ v hread.symm
    rw [← h]
    refine ⟨hcv, ?_, ?_⟩
    · rw [hval]; exact hread.symm
    · dsimp only
      rw [hval, hproc1, hobs1, hoff1, hna]


theorem zcbInner_ok (exp : α → α) (base c : MCSimulationT α) (Z : List (List α)) (k n : Nat)
    (st : List (List α) × MCSimulationT α) (hv : base.cacheVariant c) (hZ : Z.length = n)
    (h : forLoop (MCSimulationT.zcbAdjusterStep exp k) (List.range n) (Z, c) = (.ok (), st)) :
    base.cacheVariant st.2 ∧ st.1.length = n ∧
      (∀ i < n, (base.state k (numAt base.zcbObservTimes_ i)).1 =
        .ok (base.stateValue k (numAt base.zcbObservTimes_ i))) ∧
      ∀ i < n, ∀ j < base.zcbOffsetTimes_.length, numAt (rowAt st.1 i) j = numAt (rowAt Z i) j
          + base.process_.zeroBond (numAt base.zcbObservTimes_ i)
              (numAt base.zcbObservTimes_ i + numAt base.zcbOffsetTimes_ j)
              (base.stateValue k (numAt base.zcbObservTimes_ i))
            / (base.numeraireAdjuster exp (numAt base.zcbObservTimes_ i)
              * base.process_.numeraire (numAt base.zcbObservTimes_ i)
                  (base.stateValue k (numAt base.zcbObservTimes_ i))) := by
  have key := forLoop_range_ok (MCSimulationT.zcbAdjusterStep exp k)
    (fun m s => base.cacheVariant s.2 ∧ s.1.length = n ∧
      (∀ i < m, (base.state k (numAt base.zcbObservTimes_ i)).1 =
        .ok (base.stateValue k (numAt base.zcbObservTimes_ i))) ∧
      ∀ i < n, ∀ j < base.zcbOffsetTimes_.length, numAt (rowAt s.1 i) j = numAt (rowAt Z i) j
        + if i < m then
          base.process_.zeroBond (numAt base.zcbObservTimes_ i)
              (numAt base.zcbObservTimes_ i + numAt base.zcbOffsetTimes_ j)
              (base.stateValue k (numAt base.zcbObservTimes_ i))
            / (base.numeraireAdjuster exp (numAt base.zcbObservTimes_ i)
              * base.process_.numeraire (numAt base.zcbObservTimes_ i)
                  (base.stateValue k (numAt base.zcbObservTimes_ i)))
          else 0)
    n _ st ⟨hv, hZ, fun i hi => absurd hi (Nat.not_lt_zero i), fun i _ j _ => by simp⟩ ?_ h
  · obtain ⟨h1, h2, h3, h4⟩ := key
    refine ⟨h1, h2, h3, fun i hi j hj => ?_⟩
    rw [h4 i hi j hj, if_pos hi]
  · rintro m ⟨Z1, c1⟩ s2 hm ⟨h1, h2, h3, h4⟩ hstep
    obtain ⟨hc2, hok, hZ2⟩ := zcbAdjusterStep_ok exp base c1 Z1 k m s2 h1 hstep
    dsimp only at h2 h4
    refine ⟨hc2, by rw [hZ2]; simp [h2], ?_, ?_⟩
    · intro i hi
      rcases Nat.lt_succ_iff_lt_or_eq.1 hi with hlt | heq
      · exact h3 i hlt
      · rw [heq]; exact hok
    · intro i hi j hj
      rw [hZ2, rowAt_set]
      by_cases hmi : m = i
      · subst hmi
        rw [if_pos ⟨rfl, by omega⟩, numAt_map_range _ _ j hj, h4 m hm j hj,
          if_neg (lt_irrefl _), if_pos (Nat.lt_succ_self _)]
        ring
      · rw [if_neg (fun hh => hmi hh.1), h4 i hi j hj]
        have : (i < m + 1) ↔ (i < m) := by omega
        simp only [this]

theorem zcbOuter_ok (exp : α → α) (base : MCSimulationT α) (hc : base.cacheSorted) (n p : Nat)
    (st : List (List α) × MCSimulationT α)
    (h : forLoop (fun k => forLoop (MCSimulationT.zcbAdjusterStep exp k) (List.range n))
      (List.range p)
      (List.replicate n (List.replicate base.zcbOffsetTimes_.length (0 : α)), base)
        = (.ok (), st)) :
    base.cacheVariant st.2 ∧
      (∀ k < p, ∀ i < n, (base.state k (numAt base.zcbObservTimes_ i)).1 =
        .ok (base.stateValue k (numAt base.zcbObservTimes_ i))) ∧
      ∀ i < n, ∀ j < base.zcbOffsetTimes_.length, numAt (rowAt st.1 i) j =
        ∑ k ∈ Finset.range p,
          base.process_.zeroBond (numAt base.zcbObservTimes_ i)
              (numAt base.zcbObservTimes_ i + numAt base.zcbOffsetTimes_ j)
              (base.stateValue k (numAt base.zcbObservTimes_ i))
            / (base.numeraireAdjuster exp (numAt base.zcbObservTimes_ i)
              * base.process_.numeraire (numAt base.zcbObservTimes_ i)
                  (base.stateValue k (numAt base.zcbObservTimes_ i))) := by
  have key := forLoop_range_ok
    (fun k => forLoop (MCSimulationT.zcbAdjusterStep exp k) (List.range n))
    (fun m s => base.cacheVariant s.2 ∧ s.1.length = n ∧
      (∀ k < m, ∀ i < n, (base.state k (numAt base.zcbObservTimes_ i)).1 =
        .ok (base.stateValue k (numAt base.zcbObservTimes_ i))) ∧
      ∀ i < n, ∀ j < base.zcbOffsetTimes_.length, numAt (rowAt s.1 i) j =
        ∑ k ∈ Finset.range m,
          base.process_.zeroBond (numAt base.zcbObservTimes_ i)
              (numAt base.zcbObservTimes_ i + numAt base.zcbOffsetTimes_ j)
              (base.stateValue k (numAt base.zcbObservTimes_ i))
            / (base.numeraireAdjuster exp (numAt base.zcbObservTimes_ i)
              * base.process_.numeraire (numAt base.zcbObservTimes_ i)
                  (base.stateValue k (numAt base.zcbObservTimes_ i))))
    p _ st ⟨cacheVariant_refl base hc, by simp,
      fun k hk => absurd hk (Nat.not_lt_zero k), fun i hi j hj => ?_⟩ ?_ h
  · exact ⟨key.1, key.2.2.1, key.2.2.2⟩
  · simp [numAt, rowAt, List.getD_eq_getElem?_getD, List.getElem?_replicate, hi, hj]
  · rintro m ⟨Z1, c1⟩ s2 _ ⟨h1, h2, h3, h4⟩ hstep
    obtain ⟨hc2, hZ2, hok, hsum⟩ := zcbInner_ok exp base c1 Z1 m n s2 h1 h2 hstep
    refine ⟨hc2, hZ2, ?_, ?_⟩
    · intro k hk i hi
      rcases Nat.lt_succ_iff_lt_or_eq.1 hk with hlt | heq
      · exact h3 k hlt i hi
      · rw [heq]; exact hok i hi
    · intro i hi j hj
      rw [hsum i hi j hj, h4 i hi j hj, Finset.sum_range_succ]


theorem zcbAdjuster_eq (exp : α → α) (sim : MCSimulationT α) (t T : α) :
    sim.zcbAdjuster exp t T =
      if !sim.applyZcbAdjuster_ then 1
      else exp (-(numAt (rowAt sim.zcbAdjuster_ (interpIndex sim.zcbObservTimes_ t - 1))
              (interpIndex sim.zcbOffsetTimes_ (T - t) - 1)
            * (1 - interpWeight sim.zcbObservTimes_ t)
            * (1 - interpWeight sim.zcbOffsetTimes_ (T - t))
          + numAt (rowAt sim.zcbAdjuster_ (interpIndex sim.zcbObservTimes_ t))
              (interpIndex sim.zcbOffsetTimes_ (T - t) - 1)
            * interpWeight sim.zcbObservTimes_ t
            * (1 - interpWeight sim.zcbOffsetTimes_ (T - t))
          + numAt (rowAt sim.zcbAdjuster_ (interpIndex sim.zcbObservTimes_ t - 1))
              (interpIndex sim.zcbOffsetTimes_ (T - t))
            * (1 - interpWeight sim.zcbObservTimes_ t)
            * interpWeight sim.zcbOffsetTimes_ (T - t)
          + numAt (rowAt sim.zcbAdjuster_ (interpIndex sim.zcbObservTimes_ t))
              (interpIndex sim.zcbOffsetTimes_ (T - t))
            * interpWeight sim.zcbObservTimes_ t
            * interpWeight sim.zcbOffsetTimes_ (T - t)) * (T - t)) := rfl

theorem zcbAdjuster_node (exp : α → α) (sim : MCSimulationT α)
    (happ : sim.applyZcbAdjuster_ = true)
    (hs : sim.zcbObservTimes_.Sorted (· < ·)) (hs' : sim.zcbOffsetTimes_.Sorted (· < ·))
    (i j : Nat) (hi : i < sim.zcbObservTimes_.length) (hj : j < sim.zcbOffsetTimes_.length) :
    sim.zcbAdjuster exp (numAt sim.zcbObservTimes_ i)
        (numAt sim.zcbObservTimes_ i + numAt sim.zcbOffsetTimes_ j) =
      exp (-(numAt (rowAt sim.zcbAdjuster_ i) j) * numAt sim.zcbOffsetTimes_ j) := by
  rw [zcbAdjuster_eq, happ]
  simp only [Bool.not_true, Bool.false_eq_true, if_false, add_sub_cancel_left]
  rcases interp_node _ hs i hi with ⟨h0, hI, hW⟩ | ⟨_, hI, hW⟩ <;>
  rcases interp_node _ hs' j hj with ⟨h0', hI', hW'⟩ | ⟨_, hI', hW'⟩
  · rw [hI, hW, hI', hW', h0, h0']; simp
  · rw [hI, hW, hI', hW', h0]; simp
  · rw [hI, hW, hI', hW', h0']; simp
  · rw [hI, hW, hI', hW']; simp

theorem rowAt_map_range {β : Type} (n : Nat) (f : Nat → List β) (i : Nat) (hi : i < n) :
    rowAt ((List.range n).map f) i = f i := by
  rw [rowAt_eq_getElem _ _ (by simpa using hi)]
  simp

theorem calculateZCBAdjuster_ok (exp log : α → α) (sim sim' : MCSimulationT α)
    (obsT offT : List α) (hc : sim.cacheSorted)
    (hok : sim.calculateZCBAdjuster exp log obsT offT = (.ok (), sim')) :
    (0 < numAt obsT 0 ∧ obsT.Sorted (· < ·) ∧ 0 < numAt offT 0 ∧ offT.Sorted (· < ·)) ∧
    sim'.applyZcbAdjuster_ = true ∧ sim'.zcbObservTimes_ = obsT ∧
    sim'.zcbOffsetTimes_ = offT ∧ sim'.process_ = sim.process_ ∧ sim'.X_ = sim.X_ ∧
    (∀ t, sim'.numeraireAdjuster exp t = sim.numeraireAdjuster exp t) ∧
    (∀ k < sim.nPaths, ∀ i < obsT.length, ∃ v, (sim'.state k (numAt obsT i)).1 = .ok v) ∧
    ∀ i < obsT.length, ∀ j < offT.length, numAt (rowAt sim'.zcbAdjuster_ i) j =
      - log (sim.process_.zeroBond 0 (numAt obsT i + numAt offT j) sim.process_.initialValues
          / ((∑ k ∈ Finset.range sim.nPaths,
              sim.process_.zeroBond (numAt obsT i) (numAt obsT i + numAt offT j)
                  (sim'.stateValue k (numAt obsT i))
                / (sim.numeraireAdjuster exp (numAt obsT i)
                  * sim.process_.numeraire (numAt obsT i) (sim'.stateValue k (numAt obsT i))))
            / (sim.nPaths : α)))
        / numAt offT j := by
  unfold MCSimulationT.calculateZCBAdjuster at hok
  dsimp only at hok
  by_cases h1' : 1 < obsT.length
  swap
  · rw [if_pos h1'] at hok; simp at hok
  rw [if_neg (not_not.2 h1')] at hok
  by_cases h2' : 0 < numAt obsT 0
  swap
  · rw [if_pos h2'] at hok; simp at hok
  rw [if_neg (not_not.2 h2')] at hok
  by_cases h3 : ascendingCheck obsT = true
  swap
  · rw [if_pos (by simpa using h3)] at hok; simp at hok
  rw [if_neg (by simpa using h3)] at hok
  by_cases h4' : 1 < offT.length
  swap
  · rw [if_pos h4'] at hok; simp at hok
  rw [if_neg (not_not.2 h4')] at hok
  by_cases h5' : 0 < numAt offT 0
  swap
  · rw [if_pos h5'] at hok; simp at hok
  rw [if_neg (not_not.2 h5')] at hok
  by_cases h6 : ascendingCheck offT = true
  swap
  · rw [if_pos (by simpa using h6)] at hok; simp at hok
  rw [if_neg (by simpa using h6)] at hok
  refine ⟨⟨h2', (ascendingCheck_iff _).1 h3, h5', (ascendingCheck_iff _).1 h6⟩, ?_⟩
  set base : MCSimulationT α :=
    { sim with zcbObservTimes_ := obsT, zcbOffsetTimes_ := offT,
               zcbAdjuster_ := List.replicate obsT.length (List.replicate offT.length (0 : α)) }
    with hbase
  have hcb : base.cacheSorted := hc
  rcases hloop : forLoop (fun k => forLoop (MCSimulationT.zcbAdjusterStep exp k)
      (List.range obsT.length)) (List.range sim.nPaths)
      (List.replicate obsT.length (List.replicate base.zcbOffsetTimes_.length (0 : α)), base)
    with ⟨r, st⟩
  have hloop' : forLoop (fun k => forLoop (MCSimulationT.zcbAdjusterStep exp k)
      (List.range obsT.length)) (List.range base.nPaths)
      (List.replicate obsT.length (List.replicate offT.length (0 : α)), base)
      = (r, st) := hloop
  rw [hloop'] at hok
  cases r with
  | error e => simp at hok
  | ok u =>
    simp only [Prod.mk.injEq, true_and] at hok
    obtain ⟨hcv, hreads, hsum⟩ := zcbOuter_ok exp base hcb obsT.length sim.nPaths st hloop
    have hstate : ∀ k t, (sim'.state k t).1 = (base.state k t).1 := by
      intro k t
      rw [← hcv.2.1 k t]
      exact state_fst_congr sim' st.2 (by rw [← hok]) (by rw [← hok]) (by rw [← hok])
        (by rw [← hok]) (by rw [← hok]) (by rw [← hok]) k t
    obtain ⟨T, Y, hrec⟩ := hcv.2.2
    refine ⟨by rw [← hok], by rw [← hok, hrec], by rw [← hok, hrec], by rw [← hok, hrec],
      by rw [← hok, hrec], ?_, ?_, ?_⟩
    · intro t
      rw [← hok, hrec]
      rfl
    · intro k hk i hi
      exact ⟨_, (hstate k _).trans (hreads k hk i hi)⟩
    · intro i hi j hj
      have hsv : ∀ k, sim'.stateValue k (numAt obsT i) = base.stateValue k (numAt obsT i) := by
        intro k
        unfold MCSimulationT.stateValue
        rw [hstate]
      simp only [hsv]
      rw [← hok]
      dsimp only
      rw [hrec]
      dsimp only
      rw [rowAt_map_range _ _ i hi, numAt_map_range _ _ j hj, hsum i hi j hj]
      rfl


theorem numeraireAdjuster_pos (sim : MCSimulationT ℝ) (t : ℝ) :
    0 < sim.numeraireAdjuster Real.exp t := by
  rw [numeraireAdjuster_eq]
  split_ifs
  · exact one_pos
  · exact Real.exp_pos _

theorem exp_log_discounted (n : ℕ) (hn : 0 < n) (h : ℕ → ℝ) (hh : ∀ k, 0 < h k) (P d : ℝ)
    (hP : 0 < P) (hd : 0 < d) :
    Real.exp (-(-Real.log (P / ((∑ k ∈ Finset.range n, h k) / (n : ℝ))) / d) * d)
        * ((1 / (n : ℝ)) * ∑ k ∈ Finset.range n, h k) = P := by
  have hn' : (0 : ℝ) < n := by exact_mod_cast hn
  have hS : 0 < ∑ k ∈ Finset.range n, h k :=
    Finset.sum_pos (fun k _ => hh k) ⟨0, Finset.mem_range.2 hn⟩
  have hx : 0 < P / ((∑ k ∈ Finset.range n, h k) / (n : ℝ)) := by positivity
  have he : -(-Real.log (P / ((∑ k ∈ Finset.range n, h k) / (n : ℝ))) / d) * d
      = Real.log (P / ((∑ k ∈ Finset.range n, h k) / (n : ℝ))) := by
    field_simp
  rw [he, Real.exp_log hx]
  field_simp

/-- C6: after a successful calculateZCBAdjuster(obsTimes, offsets), with at
least one path and positive numeraires and zero bonds, every state read at a
calibration time t_i succeeds and, for every cell (i, j), zcbAdjuster(t_i,
t_i + d_j) times the path average of the numeraire-discounted zero bond equals
the analytic zero bond P(0, t_i + d_j) (real arithmetic). -/
theorem zcbAdjuster_exact (sim sim' : MCSimulationT ℝ) (obsT offT : List ℝ)
    (hc : sim.cacheSorted)
    (hok : sim.calculateZCBAdjuster Real.exp Real.log obsT offT = (.ok (), sim'))
    (hn : 0 < sim.nPaths)
    (hnum : ∀ t X, 0 < sim.process_.numeraire t X)
    (hzb : ∀ t T X, 0 < sim.process_.zeroBond t T X)
    (i j : Nat) (hi : i < obsT.length) (hj : j < offT.length) :
    ∃ s : Nat → List ℝ,
      (∀ k < sim'.nPaths, (sim'.state k (numAt obsT i)).1 = .ok (s k)) ∧
      sim'.zcbAdjuster Real.exp (numAt obsT i) (numAt obsT i + numAt offT j) *
          ((1 / (sim'.nPaths : ℝ)) * ∑ k ∈ Finset.range sim'.nPaths,
            sim'.process_.zeroBond (numAt obsT i) (numAt obsT i + numAt offT j) (s k)
              / (sim'.numeraireAdjuster Real.exp (numAt obsT i)
                  * sim'.process_.numeraire (numAt obsT i) (s k)))
        = sim'.process_.zeroBond 0 (numAt obsT i + numAt offT j)
            sim'.process_.initialValues := by
  obtain ⟨⟨_, hs, h0', hs'⟩, happ, hobs, hoff, hproc, hX, hna, hreads, hadj⟩ :=
    calculateZCBAdjuster_ok Real.exp Real.log sim sim' obsT offT hc hok
  have hnp : sim'.nPaths = sim.nPaths := by unfold MCSimulationT.nPaths; rw [hX]
  refine ⟨fun k => sim'.stateValue k (numAt obsT i), ?_, ?_⟩
  · intro k hk
    obtain ⟨v, hv⟩ := hreads k (hnp ▸ hk) i hi
    show (sim'.state k (numAt obsT i)).1 = .ok (sim'.stateValue k (numAt obsT i))
    rw [stateValue_of_ok _ _ _ _ hv, hv]
  · have hnode := zcbAdjuster_node Real.exp sim' happ (hobs ▸ hs) (hoff ▸ hs') i j
      (hobs ▸ hi) (hoff ▸ hj)
    rw [hobs, hoff] at hnode
    show sim'.zcbAdjuster Real.exp (numAt obsT i) (numAt obsT i + numAt offT j) *
          ((1 / (sim'.nPaths : ℝ)) * ∑ k ∈ Finset.range sim'.nPaths,
            sim'.process_.zeroBond (numAt obsT i) (numAt obsT i + numAt offT j)
                (sim'.stateValue k (numAt obsT i))
              / (sim'.numeraireAdjuster Real.exp (numAt obsT i)
                  * sim'.process_.numeraire (numAt obsT i) (sim'.stateValue k (numAt obsT i))))
        = sim'.process_.zeroBond 0 (numAt obsT i + numAt offT j) sim'.process_.initialValues
    rw [hnode, hadj i hi j hj, hnp, hproc, hna]
    exact exp_log_discounted sim.nPaths hn
      (fun k => sim.process_.zeroBond (numAt obsT i) (numAt obsT i + numAt offT j)
          (sim'.stateValue k (numAt obsT i))
        / (sim.numeraireAdjuster Real.exp (numAt obsT i)
          * sim.process_.numeraire (numAt obsT i) (sim'.stateValue k (numAt obsT i))))
      (fun k => div_pos (hzb _ _ _) (mul_pos (numeraireAdjuster_pos sim _) (hnum _ _)))
      _ _ (hzb _ _ _) (numAt_pos_of_sorted offT hs' h0' j hj)

theorem zcbAdjuster_exact_witness :
    ∃ sim', (MCSimulationT.build (unitProcess ℝ) [1, 2] [1, 2] 2 1234 true false false
        ).calculateZCBAdjuster Real.exp Real.log [1, 2] [1, 3] = (.ok (), sim') ∧
      ∃ s : Nat → List ℝ,
        (∀ k < sim'.nPaths, (sim'.state k (numAt [1, 2] 1)).1 = .ok (s k)) ∧
        sim'.zcbAdjuster Real.exp (numAt [1, 2] 1) (numAt [1, 2] 1 + numAt [1, 3] 0) *
            ((1 / (sim'.nPaths : ℝ)) * ∑ k ∈ Finset.range sim'.nPaths,
              sim'.process_.zeroBond (numAt [1, 2] 1) (numAt [1, 2] 1 + numAt [1, 3] 0) (s k)
                / (sim'.numeraireAdjuster Real.exp (numAt [1, 2] 1)
                    * sim'.process_.numeraire (numAt [1, 2] 1) (s k)))
          = sim'.process_.zeroBond 0 (numAt [1, 2] 1 + numAt [1, 3] 0)
              sim'.process_.initialValues :=
  have h1 : ((MCSimulationT.build (unitProcess ℝ) [1, 2] [1, 2] 2 1234 true false false
      ).calculateZCBAdjuster Real.exp Real.log [1, 2] [1, 3]).1 = .ok () := by
    norm_num [MCSimulationT.calculateZCBAdjuster, MCSimulationT.build,
      MCSimulationT.reallocateMemory, buildObsTimes, ascendingCheck, numAt, forLoop,
      List.range_succ, MCSimulationT.nPaths, MCSimulationT.zcbAdjusterStep,
      state_def, TemplateAuxilliaries.idx, rowAt]
  ⟨_, Prod.ext h1 rfl,
    zcbAdjuster_exact _ _ [1, 2] [1, 3] ⟨List.sorted_nil, rfl⟩ (Prod.ext h1 rfl)
      (by simp [MCSimulationT.nPaths, MCSimulationT.build, MCSimulationT.reallocateMemory])
      (fun _ _ => one_pos) (fun _ _ _ => one_pos) 1 0 (by simp) (by simp)⟩


/-! ### The asset adjuster -/

theorem state_with_assetAdjuster (c : MCSimulationT α) (M : List (List α)) (k : Nat) (t : α) :
    ({ c with assetAdjuster_ := M } : MCSimulationT α).state k t =
      ((c.state k t).1, { (c.state k t).2 with assetAdjuster_ := M }) := by
  rw [state_def, state_def]
  dsimp only
  split_ifs <;> rfl

theorem assetAdjusterStep_ok (exp : α → α) (base c : MCSimulationT α) (M : List (List α))
    (aliases : List String) (k i j : Nat) (avA avZ : List α)
    (st : List α × List α × MCSimulationT α) (hv : base.cacheVariant c)
    (h : MCSimulationT.assetAdjusterStep exp aliases k i j
      (avA, avZ, ({ c with assetAdjuster_ := M } : MCSimulationT α)) = (.ok (), st)) :
    ∃ c1, base.cacheVariant c1 ∧
      (base.state j (numAt base.assetObservTimes_ i)).1 =
        .ok (base.stateValue j (numAt base.assetObservTimes_ i)) ∧
      st = (avA.set i (numAt avA i
              + base.assetTerm exp (aliases.getD k "") (numAt base.assetObservTimes_ i) j),
            avZ.set i (numAt avZ i + base.zeroTerm exp (numAt base.assetObservTimes_ i) j),
            { c1 with assetAdjuster_ := M }) := by
  obtain ⟨T, Y, hrec⟩ := hv.2.2
  have htimes : c.assetObservTimes_ = base.assetObservTimes_ := by rw [hrec]
  unfold MCSimulationT.assetAdjusterStep at h
  dsimp only at h
  rw [state_with_assetAdjuster, htimes] at h
  dsimp only at h
  have hread := hv.2.1 j (numAt base.assetObservTimes_ i)
  have hcv := cacheVariant_state base c hv j (numAt base.assetObservTimes_ i)
  obtain ⟨T1, Y1, hrec1⟩ := hcv.2.2
  rcases hst : c.state j (numAt base.assetObservTimes_ i) with ⟨r, c1⟩
  rw [hst] at h hread hrec1 hcv
  dsimp only at h hread hrec1 hcv
  cases r with
  | error e => simp at h
  | ok v =>
    simp only [Prod.mk.injEq, true_and] at h
    have hval := stateValue_of_ok base j _ v hread.symm
    refine ⟨c1, hcv, ?_, ?_⟩
    · rw [hval]; exact hread.symm
    · rw [← h]
      unfold MCSimulationT.assetTerm MCSimulationT.zeroTerm
      rw [hval, hrec1]
      rfl


theorem set_numAt_self (v : List α) (i : Nat) (hi : i < v.length) : v.set i (numAt v i) = v := by
  apply List.ext_getElem
  · simp
  · intro n h1 h2
    rw [List.getElem_set]
    split_ifs with h
    · subst h; exact numAt_eq_getElem v i hi
    · rfl

theorem assetPaths_ok (exp : α → α) (base c : MCSimulationT α) (M : List (List α))
    (aliases : List String) (k i p : Nat) (avA avZ : List α)
    (st : List α × List α × MCSimulationT α) (hv : base.cacheVariant c)
    (hA : i < avA.length) (hZ : i < avZ.length)
    (h : forLoop (MCSimulationT.assetAdjusterStep exp aliases k i) (List.range p)
      (avA, avZ, ({ c with assetAdjuster_ := M } : MCSimulationT α)) = (.ok (), st)) :
    ∃ c1, base.cacheVariant c1 ∧
      (∀ j < p, (base.state j (numAt base.assetObservTimes_ i)).1 =
        .ok (base.stateValue j (numAt base.assetObservTimes_ i))) ∧
      st = (avA.set i (numAt avA i + ∑ j ∈ Finset.range p,
              base.assetTerm exp (aliases.getD k "") (numAt base.assetObservTimes_ i) j),
            avZ.set i (numAt avZ i + ∑ j ∈ Finset.range p,
              base.zeroTerm exp (numAt base.assetObservTimes_ i) j),
            { c1 with assetAdjuster_ := M }) := by
  refine forLoop_range_ok (MCSimulationT.assetAdjusterStep exp aliases k i)
    (fun m s => ∃ c1, base.cacheVariant c1 ∧
      (∀ j < m, (base.state j (numAt base.assetObservTimes_ i)).1 =
        .ok (base.stateValue j (numAt base.assetObservTimes_ i))) ∧
      s = (avA.set i (numAt avA i + ∑ j ∈ Finset.range m,
              base.assetTerm exp (aliases.getD k "") (numAt base.assetObservTimes_ i) j),
            avZ.set i (numAt avZ i + ∑ j ∈ Finset.range m,
              base.zeroTerm exp (numAt base.assetObservTimes_ i) j),
            { c1 with assetAdjuster_ := M }))
    p _ st ⟨c, hv, fun j hj => absurd hj (Nat.not_lt_zero j), ?_⟩ ?_ h
  · simp only [Finset.range_zero, Finset.sum_empty, add_zero]
    rw [set_numAt_self avA i hA, set_numAt_self avZ i hZ]
  · rintro m s s2 _ ⟨c1, h1, h2, rfl⟩ hstep
    obtain ⟨c2, hc2, hok, rfl⟩ := assetAdjusterStep_ok exp base c1 M aliases k i m _ _ s2 h1 hstep
    refine ⟨c2, hc2, ?_, ?_⟩
    · intro j hj
      rcases Nat.lt_succ_iff_lt_or_eq.1 hj with hlt | heq
      · exact h2 j hlt
      · rw [heq]; exact hok
    · rw [List.set_set, List.set_set, numAt_set, numAt_set, if_pos ⟨rfl, hA⟩, if_pos ⟨rfl, hZ⟩,
        Finset.sum_range_succ, Finset.sum_range_succ, add_assoc, add_assoc]

theorem assetAdjusterTime_ok (exp : α → α) (base c : MCSimulationT α) (M : List (List α))
    (aliases : List String) (k i : Nat) (avA avZ : List α)
    (st : List α × List α × MCSimulationT α) (hv : base.cacheVariant c)
    (hA : i < avA.length) (hZ : i < avZ.length)
    (hA0 : numAt avA i = 0) (hZ0 : numAt avZ i = 0)
    (h : MCSimulationT.assetAdjusterTime exp aliases k i
      (avA, avZ, ({ c with assetAdjuster_ := M } : MCSimulationT α)) = (.ok (), st)) :
    ∃ c1, base.cacheVariant c1 ∧
      (∀ j < base.nPaths, (base.state j (numAt base.assetObservTimes_ i)).1 =
        .ok (base.stateValue j (numAt base.assetObservTimes_ i))) ∧
      st.1.length = avA.length ∧ st.2.1.length = avZ.length ∧
      (∀ i', i' ≠ i → numAt st.1 i' = numAt avA i' ∧ numAt st.2.1 i' = numAt avZ i') ∧
      st.2.2 = { c1 with assetAdjuster_ := M.set k ((rowAt M k).set i
        (base.assetCorrection exp (aliases.getD k "") (numAt base.assetObservTimes_ i))) } := by
  obtain ⟨T, Y, hrec⟩ := hv.2.2
  have hnp : ({ c with assetAdjuster_ := M } : MCSimulationT α).nPaths = base.nPaths := by
    rw [hrec]; rfl
  unfold MCSimulationT.assetAdjusterTime at h
  dsimp only at h
  rw [hnp] at h
  rcases hloop : forLoop (MCSimulationT.assetAdjusterStep exp aliases k i)
      (List.range base.nPaths) (avA, avZ, ({ c with assetAdjuster_ := M } : MCSimulationT α))
    with ⟨r, st1⟩
  rw [hloop] at h
  cases r with
  | error e => simp at h
  | ok u =>
    obtain ⟨c1, hc1, hreads, rfl⟩ :=
      assetPaths_ok exp base c M aliases k i base.nPaths avA avZ st1 hv hA hZ hloop
    obtain ⟨T1, Y1, hrec1⟩ := hc1.2.2
    simp only [Prod.mk.injEq, true_and] at h
    rw [← h]
    refine ⟨c1, hc1, hreads, by simp, by simp, ?_, ?_⟩
    · intro i' hne
      have hne' : ¬ i = i' := fun hh => hne hh.symm
      simp only [numAt_set, hne', false_and, if_false, and_self]
    · dsimp only
      rw [numAt_set, numAt_set, numAt_set, numAt_set, if_pos ⟨rfl, by simpa using hA⟩,
        if_pos ⟨rfl, hA⟩, if_pos ⟨rfl, by simpa using hZ⟩, if_pos ⟨rfl, hZ⟩, hA0, hZ0,
        zero_add, zero_add]
      unfold MCSimulationT.assetCorrection
      rw [hrec1]
      rfl


theorem numAt_replicate_zero (n i : Nat) : numAt (List.replicate n (0 : α)) i = 0 := by
  unfold numAt
  rw [List.getD_eq_getElem?_getD, List.getElem?_replicate]
  split_ifs <;> rfl

theorem assetAdjusterRow_ok (exp : α → α) (base c : MCSimulationT α) (M : List (List α))
    (aliases : List String) (k : Nat) (s1 : MCSimulationT α) (hv : base.cacheVariant c)
    (hk : k < M.length) (hrow : (rowAt M k).length = base.assetObservTimes_.length)
    (h : MCSimulationT.assetAdjusterRow exp aliases k
      ({ c with assetAdjuster_ := M } : MCSimulationT α) = (.ok (), s1)) :
    ∃ c1 M1, base.cacheVariant c1 ∧ s1 = { c1 with assetAdjuster_ := M1 } ∧
      M1.length = M.length ∧ (∀ k', k' ≠ k → rowAt M1 k' = rowAt M k') ∧
      (rowAt M1 k).length = base.assetObservTimes_.length ∧
      (∀ i < base.assetObservTimes_.length, numAt (rowAt M1 k) i =
        base.assetCorrection exp (aliases.getD k "") (numAt base.assetObservTimes_ i)) ∧
      (∀ i < base.assetObservTimes_.length, ∀ j < base.nPaths,
        (base.state j (numAt base.assetObservTimes_ i)).1 =
          .ok (base.stateValue j (numAt base.assetObservTimes_ i))) := by
  obtain ⟨T, Y, hrec⟩ := hv.2.2
  have htimes : c.assetObservTimes_.length = base.assetObservTimes_.length := by rw [hrec]
  unfold MCSimulationT.assetAdjusterRow at h
  dsimp only at h
  rw [htimes] at h
  rcases hloop : forLoop (MCSimulationT.assetAdjusterTime exp aliases k)
      (List.range base.assetObservTimes_.length)
      (List.replicate base.assetObservTimes_.length (0 : α),
        List.replicate base.assetObservTimes_.length (0 : α),
        ({ c with assetAdjuster_ := M } : MCSimulationT α))
    with ⟨r, st⟩
  rw [hloop] at h
  cases r with
  | error e => simp at h
  | ok u =>
    simp only [Prod.mk.injEq, true_and] at h
    have key := forLoop_range_ok (MCSimulationT.assetAdjusterTime exp aliases k)
      (fun m s => ∃ c1 M1, base.cacheVariant c1 ∧ s.2.2 = { c1 with assetAdjuster_ := M1 } ∧
        s.1.length = base.assetObservTimes_.length ∧
        s.2.1.length = base.assetObservTimes_.length ∧
        (∀ i, m ≤ i → numAt s.1 i = 0 ∧ numAt s.2.1 i = 0) ∧
        M1.length = M.length ∧ (∀ k', k' ≠ k → rowAt M1 k' = rowAt M k') ∧
        (rowAt M1 k).length = base.assetObservTimes_.length ∧
        (∀ i < m, numAt (rowAt M1 k) i =
          base.assetCorrection exp (aliases.getD k "") (numAt base.assetObservTimes_ i)) ∧
        (∀ i < m, ∀ j < base.nPaths,
          (base.state j (numAt base.assetObservTimes_ i)).1 =
            .ok (base.stateValue j (numAt base.assetObservTimes_ i))))
      base.assetObservTimes_.length _ st
      ⟨c, M, hv, rfl, by simp, by simp,
        fun i _ => ⟨numAt_replicate_zero _ i, numAt_replicate_zero _ i⟩, rfl, fun _ _ => rfl,
        hrow, fun i hi => absurd hi (Nat.not_lt_zero i),
        fun i hi => absurd hi (Nat.not_lt_zero i)⟩ ?_ hloop
    · obtain ⟨c1, M1, h1, h2, _, _, _, h6, h7, h8, h9, h10⟩ := key
      exact ⟨c1, M1, h1, by rw [← h, h2], h6, h7, h8, h9, h10⟩
    · rintro m ⟨avA, avZ, s⟩ s2 hm ⟨c1, M1, h1, h2, h3, h4, h5, h6, h7, h8, h9, h10⟩ hstep
      dsimp only at h2 h3 h4 h5
      subst h2
      obtain ⟨c2, hc2, hreads, hlenA, hlenZ, hother, hsim⟩ :=
        assetAdjusterTime_ok exp base c1 M1 aliases k m avA avZ s2 h1 (by omega) (by omega)
          (h5 m le_rfl).1 (h5 m le_rfl).2 hstep
      have hk1 : k < M1.length := by omega
      refine ⟨c2, _, hc2, hsim, by omega, by omega, ?_, by simp [h6], ?_, ?_, ?_, ?_⟩
      · intro i hi
        have hne : i ≠ m := by omega
        rw [(hother i hne).1, (hother i hne).2]
        exact h5 i (by omega)
      · intro k' hk'
        rw [rowAt_set, if_neg (fun hh => hk' hh.1.symm)]
        exact h7 k' hk'
      · rw [rowAt_set, if_pos ⟨rfl, hk1⟩]
        simp [h8]
      · intro i hi
        rw [rowAt_set, if_pos ⟨rfl, hk1⟩, numAt_set]
        by_cases hmi : m = i
        · subst hmi
          rw [if_pos ⟨rfl, by omega⟩]
        · rw [if_neg (fun hh => hmi hh.1)]
          exact h9 i (by omega)
      · intro i hi j hj
        rcases Nat.lt_succ_iff_lt_or_eq.1 hi with hlt | heq
        · exact h10 i hlt j hj
        · rw [heq]; exact hreads j hj

theorem assetRows_ok (exp : α → α) (base : MCSimulationT α) (hc : base.cacheSorted)
    (aliases : List String) (K : Nat) (s1 : MCSimulationT α)
    (h : forLoop (MCSimulationT.assetAdjusterRow exp aliases) (List.range K)
      ({ base with assetAdjuster_ :=
          List.replicate K (List.replicate base.assetObservTimes_.length (0 : α)) }
        : MCSimulationT α) = (.ok (), s1)) :
    ∃ c1 M1, base.cacheVariant c1 ∧ s1 = { c1 with assetAdjuster_ := M1 } ∧
      (∀ k < K, ∀ i < base.assetObservTimes_.length, numAt (rowAt M1 k) i =
        base.assetCorrection exp (aliases.getD k "") (numAt base.assetObservTimes_ i)) ∧
      (∀ k < K, ∀ i < base.assetObservTimes_.length, ∀ j < base.nPaths,
        (base.state j (numAt base.assetObservTimes_ i)).1 =
          .ok (base.stateValue j (numAt base.assetObservTimes_ i))) := by
  have key := forLoop_range_ok (MCSimulationT.assetAdjusterRow exp aliases)
    (fun m s => ∃ c1 M1, base.cacheVariant c1 ∧ s = { c1 with assetAdjuster_ := M1 } ∧
      M1.length = K ∧ (∀ k < K, (rowAt M1 k).length = base.assetObservTimes_.length) ∧
      (∀ k < m, ∀ i < base.assetObservTimes_.length, numAt (rowAt M1 k) i =
        base.assetCorrection exp (aliases.getD k "") (numAt base.assetObservTimes_ i)) ∧
      (∀ k < m, ∀ i < base.assetObservTimes_.length, ∀ j < base.nPaths,
        (base.state j (numAt base.assetObservTimes_ i)).1 =
          .ok (base.stateValue j (numAt base.assetObservTimes_ i))))
    K _ s1
    ⟨base, _, cacheVariant_refl base hc, rfl, by simp, ?_,
      fun k hk => absurd hk (Nat.not_lt_zero k), fun k hk => absurd hk (Nat.not_lt_zero k)⟩
    ?_ h
  · obtain ⟨c1, M1, h1, h2, _, _, h5, h6⟩ := key
    exact ⟨c1, M1, h1, h2, h5, h6⟩
  · intro k hk
    rw [rowAt_eq_getElem _ _ (by simpa using hk)]
    simp
  · rintro m s s2 hm ⟨c1, M1, h1, rfl, h3, h4, h5, h6⟩ hstep
    obtain ⟨c2, M2, hc2, rfl, hlen, hother, hrow, hval, hreads⟩ :=
      assetAdjusterRow_ok exp base c1 M1 aliases m s2 h1 (by omega) (h4 m hm) hstep
    refine ⟨c2, M2, hc2, rfl, by omega, ?_, ?_, ?_⟩
    · intro k hk
      by_cases hkm : k = m
      · rw [hkm]; exact hrow
      · rw [hother k hkm]; exact h4 k hk
    · intro k hk i hi
      rcases Nat.lt_succ_iff_lt_or_eq.1 hk with hlt | heq
      · rw [hother k (by omega)]; exact h5 k hlt i hi
      · rw [heq]; exact hval i hi
    · intro k hk i hi j hj
      rcases Nat.lt_succ_iff_lt_or_eq.1 hk with hlt | heq
      · exact h6 k hlt i hi j hj
      · exact hreads i hi j hj


theorem mapAt_mapAssign_self (m : List (String × Nat)) (key : String) (v : Nat) :
    mapAt (mapAssign m key v) key = .ok v := by
  unfold mapAssign mapAt
  split_ifs with hany
  · induction m with
    | nil => simp at hany
    | cons q rest ih =>
      rw [List.map_cons, List.find?_cons]
      by_cases hq : q.1 = key
      · simp [hq]
      · have hany' : rest.any (fun p => p.1 == key) = true := by
          simpa [hq] using hany
        have hb : (q.1 == key) = false := by simpa using hq
        simp only [hb, Bool.false_eq_true, if_false]
        exact ih hany'
  · have hnone : m.find? (fun p => p.1 == key) = none := by
      rw [List.find?_eq_none]
      intro x hx
      simp only [List.any_eq_true, not_exists, not_and] at hany
      simpa using hany x hx
    rw [List.find?_append, hnone]
    simp

theorem mapAt_mapAssign_ne (m : List (String × Nat)) (key key' : String) (v : Nat)
    (h : key' ≠ key) : mapAt (mapAssign m key v) key' = mapAt m key' := by
  unfold mapAssign mapAt
  split_ifs with hany
  · have : (m.map fun p => if (p.1 == key) = true then (p.1, v) else p).find?
        (fun p => p.1 == key') = m.find? (fun p => p.1 == key') := by
      clear hany
      induction m with
      | nil => rfl
      | cons q rest ih =>
        rw [List.map_cons, List.find?_cons, List.find?_cons, ih]
        by_cases hq : q.1 = key
        · have hb' : (key == key') = false := by simpa using Ne.symm h
          simp [hq, hb']
        · have hb : (q.1 == key) = false := by simpa using hq
          simp [hb]
    rw [this]
  · rw [List.find?_append]
    have : [(key, v)].find? (fun p => p.1 == key') = none := by
      simp [Ne.symm h]
    rw [this]
    simp

theorem mapAt_foldl_assign (aliases : List String) (m0 : List (String × Nat)) (K : Nat) :
    ∀ r < K, ∃ r' < K,
      mapAt ((List.range K).foldl (fun m k => mapAssign m (aliases.getD k "") k) m0)
          (aliases.getD r "") = .ok r' ∧
        aliases.getD r' "" = aliases.getD r "" := by
  induction K with
  | zero => intro r hr; exact absurd hr (Nat.not_lt_zero r)
  | succ K ih =>
    intro r hr
    rw [List.range_succ, List.foldl_append]
    simp only [List.foldl_cons, List.foldl_nil]
    by_cases heq : aliases.getD r "" = aliases.getD K ""
    · exact ⟨K, Nat.lt_succ_self K, by rw [heq, mapAt_mapAssign_self], heq.symm⟩
    · have hrK : r < K := by
        rcases Nat.lt_succ_iff_lt_or_eq.1 hr with hlt | h
        · exact hlt
        · exact absurd (by rw [h]) heq
      obtain ⟨r', hr', h1, h2⟩ := ih r hrK
      exact ⟨r', Nat.lt_succ_of_lt hr', by rw [mapAt_mapAssign_ne _ _ _ _ heq, h1], h2⟩

theorem assetAdjuster_eq (sim : MCSimulationT α) (t : α) (a : String) :
    sim.assetAdjuster t a =
      if !sim.applyAssetAdjuster_ then .ok 0
      else match mapAt sim.assetIndex_ a with
        | .error e => .error e
        | .ok row =>
          .ok ((1 - interpWeight sim.assetObservTimes_ t)
              * numAt (rowAt sim.assetAdjuster_ row) (interpIndex sim.assetObservTimes_ t - 1)
            + interpWeight sim.assetObservTimes_ t
              * numAt (rowAt sim.assetAdjuster_ row) (interpIndex sim.assetObservTimes_ t)) := rfl

theorem assetAdjuster_node (sim : MCSimulationT α) (happ : sim.applyAssetAdjuster_ = true)
    (hs : sim.assetObservTimes_.Sorted (· < ·)) (i : Nat) (hi : i < sim.assetObservTimes_.length)
    (a : String) (row : Nat) (hrow : mapAt sim.assetIndex_ a = .ok row) :
    sim.assetAdjuster (numAt sim.assetObservTimes_ i) a =
      .ok (numAt (rowAt sim.assetAdjuster_ row) i) := by
  rw [assetAdjuster_eq, happ, hrow]
  simp only [Bool.not_true, Bool.false_eq_true, if_false]
  rcases interp_node _ hs i hi with ⟨h0, hI, hW⟩ | ⟨_, hI, hW⟩
  · rw [hI, hW, h0]; simp
  · rw [hI, hW]; simp

theorem stateValue_congr (a b : MCSimulationT α)
    (hst : ∀ k t, (a.state k t).1 = (b.state k t).1) (k : Nat) (t : α) :
    a.stateValue k t = b.stateValue k t := by
  unfold MCSimulationT.stateValue
  rw [hst]

theorem assetCorrection_congr (exp : α → α) (a b : MCSimulationT α)
    (hproc : a.process_ = b.process_) (hX : a.X_ = b.X_)
    (hna : ∀ t, a.numeraireAdjuster exp t = b.numeraireAdjuster exp t)
    (hst : ∀ k t, (a.state k t).1 = (b.state k t).1) (al : String) (t : α) :
    a.assetCorrection exp al t = b.assetCorrection exp al t := by
  unfold MCSimulationT.assetCorrection MCSimulationT.assetTerm MCSimulationT.zeroTerm
    MCSimulationT.nPaths
  simp only [hproc, hX, hna, stateValue_congr a b hst]


theorem calculateAssetAdjuster_ok (exp : α → α) (sim sim' : MCSimulationT α)
    (times : List α) (aliases : List String) (hc : sim.cacheSorted)
    (hok : sim.calculateAssetAdjuster exp times aliases = (.ok (), sim')) :
    times.Sorted (· < ·) ∧ sim'.applyAssetAdjuster_ = true ∧ sim'.assetObservTimes_ = times ∧
    sim'.process_ = sim.process_ ∧ sim'.X_ = sim.X_ ∧
    (∀ t, sim'.numeraireAdjuster exp t = sim.numeraireAdjuster exp t) ∧
    (∀ j < sim.nPaths, ∀ i < times.length, ∃ v, (sim'.state j (numAt times i)).1 = .ok v) ∧
    (∀ r < aliases.length, ∃ r' < aliases.length,
      mapAt sim'.assetIndex_ (aliases.getD r "") = .ok r' ∧
        aliases.getD r' "" = aliases.getD r "") ∧
    ∀ k < aliases.length, ∀ i < times.length, numAt (rowAt sim'.assetAdjuster_ k) i =
      sim'.assetCorrection exp (aliases.getD k "") (numAt times i) := by
  unfold MCSimulationT.calculateAssetAdjuster at hok
  dsimp only at hok
  by_cases h1' : 1 < times.length
  swap
  · rw [if_pos h1'] at hok; simp at hok
  rw [if_neg (not_not.2 h1')] at hok
  by_cases h2' : 0 ≤ numAt times 0
  swap
  · rw [if_pos h2'] at hok; simp at hok
  rw [if_neg (not_not.2 h2')] at hok
  by_cases h3 : ascendingCheck times = true
  swap
  · rw [if_pos (by simpa using h3)] at hok; simp at hok
  rw [if_neg (by simpa using h3)] at hok
  by_cases h4' : 0 < aliases.length
  swap
  · rw [if_pos h4'] at hok; simp at hok
  rw [if_neg (not_not.2 h4')] at hok
  by_cases h5 : ((List.range aliases.length).foldl
      (fun m k => mapAssign m (aliases.getD k "") k) sim.assetIndex_).length = aliases.length
  swap
  · rw [if_pos h5] at hok; simp at hok
  rw [if_neg (not_not.2 h5)] at hok
  refine ⟨(ascendingCheck_iff _).1 h3, ?_⟩
  set base : MCSimulationT α :=
    { sim with assetObservTimes_ := times,
               assetIndex_ := (List.range aliases.length).foldl
                 (fun m k => mapAssign m (aliases.getD k "") k) sim.assetIndex_ }
    with hbase
  have hcb : base.cacheSorted := hc
  rcases hloop : forLoop (MCSimulationT.assetAdjusterRow exp aliases) (List.range aliases.length)
      ({ base with assetAdjuster_ :=
          List.replicate aliases.length (List.replicate base.assetObservTimes_.length (0 : α)) }
        : MCSimulationT α)
    with ⟨r, s4⟩
  have hloop' : forLoop (MCSimulationT.assetAdjusterRow exp aliases)
      (List.range (List.replicate aliases.length
        (List.replicate times.length (0 : α))).length)
      ({ base with assetAdjuster_ :=
          List.replicate aliases.length (List.replicate times.length (0 : α)) }
        : MCSimulationT α) = (r, s4) := by
    rw [List.length_replicate]; exact hloop
  rw [hloop'] at hok
  cases r with
  | error e => simp at hok
  | ok u =>
    simp only [Prod.mk.injEq, true_and] at hok
    obtain ⟨c1, M1, hcv, rfl, hval, hreads⟩ :=
      assetRows_ok exp base hcb aliases aliases.length s4 hloop
    have hstate : ∀ k t, (sim'.state k t).1 = (base.state k t).1 := by
      intro k t
      rw [← hcv.2.1 k t]
      exact state_fst_congr sim' c1 (by rw [← hok]) (by rw [← hok]) (by rw [← hok])
        (by rw [← hok]) (by rw [← hok]) (by rw [← hok]) k t
    obtain ⟨T, Y, hrec⟩ := hcv.2.2
    have hna : ∀ t, sim'.numeraireAdjuster exp t = base.numeraireAdjuster exp t := by
      intro t
      rw [← hok, hrec]
      rfl
    have hproc : sim'.process_ = base.process_ := by rw [← hok, hrec]
    have hX : sim'.X_ = base.X_ := by rw [← hok, hrec]
    refine ⟨by rw [← hok], by rw [← hok, hrec], hproc, hX, hna, ?_, ?_, ?_⟩
    · intro j hj i hi
      exact ⟨_, (hstate j _).trans (hreads 0 h4' i hi j hj)⟩
    · intro r hr
      have := mapAt_foldl_assign aliases sim.assetIndex_ aliases.length r hr
      rw [← hok, hrec]
      exact this
    · intro k hk i hi
      rw [assetCorrection_congr exp sim' base hproc hX hna hstate]
      have := hval k hk i hi
      rw [← hok]
      exact this

theorem asset_average_identity (n : ℕ) (A : ℝ) (hA : A ≠ 0) (N S : ℕ → ℝ) (target : ℝ)
    (hav : (1 / (n : ℝ)) * ∑ j ∈ Finset.range n, 1 / N j ≠ 0) :
    (1 / (n : ℝ)) * ∑ j ∈ Finset.range n,
        (S j + (target - (∑ j ∈ Finset.range n, S j / (A * N j)) / (n : ℝ))
          / ((∑ j ∈ Finset.range n, 1 / (A * N j)) / (n : ℝ))) / (A * N j) = target := by
  have hZ : (∑ j ∈ Finset.range n, 1 / (A * N j)) / (n : ℝ)
      = (1 / A) * ((1 / (n : ℝ)) * ∑ j ∈ Finset.range n, 1 / N j) := by
    rw [Finset.mul_sum, Finset.mul_sum, Finset.sum_div]
    apply Finset.sum_congr rfl
    intro j _
    field_simp
    ring
  have hZne : (∑ j ∈ Finset.range n, 1 / (A * N j)) / (n : ℝ) ≠ 0 := by
    rw [hZ]
    exact mul_ne_zero (one_div_ne_zero hA) hav
  set avA := (∑ j ∈ Finset.range n, S j / (A * N j)) / (n : ℝ) with havA
  set avZ := (∑ j ∈ Finset.range n, 1 / (A * N j)) / (n : ℝ) with havZ
  have hsplit : ∀ j, (S j + (target - avA) / avZ) / (A * N j)
      = S j / (A * N j) + (target - avA) / avZ * (1 / (A * N j)) := by
    intro j
    ring
  simp only [hsplit]
  rw [Finset.sum_add_distrib, ← Finset.mul_sum, mul_add]
  have e1 : (1 / (n : ℝ)) * ∑ j ∈ Finset.range n, S j / (A * N j) = avA := by
    rw [havA]; ring
  have e2 : (1 / (n : ℝ)) * ((target - avA) / avZ * ∑ j ∈ Finset.range n, 1 / (A * N j))
      = (target - avA) / avZ * avZ := by
    rw [havZ]; ring
  rw [e1, e2, div_mul_cancel₀ _ hZne]
  ring


/-- C7: after a successful calculateAssetAdjuster(times, aliases), for every
alias a of the call and every calibration time t_i, the state reads and the
read assetAdjuster(t_i, a) succeed and, provided the path average of
1/numeraire is non-zero, the path average of the adjusted asset over the
adjusted numeraire equals zeroBond(0, t_i, X0) * forwardAsset(0, t_i, X0, a)
(real arithmetic). -/
theorem assetAdjuster_exact (sim sim' : MCSimulationT ℝ) (times : List ℝ)
    (aliases : List String) (hc : sim.cacheSorted)
    (hok : sim.calculateAssetAdjuster Real.exp times aliases = (.ok (), sim'))
    (a : String) (ha : a ∈ aliases) (i : Nat) (hi : i < times.length) :
    ∃ (s : Nat → List ℝ) (adj : ℝ),
      (∀ j < sim'.nPaths, (sim'.state j (numAt times i)).1 = .ok (s j)) ∧
      sim'.assetAdjuster (numAt times i) a = .ok adj ∧
      ((1 / (sim'.nPaths : ℝ)) * ∑ j ∈ Finset.range sim'.nPaths,
          1 / sim'.process_.numeraire (numAt times i) (s j) ≠ 0 →
        (1 / (sim'.nPaths : ℝ)) * ∑ j ∈ Finset.range sim'.nPaths,
            (sim'.process_.asset (numAt times i) (s j) a + adj)
              / (sim'.numeraireAdjuster Real.exp (numAt times i)
                  * sim'.process_.numeraire (numAt times i) (s j))
          = sim'.process_.zeroBond 0 (numAt times i) sim'.process_.initialValues
              * sim'.process_.forwardAsset 0 (numAt times i) sim'.process_.initialValues a) := by
  obtain ⟨hs, happ, htimes, _, hX, _, hreads, hmap, hadj⟩ :=
    calculateAssetAdjuster_ok Real.exp sim sim' times aliases hc hok
  have hnp : sim'.nPaths = sim.nPaths := by unfold MCSimulationT.nPaths; rw [hX]
  obtain ⟨r, hr, hra⟩ := List.getElem_of_mem ha
  have hra' : aliases.getD r "" = a := by rw [List.getD_eq_getElem _ _ hr, hra]
  obtain ⟨r', hr', hrow, hal⟩ := hmap r hr
  rw [hra'] at hrow hal
  refine ⟨fun j => sim'.stateValue j (numAt times i),
    sim'.assetCorrection Real.exp a (numAt times i), ?_, ?_, ?_⟩
  · intro j hj
    obtain ⟨v, hv⟩ := hreads j (hnp ▸ hj) i hi
    show (sim'.state j (numAt times i)).1 = .ok (sim'.stateValue j (numAt times i))
    rw [stateValue_of_ok _ _ _ _ hv, hv]
  · have hnode := assetAdjuster_node sim' happ (htimes ▸ hs) i (htimes ▸ hi) a r' hrow
    rw [htimes] at hnode
    rw [hnode, hadj r' hr' i hi, hal]
  · intro hav
    exact asset_average_identity sim'.nPaths (sim'.numeraireAdjuster Real.exp (numAt times i))
      (ne_of_gt (numeraireAdjuster_pos sim' _))
      (fun j => sim'.process_.numeraire (numAt times i) (sim'.stateValue j (numAt times i)))
      (fun j => sim'.process_.asset (numAt times i) (sim'.stateValue j (numAt times i)) a)
      _ hav

theorem assetAdjuster_exact_witness :
    ∃ sim', (MCSimulationT.build (unitProcess ℝ) [1, 2] [1, 2] 2 1234 true false false
        ).calculateAssetAdjuster Real.exp [0, 1, 2] ["EUR", "USD"] = (.ok (), sim') ∧
      ∃ (s : Nat → List ℝ) (adj : ℝ),
        (∀ j < sim'.nPaths, (sim'.state j (numAt [0, 1, 2] 1)).1 = .ok (s j)) ∧
        sim'.assetAdjuster (numAt [0, 1, 2] 1) "USD" = .ok adj ∧
        ((1 / (sim'.nPaths : ℝ)) * ∑ j ∈ Finset.range sim'.nPaths,
            1 / sim'.process_.numeraire (numAt [0, 1, 2] 1) (s j) ≠ 0 →
          (1 / (sim'.nPaths : ℝ)) * ∑ j ∈ Finset.range sim'.nPaths,
              (sim'.process_.asset (numAt [0, 1, 2] 1) (s j) "USD" + adj)
                / (sim'.numeraireAdjuster Real.exp (numAt [0, 1, 2] 1)
                    * sim'.process_.numeraire (numAt [0, 1, 2] 1) (s j))
            = sim'.process_.zeroBond 0 (numAt [0, 1, 2] 1) sim'.process_.initialValues
                * sim'.process_.forwardAsset 0 (numAt [0, 1, 2] 1)
                    sim'.process_.initialValues "USD") :=
  have h1 : ((MCSimulationT.build (unitProcess ℝ) [1, 2] [1, 2] 2 1234 true false false
      ).calculateAssetAdjuster Real.exp [0, 1, 2] ["EUR", "USD"]).1 = .ok () := by
    norm_num [MCSimulationT.calculateAssetAdjuster, MCSimulationT.build,
      MCSimulationT.reallocateMemory, buildObsTimes, ascendingCheck, numAt, forLoop,
      List.range_succ, MCSimulationT.nPaths, MCSimulationT.assetAdjusterRow,
      MCSimulationT.assetAdjusterTime, MCSimulationT.assetAdjusterStep, mapAssign,
      state_def, TemplateAuxilliaries.idx, rowAt, (by decide : ¬ "EUR" = "USD")]
  ⟨_, Prod.ext h1 rfl,
    assetAdjuster_exact _ _ [0, 1, 2] ["EUR", "USD"] ⟨List.sorted_nil, rfl⟩ (Prod.ext h1 rfl)
      "USD" (by simp) 1 (by simp)⟩

end Simulation

/-! ### Interpolated states -/

section Interpolation

variable {α : Type} [LinearOrderedField α]

theorem idx_of_bracket (v : List α) (i : Nat) (t : α) (hi : i < v.length)
    (hlo : ∀ j, j < i → numAt v j < t) (hhi : t ≤ numAt v i) :
    TemplateAuxilliaries.idx v t = i := by
  induction v generalizing i with
  | nil => simp at hi
  | cons a r ih =>
    cases r with
    | nil =>
      simp only [List.length_singleton, Nat.lt_one_iff] at hi
      simp [TemplateAuxilliaries.idx, hi]
    | cons b rest =>
      rw [TemplateAuxilliaries.idx]
      cases i with
      | zero => rw [if_pos (by simpa [numAt_cons_zero] using hhi)]
      | succ i =>
        have h0 : a < t := by simpa [numAt_cons_zero] using hlo 0 (Nat.succ_pos i)
        rw [if_neg (not_le.2 h0)]
        have hi' : i < (b :: rest).length := by simpa using hi
        rw [ih i hi' (fun j hj => by simpa [numAt_cons_succ] using hlo (j + 1) (Nat.succ_lt_succ hj))
          (by simpa [numAt_cons_succ] using hhi)]

theorem idx_of_above (v : List α) (t : α) (hv : v ≠ []) (h : ∀ x ∈ v, x < t) :
    TemplateAuxilliaries.idx v t = v.length - 1 := by
  induction v with
  | nil => exact absurd rfl hv
  | cons a r ih =>
    cases r with
    | nil => simp [TemplateAuxilliaries.idx]
    | cons b rest =>
      rw [TemplateAuxilliaries.idx, if_neg (not_le.2 (h a (by simp))),
        ih (by simp) (fun x hx => h x (List.mem_cons_of_mem _ hx))]
      simp

theorem numAt_mono_of_sorted (v : List α) (hs : v.Sorted (· < ·)) (j i : Nat) (hji : j ≤ i)
    (hi : i < v.length) : numAt v j ≤ numAt v i := by
  rcases Nat.eq_or_lt_of_le hji with h | h
  · rw [h]
  · rw [numAt_eq_getElem v j (lt_trans h hi), numAt_eq_getElem v i hi]
    exact le_of_lt (List.pairwise_iff_getElem.1 hs j i (lt_trans h hi) hi h)

theorem cachedOrInterpolated_of_coherent (sim : MCSimulationT α) (hcoh : sim.cacheCoherent)
    (p : Nat) (t : α) :
    sim.cachedOrInterpolated p t =
      rowAt (sim.interpolatedStates (TemplateAuxilliaries.idx sim.obsTimes_ t) t) p := by
  unfold MCSimulationT.cachedOrInterpolated
  split_ifs with h
  · have hk : TemplateAuxilliaries.idx sim.addObsTimes_ t < sim.addObsTimes_.length :=
      idx_lt_length _ _ (by intro h0; rw [h0] at h; simp at h)
    have := hcoh _ hk
    rw [← h.2] at this
    rw [this]
  · rfl

theorem interpolatedStates_row (sim : MCSimulationT α) (i : Nat) (t : α) (p : Nat)
    (hp : p < sim.nPaths) :
    (rowAt (sim.interpolatedStates i t) p).length = sim.process_.size ∧
    ∀ k, k < sim.process_.size →
      numAt (rowAt (sim.interpolatedStates i t) p) k =
        (1 - (t - numAt sim.obsTimes_ (i - 1)) /
            (numAt sim.obsTimes_ i - numAt sim.obsTimes_ (i - 1)))
          * numAt (rowAt (rowAt sim.X_ p) (i - 1)) k
        + (t - numAt sim.obsTimes_ (i - 1)) /
            (numAt sim.obsTimes_ i - numAt sim.obsTimes_ (i - 1))
          * numAt (rowAt (rowAt sim.X_ p) i) k := by
  unfold MCSimulationT.interpolatedStates
  dsimp only
  rw [rowAt_map_range _ _ _ hp]
  refine ⟨by simp, fun k hk => ?_⟩
  rw [numAt_map_range _ _ _ hk]

/-- C11 (amended): with time interpolation enabled and a valid path index,
`state(p, t)` at an off-grid time strictly between the consecutive observation
times `t_{i-1} < t < t_i` returns, when `t` is no cached time of the
interpolation cache, a vector of `process.size()` components with
`state(p,t)[k] = (1-rho)*X_[p][i-1][k] + rho*X_[p][i][k]`,
`rho = (t - t_{i-1})/(t_i - t_{i-1})`; when `t` is a cached time it returns
the cached row `Y_[.][p]`; and it returns the interpolated vector in both
cases when the cache holds interpolations of the stored states.  Below the
first observation time it returns the first stored state of the path and above
the last observation time the last stored state, whatever the cache holds. -/
theorem state_interpolation (sim : MCSimulationT α) (p : Nat) (t : α)
    (hti : sim.timeInterpolation_ = true) (hs : sim.obsTimes_.Sorted (· < ·))
    (hne : sim.obsTimes_ ≠ []) (hp : p < sim.nPaths) :
    (∀ i, 0 < i → i < sim.obsTimes_.length →
        numAt sim.obsTimes_ (i - 1) < t → t < numAt sim.obsTimes_ i →
        (¬ (sim.addObsTimes_.length > 0 ∧
              t = numAt sim.addObsTimes_ (TemplateAuxilliaries.idx sim.addObsTimes_ t)) →
            ∃ v, (sim.state p t).1 = .ok v ∧ v.length = sim.process_.size ∧
              ∀ k, k < sim.process_.size →
                numAt v k =
                  (1 - (t - numAt sim.obsTimes_ (i - 1)) /
                      (numAt sim.obsTimes_ i - numAt sim.obsTimes_ (i - 1)))
                    * numAt (rowAt (rowAt sim.X_ p) (i - 1)) k
                  + (t - numAt sim.obsTimes_ (i - 1)) /
                      (numAt sim.obsTimes_ i - numAt sim.obsTimes_ (i - 1))
                    * numAt (rowAt (rowAt sim.X_ p) i) k)
          ∧ ((sim.addObsTimes_.length > 0 ∧
                t = numAt sim.addObsTimes_ (TemplateAuxilliaries.idx sim.addObsTimes_ t)) →
              (sim.state p t).1
                = .ok (rowAt (rowAt sim.Y_ (TemplateAuxilliaries.idx sim.addObsTimes_ t)) p))
          ∧ (sim.cacheCoherent →
              ∃ v, (sim.state p t).1 = .ok v ∧ v.length = sim.process_.size ∧
                ∀ k, k < sim.process_.size →
                  numAt v k =
                    (1 - (t - numAt sim.obsTimes_ (i - 1)) /
                        (numAt sim.obsTimes_ i - numAt sim.obsTimes_ (i - 1)))
                      * numAt (rowAt (rowAt sim.X_ p) (i - 1)) k
                    + (t - numAt sim.obsTimes_ (i - 1)) /
                        (numAt sim.obsTimes_ i - numAt sim.obsTimes_ (i - 1))
                      * numAt (rowAt (rowAt sim.X_ p) i) k)) ∧
      (t < numAt sim.obsTimes_ 0 → (sim.state p t).1 = .ok (rowAt (rowAt sim.X_ p) 0)) ∧
      (numAt sim.obsTimes_ (sim.obsTimes_.length - 1) < t →
        (sim.state p t).1 = .ok (rowAt (rowAt sim.X_ p) ((rowAt sim.X_ p).length - 1))) := by
  have hp' : p < sim.X_.length := hp
  have hlen : 0 < sim.obsTimes_.length := List.length_pos.2 hne
  refine ⟨fun i hi0 hi hlo hhi => ?_, fun hlt => ?_, fun hgt => ?_⟩
  · have hidx : TemplateAuxilliaries.idx sim.obsTimes_ t = i :=
      idx_of_bracket _ i t hi
        (fun j hj => lt_of_le_of_lt
          (numAt_mono_of_sorted _ hs j (i - 1) (Nat.le_sub_one_of_lt hj) (by omega)) hlo)
        (le_of_lt hhi)
    have h0 : numAt sim.obsTimes_ 0 ≤ numAt sim.obsTimes_ (i - 1) :=
      numAt_mono_of_sorted _ hs 0 (i - 1) (Nat.zero_le _) (by omega)
    have hl : numAt sim.obsTimes_ i ≤ numAt sim.obsTimes_ (sim.obsTimes_.length - 1) :=
      numAt_mono_of_sorted _ hs i _ (Nat.le_sub_one_of_lt hi) (by omega)
    have hstate : (sim.state p t).1 = .ok (sim.cachedOrInterpolated p t) := by
      rw [state_fst, if_neg (not_not.2 hp'), hidx, if_neg (ne_of_lt hhi),
        if_neg (by simp [hti]), if_neg (not_lt.2 (le_trans h0 (le_of_lt hlo))),
        if_neg (not_lt.2 (le_trans (le_of_lt hhi) hl))]
    refine ⟨fun hmiss => ?_, fun hhit => ?_, fun hcoh => ?_⟩
    · refine ⟨rowAt (sim.interpolatedStates i t) p, ?_, interpolatedStates_row sim i t p hp⟩
      rw [hstate]
      unfold MCSimulationT.cachedOrInterpolated
      rw [if_neg hmiss, hidx]
    · rw [hstate]
      unfold MCSimulationT.cachedOrInterpolated
      rw [if_pos hhit]
    · refine ⟨rowAt (sim.interpolatedStates i t) p, ?_, interpolatedStates_row sim i t p hp⟩
      rw [hstate, cachedOrInterpolated_of_coherent sim hcoh, hidx]
  · have hidx : TemplateAuxilliaries.idx sim.obsTimes_ t = 0 :=
      idx_of_bracket _ 0 t hlen (fun j hj => absurd hj (Nat.not_lt_zero j)) (le_of_lt hlt)
    rw [state_fst, if_neg (not_not.2 hp'), hidx, if_neg (ne_of_lt hlt),
      if_neg (by simp [hti]), if_pos hlt]
  · have hall : ∀ x ∈ sim.obsTimes_, x < t := by
      intro x hx
      obtain ⟨j, hj, rfl⟩ := List.getElem_of_mem hx
      rw [← numAt_eq_getElem _ j hj]
      exact lt_of_le_of_lt
        (numAt_mono_of_sorted _ hs j _ (Nat.le_sub_one_of_lt hj) (by omega)) hgt
    have hidx := idx_of_above _ t hne hall
    have h0 : numAt sim.obsTimes_ 0 ≤ numAt sim.obsTimes_ (sim.obsTimes_.length - 1) :=
      numAt_mono_of_sorted _ hs 0 _ (Nat.zero_le _) (by omega)
    rw [state_fst, if_neg (not_not.2 hp'), hidx, if_neg (ne_of_gt hgt),
      if_neg (by simp [hti]), if_neg (not_lt.2 (le_trans h0 (le_of_lt hgt))), if_pos hgt]

theorem state_interpolation_witness :
    ∃ v, (sampleSimulation.state 1 (3/2)).1 = .ok v ∧ v.length = sampleSimulation.process_.size ∧
      ∀ k, k < sampleSimulation.process_.size →
        numAt v k =
          (1 - ((3/2 : ℚ) - numAt sampleSimulation.obsTimes_ (2 - 1)) /
              (numAt sampleSimulation.obsTimes_ 2 - numAt sampleSimulation.obsTimes_ (2 - 1)))
            * numAt (rowAt (rowAt sampleSimulation.X_ 1) (2 - 1)) k
          + ((3/2 : ℚ) - numAt sampleSimulation.obsTimes_ (2 - 1)) /
              (numAt sampleSimulation.obsTimes_ 2 - numAt sampleSimulation.obsTimes_ (2 - 1))
            * numAt (rowAt (rowAt sampleSimulation.X_ 1) 2) k :=
  ((state_interpolation sampleSimulation 1 (3/2) rfl
    (by norm_num [sampleSimulation, MCSimulationT.build, MCSimulationT.reallocateMemory,
      buildObsTimes])
    (by simp [sampleSimulation, MCSimulationT.build, MCSimulationT.reallocateMemory,
      buildObsTimes])
    (by simp [sampleSimulation, MCSimulationT.nPaths])).1 2 (by decide)
    (by simp [sampleSimulation, MCSimulationT.build, MCSimulationT.reallocateMemory,
      buildObsTimes])
    (by norm_num [sampleSimulation, MCSimulationT.build, MCSimulationT.reallocateMemory,
      buildObsTimes, numAt])
    (by norm_num [sampleSimulation, MCSimulationT.build, MCSimulationT.reallocateMemory,
      buildObsTimes, numAt])).2.2
    (by intro k hk; simp [sampleSimulation, MCSimulationT.build,
      MCSimulationT.reallocateMemory] at hk)

end Interpolation

/-! ### Deterministic replay of `simulate()` -/

section Replay

variable {α : Type} [LinearOrderedField α]

/-- Loop rule for a loop whose every pass succeeds and keeps the invariant. -/
theorem forLoop_range_total {σ : Type} (body : Nat → σ → Except String Unit × σ)
    (P : Nat → σ → Prop) (n : Nat) (s0 : σ) (h0 : P 0 s0)
    (hstep : ∀ i s, i < n → P i s → ∃ s1, body i s = (.ok (), s1) ∧ P (i + 1) s1) :
    ∃ sf, forLoop body (List.range n) s0 = (.ok (), sf) ∧ P n sf := by
  have key : ∀ m, m ≤ n → ∃ sf, forLoop body (List.range m) s0 = (.ok (), sf) ∧ P m sf := by
    intro m
    induction m with
    | zero => exact fun _ => ⟨s0, rfl, h0⟩
    | succ m ih =>
      intro hm
      obtain ⟨s1, h1, hP⟩ := ih (Nat.le_of_succ_le hm)
      obtain ⟨s2, h2, hP2⟩ := hstep m s1 hm hP
      refine ⟨s2, ?_, hP2⟩
      rw [List.range_succ, forLoop_append, h1]
      simp only [forLoop, h2]
  exact key n le_rfl

theorem applyWrites_append {β : Type} (W1 W2 : List (Nat × β)) (r : List β) :
    applyWrites (W1 ++ W2) r = applyWrites W2 (applyWrites W1 r) := by
  simp [applyWrites, List.foldl_append]

theorem applyWrites_length {β : Type} (W : List (Nat × β)) (r : List β) :
    (applyWrites W r).length = r.length := by
  induction W generalizing r with
  | nil => rfl
  | cons w W ih =>
    have : applyWrites (w :: W) r = applyWrites W (r.set w.1 w.2) := rfl
    rw [this, ih, List.length_set]

theorem applyWrites_set {β : Type} (W : List (Nat × β)) (m : List β) (i : Nat) (a : β) :
    (applyWrites W (m.set i a)).set i a = (applyWrites W m).set i a := by
  induction W generalizing m with
  | nil => simp [applyWrites, List.set_set]
  | cons w W ih =>
    have h1 : ∀ r, applyWrites (w :: W) r = applyWrites W (r.set w.1 w.2) := fun _ => rfl
    rw [h1, h1]
    by_cases hw : w.1 = i
    · rw [hw, List.set_set]
    · rw [List.set_comm _ _ _ (Ne.symm hw), ih]

theorem applyWrites_idem {β : Type} (W : List (Nat × β)) (r : List β) :
    applyWrites W (applyWrites W r) = applyWrites W r := by
  induction W using List.reverseRecOn generalizing r with
  | nil => rfl
  | append_singleton W w ih =>
    have h1 : ∀ m, applyWrites (W ++ [w]) m = (applyWrites W m).set w.1 w.2 := by
      intro m; rw [applyWrites_append]; rfl
    rw [h1, h1, applyWrites_set, ih]

theorem simulateStep_writes (sqrt : α → α) (sim : MCSimulationT α) (dWt : List (List α))
    (i : Nat) (a : PathLoopState α) :
    ∃ W : List (Nat × List α), ∀ b : PathLoopState α,
      ({ b with Xpath := [] } : PathLoopState α) = { a with Xpath := [] } →
      ({ sim.simulateStep sqrt dWt i b with Xpath := [] } : PathLoopState α)
          = { sim.simulateStep sqrt dWt i a with Xpath := [] } ∧
        (sim.simulateStep sqrt dWt i b).Xpath = applyWrites W b.Xpath := by
  obtain ⟨aX0, aX1, aX12, adW, ao, ar⟩ := a
  by_cases hc : (sim.simulateStep sqrt dWt i ⟨aX0, aX1, aX12, adW, ao, ar⟩).obs_idx = ao
  · refine ⟨[], ?_⟩
    rintro ⟨bX0, bX1, bX12, bdW, bo, br⟩ hb
    simp only [PathLoopState.mk.injEq, and_true] at hb
    obtain ⟨rfl, rfl, rfl, rfl, rfl⟩ := hb
    revert hc
    unfold MCSimulationT.simulateStep
    dsimp only
    split_ifs <;> simp [applyWrites]
  · refine ⟨[(ao, (sim.simulateStep sqrt dWt i ⟨aX0, aX1, aX12, adW, ao, ar⟩).X1)], ?_⟩
    rintro ⟨bX0, bX1, bX12, bdW, bo, br⟩ hb
    simp only [PathLoopState.mk.injEq, and_true] at hb
    obtain ⟨rfl, rfl, rfl, rfl, rfl⟩ := hb
    revert hc
    unfold MCSimulationT.simulateStep
    dsimp only
    split_ifs <;> simp [applyWrites]

theorem simulateLoop_writes (sqrt : α → α) (sim : MCSimulationT α) (dWt : List (List α))
    (steps : List Nat) (a : PathLoopState α) :
    ∃ W : List (Nat × List α), ∀ b : PathLoopState α,
      ({ b with Xpath := [] } : PathLoopState α) = { a with Xpath := [] } →
      (steps.foldl (fun c sim_idx => sim.simulateStep sqrt dWt sim_idx c) b).Xpath
        = applyWrites W b.Xpath := by
  induction steps generalizing a with
  | nil => exact ⟨[], fun b _ => rfl⟩
  | cons i rest ih =>
    obtain ⟨W1, h1⟩ := simulateStep_writes sqrt sim dWt i a
    obtain ⟨W2, h2⟩ := ih (sim.simulateStep sqrt dWt i a)
    refine ⟨W1 ++ W2, fun b hb => ?_⟩
    rw [List.foldl_cons, h2 _ (h1 b hb).1, (h1 b hb).2, applyWrites_append]

theorem simulatePath_stored (rsg : Nat → Nat → Nat → List α) (sqrt : α → α)
    (s : MCSimulationT α) (hsb : s.storeBrownians_ = true) (path : Nat)
    (hd : path < s.dW_.length) :
    ∃ W : List (Nat × List α), ∀ X : List (List (List α)), path < X.length →
      MCSimulationT.simulatePath rsg sqrt { s with X_ := X } path
        = (.ok (), { s with X_ := X.set path (applyWrites W (rowAt X path)) }) := by
  obtain ⟨W, hW⟩ := simulateLoop_writes sqrt s (rowAt s.dW_ path)
    ((List.range (s.simTimes_.length - 1)).map (· + 1))
    { X0 := s.process_.initialValues
      X1 := List.replicate s.process_.initialValues.length 0
      X12 := List.replicate s.process_.initialValues.length 0
      dW := List.replicate s.process_.factors 0
      obs_idx := 1
      Xpath := [] }
  refine ⟨(0, s.process_.initialValues) :: W, fun X hX => ?_⟩
  have hg : MCSimulationT.getBrownianIncrementsByPath rsg { s with X_ := X } path
      = (.ok (rowAt s.dW_ path), { s with X_ := X }) := by
    unfold MCSimulationT.getBrownianIncrementsByPath
    rw [if_pos (show ({ s with X_ := X } : MCSimulationT α).storeBrownians_ = true from hsb),
      if_neg (not_not.2 hd)]
  have hstep : ∀ (dWt : List (List α)) (i : Nat) (c : PathLoopState α),
      MCSimulationT.simulateStep sqrt { s with X_ := X } dWt i c
        = s.simulateStep sqrt dWt i c := fun _ _ _ => rfl
  have := hW { X0 := s.process_.initialValues
               X1 := List.replicate s.process_.initialValues.length 0
               X12 := List.replicate s.process_.initialValues.length 0
               dW := List.replicate s.process_.factors 0
               obs_idx := 1
               Xpath := (rowAt X path).set 0 s.process_.initialValues } rfl
  unfold MCSimulationT.simulatePath
  rw [if_neg (not_not.2 hX), hg]
  dsimp only
  simp only [hstep]
  rw [this]
  rfl

theorem storeIncrements_ok (rsg : Nat → Nat → Nat → List α)
    (hdim : ∀ d s n, (rsg d s n).length = d) (s : MCSimulationT α) (D : List (List (List α)))
    (j k : Nat) :
    MCSimulationT.storeIncrements rsg k
        { s with
          rsg_ := some ⟨(if s.richardsonExtrapolation_ then 2 else 1)
            * (s.simTimes_.length - 1) * s.process_.factors, s.seed_, j⟩
          dW_ := D }
      = (.ok (), { s with
          rsg_ := some ⟨(if s.richardsonExtrapolation_ then 2 else 1)
            * (s.simTimes_.length - 1) * s.process_.factors, s.seed_, j + 1⟩
          dW_ := D.set k (s.increments rsg j) }) := by
  unfold MCSimulationT.storeIncrements MCSimulationT.getNextBrownianIncrements
  dsimp only
  rw [if_neg (not_not.2 (hdim _ _ _))]
  rfl

theorem storeIncrements_loop (rsg : Nat → Nat → Nat → List α)
    (hdim : ∀ d s n, (rsg d s n).length = d) (s : MCSimulationT α) :
    forLoop (fun k st => MCSimulationT.storeIncrements rsg k st) (List.range s.dW_.length)
        s.initialiseRSG
      = (.ok (), { s with
          rsg_ := some ⟨(if s.richardsonExtrapolation_ then 2 else 1)
            * (s.simTimes_.length - 1) * s.process_.factors, s.seed_, s.dW_.length⟩
          dW_ := (List.range s.dW_.length).map (s.increments rsg) }) := by
  obtain ⟨sf, hrun, D, hsf, hlen, hD⟩ := forLoop_range_total
    (fun k st => MCSimulationT.storeIncrements rsg k st)
    (fun j st => ∃ D : List (List (List α)),
      st = { s with
          rsg_ := some ⟨(if s.richardsonExtrapolation_ then 2 else 1)
            * (s.simTimes_.length - 1) * s.process_.factors, s.seed_, j⟩
          dW_ := D } ∧
        D.length = s.dW_.length ∧ ∀ k, k < j → rowAt D k = s.increments rsg k)
    s.dW_.length s.initialiseRSG
    ⟨s.dW_, rfl, rfl, fun k hk => absurd hk (Nat.not_lt_zero k)⟩
    (by
      rintro j st hj ⟨D, rfl, hlen, hD⟩
      refine ⟨_, storeIncrements_ok rsg hdim s D j j, D.set j (s.increments rsg j), rfl,
        by rw [List.length_set, hlen], fun k hk => ?_⟩
      rw [rowAt_set]
      by_cases hkj : j = k
      · rw [if_pos ⟨hkj, by rw [hlen]; exact hj⟩, hkj]
      · rw [if_neg (fun h => hkj h.1)]
        exact hD k (by omega))
  rw [hrun, hsf]
  have hDeq : D = (List.range s.dW_.length).map (s.increments rsg) := by
    apply List.ext_getElem (by simp [hlen])
    intro k h1 h2
    rw [← rowAt_eq_getElem D k h1, hD k (by rw [← hlen]; exact h1)]
    simp
  rw [hDeq]

theorem simulatePath_loop (rsg : Nat → Nat → Nat → List α) (sqrt : α → α)
    (s : MCSimulationT α) (hsb : s.storeBrownians_ = true) :
    ∃ Ws : Nat → List (Nat × List α), ∀ X : List (List (List α)), X.length ≤ s.dW_.length →
      forLoop (fun k st => MCSimulationT.simulatePath rsg sqrt st k) (List.range X.length)
          { s with X_ := X }
        = (.ok (), { s with
          X_ := (List.range X.length).map fun k => applyWrites (Ws k) (rowAt X k) }) := by
  have hex : ∀ path, ∃ W : List (Nat × List α), path < s.dW_.length →
      ∀ X : List (List (List α)), path < X.length →
        MCSimulationT.simulatePath rsg sqrt { s with X_ := X } path
          = (.ok (), { s with X_ := X.set path (applyWrites W (rowAt X path)) }) := by
    intro path
    by_cases hd : path < s.dW_.length
    · obtain ⟨W, hW⟩ := simulatePath_stored rsg sqrt s hsb path hd
      exact ⟨W, fun _ => hW⟩
    · exact ⟨[], fun h => absurd h hd⟩
  choose Ws hWs using hex
  refine ⟨Ws, fun X hX => ?_⟩
  obtain ⟨sf, hrun, X', hsf, hlen, hlo, hhi⟩ := forLoop_range_total
    (fun k st => MCSimulationT.simulatePath rsg sqrt st k)
    (fun j st => ∃ X' : List (List (List α)), st = { s with X_ := X' } ∧ X'.length = X.length ∧
      (∀ k, k < j → rowAt X' k = applyWrites (Ws k) (rowAt X k)) ∧
      (∀ k, j ≤ k → rowAt X' k = rowAt X k))
    X.length { s with X_ := X }
    ⟨X, rfl, rfl, fun k hk => absurd hk (Nat.not_lt_zero k), fun _ _ => rfl⟩
    (by
      rintro j st hj ⟨X', rfl, hlen, hlo, hhi⟩
      refine ⟨_, hWs j (lt_of_lt_of_le hj hX) X' (by rw [hlen]; exact hj), _, rfl,
        by rw [List.length_set, hlen], fun k hk => ?_, fun k hk => ?_⟩
      · rw [rowAt_set]
        by_cases hkj : j = k
        · rw [if_pos ⟨hkj, by rw [hlen]; exact hj⟩, hhi j le_rfl, hkj]
        · rw [if_neg (fun h => hkj h.1)]
          exact hlo k (by omega)
      · rw [rowAt_set, if_neg (fun h => by omega)]
        exact hhi k (by omega))
  rw [hrun, hsf]
  have hXeq : X' = (List.range X.length).map fun k => applyWrites (Ws k) (rowAt X k) := by
    apply List.ext_getElem (by simp [hlen])
    intro k h1 h2
    rw [← rowAt_eq_getElem X' k h1, hlo k (by rw [← hlen]; exact h1)]
    simp
  rw [hXeq]

theorem simulate_eq (rsg : Nat → Nat → Nat → List α) (sqrt : α → α)
    (hdim : ∀ d s n, (rsg d s n).length = d) (sim : MCSimulationT α)
    (hsb : sim.storeBrownians_ = true) :
    sim.simulate rsg sqrt =
      forLoop (fun k st => MCSimulationT.simulatePath rsg sqrt st k)
        (List.range sim.X_.length) (sim.withIncrements rsg) := by
  have h := storeIncrements_loop rsg hdim { sim with addObsTimes_ := [], Y_ := [] }
  unfold MCSimulationT.simulate
  dsimp only
  rw [if_pos (show (MCSimulationT.initialiseRSG
    { sim with addObsTimes_ := [], Y_ := [] }).storeBrownians_ = true from hsb)]
  have h' : forLoop (fun k st => MCSimulationT.storeIncrements rsg k st)
      (List.range (MCSimulationT.initialiseRSG
        { sim with addObsTimes_ := [], Y_ := [] }).dW_.length)
      (MCSimulationT.initialiseRSG { sim with addObsTimes_ := [], Y_ := [] })
      = (.ok (), sim.withIncrements rsg) := h
  rw [h']
  rfl

theorem withIncrements_with_X (rsg : Nat → Nat → Nat → List α) (sim : MCSimulationT α)
    (X : List (List (List α))) :
    MCSimulationT.withIncrements rsg { sim.withIncrements rsg with X_ := X }
      = { sim.withIncrements rsg with X_ := X } := by
  unfold MCSimulationT.withIncrements
  simp only [List.length_map, List.length_range]
  rfl

/-- C12: on a simulator that stores its Brownian increments, with one row of
`dW_` per path and a sequence generator that is a function of its dimension,
its seed and the call number and returns sequences of its dimension, a call of
`simulate()` succeeds, and a second call right after it succeeds and leaves
identical tables `X_` and `dW_`. -/
theorem simulate_replay (rsg : Nat → Nat → Nat → List α) (sqrt : α → α)
    (hdim : ∀ d s n, (rsg d s n).length = d) (sim : MCSimulationT α)
    (hsb : sim.storeBrownians_ = true) (hshape : sim.nPaths ≤ sim.dW_.length) :
    ∃ s1 s2, sim.simulate rsg sqrt = (.ok (), s1) ∧ s1.simulate rsg sqrt = (.ok (), s2) ∧
      s2.X_ = s1.X_ ∧ s2.dW_ = s1.dW_ := by
  obtain ⟨Ws, hWs⟩ := simulatePath_loop rsg sqrt (sim.withIncrements rsg) hsb
  have hlenD : (sim.withIncrements rsg).dW_.length = sim.dW_.length := by
    simp [MCSimulationT.withIncrements]
  have h1 := hWs sim.X_ (by rw [hlenD]; exact hshape)
  have hrun1 : sim.simulate rsg sqrt = (.ok (), { sim.withIncrements rsg with
      X_ := (List.range sim.X_.length).map fun k => applyWrites (Ws k) (rowAt sim.X_ k) }) := by
    rw [simulate_eq rsg sqrt hdim sim hsb]
    exact h1
  have h2 := hWs ((List.range sim.X_.length).map fun k => applyWrites (Ws k) (rowAt sim.X_ k))
    (by rw [hlenD]; simpa using hshape)
  have hidem : ((List.range ((List.range sim.X_.length).map fun k =>
        applyWrites (Ws k) (rowAt sim.X_ k)).length).map fun k => applyWrites (Ws k)
        (rowAt ((List.range sim.X_.length).map fun k => applyWrites (Ws k) (rowAt sim.X_ k)) k))
      = (List.range sim.X_.length).map fun k => applyWrites (Ws k) (rowAt sim.X_ k) := by
    simp only [List.length_map, List.length_range]
    apply List.map_congr_left
    intro k hk
    rw [rowAt_map_range _ _ _ (List.mem_range.1 hk), applyWrites_idem]
  rw [hidem] at h2
  refine ⟨{ sim.withIncrements rsg with
      X_ := (List.range sim.X_.length).map fun k => applyWrites (Ws k) (rowAt sim.X_ k) },
    { sim.withIncrements rsg with
      X_ := (List.range sim.X_.length).map fun k => applyWrites (Ws k) (rowAt sim.X_ k) },
    hrun1, ?_, rfl, rfl⟩
  rw [simulate_eq rsg sqrt hdim { sim.withIncrements rsg with
      X_ := (List.range sim.X_.length).map fun k => applyWrites (Ws k) (rowAt sim.X_ k) } hsb,
    withIncrements_with_X]
  exact h2

theorem simulate_replay_witness :
    ∃ s1 s2,
      (MCSimulationT.build (unitProcess ℝ) [1, 2] [1, 2] 2 1234 true false true).simulate
          (sampleRsg ℝ) Real.sqrt = (.ok (), s1) ∧
        s1.simulate (sampleRsg ℝ) Real.sqrt = (.ok (), s2) ∧ s2.X_ = s1.X_ ∧ s2.dW_ = s1.dW_ :=
  simulate_replay (sampleRsg ℝ) Real.sqrt (by intro d s n; simp [sampleRsg])
    (MCSimulationT.build (unitProcess ℝ) [1, 2] [1, 2] 2 1234 true false true) rfl
    (by simp [MCSimulationT.nPaths, MCSimulationT.build, MCSimulationT.reallocateMemory])

end Replay

/-! ### Path reads -/

section PathReads

variable {α : Type} [LinearOrderedField α]

/-- C13: on a simulator whose zero-bond adjuster is calibrated with the rate 1,
`Path::zeroBond(1, 2, alias)` returns the zero bond of the process, 1, whereas
the calibrated adjuster `zcbAdjuster(1, 2)` is `exp(-1)`, so the read is not
the adjuster times the zero bond of the process; `Path::zeroBond(1, 2)` is. -/
theorem zeroBond_alias_not_adjusted :
    (Path.zeroBondAlias (calibratedSimulation ℝ) 0 1 2 "EUR").1 = .ok 1 ∧
      (calibratedSimulation ℝ).zcbAdjuster Real.exp 1 2
          * (calibratedSimulation ℝ).process_.zeroBondAlias 1 2
              ((calibratedSimulation ℝ).stateValue 0 1) "EUR" = Real.exp (-1) ∧
      Real.exp (-1) ≠ 1 ∧
      (Path.zeroBond Real.exp (calibratedSimulation ℝ) 0 1 2).1 = .ok (Real.exp (-1)) := by
  have hst : (calibratedSimulation ℝ).state 0 1
      = (.ok [1], calibratedSimulation ℝ) := by
    norm_num [MCSimulationT.state, calibratedSimulation, MCSimulationT.build,
      MCSimulationT.reallocateMemory, buildObsTimes, TemplateAuxilliaries.idx, numAt, rowAt]
  have hz : (calibratedSimulation ℝ).zcbAdjuster Real.exp 1 2 = Real.exp (-1) := by
    norm_num [MCSimulationT.zcbAdjuster, calibratedSimulation, TemplateAuxilliaries.idx,
      numAt, rowAt]
  refine ⟨?_, ?_, ?_, ?_⟩
  · unfold Path.zeroBondAlias
    rw [hst]
    simp [MCSimulationT.zcbAdjusterAlias, calibratedSimulation,
      MCSimulationT.build, MCSimulationT.reallocateMemory, unitProcess]
  · rw [hz]
    simp [calibratedSimulation, MCSimulationT.build, MCSimulationT.reallocateMemory, unitProcess]
  · intro h
    have : Real.exp (-1) < Real.exp 0 := Real.exp_lt_exp.2 (by norm_num)
    rw [Real.exp_zero, h] at this
    exact lt_irrefl _ this
  · unfold Path.zeroBond
    rw [hst]
    simp only [hz]
    simp [calibratedSimulation, MCSimulationT.build, MCSimulationT.reallocateMemory, unitProcess]

/-! ### The barrier no-hit probability -/

theorem state_step_record (sim : MCSimulationT α) (k : Nat) (t : α) :
    ∃ T Y, (sim.state k t).2 = { sim with addObsTimes_ := T, Y_ := Y } := by
  rw [state_def]
  split_ifs
  all_goals exact ⟨_, _, rfl⟩

theorem cacheVariant_assetAdjuster (base s : MCSimulationT α) (h : base.cacheVariant s)
    (t : α) (a : String) : s.assetAdjuster t a = base.assetAdjuster t a := by
  obtain ⟨T, Y, hs⟩ := h.2.2
  rw [hs]
  rfl

theorem cacheVariant_process (base s : MCSimulationT α) (h : base.cacheVariant s) :
    s.process_ = base.process_ := by
  obtain ⟨T, Y, hs⟩ := h.2.2
  rw [hs]

theorem Path.asset_ok (sim : MCSimulationT α) (idx_ : Nat) (t : α) (a : String) (v : α)
    (h : (Path.asset sim idx_ t a).1 = .ok v) :
    (∃ adj, sim.assetAdjuster t a = .ok adj) ∧ (∃ X, (sim.state idx_ t).1 = .ok X) ∧
      v = Path.assetValue sim idx_ a t := by
  unfold Path.asset at h
  cases hadj : sim.assetAdjuster t a with
  | error e =>
    rw [hadj] at h
    simp at h
  | ok adj =>
    rw [hadj] at h
    have hpair : sim.state idx_ t = ((sim.state idx_ t).1, (sim.state idx_ t).2) := rfl
    rw [hpair] at h
    cases hr : (sim.state idx_ t).1 with
    | error e =>
      rw [hr] at h
      simp at h
    | ok X =>
      rw [hr] at h
      obtain ⟨T, Y, hs1⟩ := state_step_record sim idx_ t
      simp only [Except.ok.injEq] at h
      refine ⟨⟨adj, rfl⟩, ⟨X, rfl⟩, ?_⟩
      rw [← h, hs1]
      unfold Path.assetValue
      rw [hadj, stateValue_of_ok sim idx_ t X hr]

theorem barrierLoop_cons (exp log : α → α) (idx_ : Nat) (down up side : α) (a : String)
    (t : α) (rest : List α) (k : Nat) (tPrev noHit S2 sigma2 : α) (sim : MCSimulationT α) :
    Path.barrierLoop exp log idx_ down up side a (t :: rest) k tPrev noHit S2 sigma2 sim =
      match sim.state idx_ t with
      | (.error e, sim1) => (.error e, sim1)
      | (.ok X2, sim1) =>
        match sim1.assetAdjuster t a with
        | .error e => (.error e, sim1)
        | .ok adj =>
          if side ≤ 0 ∧ adj + sim1.process_.asset t X2 a ≤ down then (.ok 0, sim1)
          else if side ≥ 0 ∧ adj + sim1.process_.asset t X2 a ≥ up then (.ok 0, sim1)
          else if k = 0 then
            Path.barrierLoop exp log idx_ down up side a rest (k + 1) t noHit
              (adj + sim1.process_.asset t X2 a) (sim1.process_.assetVolatility t X2 a) sim1
          else
            Path.barrierLoop exp log idx_ down up side a rest (k + 1) t
              (noHit * (1 - barrierHit exp log down up side S2 (adj + sim1.process_.asset t X2 a)
                ((sigma2 * sigma2 + sim1.process_.assetVolatility t X2 a
                  * sim1.process_.assetVolatility t X2 a) * (t - tPrev) / 2)))
              (adj + sim1.process_.asset t X2 a) (sim1.process_.assetVolatility t X2 a) sim1 := by
  rw [Path.barrierLoop]
  rfl

theorem barrierLoop_eq (exp log : α → α) (base : MCSimulationT α) (idx_ : Nat)
    (down up side : α) (a : String) (L : List α)
    (hreads : ∀ u ∈ L, ∃ v, (Path.asset base idx_ u a).1 = .ok v) :
    ∀ (k : Nat) (tPrev noHit S2 sigma2 : α) (s : MCSimulationT α), base.cacheVariant s →
      ∃ s1, Path.barrierLoop exp log idx_ down up side a L k tPrev noHit S2 sigma2 s
          = (.ok (barrierValue exp log (Path.assetValue base idx_ a) (Path.volatility base idx_ a)
              down up side L k tPrev noHit S2 sigma2), s1) ∧ base.cacheVariant s1 := by
  induction L with
  | nil =>
    intro k tPrev noHit S2 sigma2 s hv
    exact ⟨s, rfl, hv⟩
  | cons u rest ih =>
    intro k tPrev noHit S2 sigma2 s hv
    obtain ⟨v, hv1⟩ := hreads u (List.mem_cons_self _ _)
    obtain ⟨⟨adj, hadj⟩, ⟨X, hX⟩, -⟩ := Path.asset_ok base idx_ u a v hv1
    have hs1 := cacheVariant_state base s hv idx_ u
    have hXs : (s.state idx_ u).1 = .ok X := (hv.2.1 idx_ u).trans hX
    have hpair : s.state idx_ u = (.ok X, (s.state idx_ u).2) := by rw [← hXs]
    have hadj1 : (s.state idx_ u).2.assetAdjuster u a = .ok adj :=
      (cacheVariant_assetAdjuster base _ hs1 u a).trans hadj
    have hproc := cacheVariant_process base _ hs1
    have hS : adj + base.process_.asset u X a = Path.assetValue base idx_ a u := by
      unfold Path.assetValue
      rw [hadj, stateValue_of_ok base idx_ u X hX]
    have hsig : base.process_.assetVolatility u X a = Path.volatility base idx_ a u := by
      unfold Path.volatility
      rw [stateValue_of_ok base idx_ u X hX]
    have ih' := ih (fun w hw => hreads w (List.mem_cons_of_mem _ hw))
    rw [barrierLoop_cons, hpair]
    simp only [hadj1, hproc, hS, hsig]
    rw [barrierValue]
    split_ifs
    · exact ⟨_, rfl, hs1⟩
    · exact ⟨_, rfl, hs1⟩
    · exact ih' _ _ _ _ _ _ hs1
    · exact ih' _ _ _ _ _ _ hs1

theorem barrierGridTimes_mem (tStart tEnd t : α) (L : List α)
    (ht : t ∈ barrierGridTimes tStart tEnd L) : t ∈ L ∧ tStart < t ∧ t < tEnd := by
  induction L with
  | nil => simp [barrierGridTimes] at ht
  | cons o rest ih =>
    rw [barrierGridTimes] at ht
    rcases List.mem_append.1 ht with h | h
    · split_ifs at h with hc
      · rw [List.mem_singleton] at h
        subst h
        exact ⟨List.mem_cons_self _ _, hc⟩
      · simp at h
    · split_ifs at h with hc
      · simp at h
      · obtain ⟨h1, h2⟩ := ih h
        exact ⟨List.mem_cons_of_mem _ h1, h2⟩

theorem barrierValue_breach (exp log : α → α) (S sigma : α → α) (down up side : α) (t : α)
    (hb : (side ≤ 0 ∧ S t ≤ down) ∨ (side ≥ 0 ∧ S t ≥ up)) (L : List α) (ht : t ∈ L) :
    ∀ (k : Nat) (tPrev noHit S2 sigma2 : α),
      barrierValue exp log S sigma down up side L k tPrev noHit S2 sigma2 = 0 := by
  induction L with
  | nil => simp at ht
  | cons u rest ih =>
    intro k tPrev noHit S2 sigma2
    rw [barrierValue]
    by_cases h1 : side ≤ 0 ∧ S u ≤ down
    · rw [if_pos h1]
    · rw [if_neg h1]
      by_cases h2 : side ≥ 0 ∧ S u ≥ up
      · rw [if_pos h2]
      · rw [if_neg h2]
        have hrest : t ∈ rest := by
          rcases List.mem_cons.1 ht with rfl | h
          · rcases hb with hb | hb
            · exact absurd hb h1
            · exact absurd hb h2
          · exact h
        split_ifs
        · exact ih hrest _ _ _ _ _
        · exact ih hrest _ _ _ _ _

theorem assetBarrierNoHit_eq (exp log : α → α) (sim : MCSimulationT α) (hc : sim.cacheSorted)
    (idx_ : Nat) (tStart tEnd down up side : α) (a : String)
    (hreads : ∀ u ∈ Path.barrierTimes sim tStart tEnd, ∃ v, (Path.asset sim idx_ u a).1 = .ok v) :
    (Path.assetBarrierNoHit exp log sim idx_ tStart tEnd down up side a).1
      = .ok (barrierValue exp log (Path.assetValue sim idx_ a) (Path.volatility sim idx_ a)
          down up side (Path.barrierTimes sim tStart tEnd) 0 0 1 0 0) := by
  obtain ⟨s1, h1, -⟩ := barrierLoop_eq exp log sim idx_ down up side a _ hreads 0 0 1 0 0 sim
    (cacheVariant_refl sim hc)
  unfold Path.assetBarrierNoHit
  rw [h1]

theorem barrierSimulation_times :
    Path.barrierTimes (barrierSimulation ℝ) 0 2 = [0, 1, 2] := by
  norm_num [Path.barrierTimes, barrierGridTimes, barrierSimulation, MCSimulationT.build,
    MCSimulationT.reallocateMemory, buildObsTimes]

end PathReads

/-! ### Payoff nodes: evaluation and value -/

section Payoffs

variable {α : Type} [LinearOrderedField α]

theorem valueList_ok_iff (exp log sqrt : α → α) (q : PathType α) (l : List (Payoff α))
    (vs : List α) :
    Payoff.valueList exp log sqrt l q = .ok vs ↔
      List.Forall₂ (fun u v => Payoff.value exp log sqrt u q = .ok v) l vs := by
  induction l generalizing vs with
  | nil =>
    simp only [Payoff.valueList, Except.ok.injEq]
    constructor
    · rintro rfl; exact List.Forall₂.nil
    · intro h; cases h; rfl
  | cons u rest ih =>
    simp only [Payoff.valueList]
    cases hu : Payoff.value exp log sqrt u q with
    | error e =>
      simp only
      constructor
      · intro h; simp at h
      · intro h
        cases h with
        | cons h1 _ => rw [hu] at h1; simp at h1
    | ok a =>
      cases hr : Payoff.valueList exp log sqrt rest q with
      | error e =>
        simp only
        constructor
        · intro h; simp at h
        · intro h
          cases h with
          | cons h1 h2 => rw [(ih _).2 h2] at hr; simp at hr
      | ok ws =>
        simp only [Except.ok.injEq]
        constructor
        · rintro rfl
          exact List.Forall₂.cons hu ((ih ws).1 hr)
        · intro h
          cases h with
          | cons h1 h2 =>
            rw [hu] at h1
            simp only [Except.ok.injEq] at h1
            have := (ih _).2 h2
            rw [hr] at this
            simp only [Except.ok.injEq] at this
            rw [h1, this]

theorem coherentList_iff (exp log sqrt : α → α) (heap : Nat → Option (PathType α))
    (l : List (Payoff α)) :
    Payoff.coherentList exp log sqrt heap l ↔ ∀ u ∈ l, Payoff.coherent exp log sqrt heap u := by
  induction l with
  | nil => simp [Payoff.coherentList]
  | cons u rest ih => simp [Payoff.coherentList, ih]

theorem height_le_heightList {γ : Type} (l : List (Payoff γ)) (u : Payoff γ) (hu : u ∈ l) :
    u.height ≤ Payoff.heightList l := by
  induction l with
  | nil => simp at hu
  | cons w rest ih =>
    simp only [Payoff.heightList]
    rcases List.mem_cons.1 hu with rfl | h
    · exact le_max_left _ _
    · exact le_trans (ih h) (le_max_right _ _)

theorem heightList_perm {γ : Type} (l1 l2 : List (Payoff γ)) (h : l1.Perm l2) :
    Payoff.heightList l1 = Payoff.heightList l2 := by
  induction h with
  | nil => rfl
  | cons x _ ih => simp only [Payoff.heightList, ih]
  | swap x y l => simp only [Payoff.heightList, max_left_comm]
  | trans _ _ ih1 ih2 => exact ih1.trans ih2

theorem heightList_forall₂ {γ : Type} (l1 l2 : List (Payoff γ))
    (h : List.Forall₂ (fun u u1 : Payoff γ => u1.height = u.height) l1 l2) :
    Payoff.heightList l2 = Payoff.heightList l1 := by
  induction h with
  | nil => rfl
  | cons h1 _ ih => simp only [Payoff.heightList, h1, ih]

theorem evalEach_ok {γ : Type} (f : Payoff γ → Except String γ × Payoff γ)
    (R : Payoff γ → Payoff γ → Prop)
    (V : Payoff γ → γ → Prop) (us : List (Payoff γ)) (vs : List γ)
    (hf : ∀ u ∈ us, ∀ v, V u v → ∃ u1, f u = (.ok v, u1) ∧ R u u1)
    (hv : List.Forall₂ V us vs) :
    ∃ us1, evalEach f us = (.ok vs, us1) ∧ List.Forall₂ R us us1 := by
  induction hv with
  | nil => exact ⟨[], rfl, List.Forall₂.nil⟩
  | @cons u v rest vs' h1 _ ih =>
    obtain ⟨u1, hu1, hr1⟩ := hf u (List.mem_cons_self _ _) v h1
    obtain ⟨rest1, hr, hR⟩ := ih (fun w hw => hf w (List.mem_cons_of_mem _ hw))
    exact ⟨u1 :: rest1, by simp only [evalEach, hu1, hr], List.Forall₂.cons hr1 hR⟩

theorem basketSum_ok (f : Payoff α → Except String α × Payoff α) (R : Payoff α → Payoff α → Prop)
    (V : Payoff α → α → Prop) (ws : List α) (us : List (Payoff α)) (vs : List α)
    (hf : ∀ u ∈ us, ∀ v, V u v → ∃ u1, f u = (.ok v, u1) ∧ R u u1)
    (hv : List.Forall₂ V us vs) :
    ∀ (k : Nat) (res : α), ∃ us1, basketSum f ws us k res = (.ok (weightedSum ws vs k res), us1) ∧
      List.Forall₂ R us us1 := by
  induction hv with
  | nil => intro k res; exact ⟨[], rfl, List.Forall₂.nil⟩
  | @cons u v rest vs' h1 _ ih =>
    intro k res
    obtain ⟨u1, hu1, hr1⟩ := hf u (List.mem_cons_self _ _) v h1
    obtain ⟨rest1, hr, hR⟩ := ih (fun w hw => hf w (List.mem_cons_of_mem _ hw)) (k + 1)
      (res + numAt ws k * v)
    exact ⟨u1 :: rest1, by simp only [basketSum, hu1, hr, weightedSum], List.Forall₂.cons hr1 hR⟩

theorem forall₂_right_mem {β γ : Type} (R : β → γ → Prop) (l1 : List β) (l2 : List γ)
    (h : List.Forall₂ R l1 l2) : ∀ b ∈ l2, ∃ a ∈ l1, R a b := by
  induction h with
  | nil => intro b hb; simp at hb
  | @cons a c l1' l2' h1 _ ih =>
    intro b hb
    rcases List.mem_cons.1 hb with rfl | hb'
    · exact ⟨a, List.mem_cons_self _ _, h1⟩
    · obtain ⟨a', ha', hr⟩ := ih b hb'
      exact ⟨a', List.mem_cons_of_mem _ ha', hr⟩

theorem forall₂_value_updated (exp log sqrt : α → α) (heap : Nat → Option (PathType α))
    (q : PathType α) (us us1 : List (Payoff α)) (vq : List α)
    (h1 : List.Forall₂ (Payoff.updated exp log sqrt heap) us us1)
    (hF : List.Forall₂ (fun u v => Payoff.value exp log sqrt u q = .ok v) us vq) :
    List.Forall₂ (fun u v => Payoff.value exp log sqrt u q = .ok v) us1 vq := by
  induction h1 generalizing vq with
  | nil => cases hF; exact List.Forall₂.nil
  | @cons a b l1 l2 hab _ ih =>
    cases hF with
    | cons h1' h2' => exact List.Forall₂.cons (hab.2.2 q _ h1') (ih _ h2')

theorem updated_basket (exp log sqrt : α → α) (heap : Nat → Option (PathType α))
    (us us1 us2 : List (Payoff α)) (ws : List α) (rainbow : Bool)
    (h1 : List.Forall₂ (Payoff.updated exp log sqrt heap) us us1)
    (hperm : rainbow = true → us1.Perm us2) (hsame : rainbow = false → us2 = us1) :
    Payoff.updated exp log sqrt heap (.Basket us ws rainbow) (.Basket us2 ws rainbow) := by
  have hperm' : us1.Perm us2 := by
    cases rainbow with
    | true => exact hperm rfl
    | false => rw [hsame rfl]
  have hcoh1 : ∀ u ∈ us1, Payoff.coherent exp log sqrt heap u := by
    intro u hu
    obtain ⟨w, -, hw⟩ := forall₂_right_mem _ us us1 h1 u hu
    exact hw.1
  refine ⟨?_, ?_, ?_⟩
  · simp only [Payoff.coherent]
    rw [coherentList_iff]
    intro u hu
    exact hcoh1 u (hperm'.mem_iff.2 hu)
  · simp only [Payoff.height, add_left_inj]
    rw [← heightList_perm us1 us2 hperm']
    exact heightList_forall₂ us us1 (h1.imp fun _ _ h => h.2.1)
  · intro q w hq
    simp only [Payoff.value] at hq ⊢
    cases hvl : Payoff.valueList exp log sqrt us q with
    | error e => rw [hvl] at hq; simp at hq
    | ok vq =>
      rw [hvl] at hq
      have hF := (valueList_ok_iff exp log sqrt q us vq).1 hvl
      have hF1 := forall₂_value_updated exp log sqrt heap q us us1 vq h1 hF
      cases rainbow with
      | false =>
        rw [hsame rfl, (valueList_ok_iff exp log sqrt q us1 vq).2 hF1]
        exact hq
      | true =>
        obtain ⟨vq2, hF2, hp2⟩ := List.perm_comp_forall₂ (hperm rfl).symm hF1
        rw [(valueList_ok_iff exp log sqrt q us2 vq2).2 hF2]
        simp only [if_true] at hq ⊢
        rw [← hq]
        congr 2
        exact List.eq_of_perm_of_sorted
          ((List.perm_insertionSort _ _).trans (hp2.trans (List.perm_insertionSort _ _).symm))
          (List.sorted_insertionSort _ _) (List.sorted_insertionSort _ _)

theorem updated_trans (exp log sqrt : α → α) (heap : Nat → Option (PathType α))
    (a b c : Payoff α) (h1 : Payoff.updated exp log sqrt heap a b)
    (h2 : Payoff.updated exp log sqrt heap b c) : Payoff.updated exp log sqrt heap a c :=
  ⟨h2.1, h2.2.1.trans h1.2.1, fun q w hq => h2.2.2 q w (h1.2.2 q w hq)⟩

theorem forall₂_updated_trans (exp log sqrt : α → α) (heap : Nat → Option (PathType α))
    (l1 l2 l3 : List (Payoff α))
    (h1 : List.Forall₂ (Payoff.updated exp log sqrt heap) l1 l2)
    (h2 : List.Forall₂ (Payoff.updated exp log sqrt heap) l2 l3) :
    List.Forall₂ (Payoff.updated exp log sqrt heap) l1 l3 := by
  induction h1 generalizing l3 with
  | nil => cases h2; exact List.Forall₂.nil
  | @cons a b l1' l2' hab _ ih =>
    cases h2 with
    | cons h1' h2' =>
      exact List.Forall₂.cons (updated_trans exp log sqrt heap _ _ _ hab h1') (ih _ h2')

theorem forall₂_of_pairs {β γ : Type} (V : γ → β → Prop) (L : List (β × γ))
    (h : ∀ x ∈ L, V x.2 x.1) : List.Forall₂ V (L.map (·.2)) (L.map (·.1)) := by
  induction L with
  | nil => exact List.Forall₂.nil
  | cons x rest ih =>
    exact List.Forall₂.cons (h x (List.mem_cons_self _ _))
      (ih fun y hy => h y (List.mem_cons_of_mem _ hy))

theorem basket_case (exp log sqrt : α → α) (heap : Nat → Option (PathType α))
    (p : PathType α) (n : Nat)
    (ih : ∀ x : Payoff α, x.height < n → x.coherent exp log sqrt heap →
      ∀ v, x.value exp log sqrt p = .ok v →
        ∃ x1, x.atPathFuel exp log sqrt n p = (.ok v, x1) ∧ Payoff.updated exp log sqrt heap x x1)
    (us : List (Payoff α)) (ws : List α) (rainbow : Bool)
    (hh : (Payoff.Basket us ws rainbow).height < n + 1)
    (hc : (Payoff.Basket us ws rainbow).coherent exp log sqrt heap) (v : α)
    (hv : (Payoff.Basket us ws rainbow).value exp log sqrt p = .ok v) :
    ∃ x1, (Payoff.Basket us ws rainbow).atPathFuel exp log sqrt (n + 1) p = (.ok v, x1) ∧
      Payoff.updated exp log sqrt heap (Payoff.Basket us ws rainbow) x1 := by
  simp only [Payoff.height, Payoff.coherent, Payoff.value] at hh hc hv
  rw [coherentList_iff] at hc
  cases hvl : Payoff.valueList exp log sqrt us p with
  | error e => rw [hvl] at hv; simp at hv
  | ok vs =>
    rw [hvl] at hv
    simp only [Except.ok.injEq] at hv
    have hF := (valueList_ok_iff exp log sqrt p us vs).1 hvl
    have hf : ∀ u ∈ us, ∀ w, Payoff.value exp log sqrt u p = .ok w →
        ∃ u1, Payoff.atPathFuel exp log sqrt n u p = (.ok w, u1) ∧
          Payoff.updated exp log sqrt heap u u1 := fun u hu w hw =>
      ih u (lt_of_le_of_lt (height_le_heightList us u hu) (by omega)) (hc u hu) w hw
    cases rainbow with
    | false =>
      obtain ⟨us1, h1, hR⟩ := basketSum_ok (fun u => Payoff.atPathFuel exp log sqrt n u p)
        (Payoff.updated exp log sqrt heap) (fun u w => Payoff.value exp log sqrt u p = .ok w)
        ws us vs hf hF 0 0
      simp only [Bool.false_eq_true, if_false] at hv
      refine ⟨.Basket us1 ws false, ?_, updated_basket exp log sqrt heap us us1 us1 ws false hR
        (fun h => absurd h (by simp)) (fun _ => rfl)⟩
      simp only [Payoff.atPathFuel, Bool.false_eq_true, if_false, h1, hv]
    | true =>
      simp only [if_true] at hv
      obtain ⟨us1, h1, hR⟩ := evalEach_ok (fun u => Payoff.atPathFuel exp log sqrt n u p)
        (Payoff.updated exp log sqrt heap) (fun u w => Payoff.value exp log sqrt u p = .ok w)
        us vs hf hF
      have hF1 := forall₂_value_updated exp log sqrt heap p us us1 vs hR hF
      have hlen : vs.length = us1.length := hF1.length_eq.symm
      have hpairs : ∀ x ∈ (vs.zip us1).insertionSort (fun a b => a.1 ≥ b.1),
          Payoff.value exp log sqrt x.2 p = .ok x.1 := by
        intro x hx
        rw [List.mem_insertionSort] at hx
        exact (List.forall₂_iff_zip.1 hF1.flip).2 hx
      have hV := forall₂_of_pairs (fun (u : Payoff α) (w : α) =>
        Payoff.value exp log sqrt u p = .ok w) _ hpairs
      have hpermN : (((vs.zip us1).insertionSort (fun a b => a.1 ≥ b.1)).map (·.2)).Perm us1 := by
        have := ((List.perm_insertionSort (fun a b : α × Payoff α => a.1 ≥ b.1)
          (vs.zip us1)).map (·.2))
        rwa [List.map_snd_zip _ _ (le_of_eq hlen.symm)] at this
      have hfN : ∀ u ∈ ((vs.zip us1).insertionSort (fun a b => a.1 ≥ b.1)).map (·.2),
          ∀ w, Payoff.value exp log sqrt u p = .ok w →
            ∃ u1, Payoff.atPathFuel exp log sqrt n u p = (.ok w, u1) ∧
              Payoff.updated exp log sqrt heap u u1 := by
        intro u hu w hw
        obtain ⟨u0, hu0, hup⟩ := forall₂_right_mem _ us us1 hR u (hpermN.mem_iff.1 hu)
        have hlt : u.height < n := by
          rw [hup.2.1]
          exact lt_of_le_of_lt (height_le_heightList us u0 hu0) (by omega)
        exact ih u hlt hup.1 w hw
      obtain ⟨us2, h2, hR2⟩ := basketSum_ok (fun u => Payoff.atPathFuel exp log sqrt n u p)
        (Payoff.updated exp log sqrt heap) (fun u w => Payoff.value exp log sqrt u p = .ok w)
        ws _ _ hfN hV 0 0
      obtain ⟨us3, hR3, hperm3⟩ := List.perm_comp_forall₂ hpermN.symm hR2
      have hsort : ((vs.zip us1).insertionSort (fun a b => a.1 ≥ b.1)).map (·.1)
          = vs.insertionSort (· ≥ ·) := by
        rw [List.map_insertionSort (fun a b : α × Payoff α => a.1 ≥ b.1) (· ≥ ·) (·.1) _
          (fun _ _ _ _ => Iff.rfl), List.map_fst_zip _ _ (le_of_eq hlen)]
      refine ⟨.Basket us2 ws true, ?_, updated_basket exp log sqrt heap us us3 us2 ws true
        (forall₂_updated_trans exp log sqrt heap us us1 us3 hR hR3) (fun _ => hperm3)
        (fun h => absurd h (by simp))⟩
      rw [hsort] at h2
      simp only [Payoff.atPathFuel, if_true, h1, h2, hv]

theorem atPathFuel_value (exp log sqrt : α → α) (heap : Nat → Option (PathType α))
    (p : PathType α) (hp : heap p.addr = some p) :
    ∀ (n : Nat) (x : Payoff α), x.height < n → x.coherent exp log sqrt heap →
      ∀ v, x.value exp log sqrt p = .ok v →
        ∃ x1, x.atPathFuel exp log sqrt n p = (.ok v, x1) ∧
          Payoff.updated exp log sqrt heap x x1 := by
  intro n
  induction n with
  | zero => intro x hh; exact absurd hh (Nat.not_lt_zero _)
  | succ n ih =>
    intro x hh hc v hv
    cases x with
    | Clone t x =>
      simp only [Payoff.height, Payoff.coherent, Payoff.value] at hh hc hv
      obtain ⟨x1, h1, hu⟩ := ih x (by omega) hc v hv
      refine ⟨.Clone t x1, by simp only [Payoff.atPathFuel, h1], ?_⟩
      simpa only [Payoff.updated, Payoff.height, Payoff.coherent, Payoff.value, add_left_inj]
        using hu
    | FixedAmount a =>
      refine ⟨.FixedAmount a, ?_, ?_⟩
      · simp only [Payoff.value] at hv
        simp only [Payoff.atPathFuel, hv]
      · exact ⟨hc, rfl, fun q w h => h⟩
    | Pay x T =>
      simp only [Payoff.height, Payoff.coherent, Payoff.value] at hh hc hv
      obtain ⟨x1, h1, hu⟩ := ih x (by omega) hc v hv
      refine ⟨.Pay x1 T, by simp only [Payoff.atPathFuel, h1], ?_⟩
      simpa only [Payoff.updated, Payoff.height, Payoff.coherent, Payoff.value, add_left_inj]
        using hu
    | Cash o T =>
      refine ⟨.Cash o T, ?_, ?_⟩
      · simp only [Payoff.value] at hv
        simp only [Payoff.atPathFuel, hv]
      · exact ⟨hc, rfl, fun q w h => h⟩
    | ZeroBond o T al =>
      refine ⟨.ZeroBond o T al, ?_, ?_⟩
      · simp only [Payoff.value] at hv
        simp only [Payoff.atPathFuel, hv]
      · exact ⟨hc, rfl, fun q w h => h⟩
    | Asset o al hist fixed =>
      refine ⟨.Asset o al hist fixed, ?_, ?_⟩
      · simp only [Payoff.value] at hv
        simp only [Payoff.atPathFuel, hv]
      · exact ⟨hc, rfl, fun q w h => h⟩
    | AssetBarrierNoHit t1 t2 d u s al =>
      refine ⟨.AssetBarrierNoHit t1 t2 d u s al, ?_, ?_⟩
      · simp only [Payoff.value] at hv
        simp only [Payoff.atPathFuel, hv]
      · exact ⟨hc, rfl, fun q w h => h⟩
    | VanillaOption o al k cp =>
      refine ⟨.VanillaOption o al k cp, ?_, ?_⟩
      · simp only [Payoff.value] at hv
        simp only [Payoff.atPathFuel, hv]
      · exact ⟨hc, rfl, fun q w h => h⟩
    | Cache x lastPath lastPayoff =>
      simp only [Payoff.height, Payoff.coherent, Payoff.value] at hh hc hv
      by_cases hl : lastPath = some p.addr
      · have hm := hc.2 p.addr p hl hp
        rw [hv] at hm
        simp only [Except.ok.injEq] at hm
        refine ⟨.Cache x lastPath lastPayoff, ?_, ?_⟩
        · simp only [Payoff.atPathFuel, hl, ne_eq, not_true_eq_false, if_false, hm]
        · exact ⟨hc, rfl, fun q w h => h⟩
      · obtain ⟨x1, h1, hu⟩ := ih x (by omega) hc.1 v hv
        refine ⟨.Cache x1 (some p.addr) v, ?_, ?_⟩
        · simp only [Payoff.atPathFuel, ne_eq, hl, not_false_eq_true, if_true, h1]
        · refine ⟨⟨hu.1, ?_⟩, ?_, ?_⟩
          · intro a q ha hq
            simp only [Option.some.injEq] at ha
            rw [← ha, hp] at hq
            simp only [Option.some.injEq] at hq
            rw [← hq]
            exact hu.2.2 p v hv
          · simp only [Payoff.height, hu.2.1]
          · intro q w hq
            simp only [Payoff.value] at hq ⊢
            exact hu.2.2 q w hq
    | Axpy c x y =>
      cases y with
      | none =>
          simp only [Payoff.height, Payoff.coherent, Payoff.value] at hh hc hv
          cases hx : Payoff.value exp log sqrt x p with
          | error e => rw [hx] at hv; simp at hv
          | ok a =>
            rw [hx] at hv
            simp only [Except.ok.injEq] at hv
            obtain ⟨x1, h1, hu⟩ := ih x (by omega) hc a hx
            refine ⟨.Axpy c x1 none, by simp only [Payoff.atPathFuel, h1, hv], hu.1, ?_, ?_⟩
            · simp only [Payoff.height, hu.2.1]
            · intro q w hq
              simp only [Payoff.value] at hq ⊢
              cases hxq : Payoff.value exp log sqrt x q with
              | error e => rw [hxq] at hq; simp at hq
              | ok b =>
                rw [hxq] at hq
                rw [hu.2.2 q b hxq]
                exact hq
      | some y =>
          simp only [Payoff.height, Payoff.coherent, Payoff.value] at hh hc hv
          cases hx : Payoff.value exp log sqrt x p with
          | error e => rw [hx] at hv; simp at hv
          | ok a =>
            cases hy : Payoff.value exp log sqrt y p with
            | error e => rw [hx, hy] at hv; simp at hv
            | ok b =>
              rw [hx, hy] at hv
              simp only [Except.ok.injEq] at hv
              obtain ⟨x1, h1, hu1⟩ := ih x (by omega) hc.1 a hx
              obtain ⟨y1, h2, hu2⟩ := ih y (by omega) hc.2 b hy
              refine ⟨.Axpy c x1 (some y1), by simp only [Payoff.atPathFuel, h1, h2, hv],
                ⟨hu1.1, hu2.1⟩, ?_, ?_⟩
              · simp only [Payoff.height, hu1.2.1, hu2.2.1]
              · intro q w hq
                simp only [Payoff.value] at hq ⊢
                cases hxq : Payoff.value exp log sqrt x q with
                | error e => rw [hxq] at hq; simp at hq
                | ok a' =>
                  cases hyq : Payoff.value exp log sqrt y q with
                  | error e => rw [hxq, hyq] at hq; simp at hq
                  | ok b' =>
                    rw [hxq, hyq] at hq
                    rw [hu1.2.2 q a' hxq, hu2.2.2 q b' hyq]
                    exact hq
    | Mult x y =>
      simp only [Payoff.height, Payoff.coherent, Payoff.value] at hh hc hv
      cases hx : Payoff.value exp log sqrt x p with
      | error e => rw [hx] at hv; simp at hv
      | ok a =>
        cases hy : Payoff.value exp log sqrt y p with
        | error e => rw [hx, hy] at hv; simp at hv
        | ok b =>
          rw [hx, hy] at hv
          simp only [Except.ok.injEq] at hv
          obtain ⟨x1, h1, hu1⟩ := ih x (by omega) hc.1 a hx
          obtain ⟨y1, h2, hu2⟩ := ih y (by omega) hc.2 b hy
          refine ⟨.Mult x1 y1, by simp only [Payoff.atPathFuel, h1, h2, hv],
            ⟨hu1.1, hu2.1⟩, ?_, ?_⟩
          · simp only [Payoff.height, hu1.2.1, hu2.2.1]
          · intro q w hq
            simp only [Payoff.value] at hq ⊢
            cases hxq : Payoff.value exp log sqrt x q with
            | error e => rw [hxq] at hq; simp at hq
            | ok a' =>
              cases hyq : Payoff.value exp log sqrt y q with
              | error e => rw [hxq, hyq] at hq; simp at hq
              | ok b' =>
                rw [hxq, hyq] at hq
                rw [hu1.2.2 q a' hxq, hu2.2.2 q b' hyq]
                exact hq
    | Division x y =>
      simp only [Payoff.height, Payoff.coherent, Payoff.value] at hh hc hv
      cases hx : Payoff.value exp log sqrt x p with
      | error e => rw [hx] at hv; simp at hv
      | ok a =>
        cases hy : Payoff.value exp log sqrt y p with
        | error e => rw [hx, hy] at hv; simp at hv
        | ok b =>
          rw [hx, hy] at hv
          simp only [Except.ok.injEq] at hv
          obtain ⟨x1, h1, hu1⟩ := ih x (by omega) hc.1 a hx
          obtain ⟨y1, h2, hu2⟩ := ih y (by omega) hc.2 b hy
          refine ⟨.Division x1 y1, by simp only [Payoff.atPathFuel, h1, h2, hv],
            ⟨hu1.1, hu2.1⟩, ?_, ?_⟩
          · simp only [Payoff.height, hu1.2.1, hu2.2.1]
          · intro q w hq
            simp only [Payoff.value] at hq ⊢
            cases hxq : Payoff.value exp log sqrt x q with
            | error e => rw [hxq] at hq; simp at hq
            | ok a' =>
              cases hyq : Payoff.value exp log sqrt y q with
              | error e => rw [hxq, hyq] at hq; simp at hq
              | ok b' =>
                rw [hxq, hyq] at hq
                rw [hu1.2.2 q a' hxq, hu2.2.2 q b' hyq]
                exact hq
    | Max x y =>
      simp only [Payoff.height, Payoff.coherent, Payoff.value] at hh hc hv
      cases hx : Payoff.value exp log sqrt x p with
      | error e => rw [hx] at hv; simp at hv
      | ok a =>
        cases hy : Payoff.value exp log sqrt y p with
        | error e => rw [hx, hy] at hv; simp at hv
        | ok b =>
          rw [hx, hy] at hv
          simp only [Except.ok.injEq] at hv
          obtain ⟨x1, h1, hu1⟩ := ih x (by omega) hc.1 a hx
          obtain ⟨y1, h2, hu2⟩ := ih y (by omega) hc.2 b hy
          have hval : ∀ (x2 y2 : Payoff α), Payoff.updated exp log sqrt heap x x2 →
              Payoff.updated exp log sqrt heap y y2 →
              Payoff.updated exp log sqrt heap (.Max x y) (.Max x2 y2) := by
            intro x2 y2 g1 g2
            refine ⟨⟨g1.1, g2.1⟩, ?_, ?_⟩
            · simp only [Payoff.height, g1.2.1, g2.2.1]
            · intro q w hq
              simp only [Payoff.value] at hq ⊢
              cases hxq : Payoff.value exp log sqrt x q with
              | error e => rw [hxq] at hq; simp at hq
              | ok a' =>
                cases hyq : Payoff.value exp log sqrt y q with
                | error e => rw [hxq, hyq] at hq; simp at hq
                | ok b' =>
                  rw [hxq, hyq] at hq
                  rw [g1.2.2 q a' hxq, g2.2.2 q b' hyq]
                  exact hq
          by_cases hab : a > b
          · obtain ⟨x2, h3, hu3⟩ := ih x1 (by rw [hu1.2.1]; omega) hu1.1 a (hu1.2.2 p a hx)
            rw [if_pos hab] at hv
            subst hv
            refine ⟨.Max x2 y1, by simp only [Payoff.atPathFuel, h1, h2, if_pos hab, h3],
              hval x2 y1 ⟨hu3.1, hu3.2.1.trans hu1.2.1, fun q w hq =>
                hu3.2.2 q w (hu1.2.2 q w hq)⟩ hu2⟩
          · obtain ⟨y2, h3, hu3⟩ := ih y1 (by rw [hu2.2.1]; omega) hu2.1 b (hu2.2.2 p b hy)
            rw [if_neg hab] at hv
            subst hv
            refine ⟨.Max x1 y2, by simp only [Payoff.atPathFuel, h1, h2, if_neg hab, h3],
              hval x1 y2 hu1 ⟨hu3.1, hu3.2.1.trans hu2.2.1, fun q w hq =>
                hu3.2.2 q w (hu2.2.2 q w hq)⟩⟩
    | Min x y =>
      simp only [Payoff.height, Payoff.coherent, Payoff.value] at hh hc hv
      cases hx : Payoff.value exp log sqrt x p with
      | error e => rw [hx] at hv; simp at hv
      | ok a =>
        cases hy : Payoff.value exp log sqrt y p with
        | error e => rw [hx, hy] at hv; simp at hv
        | ok b =>
          rw [hx, hy] at hv
          simp only [Except.ok.injEq] at hv
          obtain ⟨x1, h1, hu1⟩ := ih x (by omega) hc.1 a hx
          obtain ⟨y1, h2, hu2⟩ := ih y (by omega) hc.2 b hy
          have hval : ∀ (x2 y2 : Payoff α), Payoff.updated exp log sqrt heap x x2 →
              Payoff.updated exp log sqrt heap y y2 →
              Payoff.updated exp log sqrt heap (.Min x y) (.Min x2 y2) := by
            intro x2 y2 g1 g2
            refine ⟨⟨g1.1, g2.1⟩, ?_, ?_⟩
            · simp only [Payoff.height, g1.2.1, g2.2.1]
            · intro q w hq
              simp only [Payoff.value] at hq ⊢
              cases hxq : Payoff.value exp log sqrt x q with
              | error e => rw [hxq] at hq; simp at hq
              | ok a' =>
                cases hyq : Payoff.value exp log sqrt y q with
                | error e => rw [hxq, hyq] at hq; simp at hq
                | ok b' =>
                  rw [hxq, hyq] at hq
                  rw [g1.2.2 q a' hxq, g2.2.2 q b' hyq]
                  exact hq
          by_cases hab : a < b
          · obtain ⟨x2, h3, hu3⟩ := ih x1 (by rw [hu1.2.1]; omega) hu1.1 a (hu1.2.2 p a hx)
            rw [if_pos hab] at hv
            subst hv
            refine ⟨.Min x2 y1, by simp only [Payoff.atPathFuel, h1, h2, if_pos hab, h3],
              hval x2 y1 ⟨hu3.1, hu3.2.1.trans hu1.2.1, fun q w hq =>
                hu3.2.2 q w (hu1.2.2 q w hq)⟩ hu2⟩
          · obtain ⟨y2, h3, hu3⟩ := ih y1 (by rw [hu2.2.1]; omega) hu2.1 b (hu2.2.2 p b hy)
            rw [if_neg hab] at hv
            subst hv
            refine ⟨.Min x1 y2, by simp only [Payoff.atPathFuel, h1, h2, if_neg hab, h3],
              hval x1 y2 hu1 ⟨hu3.1, hu3.2.1.trans hu2.2.1, fun q w hq =>
                hu3.2.2 q w (hu2.2.2 q w hq)⟩⟩
    | Exponential x =>
      simp only [Payoff.height, Payoff.coherent, Payoff.value] at hh hc hv
      cases hx : Payoff.value exp log sqrt x p with
      | error e => rw [hx] at hv; simp at hv
      | ok a =>
        rw [hx] at hv
        simp only [Except.ok.injEq] at hv
        obtain ⟨x1, h1, hu⟩ := ih x (by omega) hc a hx
        refine ⟨.Exponential x1, by simp only [Payoff.atPathFuel, h1, hv], hu.1, ?_, ?_⟩
        · simp only [Payoff.height, hu.2.1]
        · intro q w hq
          simp only [Payoff.value] at hq ⊢
          cases hxq : Payoff.value exp log sqrt x q with
          | error e => rw [hxq] at hq; simp at hq
          | ok b =>
            rw [hxq] at hq
            rw [hu.2.2 q b hxq]
            exact hq
    | Logarithm x =>
      simp only [Payoff.height, Payoff.coherent, Payoff.value] at hh hc hv
      cases hx : Payoff.value exp log sqrt x p with
      | error e => rw [hx] at hv; simp at hv
      | ok a =>
        rw [hx] at hv
        simp only [Except.ok.injEq] at hv
        obtain ⟨x1, h1, hu⟩ := ih x (by omega) hc a hx
        refine ⟨.Logarithm x1, by simp only [Payoff.atPathFuel, h1, hv], hu.1, ?_, ?_⟩
        · simp only [Payoff.height, hu.2.1]
        · intro q w hq
          simp only [Payoff.value] at hq ⊢
          cases hxq : Payoff.value exp log sqrt x q with
          | error e => rw [hxq] at hq; simp at hq
          | ok b =>
            rw [hxq] at hq
            rw [hu.2.2 q b hxq]
            exact hq
    | Squareroot x =>
      simp only [Payoff.height, Payoff.coherent, Payoff.value] at hh hc hv
      cases hx : Payoff.value exp log sqrt x p with
      | error e => rw [hx] at hv; simp at hv
      | ok a =>
        rw [hx] at hv
        simp only [Except.ok.injEq] at hv
        obtain ⟨x1, h1, hu⟩ := ih x (by omega) hc a hx
        refine ⟨.Squareroot x1, by simp only [Payoff.atPathFuel, h1, hv], hu.1, ?_, ?_⟩
        · simp only [Payoff.height, hu.2.1]
        · intro q w hq
          simp only [Payoff.value] at hq ⊢
          cases hxq : Payoff.value exp log sqrt x q with
          | error e => rw [hxq] at hq; simp at hq
          | ok b =>
            rw [hxq] at hq
            rw [hu.2.2 q b hxq]
            exact hq
    | Logical x y op =>
      simp only [Payoff.height, Payoff.coherent, Payoff.value] at hh hc hv
      cases hx : Payoff.value exp log sqrt x p with
      | error e => rw [hx] at hv; simp at hv
      | ok a =>
        cases hy : Payoff.value exp log sqrt y p with
        | error e => rw [hx, hy] at hv; simp at hv
        | ok b =>
          rw [hx, hy] at hv
          simp only [Except.ok.injEq] at hv
          obtain ⟨x1, h1, hu1⟩ := ih x (by omega) hc.1 a hx
          obtain ⟨y1, h2, hu2⟩ := ih y (by omega) hc.2 b hy
          refine ⟨.Logical x1 y1 op, by simp only [Payoff.atPathFuel, h1, h2, hv],
            ⟨hu1.1, hu2.1⟩, ?_, ?_⟩
          · simp only [Payoff.height, hu1.2.1, hu2.2.1]
          · intro q w hq
            simp only [Payoff.value] at hq ⊢
            cases hxq : Payoff.value exp log sqrt x q with
            | error e => rw [hxq] at hq; simp at hq
            | ok a' =>
              cases hyq : Payoff.value exp log sqrt y q with
              | error e => rw [hxq, hyq] at hq; simp at hq
              | ok b' =>
                rw [hxq, hyq] at hq
                rw [hu1.2.2 q a' hxq, hu2.2.2 q b' hyq]
                exact hq
    | IfThenElse x y z =>
      simp only [Payoff.height, Payoff.coherent, Payoff.value] at hh hc hv
      cases hx : Payoff.value exp log sqrt x p with
      | error e => rw [hx] at hv; simp at hv
      | ok a =>
        rw [hx] at hv
        simp only at hv
        obtain ⟨x1, h1, hu1⟩ := ih x (by omega) hc.1 a hx
        have hval : ∀ (y2 z2 : Payoff α), Payoff.updated exp log sqrt heap y y2 →
            Payoff.updated exp log sqrt heap z z2 →
            Payoff.updated exp log sqrt heap (.IfThenElse x y z) (.IfThenElse x1 y2 z2) := by
          intro y2 z2 g2 g3
          refine ⟨⟨hu1.1, g2.1, g3.1⟩, ?_, ?_⟩
          · simp only [Payoff.height, hu1.2.1, g2.2.1, g3.2.1]
          · intro q w hq
            simp only [Payoff.value] at hq ⊢
            cases hxq : Payoff.value exp log sqrt x q with
            | error e => rw [hxq] at hq; simp at hq
            | ok a' =>
              rw [hxq] at hq
              rw [hu1.2.2 q a' hxq]
              simp only at hq ⊢
              by_cases ha' : a' ≠ 0
              · rw [if_pos ha'] at hq ⊢
                exact g2.2.2 q w hq
              · rw [if_neg ha'] at hq ⊢
                exact g3.2.2 q w hq
        have hrefl : ∀ u : Payoff α, u.coherent exp log sqrt heap →
            Payoff.updated exp log sqrt heap u u := fun u hu => ⟨hu, rfl, fun q w h => h⟩
        by_cases ha : a ≠ 0
        · rw [if_pos ha] at hv
          obtain ⟨y1, h2, hu2⟩ := ih y (by omega) hc.2.1 v hv
          exact ⟨.IfThenElse x1 y1 z, by simp only [Payoff.atPathFuel, h1, if_pos ha, h2],
            hval y1 z hu2 (hrefl z hc.2.2)⟩
        · rw [if_neg ha] at hv
          obtain ⟨z1, h2, hu2⟩ := ih z (by omega) hc.2.2 v hv
          exact ⟨.IfThenElse x1 y z1, by simp only [Payoff.atPathFuel, h1, if_neg ha, h2],
            hval y z1 (hrefl y hc.2.1) hu2⟩
    | Basket us ws rainbow =>
      exact basket_case exp log sqrt heap p n ih us ws rainbow hh hc v hv
    | GeneralSwaption o ft fw xt xw k pr =>
      refine ⟨.GeneralSwaption o ft fw xt xw k pr, ?_, ?_⟩
      · simp only [Payoff.value] at hv
        simp only [Payoff.atPathFuel, hv]
      · exact ⟨hc, rfl, fun q w h => h⟩
    | SwapRate o ft fw xt xw ix =>
      refine ⟨.SwapRate o ft fw xt xw ix, ?_, ?_⟩
      · simp only [Payoff.value] at hv
        simp only [Payoff.atPathFuel, hv]
      · exact ⟨hc, rfl, fun q w h => h⟩

theorem pair_eta_err {β σ : Type} (r : Except String β × σ) (e : String) (h : r.1 = .error e) :
    r = (.error e, r.2) := by
  rcases r with ⟨a, b⟩
  simp only at h
  rw [h]

theorem evalEach_error (exp log sqrt : α → α) (p : PathType α)
    (f : Payoff α → Except String α × Payoff α) (us : List (Payoff α)) (e : String)
    (hok : ∀ u ∈ us, ∀ v, Payoff.value exp log sqrt u p = .ok v → ∃ u1, f u = (.ok v, u1))
    (herr : ∀ u ∈ us, ∀ e, Payoff.value exp log sqrt u p = .error e → ∃ u1, f u = (.error e, u1))
    (hv : Payoff.valueList exp log sqrt us p = .error e) :
    ∃ us1, evalEach f us = (.error e, us1) := by
  induction us with
  | nil => simp [Payoff.valueList] at hv
  | cons u rest ih =>
    simp only [Payoff.valueList] at hv
    cases hu : Payoff.value exp log sqrt u p with
    | error e' =>
      rw [hu] at hv
      simp only [Except.error.injEq] at hv
      obtain ⟨u1, h1⟩ := herr u (List.mem_cons_self _ _) e' hu
      exact ⟨u1 :: rest, by simp only [evalEach, h1, hv]⟩
    | ok a =>
      rw [hu] at hv
      obtain ⟨u1, h1⟩ := hok u (List.mem_cons_self _ _) a hu
      cases hr : Payoff.valueList exp log sqrt rest p with
      | ok vs => rw [hr] at hv; simp at hv
      | error e' =>
        rw [hr] at hv
        simp only [Except.error.injEq] at hv
        obtain ⟨r1, h2⟩ := ih (fun w hw => hok w (List.mem_cons_of_mem _ hw))
          (fun w hw => herr w (List.mem_cons_of_mem _ hw)) (hv ▸ hr)
        exact ⟨u1 :: r1, by simp only [evalEach, h1, h2]⟩

theorem basketSum_error (exp log sqrt : α → α) (p : PathType α)
    (f : Payoff α → Except String α × Payoff α) (ws : List α) (us : List (Payoff α)) (e : String)
    (hok : ∀ u ∈ us, ∀ v, Payoff.value exp log sqrt u p = .ok v → ∃ u1, f u = (.ok v, u1))
    (herr : ∀ u ∈ us, ∀ e, Payoff.value exp log sqrt u p = .error e → ∃ u1, f u = (.error e, u1))
    (hv : Payoff.valueList exp log sqrt us p = .error e) :
    ∀ (k : Nat) (res : α), ∃ us1, basketSum f ws us k res = (.error e, us1) := by
  induction us with
  | nil => simp [Payoff.valueList] at hv
  | cons u rest ih =>
    intro k res
    simp only [Payoff.valueList] at hv
    cases hu : Payoff.value exp log sqrt u p with
    | error e' =>
      rw [hu] at hv
      simp only [Except.error.injEq] at hv
      obtain ⟨u1, h1⟩ := herr u (List.mem_cons_self _ _) e' hu
      exact ⟨u1 :: rest, by simp only [basketSum, h1, hv]⟩
    | ok a =>
      rw [hu] at hv
      obtain ⟨u1, h1⟩ := hok u (List.mem_cons_self _ _) a hu
      cases hr : Payoff.valueList exp log sqrt rest p with
      | ok vs => rw [hr] at hv; simp at hv
      | error e' =>
        rw [hr] at hv
        simp only [Except.error.injEq] at hv
        obtain ⟨r1, h2⟩ := ih (fun w hw => hok w (List.mem_cons_of_mem _ hw))
          (fun w hw => herr w (List.mem_cons_of_mem _ hw)) (hv ▸ hr) (k + 1)
          (res + numAt ws k * a)
        exact ⟨u1 :: r1, by simp only [basketSum, h1, h2]⟩

theorem atPathFuel_error (exp log sqrt : α → α) (heap : Nat → Option (PathType α))
    (p : PathType α) (hp : heap p.addr = some p) :
    ∀ (n : Nat) (x : Payoff α), x.height < n → x.coherent exp log sqrt heap →
      ∀ e, x.value exp log sqrt p = .error e →
        (x.atPathFuel exp log sqrt n p).1 = .error e := by
  intro n
  induction n with
  | zero => intro x hh; exact absurd hh (Nat.not_lt_zero _)
  | succ n ih =>
    intro x hh hc e hv
    have ihp : ∀ (x : Payoff α), x.height < n → x.coherent exp log sqrt heap →
        ∀ e, x.value exp log sqrt p = .error e →
          ∃ x1, x.atPathFuel exp log sqrt n p = (.error e, x1) := fun x h1 h2 e h3 =>
      ⟨_, pair_eta_err _ e (ih x h1 h2 e h3)⟩
    have ok := atPathFuel_value exp log sqrt heap p hp n
    cases x with
    | Clone t x =>
      simp only [Payoff.height, Payoff.coherent, Payoff.value] at hh hc hv
      obtain ⟨x1, h1⟩ := ihp x (by omega) hc e hv
      simp only [Payoff.atPathFuel, h1]
    | FixedAmount a =>
      simp only [Payoff.value] at hv
      simp only [Payoff.atPathFuel, hv]
    | Pay x T =>
      simp only [Payoff.height, Payoff.coherent, Payoff.value] at hh hc hv
      obtain ⟨x1, h1⟩ := ihp x (by omega) hc e hv
      simp only [Payoff.atPathFuel, h1]
    | Cash o T =>
      simp only [Payoff.value] at hv
      simp only [Payoff.atPathFuel, hv]
    | ZeroBond o T al =>
      simp only [Payoff.value] at hv
      simp only [Payoff.atPathFuel, hv]
    | Asset o al hist fixed =>
      simp only [Payoff.value] at hv
      simp only [Payoff.atPathFuel, hv]
    | AssetBarrierNoHit t1 t2 d u s al =>
      simp only [Payoff.value] at hv
      simp only [Payoff.atPathFuel, hv]
    | VanillaOption o al k cp =>
      simp only [Payoff.value] at hv
      simp only [Payoff.atPathFuel, hv]
    | Cache x lastPath lastPayoff =>
      simp only [Payoff.height, Payoff.coherent, Payoff.value] at hh hc hv
      by_cases hl : lastPath = some p.addr
      · have hm := hc.2 p.addr p hl hp
        rw [hv] at hm
        simp at hm
      · obtain ⟨x1, h1⟩ := ihp x (by omega) hc.1 e hv
        simp only [Payoff.atPathFuel, ne_eq, hl, not_false_eq_true, if_true, h1]
    | Axpy c x y =>
      cases y with
      | none =>
          simp only [Payoff.height, Payoff.coherent, Payoff.value] at hh hc hv
          cases hx : Payoff.value exp log sqrt x p with
          | ok a => rw [hx] at hv; simp at hv
          | error e' =>
            rw [hx] at hv
            simp only [Except.error.injEq] at hv
            obtain ⟨x1, h1⟩ := ihp x (by omega) hc e' hx
            simp only [Payoff.atPathFuel, h1, hv]
      | some y =>
          simp only [Payoff.height, Payoff.coherent, Payoff.value] at hh hc hv
          cases hx : Payoff.value exp log sqrt x p with
          | error e' =>
            rw [hx] at hv
            simp only [Except.error.injEq] at hv
            obtain ⟨x1, h1⟩ := ihp x (by omega) hc.1 e' hx
            simp only [Payoff.atPathFuel, h1, hv]
          | ok a =>
            obtain ⟨x1, h1, -⟩ := ok x (by omega) hc.1 a hx
            cases hy : Payoff.value exp log sqrt y p with
            | ok b => rw [hx, hy] at hv; simp at hv
            | error e' =>
              rw [hx, hy] at hv
              simp only [Except.error.injEq] at hv
              obtain ⟨y1, h2⟩ := ihp y (by omega) hc.2 e' hy
              simp only [Payoff.atPathFuel, h1, h2, hv]
    | Mult x y =>
      simp only [Payoff.height, Payoff.coherent, Payoff.value] at hh hc hv
      cases hx : Payoff.value exp log sqrt x p with
      | error e' =>
        rw [hx] at hv
        simp only [Except.error.injEq] at hv
        obtain ⟨x1, h1⟩ := ihp x (by omega) hc.1 e' hx
        simp only [Payoff.atPathFuel, h1, hv]
      | ok a =>
        obtain ⟨x1, h1, -⟩ := ok x (by omega) hc.1 a hx
        cases hy : Payoff.value exp log sqrt y p with
        | ok b => rw [hx, hy] at hv; simp at hv
        | error e' =>
          rw [hx, hy] at hv
          simp only [Except.error.injEq] at hv
          obtain ⟨y1, h2⟩ := ihp y (by omega) hc.2 e' hy
          simp only [Payoff.atPathFuel, h1, h2, hv]
    | Division x y =>
      simp only [Payoff.height, Payoff.coherent, Payoff.value] at hh hc hv
      cases hx : Payoff.value exp log sqrt x p with
      | error e' =>
        rw [hx] at hv
        simp only [Except.error.injEq] at hv
        obtain ⟨x1, h1⟩ := ihp x (by omega) hc.1 e' hx
        simp only [Payoff.atPathFuel, h1, hv]
      | ok a =>
        obtain ⟨x1, h1, -⟩ := ok x (by omega) hc.1 a hx
        cases hy : Payoff.value exp log sqrt y p with
        | ok b => rw [hx, hy] at hv; simp at hv
        | error e' =>
          rw [hx, hy] at hv
          simp only [Except.error.injEq] at hv
          obtain ⟨y1, h2⟩ := ihp y (by omega) hc.2 e' hy
          simp only [Payoff.atPathFuel, h1, h2, hv]
    | Max x y =>
      simp only [Payoff.height, Payoff.coherent, Payoff.value] at hh hc hv
      cases hx : Payoff.value exp log sqrt x p with
      | error e' =>
        rw [hx] at hv
        simp only [Except.error.injEq] at hv
        obtain ⟨x1, h1⟩ := ihp x (by omega) hc.1 e' hx
        simp only [Payoff.atPathFuel, h1, hv]
      | ok a =>
        obtain ⟨x1, h1, -⟩ := ok x (by omega) hc.1 a hx
        cases hy : Payoff.value exp log sqrt y p with
        | ok b => rw [hx, hy] at hv; simp at hv
        | error e' =>
          rw [hx, hy] at hv
          simp only [Except.error.injEq] at hv
          obtain ⟨y1, h2⟩ := ihp y (by omega) hc.2 e' hy
          simp only [Payoff.atPathFuel, h1, h2, hv]
    | Min x y =>
      simp only [Payoff.height, Payoff.coherent, Payoff.value] at hh hc hv
      cases hx : Payoff.value exp log sqrt x p with
      | error e' =>
        rw [hx] at hv
        simp only [Except.error.injEq] at hv
        obtain ⟨x1, h1⟩ := ihp x (by omega) hc.1 e' hx
        simp only [Payoff.atPathFuel, h1, hv]
      | ok a =>
        obtain ⟨x1, h1, -⟩ := ok x (by omega) hc.1 a hx
        cases hy : Payoff.value exp log sqrt y p with
        | ok b => rw [hx, hy] at hv; simp at hv
        | error e' =>
          rw [hx, hy] at hv
          simp only [Except.error.injEq] at hv
          obtain ⟨y1, h2⟩ := ihp y (by omega) hc.2 e' hy
          simp only [Payoff.atPathFuel, h1, h2, hv]
    | Exponential x =>
      simp only [Payoff.height, Payoff.coherent, Payoff.value] at hh hc hv
      cases hx : Payoff.value exp log sqrt x p with
      | ok a => rw [hx] at hv; simp at hv
      | error e' =>
        rw [hx] at hv
        simp only [Except.error.injEq] at hv
        obtain ⟨x1, h1⟩ := ihp x (by omega) hc e' hx
        simp only [Payoff.atPathFuel, h1, hv]
    | Logarithm x =>
      simp only [Payoff.height, Payoff.coherent, Payoff.value] at hh hc hv
      cases hx : Payoff.value exp log sqrt x p with
      | ok a => rw [hx] at hv; simp at hv
      | error e' =>
        rw [hx] at hv
        simp only [Except.error.injEq] at hv
        obtain ⟨x1, h1⟩ := ihp x (by omega) hc e' hx
        simp only [Payoff.atPathFuel, h1, hv]
    | Squareroot x =>
      simp only [Payoff.height, Payoff.coherent, Payoff.value] at hh hc hv
      cases hx : Payoff.value exp log sqrt x p with
      | ok a => rw [hx] at hv; simp at hv
      | error e' =>
        rw [hx] at hv
        simp only [Except.error.injEq] at hv
        obtain ⟨x1, h1⟩ := ihp x (by omega) hc e' hx
        simp only [Payoff.atPathFuel, h1, hv]
    | Logical x y op =>
      simp only [Payoff.height, Payoff.coherent, Payoff.value] at hh hc hv
      cases hx : Payoff.value exp log sqrt x p with
      | error e' =>
        rw [hx] at hv
        simp only [Except.error.injEq] at hv
        obtain ⟨x1, h1⟩ := ihp x (by omega) hc.1 e' hx
        simp only [Payoff.atPathFuel, h1, hv]
      | ok a =>
        obtain ⟨x1, h1, -⟩ := ok x (by omega) hc.1 a hx
        cases hy : Payoff.value exp log sqrt y p with
        | ok b => rw [hx, hy] at hv; simp at hv
        | error e' =>
          rw [hx, hy] at hv
          simp only [Except.error.injEq] at hv
          obtain ⟨y1, h2⟩ := ihp y (by omega) hc.2 e' hy
          simp only [Payoff.atPathFuel, h1, h2, hv]
    | IfThenElse x y z =>
      simp only [Payoff.height, Payoff.coherent, Payoff.value] at hh hc hv
      cases hx : Payoff.value exp log sqrt x p with
      | error e' =>
        rw [hx] at hv
        simp only [Except.error.injEq] at hv
        obtain ⟨x1, h1⟩ := ihp x (by omega) hc.1 e' hx
        simp only [Payoff.atPathFuel, h1, hv]
      | ok a =>
        rw [hx] at hv
        simp only at hv
        obtain ⟨x1, h1, -⟩ := ok x (by omega) hc.1 a hx
        by_cases ha : a ≠ 0
        · rw [if_pos ha] at hv
          obtain ⟨y1, h2⟩ := ihp y (by omega) hc.2.1 e hv
          simp only [Payoff.atPathFuel, h1, if_pos ha, h2]
        · rw [if_neg ha] at hv
          obtain ⟨z1, h2⟩ := ihp z (by omega) hc.2.2 e hv
          simp only [Payoff.atPathFuel, h1, if_neg ha, h2]
    | Basket us ws rainbow =>
      simp only [Payoff.height, Payoff.coherent, Payoff.value] at hh hc hv
      rw [coherentList_iff] at hc
      cases hvl : Payoff.valueList exp log sqrt us p with
      | ok vs => rw [hvl] at hv; simp at hv
      | error e' =>
        rw [hvl] at hv
        simp only [Except.error.injEq] at hv
        subst hv
        have hlt : ∀ u ∈ us, u.height < n := fun u hu =>
          lt_of_le_of_lt (height_le_heightList us u hu) (by omega)
        cases rainbow with
        | false =>
          obtain ⟨us1, h1⟩ := basketSum_error exp log sqrt p
            (fun u => Payoff.atPathFuel exp log sqrt n u p) ws us e'
            (fun u hu w hw => (ok u (hlt u hu) (hc u hu) w hw).imp fun _ h => h.1)
            (fun u hu e hw => ihp u (hlt u hu) (hc u hu) e hw) hvl 0 0
          simp only [Payoff.atPathFuel, Bool.false_eq_true, if_false, h1]
        | true =>
          obtain ⟨us1, h1⟩ := evalEach_error exp log sqrt p
            (fun u => Payoff.atPathFuel exp log sqrt n u p) us e'
            (fun u hu w hw => (ok u (hlt u hu) (hc u hu) w hw).imp fun _ h => h.1)
            (fun u hu e hw => ihp u (hlt u hu) (hc u hu) e hw) hvl
          simp only [Payoff.atPathFuel, if_true, h1]
    | GeneralSwaption o ft fw xt xw k pr =>
      simp only [Payoff.value] at hv
      simp only [Payoff.atPathFuel, hv]
    | SwapRate o ft fw xt xw ix =>
      simp only [Payoff.value] at hv
      simp only [Payoff.atPathFuel, hv]

mutual
theorem coherent_of_noMemoFor (exp log sqrt : α → α) (heap : Nat → Option (PathType α))
    (S : Nat → Prop) (hS : ∀ a q, heap a = some q → S a) :
    ∀ x : Payoff α, x.noMemoFor S → x.coherent exp log sqrt heap
  | .Clone _ x, h => coherent_of_noMemoFor exp log sqrt heap S hS x h
  | .FixedAmount _, _ => trivial
  | .Pay x _, h => coherent_of_noMemoFor exp log sqrt heap S hS x h
  | .Cash _ _, _ => trivial
  | .ZeroBond _ _ _, _ => trivial
  | .Asset _ _ _ _, _ => trivial
  | .AssetBarrierNoHit _ _ _ _ _ _, _ => trivial
  | .VanillaOption _ _ _ _, _ => trivial
  | .Cache x lastPath _, h => by
    simp only [Payoff.noMemoFor] at h
    simp only [Payoff.coherent]
    exact ⟨coherent_of_noMemoFor exp log sqrt heap S hS x h.1,
      fun a q ha hq => absurd (hS a q hq) (h.2 a ha)⟩
  | .Axpy _ x none, h => by
    simp only [Payoff.noMemoFor] at h
    simp only [Payoff.coherent]
    exact coherent_of_noMemoFor exp log sqrt heap S hS x h
  | .Axpy _ x (some y), h => by
    simp only [Payoff.noMemoFor] at h
    simp only [Payoff.coherent]
    exact ⟨coherent_of_noMemoFor exp log sqrt heap S hS x h.1,
      coherent_of_noMemoFor exp log sqrt heap S hS y h.2⟩
  | .Mult x y, h => by
    simp only [Payoff.noMemoFor] at h
    simp only [Payoff.coherent]
    exact ⟨coherent_of_noMemoFor exp log sqrt heap S hS x h.1,
      coherent_of_noMemoFor exp log sqrt heap S hS y h.2⟩
  | .Division x y, h => by
    simp only [Payoff.noMemoFor] at h
    simp only [Payoff.coherent]
    exact ⟨coherent_of_noMemoFor exp log sqrt heap S hS x h.1,
      coherent_of_noMemoFor exp log sqrt heap S hS y h.2⟩
  | .Max x y, h => by
    simp only [Payoff.noMemoFor] at h
    simp only [Payoff.coherent]
    exact ⟨coherent_of_noMemoFor exp log sqrt heap S hS x h.1,
      coherent_of_noMemoFor exp log sqrt heap S hS y h.2⟩
  | .Min x y, h => by
    simp only [Payoff.noMemoFor] at h
    simp only [Payoff.coherent]
    exact ⟨coherent_of_noMemoFor exp log sqrt heap S hS x h.1,
      coherent_of_noMemoFor exp log sqrt heap S hS y h.2⟩
  | .Exponential x, h => by
    simp only [Payoff.noMemoFor] at h
    simp only [Payoff.coherent]
    exact coherent_of_noMemoFor exp log sqrt heap S hS x h
  | .Logarithm x, h => by
    simp only [Payoff.noMemoFor] at h
    simp only [Payoff.coherent]
    exact coherent_of_noMemoFor exp log sqrt heap S hS x h
  | .Squareroot x, h => by
    simp only [Payoff.noMemoFor] at h
    simp only [Payoff.coherent]
    exact coherent_of_noMemoFor exp log sqrt heap S hS x h
  | .Logical x y _, h => by
    simp only [Payoff.noMemoFor] at h
    simp only [Payoff.coherent]
    exact ⟨coherent_of_noMemoFor exp log sqrt heap S hS x h.1,
      coherent_of_noMemoFor exp log sqrt heap S hS y h.2⟩
  | .IfThenElse x y z, h => by
    simp only [Payoff.noMemoFor] at h
    simp only [Payoff.coherent]
    exact ⟨coherent_of_noMemoFor exp log sqrt heap S hS x h.1,
      coherent_of_noMemoFor exp log sqrt heap S hS y h.2.1,
      coherent_of_noMemoFor exp log sqrt heap S hS z h.2.2⟩
  | .Basket us _ _, h => by
    simp only [Payoff.noMemoFor] at h
    simp only [Payoff.coherent]
    exact coherentList_of_noMemoFor exp log sqrt heap S hS us h
  | .GeneralSwaption _ _ _ _ _ _ _, _ => trivial
  | .SwapRate _ _ _ _ _ _, _ => trivial
theorem coherentList_of_noMemoFor (exp log sqrt : α → α) (heap : Nat → Option (PathType α))
    (S : Nat → Prop) (hS : ∀ a q, heap a = some q → S a) :
    ∀ l : List (Payoff α), Payoff.noMemoForList S l → Payoff.coherentList exp log sqrt heap l
  | [], _ => trivial
  | x :: rest, h => by
    simp only [Payoff.noMemoForList] at h
    simp only [Payoff.coherentList]
    exact ⟨coherent_of_noMemoFor exp log sqrt heap S hS x h.1,
      coherentList_of_noMemoFor exp log sqrt heap S hS rest h.2⟩
end

theorem atPath_fst (exp log sqrt : α → α) (heap : Nat → Option (PathType α))
    (p : PathType α) (hp : heap p.addr = some p) (x : Payoff α)
    (hc : x.coherent exp log sqrt heap) :
    (x.atPath exp log sqrt p).1 = x.value exp log sqrt p := by
  unfold Payoff.atPath
  cases hv : x.value exp log sqrt p with
  | error e =>
    exact atPathFuel_error exp log sqrt heap p hp _ x (Nat.lt_succ_self _) hc e hv
  | ok v =>
    obtain ⟨x1, h1, -⟩ := atPathFuel_value exp log sqrt heap p hp _ x (Nat.lt_succ_self _) hc v hv
    rw [h1]

theorem atPath_updated (exp log sqrt : α → α) (heap : Nat → Option (PathType α))
    (p : PathType α) (hp : heap p.addr = some p) (x : Payoff α)
    (hc : x.coherent exp log sqrt heap) (v : α) (hv : x.value exp log sqrt p = .ok v) :
    Payoff.updated exp log sqrt heap x (x.atPath exp log sqrt p).2 := by
  unfold Payoff.atPath
  obtain ⟨x1, h1, hu⟩ := atPathFuel_value exp log sqrt heap p hp _ x (Nat.lt_succ_self _) hc v hv
  rw [h1]
  exact hu

end Payoffs

/-! ### Discounting and the pricer -/

section Pricing

variable {α : Type} [LinearOrderedField α]

theorem atPathFuel_kind (exp log sqrt : α → α) (p : PathType α) :
    ∀ (n : Nat) (x : Payoff α),
      (x.atPathFuel exp log sqrt n p).2.observationTime = x.observationTime ∧
        (x.atPathFuel exp log sqrt n p).2.isSwapRate = x.isSwapRate := by
  intro n
  induction n with
  | zero => intro x; cases x <;> exact ⟨rfl, rfl⟩
  | succ n ih =>
    intro x
    cases x with
    | Cache x lastPath lastPayoff =>
      have h := (ih x).1
      rw [Payoff.atPathFuel]
      split
      · split <;> rename_i h1 <;> rw [h1] at h <;>
          exact ⟨by simpa [Payoff.observationTime] using h, rfl⟩
      · exact ⟨rfl, rfl⟩
    | Axpy c x y =>
      cases y <;> rw [Payoff.atPathFuel] <;> (repeat' split) <;>
        simp [Payoff.observationTime, Payoff.isSwapRate]
    | _ =>
      rw [Payoff.atPathFuel]
      (repeat' split) <;> simp [Payoff.observationTime, Payoff.isSwapRate]

theorem discountedValue_eq (exp log sqrt : α → α) (x : Payoff α) (p : PathType α) :
    x.discountedValue exp log sqrt p =
      if x.isSwapRate then x.value exp log sqrt p
      else
        match x.value exp log sqrt p with
        | .error e => .error e
        | .ok v =>
          match p.numeraire x.observationTime with
          | .error e => .error e
          | .ok N => .ok (v / N) := by
  cases x <;> rfl

theorem discountedAt_eq (exp log sqrt : α → α) (x : Payoff α) (p : PathType α) :
    x.discountedAt exp log sqrt p =
      if x.isSwapRate then x.atPath exp log sqrt p
      else
        match x.atPath exp log sqrt p with
        | (.error e, x1) => (.error e, x1)
        | (.ok v, x1) =>
          match p.numeraire x.observationTime with
          | .error e => (.error e, x1)
          | .ok N => (.ok (v / N), x1) := by
  cases x <;> rfl

/-- The node `x1` is the node `x` after calls of `at(p)` or `discountedAt(p)`
that succeeded. -/
theorem discountedAt_step (exp log sqrt : α → α) (heap : Nat → Option (PathType α))
    (p : PathType α) (hp : heap p.addr = some p) (x : Payoff α)
    (hc : x.coherent exp log sqrt heap) :
    (x.discountedAt exp log sqrt p).1 = x.discountedValue exp log sqrt p ∧
      ((∃ d, x.discountedValue exp log sqrt p = .ok d) →
        Payoff.updated exp log sqrt heap x (x.discountedAt exp log sqrt p).2 ∧
        (x.discountedAt exp log sqrt p).2.observationTime = x.observationTime ∧
        (x.discountedAt exp log sqrt p).2.isSwapRate = x.isSwapRate) := by
  have hfst := atPath_fst exp log sqrt heap p hp x hc
  have hkind : (x.atPath exp log sqrt p).2.observationTime = x.observationTime ∧
      (x.atPath exp log sqrt p).2.isSwapRate = x.isSwapRate :=
    atPathFuel_kind exp log sqrt p _ x
  rw [discountedAt_eq, discountedValue_eq]
  by_cases hs : x.isSwapRate = true
  · rw [if_pos hs, if_pos hs]
    refine ⟨hfst, ?_⟩
    rintro ⟨d, hd⟩
    exact ⟨atPath_updated exp log sqrt heap p hp x hc d hd, hkind⟩
  · rw [if_neg hs, if_neg hs]
    have hpair : x.atPath exp log sqrt p
        = ((x.atPath exp log sqrt p).1, (x.atPath exp log sqrt p).2) := rfl
    rw [hpair, hfst]
    cases hv : x.value exp log sqrt p with
    | error e => exact ⟨rfl, fun ⟨d, hd⟩ => by simp at hd⟩
    | ok v =>
      have hu := atPath_updated exp log sqrt heap p hp x hc v hv
      cases hN : p.numeraire x.observationTime with
      | error e => exact ⟨rfl, fun ⟨d, hd⟩ => by simp at hd⟩
      | ok N => exact ⟨rfl, fun _ => ⟨hu, hkind⟩⟩

theorem discountedValue_updated (exp log sqrt : α → α) (heap : Nat → Option (PathType α))
    (x x1 : Payoff α) (hu : Payoff.updated exp log sqrt heap x x1)
    (ho : x1.observationTime = x.observationTime) (hs : x1.isSwapRate = x.isSwapRate)
    (q : PathType α) (d : α) (hd : x.discountedValue exp log sqrt q = .ok d) :
    x1.discountedValue exp log sqrt q = .ok d := by
  rw [discountedValue_eq] at hd ⊢
  rw [ho, hs]
  by_cases h : x.isSwapRate = true
  · rw [if_pos h] at hd ⊢
    exact hu.2.2 q d hd
  · rw [if_neg h] at hd ⊢
    cases hv : x.value exp log sqrt q with
    | error e => rw [hv] at hd; simp at hd
    | ok v =>
      rw [hu.2.2 q v hv]
      rw [hv] at hd
      exact hd

theorem barrierSimulation_asset (α : Type) [LinearOrderedField α] (a : String) :
    (Path.asset (barrierSimulation α) 0 0 a).1 = .ok 2 ∧
    (Path.asset (barrierSimulation α) 0 1 a).1 = .ok 4 ∧
    (Path.asset (barrierSimulation α) 0 2 a).1 = .ok 2 ∧
    (Path.asset (barrierSimulation α) 1 0 a).1 = .ok 2 ∧
    (Path.asset (barrierSimulation α) 1 1 a).1 = .ok 2 ∧
    (Path.asset (barrierSimulation α) 1 2 a).1 = .ok 2 := by
  refine ⟨?_, ?_, ?_, ?_, ?_, ?_⟩ <;>
    norm_num [Path.asset, MCSimulationT.assetAdjuster, MCSimulationT.state, barrierSimulation,
      MCSimulationT.build, MCSimulationT.reallocateMemory, buildObsTimes,
      TemplateAuxilliaries.idx, numAt, rowAt, assetProcess]

theorem barrierSimulation_numeraire (α : Type) [LinearOrderedField α] (exp : α → α) (n : Nat)
    (hn : n < 2) :
    (Path.numeraire exp (barrierSimulation α) n 0).1 = .ok 1 ∧
    (Path.numeraire exp (barrierSimulation α) n 1).1 = .ok 1 ∧
    (Path.numeraire exp (barrierSimulation α) n 2).1 = .ok 1 := by
  have h : n = 0 ∨ n = 1 := by omega
  rcases h with rfl | rfl <;> refine ⟨?_, ?_, ?_⟩ <;>
    norm_num [Path.numeraire, MCSimulationT.numeraireAdjuster, MCSimulationT.state, barrierSimulation,
      MCSimulationT.build, MCSimulationT.reallocateMemory, buildObsTimes,
      TemplateAuxilliaries.idx, numAt, rowAt, assetProcess]

/-- C16: when `at(p)` returns the value `v` on a node, `discountedAt(p)`
returns `v / N` for the numeraire `N = p->numeraire(observationTime())` on
every node kind but `SwapRate`, and returns `v` itself, undiscounted and
without a numeraire read, on a `SwapRate`; the node after the call is the node
`at(p)` leaves. -/
theorem discountedAt_numeraire (exp log sqrt : α → α) (x x1 : Payoff α) (p : PathType α)
    (v N : α) (hat : x.atPath exp log sqrt p = (.ok v, x1))
    (hN : x.isSwapRate = false → p.numeraire x.observationTime = .ok N) :
    x.discountedAt exp log sqrt p = (.ok (if x.isSwapRate then v else v / N), x1) := by
  rw [discountedAt_eq]
  by_cases h : x.isSwapRate = true
  · rw [if_pos h, if_pos h, hat]
  · rw [if_neg h, if_neg h, hat]
    simp only [hN (by simpa using h)]

theorem discountedAt_numeraire_witness :
    (Payoff.Asset (1 : ℚ) "S" [] 0).discountedAt (fun x => x) (fun x => x) (fun x => x)
        ((barrierSimulation ℚ).path (fun x => x) (fun x => x) 0 0)
      = (.ok (if (Payoff.Asset (1 : ℚ) "S" [] 0).isSwapRate then 4 else 4 / 1),
          .Asset 1 "S" [] 0) :=
  discountedAt_numeraire (fun x => x) (fun x => x) (fun x => x) (.Asset 1 "S" [] 0)
    (.Asset 1 "S" [] 0) ((barrierSimulation ℚ).path (fun x => x) (fun x => x) 0 0) 4 1
    (by
      simp [Payoff.atPath, Payoff.atPathFuel, Payoff.height, MCSimulationT.path,
        (barrierSimulation_asset ℚ "S").2.1])
    (fun _ => by
      simp [Payoff.observationTime, MCSimulationT.path,
        (barrierSimulation_numeraire ℚ (fun x => x) 0 (by decide)).2.1])

theorem after_refl (exp log sqrt : α → α) (heap : Nat → Option (PathType α)) (x : Payoff α)
    (hc : x.coherent exp log sqrt heap) : Payoff.after exp log sqrt heap x x :=
  ⟨⟨hc, rfl, fun _ _ h => h⟩, rfl, rfl⟩

theorem discountedAt_after (exp log sqrt : α → α) (heap : Nat → Option (PathType α))
    (p : PathType α) (hp : heap p.addr = some p) (x0 x : Payoff α)
    (ha : Payoff.after exp log sqrt heap x0 x) (d : α)
    (hd : x0.discountedValue exp log sqrt p = .ok d) :
    ∃ x1, x.discountedAt exp log sqrt p = (.ok d, x1) ∧ Payoff.after exp log sqrt heap x0 x1 := by
  have hd1 := discountedValue_updated exp log sqrt heap x0 x ha.1 ha.2.1 ha.2.2 p d hd
  obtain ⟨h1, h2⟩ := discountedAt_step exp log sqrt heap p hp x ha.1.1
  obtain ⟨hu, ho, hs⟩ := h2 ⟨d, hd1⟩
  refine ⟨(x.discountedAt exp log sqrt p).2, ?_,
    updated_trans exp log sqrt heap _ _ _ ha.1 hu, ho.trans ha.2.1, hs.trans ha.2.2⟩
  rw [← hd1, ← h1]

theorem sumPaths_ok (exp log sqrt : α → α) (heap : Nat → Option (PathType α))
    (path : Nat → Nat → PathType α) (haddr : ∀ n a, (path n a).addr = a) (dx : Nat → α)
    (x0 : Payoff α) :
    ∀ (ns : List Nat) (a0 : Nat) (x : Payoff α) (acc : α),
      Payoff.after exp log sqrt heap x0 x →
      (∀ i (hi : i < ns.length), heap (a0 + i) = some (path ns[i] (a0 + i))) →
      (∀ n ∈ ns, ∀ a, heap a = some (path n a) →
        x0.discountedValue exp log sqrt (path n a) = .ok (dx n)) →
      ∃ x1, Pricer.sumPaths exp log sqrt path ns a0 x acc = (.ok (acc + (ns.map dx).sum), x1) ∧
        Payoff.after exp log sqrt heap x0 x1 := by
  intro ns
  induction ns with
  | nil =>
    intro a0 x acc ha _ _
    exact ⟨x, by simp [Pricer.sumPaths], ha⟩
  | cons n rest ih =>
    intro a0 x acc ha hheap hd
    have hp0 : heap a0 = some (path n a0) := by simpa using hheap 0 (by simp)
    have hp : heap (path n a0).addr = some (path n a0) := by
      rw [haddr]
      exact hp0
    obtain ⟨x1, h1, ha1⟩ := discountedAt_after exp log sqrt heap (path n a0) hp x0 x ha (dx n)
      (hd n (List.mem_cons_self _ _) a0 hp0)
    obtain ⟨x2, h2, ha2⟩ := ih (a0 + 1) x1 (acc + dx n) ha1
      (fun i hi => by
        have := hheap (i + 1) (by simpa using hi)
        simpa [Nat.add_assoc, Nat.add_comm 1 i] using this)
      (fun m hm a => hd m (List.mem_cons_of_mem _ hm) a)
    refine ⟨x2, ?_, ha2⟩
    simp only [Pricer.sumPaths, h1, h2, List.map_cons, List.sum_cons, add_assoc]

theorem sumPayoffs_ok (exp log sqrt : α → α) (heap : Nat → Option (PathType α))
    (path : Nat → Nat → PathType α) (haddr : ∀ n a, (path n a).addr = a) (nPaths : Nat)
    (l : List (Payoff α)) (ds : List (Nat → α))
    (hF : List.Forall₂ (fun x dx => x.coherent exp log sqrt heap ∧
      ∀ n, n < nPaths → ∀ a, heap a = some (path n a) →
        x.discountedValue exp log sqrt (path n a) = .ok (dx n)) l ds) :
    ∀ (a0 : Nat) (npv : α),
      (∀ j, j < l.length → ∀ n, n < nPaths →
        heap (a0 + j * nPaths + n) = some (path n (a0 + j * nPaths + n))) →
      ∃ l1, Pricer.sumPayoffs exp log sqrt path nPaths l a0 npv
        = (.ok (npv + (ds.map fun dx => ((List.range nPaths).map dx).sum).sum), l1) := by
  induction hF with
  | nil =>
    intro a0 npv _
    exact ⟨[], by simp [Pricer.sumPayoffs]⟩
  | @cons x dx rest ds' h1 _ ih =>
    intro a0 npv hheap
    obtain ⟨x1, hx1, -⟩ := sumPaths_ok exp log sqrt heap path haddr dx x (List.range nPaths) a0 x 0
      (after_refl exp log sqrt heap x h1.1)
      (fun i hi => by
        have hi' : i < nPaths := by simpa using hi
        have := hheap 0 (by simp) i hi'
        simpa using this)
      (fun n hn a => h1.2 n (List.mem_range.1 hn) a)
    obtain ⟨r1, hr1⟩ := ih (a0 + nPaths) (npv + (0 + ((List.range nPaths).map dx).sum))
      (fun j hj n hn => by
        have := hheap (j + 1) (by simpa using hj) n hn
        rw [show a0 + nPaths + j * nPaths + n = a0 + (j + 1) * nPaths + n by ring]
        exact this)
    refine ⟨x1 :: r1, ?_⟩
    rw [zero_add] at hx1 hr1
    simp only [Pricer.sumPayoffs, hx1, hr1, List.map_cons, List.sum_cons, add_assoc]

theorem addPath_ok (exp log sqrt : α → α) (heap : Nat → Option (PathType α))
    (path : Nat → Nat → PathType α) (haddr : ∀ n a, (path n a).addr = a) (n : Nat)
    (l0 l : List (Payoff α)) (hA : List.Forall₂ (Payoff.after exp log sqrt heap) l0 l) :
    ∀ (ds : List (Nat → α)) (r : List α) (a0 : Nat),
      List.Forall₂ (fun x dx => ∀ a, heap a = some (path n a) →
        x.discountedValue exp log sqrt (path n a) = .ok (dx n)) l0 ds →
      r.length = ds.length →
      (∀ k, k < l.length → heap (a0 + k) = some (path n (a0 + k))) →
      ∃ l1, Pricer.addPath exp log sqrt path n l r a0
          = (.ok (List.zipWith (fun rk dk => rk + dk n) r ds), l1) ∧
        List.Forall₂ (Payoff.after exp log sqrt heap) l0 l1 := by
  induction hA with
  | nil =>
    intro ds r a0 hV hlen _
    cases hV
    exact ⟨[], by simp [Pricer.addPath], List.Forall₂.nil⟩
  | @cons x0 x rest0 rest ha _ ih =>
    intro ds r a0 hV hlen hheap
    cases hV with
    | @cons _ dx _ ds' hv1 hv2 =>
      cases r with
      | nil => simp at hlen
      | cons rk r' =>
        have hp0 : heap a0 = some (path n a0) := by simpa using hheap 0 (by simp)
        have hp : heap (path n a0).addr = some (path n a0) := by
          rw [haddr]
          exact hp0
        obtain ⟨x1, h1, ha1⟩ := discountedAt_after exp log sqrt heap (path n a0) hp x0 x ha
          (dx n) (hv1 a0 hp0)
        obtain ⟨r1, h2, hA2⟩ := ih ds' r' (a0 + 1) hv2 (by simpa using hlen)
          (fun k hk => by
            have := hheap (k + 1) (by simpa using hk)
            simpa [Nat.add_assoc, Nat.add_comm 1 k] using this)
        refine ⟨x1 :: r1, ?_, List.Forall₂.cons ha1 hA2⟩
        simp only [Pricer.addPath, h1, List.tail_cons, h2, List.headD_cons, List.zipWith_cons_cons]

theorem zipWith_add_twice (ds : List (Nat → α)) (f g : (Nat → α) → α) :
    ∀ r : List α, r.length = ds.length →
      List.zipWith (fun rk dk => rk + g dk) (List.zipWith (fun rk dk => rk + f dk) r ds) ds
        = List.zipWith (fun rk dk => rk + (f dk + g dk)) r ds := by
  induction ds with
  | nil => intro r _; simp
  | cons d rest ih =>
    intro r hlen
    cases r with
    | nil => simp at hlen
    | cons rk r' =>
      simp only [List.zipWith_cons_cons, add_assoc, List.cons.injEq, true_and]
      exact ih r' (by simpa using hlen)

theorem addPaths_ok (exp log sqrt : α → α) (heap : Nat → Option (PathType α))
    (path : Nat → Nat → PathType α) (haddr : ∀ n a, (path n a).addr = a) (nPaths : Nat)
    (l0 : List (Payoff α)) (ds : List (Nat → α))
    (hV : List.Forall₂ (fun x dx => ∀ n, n < nPaths → ∀ a, heap a = some (path n a) →
      x.discountedValue exp log sqrt (path n a) = .ok (dx n)) l0 ds) :
    ∀ (ns : List Nat) (l : List (Payoff α)) (r : List α) (a0 : Nat),
      (∀ n ∈ ns, n < nPaths) →
      List.Forall₂ (Payoff.after exp log sqrt heap) l0 l →
      r.length = ds.length →
      (∀ i (hi : i < ns.length), ∀ k, k < l0.length →
        heap (a0 + i * l0.length + k) = some (path ns[i] (a0 + i * l0.length + k))) →
      ∃ l1, Pricer.addPaths exp log sqrt path ns l r a0
          = (.ok (List.zipWith (fun rk dk => rk + (ns.map dk).sum) r ds), l1) := by
  intro ns
  induction ns with
  | nil =>
    intro l r a0 _ _ hlen _
    refine ⟨l, ?_⟩
    simp only [Pricer.addPaths, List.map_nil, List.sum_nil, add_zero]
    congr 2
    clear hV
    induction ds generalizing r with
    | nil => cases r <;> simp at hlen ⊢
    | cons d rest ih =>
      cases r with
      | nil => simp at hlen
      | cons rk r' =>
        simp only [List.zipWith_cons_cons, List.cons.injEq, true_and]
        exact ih r' (by simpa using hlen)
  | cons n rest ih =>
    intro l r a0 hns hA hlen hheap
    have hlen0 : l.length = l0.length := hA.length_eq.symm
    obtain ⟨l1, h1, hA1⟩ := addPath_ok exp log sqrt heap path haddr n l0 l hA ds r a0
      (hV.imp fun x dx h => h n (hns n (List.mem_cons_self _ _))) hlen
      (fun k hk => by
        have := hheap 0 (by simp) k (by rw [← hlen0]; exact hk)
        simpa using this)
    obtain ⟨l2, h2⟩ := ih l1 (List.zipWith (fun rk dk => rk + dk n) r ds) (a0 + l.length)
      (fun m hm => hns m (List.mem_cons_of_mem _ hm)) hA1
      (by simp [hlen])
      (fun i hi k hk => by
        have := hheap (i + 1) (by simpa using hi) k hk
        rw [hlen0, show a0 + l0.length + i * l0.length + k = a0 + (i + 1) * l0.length + k by ring]
        simpa using this)
    refine ⟨l2, ?_⟩
    simp only [Pricer.addPaths, h1, h2]
    rw [zipWith_add_twice ds (fun dk => dk n) (fun dk => (rest.map dk).sum) r hlen]
    simp only [List.map_cons, List.sum_cons]

theorem list_sum_range (n : Nat) (f : Nat → α) :
    ((List.range n).map f).sum = ∑ i ∈ Finset.range n, f i := by
  induction n with
  | zero => simp
  | succ n ih => rw [List.range_succ, List.map_append, List.sum_append, ih, Finset.sum_range_succ]; simp

theorem noMemoFor_discounted (exp log sqrt : α → α) (path : Nat → Nat → PathType α)
    (haddr : ∀ n a, (path n a).addr = a) (alloc : Nat) (x : Payoff α)
    (hm : x.noMemoFor (fun a => alloc ≤ a)) (n a : Nat) (ha : alloc ≤ a) :
    (x.discountedAt exp log sqrt (path n a)).1 = x.discountedValue exp log sqrt (path n a) := by
  refine (discountedAt_step exp log sqrt (fun b => if b = a then some (path n a) else none)
    (path n a) (by simp [haddr]) x ?_).1
  refine coherent_of_noMemoFor exp log sqrt _ (fun b => alloc ≤ b) ?_ x hm
  intro b q hb
  by_cases h : b = a
  · rw [h]; exact ha
  · simp [h] at hb

theorem forall₂_range {β γ : Type} (R : β → γ → Prop) (l : List β) (f : Nat → γ)
    (h : ∀ k (hk : k < l.length), R l[k] (f k)) :
    List.Forall₂ R l ((List.range l.length).map f) := by
  apply List.forall₂_of_length_eq_of_get (by simp)
  intro i h1 h2
  simpa using h i h1

/-- C17: for payoff nodes that hold no memoized value for a path object
allocated during the call, on a simulation of `nPaths >= 1` paths whose node
values `discountedAt` are `d k n` for the node `k` and the path `n`:
`Pricer::NPV` returns `(1/nPaths) * sum_n sum_k d k n`, `Pricer::NPVs` returns
the vector of the `(1/nPaths) * sum_n d k n`, and the first is the sum of the
entries of the second. -/
theorem pricer_NPV_NPVs (exp log sqrt : α → α) (payoffs : List (Payoff α))
    (path : Nat → Nat → PathType α) (nPaths alloc : Nat) (d : Nat → Nat → α)
    (_hN : 1 ≤ nPaths) (haddr : ∀ n a, (path n a).addr = a)
    (hmemo : ∀ x ∈ payoffs, x.noMemoFor (fun a => alloc ≤ a))
    (hd : ∀ k (hk : k < payoffs.length) n, n < nPaths → ∀ a, alloc ≤ a →
      (payoffs[k].discountedAt exp log sqrt (path n a)).1 = .ok (d k n)) :
    (Pricer.NPV exp log sqrt payoffs path nPaths alloc).1
        = .ok ((∑ n ∈ Finset.range nPaths, ∑ k ∈ Finset.range payoffs.length, d k n)
            / (nPaths : α)) ∧
      (Pricer.NPVs exp log sqrt payoffs path nPaths alloc).1
        = .ok ((List.range payoffs.length).map fun k =>
            (∑ n ∈ Finset.range nPaths, d k n) / (nPaths : α)) ∧
      (∑ n ∈ Finset.range nPaths, ∑ k ∈ Finset.range payoffs.length, d k n) / (nPaths : α)
        = ((List.range payoffs.length).map fun k =>
            (∑ n ∈ Finset.range nPaths, d k n) / (nPaths : α)).sum := by
  have hval : ∀ (heap : Nat → Option (PathType α)), (∀ a q, heap a = some q → alloc ≤ a) →
      List.Forall₂ (fun x dx => x.coherent exp log sqrt heap ∧
        ∀ n, n < nPaths → ∀ a, heap a = some (path n a) →
          x.discountedValue exp log sqrt (path n a) = .ok (dx n)) payoffs
        ((List.range payoffs.length).map fun k => d k) := by
    intro heap hheap
    apply forall₂_range
    intro k hk
    have hm := hmemo payoffs[k] (List.getElem_mem _)
    refine ⟨coherent_of_noMemoFor exp log sqrt heap _ hheap _ hm, fun n hn a ha => ?_⟩
    rw [← noMemoFor_discounted exp log sqrt path haddr alloc _ hm n a (hheap a _ ha)]
    exact hd k hk n hn a (hheap a _ ha)
  refine ⟨?_, ?_, ?_⟩
  · obtain ⟨l1, h1⟩ := sumPayoffs_ok exp log sqrt
      (fun a => if alloc ≤ a then some (path ((a - alloc) % nPaths) a) else none)
      path haddr nPaths payoffs _
      (hval _ (fun a q h => by by_contra hc; simp [hc] at h)) alloc 0
      (fun j _ n hn => by
        have h1 : alloc ≤ alloc + j * nPaths + n := by omega
        have h2 : (alloc + j * nPaths + n - alloc) % nPaths = n := by
          rw [show alloc + j * nPaths + n - alloc = n + j * nPaths by omega,
            Nat.add_mul_mod_self_right, Nat.mod_eq_of_lt hn]
        simp only [h1, if_true, h2])
    unfold Pricer.NPV
    rw [h1]
    simp only [zero_add, List.map_map, Except.ok.injEq]
    congr 1
    rw [Finset.sum_comm, ← list_sum_range]
    congr 1
  · have hV := hval
      (fun a => if alloc ≤ a then some (path ((a - alloc) / payoffs.length) a) else none)
      (fun a q h => by by_contra hc; simp [hc] at h)
    obtain ⟨l1, h1⟩ := addPaths_ok exp log sqrt
      (fun a => if alloc ≤ a then some (path ((a - alloc) / payoffs.length) a) else none)
      path haddr nPaths payoffs _ (hV.imp fun _ _ h => h.2) (List.range nPaths) payoffs
      (List.replicate payoffs.length 0) alloc (fun n hn => List.mem_range.1 hn)
      (List.forall₂_same.2 fun x hx => after_refl exp log sqrt _ x
        (forall₂_right_mem _ _ _ hV.flip x hx |>.choose_spec.2.1))
      (by simp)
      (fun i hi k hk => by
        have hi' : i < nPaths := by simpa using hi
        have h1 : alloc ≤ alloc + i * payoffs.length + k := by omega
        have h2 : (alloc + i * payoffs.length + k - alloc) / payoffs.length = i := by
          rw [show alloc + i * payoffs.length + k - alloc = k + i * payoffs.length by omega,
            Nat.add_mul_div_right _ _ (by omega), Nat.div_eq_of_lt hk, zero_add]
        simp only [h1, if_true, h2, List.getElem_range])
    unfold Pricer.NPVs
    rw [h1]
    simp only [Except.ok.injEq]
    apply List.ext_getElem (by simp)
    intro k hk1 hk2
    simp [list_sum_range]
  · rw [Finset.sum_comm, Finset.sum_div, ← list_sum_range]

theorem pricer_NPV_NPVs_witness :
    (Pricer.NPV (fun x => x) (fun x => x) (fun x => x)
        [Payoff.Asset (1 : ℚ) "S" [] 0, Payoff.FixedAmount 1]
        (fun n a => (barrierSimulation ℚ).path (fun x => x) (fun x => x) n a) 2 0).1 = .ok 4 ∧
      (Pricer.NPVs (fun x => x) (fun x => x) (fun x => x)
        [Payoff.Asset (1 : ℚ) "S" [] 0, Payoff.FixedAmount 1]
        (fun n a => (barrierSimulation ℚ).path (fun x => x) (fun x => x) n a) 2 0).1
        = .ok [3, 1] := by
  have h := pricer_NPV_NPVs (fun x => x) (fun x => x) (fun x => x)
    [Payoff.Asset (1 : ℚ) "S" [] 0, Payoff.FixedAmount 1]
    (fun n a => (barrierSimulation ℚ).path (fun x => x) (fun x => x) n a) 2 0
    (fun k n => if k = 0 then (if n = 0 then 4 else 2) else 1) (by decide)
    (fun _ _ => rfl)
    (by
      intro x hx
      simp only [List.mem_cons, List.mem_singleton, List.not_mem_nil, or_false] at hx
      rcases hx with rfl | rfl <;> trivial)
    (by
      intro k hk n hn a _
      have hk2 : k < 2 := hk
      have h0 := barrierSimulation_numeraire ℚ (fun x => x) n hn
      have h1 := barrierSimulation_asset ℚ "S"
      interval_cases k <;> interval_cases n <;>
        simp [Payoff.discountedAt, Payoff.atPath, Payoff.atPathFuel, Payoff.height,
          Payoff.observationTime, MCSimulationT.path, h0.1, h0.2.1, h1.2.1, h1.2.2.2.2.1])
  refine ⟨h.1.trans ?_, h.2.1.trans ?_⟩
  · norm_num [Finset.sum_range_succ]
  · norm_num [Finset.sum_range_succ, List.range_succ]

end Pricing

/-! ### Clones and observation times -/

section Clones

variable {α : Type} [LinearOrderedField α]

theorem findFixing_some (history : List (α × α)) (obsTime : α)
    (h0 : (history.getD 0 (0, 0)).1 ≤ obsTime) :
    ∀ k, 1 ≤ k → ∃ v, findFixing history obsTime k = some v := by
  intro k
  induction k with
  | zero => intro h; omega
  | succ k ih =>
    intro _
    rw [findFixing]
    by_cases hk : (history.getD k (0, 0)).1 ≤ obsTime
    · rw [if_pos hk]
      exact ⟨_, rfl⟩
    · rw [if_neg hk]
      cases k with
      | zero => exact absurd h0 hk
      | succ j => exact ih (by omega)

theorem mkAsset_ok (t : α) (a : String) (history : List (α × α))
    (h : fixingDatesAscending
      (history.insertionSort (fun a b => a.1 < b.1 ∨ (a.1 = b.1 ∧ a.2 ≤ b.2))) = true) :
    ∃ h1 f1, Payoff.mkAsset t a history = .ok (.Asset t a h1 f1) := by
  unfold Payoff.mkAsset addFixings
  by_cases hl : history.length = 0
  · simp only [hl, if_true]
    exact ⟨_, _, rfl⟩
  · simp only [hl, if_false, List.nil_append, h, Bool.not_true, Bool.false_eq_true]
    split_ifs with h1 h2 h3 h4
    · exact ⟨_, _, rfl⟩
    · exact ⟨_, _, rfl⟩
    · exact ⟨_, _, rfl⟩
    · exact ⟨_, _, rfl⟩
    · obtain ⟨v, hv⟩ := findFixing_some
        (history.insertionSort (fun a b => a.1 < b.1 ∨ (a.1 = b.1 ∧ a.2 ≤ b.2))) t
        (not_lt.1 h3) ((history.insertionSort
          (fun a b => a.1 < b.1 ∨ (a.1 = b.1 ∧ a.2 ≤ b.2))).length - 1) (by omega)
      rw [hv]
      exact ⟨_, _, rfl⟩

mutual
theorem atTime_of_supportsClone (t : α) :
    ∀ x : Payoff α, x.supportsClone t = true →
      ∃ x1, x.atTime t = .ok x1 ∧
        x1.observationTime = if x.anchored then t else x.observationTime
  | .Clone _ x, h => by
    simp only [Payoff.supportsClone] at h
    obtain ⟨x1, h1, -⟩ := atTime_of_supportsClone t x h
    exact ⟨.Clone t x1, by simp only [Payoff.atTime, h1],
      by simp [Payoff.observationTime, Payoff.anchored]⟩
  | .FixedAmount amount, _ =>
    ⟨.FixedAmount amount, rfl, by simp [Payoff.observationTime, Payoff.anchored]⟩
  | .Pay x payTime, h => by
    simp only [Payoff.supportsClone] at h
    obtain ⟨x1, h1, -⟩ := atTime_of_supportsClone t x h
    exact ⟨.Pay x1 payTime, by simp only [Payoff.atTime, h1],
      by simp [Payoff.observationTime, Payoff.anchored]⟩
  | .Cash _ payTime, _ =>
    ⟨.Cash t payTime, rfl, by simp [Payoff.observationTime, Payoff.anchored]⟩
  | .ZeroBond _ payTime a, _ =>
    ⟨.ZeroBond t payTime a, rfl, by simp [Payoff.observationTime, Payoff.anchored]⟩
  | .Asset _ a history _, h => by
    simp only [Payoff.supportsClone] at h
    obtain ⟨h1, f1, hm⟩ := mkAsset_ok t a history h
    exact ⟨.Asset t a h1 f1, by simp only [Payoff.atTime, hm],
      by simp [Payoff.observationTime, Payoff.anchored]⟩
  | .AssetBarrierNoHit _ _ _ _ _ _, h => by simp [Payoff.supportsClone] at h
  | .VanillaOption _ _ _ _, h => by simp [Payoff.supportsClone] at h
  | .Cache x _ _, h => by
    simp only [Payoff.supportsClone] at h
    obtain ⟨x1, h1, ht⟩ := atTime_of_supportsClone t x h
    exact ⟨Payoff.mkCache x1, by simp only [Payoff.atTime, h1],
      by simpa [Payoff.observationTime, Payoff.anchored, Payoff.mkCache] using ht⟩
  | .Axpy _ _ none, h => by simp [Payoff.supportsClone] at h
  | .Axpy a x (some y), h => by
    simp only [Payoff.supportsClone, Bool.and_eq_true] at h
    obtain ⟨x1, h1, -⟩ := atTime_of_supportsClone t x h.1
    obtain ⟨y1, h2, -⟩ := atTime_of_supportsClone t y h.2
    exact ⟨.Axpy a x1 (some y1), by simp only [Payoff.atTime, h1, h2],
      by simp [Payoff.observationTime, Payoff.anchored]⟩

  | .Mult x y, h => by
    simp only [Payoff.supportsClone, Bool.and_eq_true] at h
    obtain ⟨x1, h1, -⟩ := atTime_of_supportsClone t x h.1
    obtain ⟨y1, h2, -⟩ := atTime_of_supportsClone t y h.2
    exact ⟨.Mult x1 y1, by simp only [Payoff.atTime, h1, h2],
      by simp [Payoff.observationTime, Payoff.anchored]⟩

  | .Division x y, h => by
    simp only [Payoff.supportsClone, Bool.and_eq_true] at h
    obtain ⟨x1, h1, -⟩ := atTime_of_supportsClone t x h.1
    obtain ⟨y1, h2, -⟩ := atTime_of_supportsClone t y h.2
    exact ⟨.Division x1 y1, by simp only [Payoff.atTime, h1, h2],
      by simp [Payoff.observationTime, Payoff.anchored]⟩

  | .Max x y, h => by
    simp only [Payoff.supportsClone, Bool.and_eq_true] at h
    obtain ⟨x1, h1, -⟩ := atTime_of_supportsClone t x h.1
    obtain ⟨y1, h2, -⟩ := atTime_of_supportsClone t y h.2
    exact ⟨.Max x1 y1, by simp only [Payoff.atTime, h1, h2],
      by simp [Payoff.observationTime, Payoff.anchored]⟩

  | .Min x y, h => by
    simp only [Payoff.supportsClone, Bool.and_eq_true] at h
    obtain ⟨x1, h1, -⟩ := atTime_of_supportsClone t x h.1
    obtain ⟨y1, h2, -⟩ := atTime_of_supportsClone t y h.2
    exact ⟨.Min x1 y1, by simp only [Payoff.atTime, h1, h2],
      by simp [Payoff.observationTime, Payoff.anchored]⟩

  | .Exponential x, h => by
    simp only [Payoff.supportsClone] at h
    obtain ⟨x1, h1, -⟩ := atTime_of_supportsClone t x h
    exact ⟨.Exponential x1, by simp only [Payoff.atTime, h1],
      by simp [Payoff.observationTime, Payoff.anchored]⟩

  | .Logarithm x, h => by
    simp only [Payoff.supportsClone] at h
    obtain ⟨x1, h1, -⟩ := atTime_of_supportsClone t x h
    exact ⟨.Logarithm x1, by simp only [Payoff.atTime, h1],
      by simp [Payoff.observationTime, Payoff.anchored]⟩

  | .Squareroot x, h => by
    simp only [Payoff.supportsClone] at h
    obtain ⟨x1, h1, -⟩ := atTime_of_supportsClone t x h
    exact ⟨.Squareroot x1, by simp only [Payoff.atTime, h1],
      by simp [Payoff.observationTime, Payoff.anchored]⟩

  | .Logical _ _ _, h => by simp [Payoff.supportsClone] at h
  | .IfThenElse _ _ _, h => by simp [Payoff.supportsClone] at h
  | .Basket underlyings weights rainbow, h => by
    simp only [Payoff.supportsClone, Bool.and_eq_true, decide_eq_true_eq] at h
    obtain ⟨l1, h1, hlen⟩ := atTimeList_of_supportsClone t underlyings h.2
    refine ⟨.Basket l1 weights rainbow, ?_, by simp [Payoff.observationTime, Payoff.anchored]⟩
    have hw : weights.length > 0 := h.1.2 ▸ h.1.1
    simp only [Payoff.atTime, h1, Payoff.mkBasket, hlen, h.1.2, hw, not_true_eq_false,
      if_false]
  | .GeneralSwaption _ _ _ _ _ _ _, h => by simp [Payoff.supportsClone] at h
  | .SwapRate _ _ _ _ _ (some index), h => by
    simp only [Payoff.supportsClone] at h
    cases hc : checkForConsistency (index t).1 (index t).2.1 (index t).2.2.1 (index t).2.2.2 with
    | error e =>
      rw [hc] at h
      simp at h
    | ok u =>
      exact ⟨.SwapRate t (index t).1 (index t).2.1 (index t).2.2.1 (index t).2.2.2 (some index),
        by simp only [Payoff.atTime, Payoff.mkSwapRateIndex, hc],
        by simp [Payoff.observationTime, Payoff.anchored]⟩
  | .SwapRate _ _ _ _ _ none, h => by simp [Payoff.supportsClone] at h
theorem atTimeList_of_supportsClone (t : α) :
    ∀ l : List (Payoff α), Payoff.supportsCloneList t l = true →
      ∃ l1, Payoff.atTimeList l t = .ok l1 ∧ l1.length = l.length
  | [], _ => ⟨[], rfl, rfl⟩
  | x :: rest, h => by
    simp only [Payoff.supportsCloneList, Bool.and_eq_true] at h
    obtain ⟨x1, h1, -⟩ := atTime_of_supportsClone t x h.1
    obtain ⟨l1, h2, hlen⟩ := atTimeList_of_supportsClone t rest h.2
    exact ⟨x1 :: l1, by simp only [Payoff.atTimeList, h1, h2], by simp [hlen]⟩
end

/-- C18 fails as stated: the clone of a `FixedAmount` node at the time 1 is
produced, and its observation time is 0, not 1; an `AssetBarrierNoHit` node
has no clone, `at(t)` raises the error of the base class. -/
theorem atTime_counterexample :
    (¬ ∃ x1, (Payoff.FixedAmount (5 : ℚ)).atTime 1 = .ok x1 ∧ x1.observationTime = 1) ∧
      (Payoff.FixedAmount (5 : ℚ)).atTime 1 = .ok (.FixedAmount 5) ∧
      (Payoff.FixedAmount (5 : ℚ)).observationTime = 0 ∧
      (Payoff.AssetBarrierNoHit (0 : ℚ) 2 1 3 0 "S").atTime 1
        = .error "at(t) not implemented." := by
  refine ⟨?_, rfl, rfl, rfl⟩
  rintro ⟨x1, h1, h2⟩
  simp only [Payoff.atTime, Except.ok.injEq] at h1
  subst h1
  simp [Payoff.observationTime] at h2

/-- C18 (amended): for a tree whose nodes are all of kinds that override
`at(t)` and can be rebuilt at `t` (`supportsClone`), the clone `x.at(t)` is
produced without error; its observation time is `t` when `x` is a `Clone`,
`Cash`, `ZeroBond`, `Asset` or `SwapRate` node or a `Cache` of one, and is
the observation time of `x` otherwise (the pay time of a `Pay` node, 0 for a
`FixedAmount` and for the arithmetic nodes). -/
theorem atTime_observationTime (x : Payoff α) (t : α) (h : x.supportsClone t = true) :
    ∃ x1, x.atTime t = .ok x1 ∧
      x1.observationTime = if x.anchored then t else x.observationTime :=
  atTime_of_supportsClone t x h

theorem atTime_observationTime_witness :
    ∃ x1, (Payoff.Axpy (2 : ℚ) (.Cash 0 3) (some (.Pay (.Asset 0 "S" [] 0) 2))).atTime 1
        = .ok x1 ∧
      x1.observationTime
        = if (Payoff.Axpy (2 : ℚ) (.Cash 0 3) (some (.Pay (.Asset 0 "S" [] 0) 2))).anchored
          then 1
          else
            (Payoff.Axpy (2 : ℚ) (.Cash 0 3)
              (some (.Pay (.Asset 0 "S" [] 0) 2))).observationTime :=
  atTime_observationTime (.Axpy 2 (.Cash 0 3) (some (.Pay (.Asset 0 "S" [] 0) 2))) 1
    (by simp [Payoff.supportsClone, fixingDatesAscending])

mutual
theorem atTime_value (exp log sqrt : α → α) (S : Nat → Prop) (t : α) (p : PathType α) :
    ∀ x x1 : Payoff α, x.atTime t = .ok x1 →
      x1.noMemoFor S ∧ (x.anchoredAt t → x1.value exp log sqrt p = x.value exp log sqrt p)
  | .Clone _ x, x1, h => by
    cases hx : x.atTime t with
    | error e => simp [Payoff.atTime, hx] at h
    | ok x2 =>
      simp only [Payoff.atTime, hx, Except.ok.injEq] at h
      subst h
      have ih := atTime_value exp log sqrt S t p x x2 hx
      exact ⟨by simpa only [Payoff.noMemoFor] using ih.1,
        fun ha => by
          simpa only [Payoff.value] using ih.2 (by simpa only [Payoff.anchoredAt] using ha)⟩
  | .FixedAmount amount, x1, h => by
    simp only [Payoff.atTime, Except.ok.injEq] at h
    subst h
    exact ⟨trivial, fun _ => rfl⟩
  | .Pay x payTime, x1, h => by
    cases hx : x.atTime t with
    | error e => simp [Payoff.atTime, hx] at h
    | ok x2 =>
      simp only [Payoff.atTime, hx, Except.ok.injEq] at h
      subst h
      have ih := atTime_value exp log sqrt S t p x x2 hx
      exact ⟨by simpa only [Payoff.noMemoFor] using ih.1,
        fun ha => by
          simpa only [Payoff.value] using ih.2 (by simpa only [Payoff.anchoredAt] using ha)⟩
  | .Cash obsTime payTime, x1, h => by
    simp only [Payoff.atTime, Except.ok.injEq] at h
    subst h
    refine ⟨trivial, fun ha => ?_⟩
    simp only [Payoff.anchoredAt] at ha
    rw [ha]
  | .ZeroBond obsTime payTime a, x1, h => by
    simp only [Payoff.atTime, Except.ok.injEq] at h
    subst h
    refine ⟨trivial, fun ha => ?_⟩
    simp only [Payoff.anchoredAt] at ha
    rw [ha]
  | .Asset obsTime a history fixed, x1, h => by
    simp only [Payoff.atTime] at h
    have hk : ∃ h1 f1, x1 = .Asset t a h1 f1 := by
      unfold Payoff.mkAsset at h
      cases hf : addFixings t [] 0 history with
      | error e => simp [hf] at h
      | ok r =>
        simp only [hf, Except.ok.injEq] at h
        exact ⟨_, _, h.symm⟩
    refine ⟨?_, fun ha => ?_⟩
    · obtain ⟨h1, f1, rfl⟩ := hk
      trivial
    · simp only [Payoff.anchoredAt] at ha
      obtain ⟨rfl, ha2⟩ := ha
      unfold Payoff.mkAsset at h
      simp only [ha2, Except.ok.injEq] at h
      rw [← h]
  | .AssetBarrierNoHit _ _ _ _ _ _, x1, h => by simp [Payoff.atTime] at h
  | .VanillaOption _ _ _ _, x1, h => by simp [Payoff.atTime] at h
  | .Cache x _ _, x1, h => by
    cases hx : x.atTime t with
    | error e => simp [Payoff.atTime, hx] at h
    | ok x2 =>
      simp only [Payoff.atTime, hx, Except.ok.injEq] at h
      subst h
      have ih := atTime_value exp log sqrt S t p x x2 hx
      exact ⟨by simpa [Payoff.noMemoFor, Payoff.mkCache] using ih.1,
        fun ha => by
          simpa only [Payoff.value, Payoff.mkCache] using
            ih.2 (by simpa only [Payoff.anchoredAt] using ha)⟩
  | .Axpy _ x none, x1, h => by
    cases hx : x.atTime t with
    | error e => simp [Payoff.atTime, hx] at h
    | ok x2 => simp [Payoff.atTime, hx] at h
  | .Axpy a x (some y), x1, h => by
    cases hx : x.atTime t with
    | error e => simp [Payoff.atTime, hx] at h
    | ok x2 =>
      cases hy : y.atTime t with
      | error e => simp [Payoff.atTime, hx, hy] at h
      | ok y2 =>
        simp only [Payoff.atTime, hx, hy, Except.ok.injEq] at h
        subst h
        have ihx := atTime_value exp log sqrt S t p x x2 hx
        have ihy := atTime_value exp log sqrt S t p y y2 hy
        refine ⟨by simpa only [Payoff.noMemoFor] using ⟨ihx.1, ihy.1⟩, fun ha => ?_⟩
        simp only [Payoff.anchoredAt] at ha
        simp only [Payoff.value, ihx.2 ha.1, ihy.2 ha.2]

  | .Mult x y, x1, h => by
    cases hx : x.atTime t with
    | error e => simp [Payoff.atTime, hx] at h
    | ok x2 =>
      cases hy : y.atTime t with
      | error e => simp [Payoff.atTime, hx, hy] at h
      | ok y2 =>
        simp only [Payoff.atTime, hx, hy, Except.ok.injEq] at h
        subst h
        have ihx := atTime_value exp log sqrt S t p x x2 hx
        have ihy := atTime_value exp log sqrt S t p y y2 hy
        refine ⟨by simpa only [Payoff.noMemoFor] using ⟨ihx.1, ihy.1⟩, fun ha => ?_⟩
        simp only [Payoff.anchoredAt] at ha
        simp only [Payoff.value, ihx.2 ha.1, ihy.2 ha.2]

  | .Division x y, x1, h => by
    cases hx : x.atTime t with
    | error e => simp [Payoff.atTime, hx] at h
    | ok x2 =>
      cases hy : y.atTime t with
      | error e => simp [Payoff.atTime, hx, hy] at h
      | ok y2 =>
        simp only [Payoff.atTime, hx, hy, Except.ok.injEq] at h
        subst h
        have ihx := atTime_value exp log sqrt S t p x x2 hx
        have ihy := atTime_value exp log sqrt S t p y y2 hy
        refine ⟨by simpa only [Payoff.noMemoFor] using ⟨ihx.1, ihy.1⟩, fun ha => ?_⟩
        simp only [Payoff.anchoredAt] at ha
        simp only [Payoff.value, ihx.2 ha.1, ihy.2 ha.2]

  | .Max x y, x1, h => by
    cases hx : x.atTime t with
    | error e => simp [Payoff.atTime, hx] at h
    | ok x2 =>
      cases hy : y.atTime t with
      | error e => simp [Payoff.atTime, hx, hy] at h
      | ok y2 =>
        simp only [Payoff.atTime, hx, hy, Except.ok.injEq] at h
        subst h
        have ihx := atTime_value exp log sqrt S t p x x2 hx
        have ihy := atTime_value exp log sqrt S t p y y2 hy
        refine ⟨by simpa only [Payoff.noMemoFor] using ⟨ihx.1, ihy.1⟩, fun ha => ?_⟩
        simp only [Payoff.anchoredAt] at ha
        simp only [Payoff.value, ihx.2 ha.1, ihy.2 ha.2]

  | .Min x y, x1, h => by
    cases hx : x.atTime t with
    | error e => simp [Payoff.atTime, hx] at h
    | ok x2 =>
      cases hy : y.atTime t with
      | error e => simp [Payoff.atTime, hx, hy] at h
      | ok y2 =>
        simp only [Payoff.atTime, hx, hy, Except.ok.injEq] at h
        subst h
        have ihx := atTime_value exp log sqrt S t p x x2 hx
        have ihy := atTime_value exp log sqrt S t p y y2 hy
        refine ⟨by simpa only [Payoff.noMemoFor] using ⟨ihx.1, ihy.1⟩, fun ha => ?_⟩
        simp only [Payoff.anchoredAt] at ha
        simp only [Payoff.value, ihx.2 ha.1, ihy.2 ha.2]

  | .Exponential x, x1, h => by
    cases hx : x.atTime t with
    | error e => simp [Payoff.atTime, hx] at h
    | ok x2 =>
      simp only [Payoff.atTime, hx, Except.ok.injEq] at h
      subst h
      have ih := atTime_value exp log sqrt S t p x x2 hx
      refine ⟨by simpa only [Payoff.noMemoFor] using ih.1, fun ha => ?_⟩
      simp only [Payoff.anchoredAt] at ha
      simp only [Payoff.value, ih.2 ha]

  | .Logarithm x, x1, h => by
    cases hx : x.atTime t with
    | error e => simp [Payoff.atTime, hx] at h
    | ok x2 =>
      simp only [Payoff.atTime, hx, Except.ok.injEq] at h
      subst h
      have ih := atTime_value exp log sqrt S t p x x2 hx
      refine ⟨by simpa only [Payoff.noMemoFor] using ih.1, fun ha => ?_⟩
      simp only [Payoff.anchoredAt] at ha
      simp only [Payoff.value, ih.2 ha]

  | .Squareroot x, x1, h => by
    cases hx : x.atTime t with
    | error e => simp [Payoff.atTime, hx] at h
    | ok x2 =>
      simp only [Payoff.atTime, hx, Except.ok.injEq] at h
      subst h
      have ih := atTime_value exp log sqrt S t p x x2 hx
      refine ⟨by simpa only [Payoff.noMemoFor] using ih.1, fun ha => ?_⟩
      simp only [Payoff.anchoredAt] at ha
      simp only [Payoff.value, ih.2 ha]

  | .Logical _ _ _, x1, h => by simp [Payoff.atTime] at h
  | .IfThenElse _ _ _, x1, h => by simp [Payoff.atTime] at h
  | .Basket underlyings weights rainbow, x1, h => by
    cases hl : Payoff.atTimeList underlyings t with
    | error e => simp [Payoff.atTime, hl] at h
    | ok l1 =>
      have ih := atTimeList_value exp log sqrt S t p underlyings l1 hl
      simp only [Payoff.atTime, hl, Payoff.mkBasket] at h
      split_ifs at h
      simp only [Except.ok.injEq] at h
      subst h
      refine ⟨by simpa only [Payoff.noMemoFor] using ih.1, fun ha => ?_⟩
      simp only [Payoff.anchoredAt] at ha
      simp only [Payoff.value, ih.2 ha]
  | .GeneralSwaption _ _ _ _ _ _ _, x1, h => by simp [Payoff.atTime] at h
  | .SwapRate obsTime floatTimes floatWeights fixedTimes fixedWeights (some index), x1, h => by
    simp only [Payoff.atTime, Payoff.mkSwapRateIndex] at h
    cases hc : checkForConsistency (index t).1 (index t).2.1 (index t).2.2.1 (index t).2.2.2 with
    | error e => simp [hc] at h
    | ok u =>
      simp only [hc, Except.ok.injEq] at h
      subst h
      refine ⟨trivial, fun ha => ?_⟩
      simp only [Payoff.anchoredAt] at ha
      obtain ⟨rfl, ha2⟩ := ha
      simp only [ha2, Payoff.value]
  | .SwapRate _ _ _ _ _ none, x1, h => by simp [Payoff.atTime] at h
theorem atTimeList_value (exp log sqrt : α → α) (S : Nat → Prop) (t : α) (p : PathType α) :
    ∀ l l1 : List (Payoff α), Payoff.atTimeList l t = .ok l1 →
      Payoff.noMemoForList S l1 ∧ (Payoff.anchoredAtList t l →
        Payoff.valueList exp log sqrt l1 p = Payoff.valueList exp log sqrt l p)
  | [], l1, h => by
    simp only [Payoff.atTimeList, Except.ok.injEq] at h
    subst h
    exact ⟨trivial, fun _ => rfl⟩
  | x :: rest, l1, h => by
    cases hx : x.atTime t with
    | error e => simp [Payoff.atTimeList, hx] at h
    | ok x2 =>
      cases hr : Payoff.atTimeList rest t with
      | error e => simp [Payoff.atTimeList, hx, hr] at h
      | ok r2 =>
        simp only [Payoff.atTimeList, hx, hr, Except.ok.injEq] at h
        subst h
        have ihx := atTime_value exp log sqrt S t p x x2 hx
        have ihr := atTimeList_value exp log sqrt S t p rest r2 hr
        refine ⟨by simpa only [Payoff.noMemoForList] using ⟨ihx.1, ihr.1⟩, fun ha => ?_⟩
        simp only [Payoff.anchoredAtList] at ha
        simp only [Payoff.valueList, ihx.2 ha.1, ihr.2 ha.2]
end

/-- C19 fails as stated: the node `Pay(Asset(1, "S"), 2)` has the observation
time 2; its clone at the time 2 is `Pay(Asset(2, "S"), 2)`, which on the first
path of the simulation reads the asset at the time 2 and returns 2, while the
node itself reads the asset at the time 1 and returns 4. -/
theorem clone_value_counterexample :
    (Payoff.Pay (.Asset (1 : ℚ) "S" [] 0) 2).atTime
        (Payoff.Pay (.Asset (1 : ℚ) "S" [] 0) 2).observationTime
      = .ok (.Pay (.Asset 2 "S" [] 0) 2) ∧
    ((Payoff.Pay (.Asset (2 : ℚ) "S" [] 0) 2).atPath (fun x => x) (fun x => x) (fun x => x)
        ((barrierSimulation ℚ).path (fun x => x) (fun x => x) 0 0)).1 = .ok 2 ∧
    ((Payoff.Pay (.Asset (1 : ℚ) "S" [] 0) 2).atPath (fun x => x) (fun x => x) (fun x => x)
        ((barrierSimulation ℚ).path (fun x => x) (fun x => x) 0 0)).1 = .ok 4 := by
  have h1 := barrierSimulation_asset ℚ "S"
  refine ⟨?_, ?_, ?_⟩
  · simp [Payoff.atTime, Payoff.observationTime, Payoff.mkAsset, addFixings]
  · simp [Payoff.atPath, Payoff.atPathFuel, Payoff.height, MCSimulationT.path, h1.2.2.1]
  · simp [Payoff.atPath, Payoff.atPathFuel, Payoff.height, MCSimulationT.path, h1.2.1]

/-- C19 (amended): for a node `x` whose clone at `t0 = x.observationTime()`
is produced, whose nodes with an observation time of their own (`Cash`,
`ZeroBond`, `Asset`, `SwapRate`) are all observed at `t0` with the members
their constructors leave, and whose memoized values are right for the path
objects alive, evaluating the clone on a path returns what evaluating `x` on
that path returns. -/
theorem clone_value (exp log sqrt : α → α) (heap : Nat → Option (PathType α))
    (x x1 : Payoff α) (p : PathType α) (hclone : x.atTime x.observationTime = .ok x1)
    (hanch : x.anchoredAt x.observationTime) (hp : heap p.addr = some p)
    (hc : x.coherent exp log sqrt heap) :
    (x1.atPath exp log sqrt p).1 = (x.atPath exp log sqrt p).1 := by
  have h := atTime_value exp log sqrt (fun _ => True) x.observationTime p x x1 hclone
  rw [atPath_fst exp log sqrt heap p hp x hc,
    atPath_fst exp log sqrt heap p hp x1
      (coherent_of_noMemoFor exp log sqrt heap _ (fun _ _ _ => trivial) x1 h.1)]
  exact h.2 hanch

theorem clone_value_witness :
    ((Payoff.Pay (.Cache (.Asset (2 : ℚ) "S" [] 0) none 0) 2).atPath (fun x => x) (fun x => x)
        (fun x => x) ((barrierSimulation ℚ).path (fun x => x) (fun x => x) 0 0)).1
      = ((Payoff.Pay (.Cache (.Asset (2 : ℚ) "S" [] 0) none 5) 2).atPath (fun x => x)
        (fun x => x) (fun x => x) ((barrierSimulation ℚ).path (fun x => x) (fun x => x) 0 0)).1 :=
  clone_value (fun x => x) (fun x => x) (fun x => x)
    (fun _ => some ((barrierSimulation ℚ).path (fun x => x) (fun x => x) 0 0))
    (.Pay (.Cache (.Asset 2 "S" [] 0) none 5) 2) (.Pay (.Cache (.Asset 2 "S" [] 0) none 0) 2)
    ((barrierSimulation ℚ).path (fun x => x) (fun x => x) 0 0)
    (by simp [Payoff.atTime, Payoff.observationTime, Payoff.mkAsset, addFixings, Payoff.mkCache])
    (by simp [Payoff.anchoredAt, Payoff.observationTime, addFixings])
    rfl
    (by simp [Payoff.coherent])

theorem legSum_congr (p q : PathType α) (obsTime : α) (weights : List α)
    (h : ∀ T, p.zeroBond obsTime T = q.zeroBond obsTime T) :
    ∀ (l : List α) (k : Nat) (res : α),
      legSum p obsTime weights l k res = legSum q obsTime weights l k res := by
  intro l
  induction l with
  | nil => intro k res; rfl
  | cons T rest ih =>
    intro k res
    simp only [legSum, h T]
    cases q.zeroBond obsTime T with
    | error e => rfl
    | ok P => exact ih _ _

mutual
theorem value_sameReads (exp log sqrt : α → α) (p q : PathType α) :
    ∀ x : Payoff α, x.noBarrier = true → (∀ t ∈ x.observationTimes, p.sameReadsAt q t) →
      x.value exp log sqrt p = x.value exp log sqrt q
  | .Clone _ x, hb, hr => by
    simp only [Payoff.value]
    exact value_sameReads exp log sqrt p q x (by simpa only [Payoff.noBarrier] using hb)
      (by simpa only [Payoff.observationTimes] using hr)
  | .FixedAmount _, _, _ => rfl
  | .Pay x payTime, hb, hr => by
    simp only [Payoff.value]
    exact value_sameReads exp log sqrt p q x (by simpa only [Payoff.noBarrier] using hb)
      (fun t ht => hr t (by simp [Payoff.observationTimes, ht]))
  | .Cash obsTime payTime, _, hr => by
    simp only [Payoff.value]
    exact (hr obsTime (by simp [Payoff.observationTimes])).2.1 payTime
  | .ZeroBond obsTime payTime a, _, hr => by
    simp only [Payoff.value]
    exact (hr obsTime (by simp [Payoff.observationTimes])).2.2.1 payTime a
  | .Asset obsTime a history fixed, _, hr => by
    simp only [Payoff.value]
    rw [(hr obsTime (by simp [Payoff.observationTimes])).2.2.2 a]
  | .AssetBarrierNoHit _ _ _ _ _ _, hb, _ => by simp [Payoff.noBarrier] at hb
  | .VanillaOption obsTime a strike callOrPut, _, hr => by
    simp only [Payoff.value]
    rw [(hr obsTime (by simp [Payoff.observationTimes])).2.2.2 a]
  | .Cache x _ _, hb, hr => by
    simp only [Payoff.value]
    exact value_sameReads exp log sqrt p q x (by simpa only [Payoff.noBarrier] using hb)
      (by simpa only [Payoff.observationTimes] using hr)
  | .Axpy a x none, hb, hr => by
    simp only [Payoff.value]
    rw [value_sameReads exp log sqrt p q x (by simpa only [Payoff.noBarrier] using hb)
      (by simpa only [Payoff.observationTimes] using hr)]
  | .Axpy a x (some y), hb, hr => by
    simp only [Payoff.noBarrier, Bool.and_eq_true] at hb
    simp only [Payoff.value]
    rw [value_sameReads exp log sqrt p q x hb.1
        (fun t ht => hr t (by simp [Payoff.observationTimes, ht])),
      value_sameReads exp log sqrt p q y hb.2
        (fun t ht => hr t (by simp [Payoff.observationTimes, ht]))]

  | .Mult x y, hb, hr => by
    simp only [Payoff.noBarrier, Bool.and_eq_true] at hb
    simp only [Payoff.value]
    rw [value_sameReads exp log sqrt p q x hb.1
        (fun t ht => hr t (by simp [Payoff.observationTimes, ht])),
      value_sameReads exp log sqrt p q y hb.2
        (fun t ht => hr t (by simp [Payoff.observationTimes, ht]))]

  | .Division x y, hb, hr => by
    simp only [Payoff.noBarrier, Bool.and_eq_true] at hb
    simp only [Payoff.value]
    rw [value_sameReads exp log sqrt p q x hb.1
        (fun t ht => hr t (by simp [Payoff.observationTimes, ht])),
      value_sameReads exp log sqrt p q y hb.2
        (fun t ht => hr t (by simp [Payoff.observationTimes, ht]))]

  | .Max x y, hb, hr => by
    simp only [Payoff.noBarrier, Bool.and_eq_true] at hb
    simp only [Payoff.value]
    rw [value_sameReads exp log sqrt p q x hb.1
        (fun t ht => hr t (by simp [Payoff.observationTimes, ht])),
      value_sameReads exp log sqrt p q y hb.2
        (fun t ht => hr t (by simp [Payoff.observationTimes, ht]))]

  | .Min x y, hb, hr => by
    simp only [Payoff.noBarrier, Bool.and_eq_true] at hb
    simp only [Payoff.value]
    rw [value_sameReads exp log sqrt p q x hb.1
        (fun t ht => hr t (by simp [Payoff.observationTimes, ht])),
      value_sameReads exp log sqrt p q y hb.2
        (fun t ht => hr t (by simp [Payoff.observationTimes, ht]))]

  | .Exponential x, hb, hr => by
    simp only [Payoff.value]
    rw [value_sameReads exp log sqrt p q x (by simpa only [Payoff.noBarrier] using hb)
      (by simpa only [Payoff.observationTimes] using hr)]

  | .Logarithm x, hb, hr => by
    simp only [Payoff.value]
    rw [value_sameReads exp log sqrt p q x (by simpa only [Payoff.noBarrier] using hb)
      (by simpa only [Payoff.observationTimes] using hr)]

  | .Squareroot x, hb, hr => by
    simp only [Payoff.value]
    rw [value_sameReads exp log sqrt p q x (by simpa only [Payoff.noBarrier] using hb)
      (by simpa only [Payoff.observationTimes] using hr)]

  | .Logical x y op, hb, hr => by
    simp only [Payoff.noBarrier, Bool.and_eq_true] at hb
    simp only [Payoff.value]
    rw [value_sameReads exp log sqrt p q x hb.1
        (fun t ht => hr t (by simp [Payoff.observationTimes, ht])),
      value_sameReads exp log sqrt p q y hb.2
        (fun t ht => hr t (by simp [Payoff.observationTimes, ht]))]
  | .IfThenElse x y z, hb, hr => by
    simp only [Payoff.noBarrier, Bool.and_eq_true] at hb
    simp only [Payoff.value]
    rw [value_sameReads exp log sqrt p q x hb.1.1
        (fun t ht => hr t (by simp [Payoff.observationTimes, ht])),
      value_sameReads exp log sqrt p q y hb.1.2
        (fun t ht => hr t (by simp [Payoff.observationTimes, ht])),
      value_sameReads exp log sqrt p q z hb.2
        (fun t ht => hr t (by simp [Payoff.observationTimes, ht]))]
  | .Basket underlyings weights rainbow, hb, hr => by
    simp only [Payoff.value]
    rw [valueList_sameReads exp log sqrt p q underlyings
      (by simpa only [Payoff.noBarrier] using hb)
      (by simpa only [Payoff.observationTimes] using hr)]
  | .GeneralSwaption obsTime floatTimes floatWeights fixedTimes fixedWeights _ _, _, hr => by
    have h := (hr obsTime (by simp [Payoff.observationTimes])).2.1
    simp only [Payoff.value, legSum_congr p q obsTime _ h]
  | .SwapRate obsTime floatTimes floatWeights fixedTimes fixedWeights _, _, hr => by
    have h := (hr obsTime (by simp [Payoff.observationTimes])).2.1
    simp only [Payoff.value, legSum_congr p q obsTime _ h]
theorem valueList_sameReads (exp log sqrt : α → α) (p q : PathType α) :
    ∀ l : List (Payoff α), Payoff.noBarrierList l = true →
      (∀ t ∈ Payoff.observationTimesList l, p.sameReadsAt q t) →
      Payoff.valueList exp log sqrt l p = Payoff.valueList exp log sqrt l q
  | [], _, _ => rfl
  | x :: rest, hb, hr => by
    simp only [Payoff.noBarrierList, Bool.and_eq_true] at hb
    simp only [Payoff.valueList]
    rw [value_sameReads exp log sqrt p q x hb.1
        (fun t ht => hr t (by simp [Payoff.observationTimesList, ht])),
      valueList_sameReads exp log sqrt p q rest hb.2
        (fun t ht => hr t (by simp [Payoff.observationTimesList, ht]))]
end

theorem barrierSimulation_zeroBond (α : Type) [LinearOrderedField α] (exp : α → α) (n : Nat)
    (hn : n < 2) (T : α) (a : String) :
    (Path.zeroBond exp (barrierSimulation α) n 0 T).1 = .ok 1 ∧
    (Path.zeroBond exp (barrierSimulation α) n 2 T).1 = .ok 1 ∧
    (Path.zeroBondAlias (barrierSimulation α) n 0 T a).1 = .ok 1 ∧
    (Path.zeroBondAlias (barrierSimulation α) n 2 T a).1 = .ok 1 := by
  have h : n = 0 ∨ n = 1 := by omega
  rcases h with rfl | rfl <;> refine ⟨?_, ?_, ?_, ?_⟩ <;>
    norm_num [Path.zeroBond, Path.zeroBondAlias, MCSimulationT.zcbAdjuster,
      MCSimulationT.zcbAdjusterAlias, MCSimulationT.state, barrierSimulation,
      MCSimulationT.build, MCSimulationT.reallocateMemory, buildObsTimes,
      TemplateAuxilliaries.idx, numAt, rowAt, assetProcess]

theorem barrierSimulation_sameReads (α : Type) [LinearOrderedField α] (exp log : α → α)
    (a0 a1 : Nat) (t : α) (ht : t = 0 ∨ t = 2) :
    ((barrierSimulation α).path exp log 0 a0).sameReadsAt
      ((barrierSimulation α).path exp log 1 a1) t := by
  have hN0 := barrierSimulation_numeraire α exp 0 (by decide)
  have hN1 := barrierSimulation_numeraire α exp 1 (by decide)
  have hA := barrierSimulation_asset α
  have hZ0 := barrierSimulation_zeroBond α exp 0 (by decide)
  have hZ1 := barrierSimulation_zeroBond α exp 1 (by decide)
  rcases ht with rfl | rfl
  · refine ⟨?_, fun T => ?_, fun T a => ?_, fun a => ?_⟩
    · simp only [MCSimulationT.path, hN0.1, hN1.1]
    · simp only [MCSimulationT.path, (hZ0 T "").1, (hZ1 T "").1]
    · simp only [MCSimulationT.path, (hZ0 T a).2.2.1, (hZ1 T a).2.2.1]
    · simp only [MCSimulationT.path, (hA a).1, (hA a).2.2.2.1]
  · refine ⟨?_, fun T => ?_, fun T a => ?_, fun a => ?_⟩
    · simp only [MCSimulationT.path, hN0.2.2, hN1.2.2]
    · simp only [MCSimulationT.path, (hZ0 T "").2.1, (hZ1 T "").2.1]
    · simp only [MCSimulationT.path, (hZ0 T a).2.2.2, (hZ1 T a).2.2.2]
    · simp only [MCSimulationT.path, (hA a).2.2.1, (hA a).2.2.2.2.2]

theorem barrierSimulation_barrier (idx_ : Nat) (hi : idx_ < 2) (down up side : ℝ) (a : String) :
    (Path.assetBarrierNoHit Real.exp Real.log (barrierSimulation ℝ) idx_ 0 2 down up side a).1
      = .ok (barrierValue Real.exp Real.log (Path.assetValue (barrierSimulation ℝ) idx_ a)
          (fun _ => 1) down up side [0, 1, 2] 0 0 1 0 0) := by
  have hA := barrierSimulation_asset ℝ a
  have h := assetBarrierNoHit_eq Real.exp Real.log (barrierSimulation ℝ)
    (by simp [MCSimulationT.cacheSorted, barrierSimulation, MCSimulationT.build,
      MCSimulationT.reallocateMemory]) idx_ 0 2 down up side a
    (by
      rw [barrierSimulation_times]
      intro u hu
      simp only [List.mem_cons, List.mem_singleton, List.not_mem_nil, or_false] at hu
      have hi2 : idx_ = 0 ∨ idx_ = 1 := by omega
      rcases hi2 with rfl | rfl <;> rcases hu with rfl | rfl | rfl
      · exact ⟨_, hA.1⟩
      · exact ⟨_, hA.2.1⟩
      · exact ⟨_, hA.2.2.1⟩
      · exact ⟨_, hA.2.2.2.1⟩
      · exact ⟨_, hA.2.2.2.2.1⟩
      · exact ⟨_, hA.2.2.2.2.2⟩)
  rw [h, barrierSimulation_times]
  have hv : Path.volatility (barrierSimulation ℝ) idx_ a = fun _ => 1 := by
    funext t
    simp [Path.volatility, barrierSimulation, MCSimulationT.build,
      MCSimulationT.reallocateMemory, assetProcess]
  rw [hv]

theorem barrierSimulation_assetValue (a : String) :
    Path.assetValue (barrierSimulation ℝ) 0 a 1 = 4 ∧
    Path.assetValue (barrierSimulation ℝ) 1 a 0 = 2 ∧
    Path.assetValue (barrierSimulation ℝ) 1 a 1 = 2 ∧
    Path.assetValue (barrierSimulation ℝ) 1 a 2 = 2 := by
  have hA := barrierSimulation_asset ℝ a
  exact ⟨(Path.asset_ok _ _ _ _ _ hA.2.1).2.2.symm, (Path.asset_ok _ _ _ _ _ hA.2.2.2.1).2.2.symm,
    (Path.asset_ok _ _ _ _ _ hA.2.2.2.2.1).2.2.symm,
    (Path.asset_ok _ _ _ _ _ hA.2.2.2.2.2).2.2.symm⟩

theorem upHit_lt_one :
    ¬ 2 * Real.log (3 / 2) * Real.log (3 / 2) < 0 ∧
      Real.exp (-(2 * Real.log (3 / 2) * Real.log (3 / 2))) < 1 := by
  have hL : 0 < Real.log (3 / 2) := Real.log_pos (by norm_num)
  have h2 : 0 < 2 * Real.log (3 / 2) * Real.log (3 / 2) := by positivity
  refine ⟨not_lt.2 h2.le, ?_⟩
  have : Real.exp (-(2 * Real.log (3 / 2) * Real.log (3 / 2))) < Real.exp 0 :=
    Real.exp_lt_exp.2 (by linarith)
  rwa [Real.exp_zero] at this

/-- C20 fails as stated: the node `AssetBarrierNoHit(0, 2, 1, 3, +1, "S")` has
the observation times 0 and 2, at which the reads of the two paths of the
simulation coincide; on the first path the asset is 4 at the grid time 1,
above the barrier 3, and `at(p)` returns 0, on the second path the asset stays
at 2 and `at(p)` returns a positive value. -/
theorem observationTimes_counterexample :
    (∀ t ∈ (Payoff.AssetBarrierNoHit (0 : ℝ) 2 1 3 1 "S").observationTimes,
      ((barrierSimulation ℝ).path Real.exp Real.log 0 0).sameReadsAt
        ((barrierSimulation ℝ).path Real.exp Real.log 1 1) t) ∧
    ((Payoff.AssetBarrierNoHit (0 : ℝ) 2 1 3 1 "S").atPath Real.exp Real.log Real.sqrt
        ((barrierSimulation ℝ).path Real.exp Real.log 0 0)).1 = .ok 0 ∧
    ∃ v, ((Payoff.AssetBarrierNoHit (0 : ℝ) 2 1 3 1 "S").atPath Real.exp Real.log Real.sqrt
        ((barrierSimulation ℝ).path Real.exp Real.log 1 1)).1 = .ok v ∧ 0 < v := by
  refine ⟨?_, ?_, ?_⟩
  · intro t ht
    simp only [Payoff.observationTimes, Finset.mem_insert, Finset.mem_singleton] at ht
    exact barrierSimulation_sameReads ℝ Real.exp Real.log 0 1 t ht
  · simp only [Payoff.atPath, Payoff.atPathFuel, Payoff.height, MCSimulationT.path,
      barrierSimulation_barrier 0 (by decide)]
    rw [barrierValue_breach Real.exp Real.log _ _ 1 3 1 1
      (Or.inr ⟨by norm_num, by rw [(barrierSimulation_assetValue "S").1]; norm_num⟩) [0, 1, 2]
      (by simp)]
  · have hS := barrierSimulation_assetValue "S"
    have hlt := upHit_lt_one
    refine ⟨barrierValue Real.exp Real.log (Path.assetValue (barrierSimulation ℝ) 1 "S")
      (fun _ => 1) 1 3 1 [0, 1, 2] 0 0 1 0 0, by
      simp only [Payoff.atPath, Payoff.atPathFuel, Payoff.height, MCSimulationT.path,
        barrierSimulation_barrier 1 (by decide)], ?_⟩
    norm_num [barrierValue, barrierHit, hS.2.1, hS.2.2.1, hS.2.2.2]
    rw [if_neg hlt.1]
    linarith [hlt.2]

/-- C20 (amended): for a tree without an `AssetBarrierNoHit` node whose
memoized values are right for the path objects alive, and for two path objects
whose reads (numeraire, zero bonds, assets) coincide at every time of
`x.observationTimes()`, `x.at(path)` returns the same on both. -/
theorem observationTimes_reads (exp log sqrt : α → α) (heap : Nat → Option (PathType α))
    (x : Payoff α) (p q : PathType α) (hb : x.noBarrier = true) (hp : heap p.addr = some p)
    (hq : heap q.addr = some q) (hc : x.coherent exp log sqrt heap)
    (hr : ∀ t ∈ x.observationTimes, p.sameReadsAt q t) :
    (x.atPath exp log sqrt p).1 = (x.atPath exp log sqrt q).1 := by
  rw [atPath_fst exp log sqrt heap p hp x hc, atPath_fst exp log sqrt heap q hq x hc]
  exact value_sameReads exp log sqrt p q x hb hr

theorem observationTimes_reads_witness :
    ((Payoff.Mult (.Asset (2 : ℚ) "S" [] 0) (.Cash 0 1)).atPath (fun x => x) (fun x => x)
        (fun x => x) ((barrierSimulation ℚ).path (fun x => x) (fun x => x) 0 0)).1
      = ((Payoff.Mult (.Asset (2 : ℚ) "S" [] 0) (.Cash 0 1)).atPath (fun x => x) (fun x => x)
        (fun x => x) ((barrierSimulation ℚ).path (fun x => x) (fun x => x) 1 1)).1 :=
  observationTimes_reads (fun x => x) (fun x => x) (fun x => x)
    (fun a => if a = 0 then some ((barrierSimulation ℚ).path (fun x => x) (fun x => x) 0 0)
      else some ((barrierSimulation ℚ).path (fun x => x) (fun x => x) 1 1))
    (.Mult (.Asset 2 "S" [] 0) (.Cash 0 1))
    ((barrierSimulation ℚ).path (fun x => x) (fun x => x) 0 0)
    ((barrierSimulation ℚ).path (fun x => x) (fun x => x) 1 1)
    (by simp [Payoff.noBarrier]) (by simp [MCSimulationT.path]) (by simp [MCSimulationT.path])
    (by simp [Payoff.coherent])
    (fun t ht => barrierSimulation_sameReads ℚ (fun x => x) (fun x => x) 0 1 t (by
      simp only [Payoff.observationTimes, Finset.mem_union, Finset.mem_singleton] at ht
      exact ht.symm))

end Clones

/-! ### Models, calibration frames and sliced re-runs -/

section Models

variable {α : Type} [LinearOrderedField α]

/-- C23: the placeholder members `futureAsset(t, T, Y, Z)`, `varianceFuture`,
`averageFuture`, `varianceAverageFuture` and `vanillaOption` of
`TwoFactorMeanReversionModelT` raise an error for every input; hence so do
`asset(t, X, alias)` and `futureAsset(t, T, X, alias)` on the model itself.
`QuasiGaussianModelT::shortRate(t0, dt, X0, X1)` raises for every input, and
so does `at(t)` on every node kind that inherits it from `MCPayoffT`
(`AssetBarrierNoHit`, `VanillaOption`, `Logical`, `IfThenElse`,
`GeneralSwaption`). -/
theorem placeholders_raise (m : TwoFactorMeanReversionModelT α) (q : QuasiGaussianModelT α) :
    (∀ t T Y Z, m.futureAssetYZ t T Y Z
      = .error "futureAsset() should be overloaded in derived classes") ∧
    (∀ s e u, m.varianceFuture s e u
      = .error "varianceFuture() should be overloaded in derived classes") ∧
    (∀ ts ws, m.averageFuture ts ws
      = .error "averageFuture() should be overloaded in derived classes") ∧
    (∀ e ts ws, m.varianceAverageFuture e ts ws
      = .error "varianceAverageFuture() should be overloaded in derived classes") ∧
    (∀ e ts ws k c, m.vanillaOption e ts ws k c
      = .error "vanillaOption() should be overloaded in derived classes") ∧
    (∀ t X a, m.asset t X a
      = .error "futureAsset() should be overloaded in derived classes") ∧
    (∀ t T X a, m.futureAsset t T X a
      = .error "futureAsset() should be overloaded in derived classes") ∧
    (∀ t0 dt X0 X1, q.shortRatePeriod t0 dt X0 X1
      = .error "QuasiGaussianModelT: shortRate not implemented") ∧
    (∀ (t tStart tEnd down up side : α) (a : String),
      (Payoff.AssetBarrierNoHit tStart tEnd down up side a).atTime t
        = .error "at(t) not implemented.") ∧
    (∀ (t obsTime strike callOrPut : α) (a : String),
      (Payoff.VanillaOption obsTime a strike callOrPut).atTime t
        = .error "at(t) not implemented.") ∧
    (∀ (t : α) (x y : Payoff α) (op : LogicalOp),
      (Payoff.Logical x y op).atTime t = .error "at(t) not implemented.") ∧
    (∀ (t : α) (x y z : Payoff α),
      (Payoff.IfThenElse x y z).atTime t = .error "at(t) not implemented.") ∧
    (∀ (t obsTime strike payOrRec : α) (ft fw xt xw : List α),
      (Payoff.GeneralSwaption obsTime ft fw xt xw strike payOrRec).atTime t
        = .error "at(t) not implemented.") := by
  refine ⟨fun _ _ _ _ => rfl, fun _ _ _ => rfl, fun _ _ => rfl, fun _ _ _ => rfl,
    fun _ _ _ _ _ => rfl, fun _ _ _ => rfl, fun _ _ _ _ => rfl, fun _ _ _ _ => rfl,
    ?_, ?_, ?_, ?_, ?_⟩
  · intros; simp only [Payoff.atTime]
  · intros; simp only [Payoff.atTime]
  · intros; simp only [Payoff.atTime]
  · intros; simp only [Payoff.atTime]
  · intros; simp only [Payoff.atTime]

/-- C30 does not hold for the code: on the two-factor model whose `sigma_xT`
has the rows (1, 1) and (0, 1), at `x = 0`, `y = 0`, `z = 1`, `s = 0`, the
y-block of `drift` is (1, 2, 0, 1), the entries of the matrix square
`sum_k sigma_xT[i][k] * sigma_xT[k][j]`, while the documented field
`sum_k sigma_xT[i][k] * sigma_xT[j][k]` gives (2, 1, 1, 1). -/
theorem drift_y_block_not_documented :
    (skewModel ℚ).drift 0 [0, 0, 0, 0, 0, 0, 1, 0] = .ok [0, 0, 1, 2, 0, 1, 0, 0] ∧
      (skewModel ℚ).documentedDrift 0 [0, 0, 0, 0, 0, 0, 1, 0]
        = .ok [0, 0, 2, 1, 1, 1, 0, 0] := by
  constructor <;>
    norm_num [QuasiGaussianModelT.drift, QuasiGaussianModelT.documentedDrift,
      QuasiGaussianModelT.State.ofVec, QuasiGaussianModelT.shortRate, skewModel, numAt, rowAt,
      List.range_succ, List.flatMap]

/-- C29 does not hold for the code: the node `Asset(-1, "S")` built with the
fixings (-3, 10), (-2, 20) has the latest fixing date not after -1 at -2, with
the value 20; the search loop of `addFixings` never looks at the last entry of
the sorted history, the constructor stores the value 10 of the date -3, and
`at(p)` returns 10 on every path. -/
theorem asset_fixing_not_latest (exp log sqrt : ℚ → ℚ) (p : PathType ℚ) :
    Payoff.mkAsset (-1 : ℚ) "S" [(-3, 10), (-2, 20)]
        = .ok (.Asset (-1) "S" [(-3, 10), (-2, 20)] 10) ∧
      ((Payoff.Asset (-1 : ℚ) "S" [(-3, 10), (-2, 20)] 10).atPath exp log sqrt p).1
        = .ok 10 := by
  constructor
  · norm_num [Payoff.mkAsset, addFixings, fixingDatesAscending, findFixing, List.insertionSort,
      List.orderedInsert]
  · norm_num [Payoff.atPath, Payoff.atPathFuel, Payoff.height]

theorem legSum_eq (p : PathType α) (obsTime : α) (weights : List α) (P : α → α) :
    ∀ (times : List α) (k : Nat) (res : α),
      (∀ T ∈ times, p.zeroBond obsTime T = .ok (P T)) →
      legSum p obsTime weights times k res
        = .ok (res + ∑ i ∈ Finset.range times.length,
            numAt weights (k + i) * P (numAt times i)) := by
  intro times
  induction times with
  | nil => intro k res _; simp [legSum]
  | cons T rest ih =>
    intro k res h
    rw [legSum, h T (List.mem_cons_self _ _)]
    simp only
    rw [ih (k + 1) _ (fun U hU => h U (List.mem_cons_of_mem _ hU)), List.length_cons,
      Finset.sum_range_succ']
    simp only [numAt_cons_succ, numAt_cons_zero, Nat.add_zero, Except.ok.injEq]
    have : ∀ i, k + 1 + i = k + (i + 1) := fun i => by omega
    simp only [this]
    ring

/-- C22: for a `GeneralSwaption` accepted by its constructor and a path whose
zero bonds `P(T) = p->zeroBond(observationTime(), T)` can be read at the float
and the fixed times, `at(p)` returns
`max(payOrRec * (sum_k floatWeights[k] * P(floatTimes[k])
  - strikeRate * sum_k fixedWeights[k] * P(fixedTimes[k])), 0)`,
which is not negative. -/
theorem generalSwaption_value (exp log sqrt : α → α) (obsTime : α)
    (floatTimes floatWeights fixedTimes fixedWeights : List α) (strikeRate payOrRec : α)
    (x : Payoff α) (p : PathType α) (P : α → α)
    (hx : Payoff.mkGeneralSwaption obsTime floatTimes floatWeights fixedTimes fixedWeights
      strikeRate payOrRec = .ok x)
    (hP : ∀ T, T ∈ floatTimes ∨ T ∈ fixedTimes → p.zeroBond obsTime T = .ok (P T)) :
    ∃ v, (x.atPath exp log sqrt p).1 = .ok v ∧
      v = max (payOrRec * ((∑ k ∈ Finset.range floatTimes.length,
            numAt floatWeights k * P (numAt floatTimes k))
          - strikeRate * ∑ k ∈ Finset.range fixedTimes.length,
            numAt fixedWeights k * P (numAt fixedTimes k))) 0 ∧
      0 ≤ v := by
  unfold Payoff.mkGeneralSwaption at hx
  cases hc : checkForConsistency floatTimes floatWeights fixedTimes fixedWeights with
  | error e => simp [hc] at hx
  | ok u =>
    simp only [hc, Except.ok.injEq] at hx
    subst hx
    refine ⟨_, ?_, rfl, le_max_right _ _⟩
    simp only [Payoff.atPath, Payoff.height, Payoff.atPathFuel,
      legSum_eq p obsTime _ P floatTimes 0 0 (fun T hT => hP T (Or.inl hT)),
      legSum_eq p obsTime _ P fixedTimes 0 0 (fun T hT => hP T (Or.inr hT)),
      zero_add, Except.ok.injEq]
    rw [mul_comm payOrRec]
    rcases le_or_lt ((∑ i ∈ Finset.range floatTimes.length,
        numAt floatWeights i * P (numAt floatTimes i)
      - strikeRate * ∑ i ∈ Finset.range fixedTimes.length,
        numAt fixedWeights i * P (numAt fixedTimes i)) * payOrRec) 0 with h | h
    · rw [if_neg (not_lt.2 h), max_eq_right h]
    · rw [if_pos h, max_eq_left h.le]

theorem generalSwaption_value_witness :
    ((Payoff.GeneralSwaption (0 : ℚ) [1] [1] [1] [1] 0 1).atPath (fun x => x) (fun x => x)
        (fun x => x) ((bondSimulation ℚ).path (fun x => x) (fun x => x) 0 0)).1
      = .ok (19 / 20) := by
  obtain ⟨v, h1, h2, -⟩ := generalSwaption_value (fun x => x) (fun x => x) (fun x => x)
    (0 : ℚ) [1] [1] [1] [1] 0 1 (.GeneralSwaption 0 [1] [1] [1] [1] 0 1)
    ((bondSimulation ℚ).path (fun x => x) (fun x => x) 0 0) (fun _ => 19 / 20)
    (by norm_num [Payoff.mkGeneralSwaption, checkForConsistency, timesNotDescending, numAt])
    (by
      intro T hT
      have hT1 : T = 1 := by simpa using hT
      subst hT1
      norm_num [MCSimulationT.path, Path.zeroBond, MCSimulationT.zcbAdjuster, MCSimulationT.state,
        bondSimulation, bondProcess, unitProcess, MCSimulationT.build,
        MCSimulationT.reallocateMemory, buildObsTimes, TemplateAuxilliaries.idx, numAt, rowAt])
  rw [h1, h2]
  norm_num [numAt]

theorem set_numAt_same (X : List α) (k : Nat) : X.set k (numAt X k) = X := by
  apply List.ext_getElem (by simp)
  intro i h1 h2
  rw [List.getElem_set]
  split_ifs with h
  · subst h
    exact numAt_eq_getElem X k h2
  · rfl

theorem clampEntry_eq (lo hi : α) (hle : lo ≤ hi) (b : Bool) (X : List α) (k : Nat)
    (hk : k < X.length) :
    clampEntry lo hi (b, X) k = (b, X) ∧ lo ≤ numAt X k ∧ numAt X k ≤ hi ∨
      ∃ c, clampEntry lo hi (b, X) k = (true, X.set k c) ∧ c ≠ numAt X k ∧ lo ≤ c ∧ c ≤ hi := by
  unfold clampEntry
  by_cases h1 : numAt X k < lo
  · right
    refine ⟨lo, ?_, ne_of_gt h1, le_rfl, hle⟩
    have hn : numAt (X.set k lo) k = lo := by rw [numAt_set, if_pos ⟨rfl, hk⟩]
    simp only [h1, if_true, hn, gt_iff_lt, not_lt.2 hle, if_false]
  · by_cases h2 : numAt X k > hi
    · right
      refine ⟨hi, ?_, ne_of_lt h2, hle, le_rfl⟩
      simp only [h1, if_false, h2, if_true]
    · left
      simp only [h1, if_false, h2]
      exact ⟨trivial, not_lt.1 h1, not_lt.1 h2⟩

theorem clampFold (ops : List (Nat × α × α)) :
    (ops.map (·.1)).Nodup → (∀ op ∈ ops, op.2.1 ≤ op.2.2) →
    ∀ (b : Bool) (X : List α), (∀ op ∈ ops, op.1 < X.length) →
      (ops.foldl (fun st op => clampEntry op.2.1 op.2.2 st op.1) (b, X)).2.length = X.length ∧
      (∀ j, j ∉ ops.map (·.1) →
        numAt (ops.foldl (fun st op => clampEntry op.2.1 op.2.2 st op.1) (b, X)).2 j
          = numAt X j) ∧
      (∀ op ∈ ops,
        op.2.1 ≤ numAt (ops.foldl (fun st op => clampEntry op.2.1 op.2.2 st op.1) (b, X)).2 op.1 ∧
        numAt (ops.foldl (fun st op => clampEntry op.2.1 op.2.2 st op.1) (b, X)).2 op.1
          ≤ op.2.2) ∧
      ((ops.foldl (fun st op => clampEntry op.2.1 op.2.2 st op.1) (b, X)).1 = true ↔
        b = true ∨ (ops.foldl (fun st op => clampEntry op.2.1 op.2.2 st op.1) (b, X)).2 ≠ X) ∧
      ((∀ op ∈ ops, op.2.1 ≤ numAt X op.1 ∧ numAt X op.1 ≤ op.2.2) →
        ops.foldl (fun st op => clampEntry op.2.1 op.2.2 st op.1) (b, X) = (b, X)) := by
  induction ops with
  | nil =>
    intro _ _ b X _
    exact ⟨rfl, fun _ _ => rfl, fun _ h => absurd h (List.not_mem_nil _),
      ⟨fun h => Or.inl h, fun h => h.elim id fun h => absurd rfl h⟩, fun _ => rfl⟩
  | cons op rest ih =>
    intro hnd hle b X hlen
    rw [List.map_cons, List.nodup_cons] at hnd
    have hk := hlen op (List.mem_cons_self _ _)
    have ihr := ih hnd.2 (fun o ho => hle o (List.mem_cons_of_mem _ ho))
    rw [List.foldl_cons]
    rcases clampEntry_eq op.2.1 op.2.2 (hle op (List.mem_cons_self _ _)) b X op.1 hk with
      ⟨h1, hlo, hhi⟩ | ⟨c, h1, hc, hlo, hhi⟩
    · rw [h1]
      obtain ⟨r1, r2, r3, r4, r5⟩ := ihr b X (fun o ho => hlen o (List.mem_cons_of_mem _ ho))
      refine ⟨r1, fun j hj => r2 j fun h => hj (List.mem_cons_of_mem _ h), ?_, r4, ?_⟩
      · intro o ho
        rcases List.mem_cons.1 ho with rfl | ho
        · rw [r2 _ hnd.1]
          exact ⟨hlo, hhi⟩
        · exact r3 o ho
      · intro hall
        exact r5 fun o ho => hall o (List.mem_cons_of_mem _ ho)
    · rw [h1]
      obtain ⟨r1, r2, r3, r4, -⟩ := ihr true (X.set op.1 c)
        (fun o ho => by rw [List.length_set]; exact hlen o (List.mem_cons_of_mem _ ho))
      have hkeep : numAt (rest.foldl (fun st op => clampEntry op.2.1 op.2.2 st op.1)
          (true, X.set op.1 c)).2 op.1 = c := by
        rw [r2 _ hnd.1, numAt_set, if_pos ⟨rfl, hk⟩]
      refine ⟨by rw [r1, List.length_set], ?_, ?_, ?_, ?_⟩
      · intro j hj
        rw [List.map_cons, List.mem_cons, not_or] at hj
        rw [r2 j hj.2, numAt_set, if_neg fun h => hj.1 h.1.symm]
      · intro o ho
        rcases List.mem_cons.1 ho with rfl | ho
        · rw [hkeep]
          exact ⟨hlo, hhi⟩
        · exact r3 o ho
      · refine ⟨fun _ => Or.inr fun heq => hc ?_, fun _ => r4.2 (Or.inl rfl)⟩
        rw [← hkeep, heq]
      · intro hall
        exfalso
        have h0 := hall op (List.mem_cons_self _ _)
        unfold clampEntry at h1
        simp only [not_lt.2 h0.1, if_false, not_lt.2 h0.2] at h1
        have h2 : numAt (X.set op.1 c) op.1 = numAt X op.1 := by rw [← (Prod.mk.inj h1).2]
        rw [numAt_set, if_pos ⟨rfl, hk⟩] at h2
        exact hc h2

theorem truncate_eq_fold (m : QuasiGaussianModelT α) (t : α) (X : List α) :
    m.truncate t X
      = m.truncateOps.foldl (fun st op => clampEntry op.2.1 op.2.2 st op.1) (false, X) := by
  unfold QuasiGaussianModelT.truncate QuasiGaussianModelT.truncateOps
  dsimp only
  split_ifs <;> simp [List.foldl_append, List.foldl_map]

theorem truncateOps_keys (m : QuasiGaussianModelT α) :
    (m.truncateOps.map (·.1)).Sublist (List.range (m.d_ + m.d_ * m.d_ + 1)) := by
  have hr : List.range (m.d_ + m.d_ * m.d_ + 1)
      = List.range m.d_ ++ (List.range (m.d_ * m.d_)).map (· + m.d_)
        ++ [m.d_ + m.d_ * m.d_] := by
    rw [List.range_succ, List.range_add]
    simp only [Nat.add_comm]
  rw [hr]
  unfold QuasiGaussianModelT.truncateOps
  rw [List.map_append, List.map_append]
  refine List.Sublist.append (List.Sublist.append ?_ ?_) ?_
  · split_ifs
    · simp [List.map_map, Function.comp_def]
    · simp
  · split_ifs
    · simp [List.map_map, Function.comp_def]
    · simp
  · split_ifs
    · simp
    · simp

theorem truncateOps_bounds (m : QuasiGaussianModelT α) :
    ∀ op ∈ m.truncateOps, op.2.1 ≤ op.2.2 := by
  intro op hop
  unfold QuasiGaussianModelT.truncateOps at hop
  simp only [List.mem_append] at hop
  rcases hop with (hop | hop) | hop
  · split_ifs at hop with h
    · obtain ⟨k, -, rfl⟩ := List.mem_map.1 hop
      exact (neg_nonpos.2 h.le).trans h.le
    · simp at hop
  · split_ifs at hop with h
    · obtain ⟨k, -, rfl⟩ := List.mem_map.1 hop
      exact (neg_nonpos.2 h.le).trans h.le
    · simp at hop
  · split_ifs at hop with h
    · rw [List.mem_singleton] at hop
      subst hop
      exact h.le
    · simp at hop

/-- C24: on a state vector of the size of the model, `truncate(t, X)` returns
`true` exactly when it changed `X`, and a second call on its own output
returns `false` and leaves the vector as it is. -/
theorem truncate_flag_idempotent (m : QuasiGaussianModelT α) (t t2 : α) (X : List α)
    (hX : X.length = m.size) :
    ((m.truncate t X).1 = true ↔ (m.truncate t X).2 ≠ X) ∧
      m.truncate t2 (m.truncate t X).2 = (false, (m.truncate t X).2) := by
  have hsub := truncateOps_keys m
  have hnd : (m.truncateOps.map (·.1)).Nodup := (List.nodup_range _).sublist hsub
  have hlt : ∀ (Y : List α), Y.length = X.length → ∀ op ∈ m.truncateOps, op.1 < Y.length := by
    intro Y hY op hop
    have := List.mem_range.1 (hsub.subset (List.mem_map_of_mem (·.1) hop))
    rw [hY, hX]
    unfold QuasiGaussianModelT.size
    omega
  obtain ⟨r1, -, r3, r4, -⟩ := clampFold m.truncateOps hnd (truncateOps_bounds m) false X
    (hlt X rfl)
  rw [truncate_eq_fold m t2, truncate_eq_fold m t]
  refine ⟨?_, ?_⟩
  · rw [r4]
    simp
  · exact (clampFold m.truncateOps hnd (truncateOps_bounds m) false _ (hlt _ r1)).2.2.2.2 r3

theorem truncate_flag_idempotent_witness :
    (((limitedModel ℚ).truncate 0 [5, -7, 9, 0]).1 = true ↔
        ((limitedModel ℚ).truncate 0 [5, -7, 9, 0]).2 ≠ [5, -7, 9, 0]) ∧
      (limitedModel ℚ).truncate 1 ((limitedModel ℚ).truncate 0 [5, -7, 9, 0]).2
        = (false, ((limitedModel ℚ).truncate 0 [5, -7, 9, 0]).2) :=
  truncate_flag_idempotent (limitedModel ℚ) 0 1 [5, -7, 9, 0] rfl

theorem limitedModel_truncate :
    (limitedModel ℚ).truncate 0 [5, -7, 9, 0] = (true, [2, -3, 4, 0]) := by
  norm_num [QuasiGaussianModelT.truncate, limitedModel, List.range_succ, clampEntry, numAt]

theorem barrierValue_product (exp log : α → α) (S sigma : α → α) (down up side : α) :
    ∀ (L : List α) (k : Nat) (tPrev noHit S2 sigma2 : α),
      (∀ t ∈ L, ¬ (side ≤ 0 ∧ S t ≤ down) ∧ ¬ (side ≥ 0 ∧ S t ≥ up)) →
      (k ≠ 0 → S2 = S tPrev ∧ sigma2 = sigma tPrev) →
      barrierValue exp log S sigma down up side L k tPrev noHit S2 sigma2
        = noHit * (if k = 0 then
            noHitProduct (fun S1 S2 v => 1 - barrierHit exp log down up side S1 S2 v) S sigma L
          else
            noHitProduct (fun S1 S2 v => 1 - barrierHit exp log down up side S1 S2 v) S sigma
              (tPrev :: L)) := by
  intro L
  induction L with
  | nil =>
    intro k tPrev noHit S2 sigma2 _ _
    rw [barrierValue]
    split_ifs <;> simp [noHitProduct]
  | cons t rest ih =>
    intro k tPrev noHit S2 sigma2 hno hk
    have h0 := hno t (List.mem_cons_self _ _)
    have hrest : ∀ u ∈ rest, ¬ (side ≤ 0 ∧ S u ≤ down) ∧ ¬ (side ≥ 0 ∧ S u ≥ up) :=
      fun u hu => hno u (List.mem_cons_of_mem _ hu)
    rw [barrierValue, if_neg h0.1, if_neg h0.2]
    by_cases hk0 : k = 0
    · rw [if_pos hk0, if_pos hk0, ih (k + 1) t noHit (S t) (sigma t) hrest
        (fun _ => ⟨rfl, rfl⟩), if_neg (Nat.succ_ne_zero k)]
    · rw [if_neg hk0, if_neg hk0, ih (k + 1) t _ (S t) (sigma t) hrest (fun _ => ⟨rfl, rfl⟩),
        if_neg (Nat.succ_ne_zero k), (hk hk0).1, (hk hk0).2]
      simp only [noHitProduct]
      ring

theorem downHit_le_one (down S1 S2 v : ℝ) (hd : 0 < down) (h1 : down < S1) (h2 : down < S2)
    (hv : 0 < v) : Real.exp (-2 * Real.log (down / S1) * Real.log (down / S2) / v) ≤ 1 := by
  have l1 : Real.log (down / S1) < 0 :=
    Real.log_neg (div_pos hd (hd.trans h1)) ((div_lt_one (hd.trans h1)).2 h1)
  have l2 : Real.log (down / S2) < 0 :=
    Real.log_neg (div_pos hd (hd.trans h2)) ((div_lt_one (hd.trans h2)).2 h2)
  rw [← Real.exp_zero]
  apply Real.exp_le_exp.2
  apply div_nonpos_of_nonpos_of_nonneg _ hv.le
  nlinarith [mul_pos_of_neg_of_neg l1 l2]

theorem upHit_le_one (up S1 S2 v : ℝ) (h1 : 0 < S1) (h2 : 0 < S2) (h3 : S1 < up) (h4 : S2 < up)
    (hv : 0 < v) : Real.exp (-2 * Real.log (up / S1) * Real.log (up / S2) / v) ≤ 1 := by
  have l1 : 0 < Real.log (up / S1) := Real.log_pos ((one_lt_div h1).2 h3)
  have l2 : 0 < Real.log (up / S2) := Real.log_pos ((one_lt_div h2).2 h4)
  rw [← Real.exp_zero]
  apply Real.exp_le_exp.2
  apply div_nonpos_of_nonpos_of_nonneg _ hv.le
  nlinarith [mul_pos l1 l2]

/-- C26 (amended): when the asset can be read at every node of the barrier
loop and no node breaches an active barrier, `assetBarrierNoHit` returns the
product over the sub-intervals between consecutive nodes of `1 - hit`, where
`hit` is the sum over the active sides `B` of
`exp(-2 ln(B/S1) ln(B/S2) / variance)`, capped at 1, with
`variance = (sigma1^2 + sigma2^2) * (t2 - t1) / 2`.  With the down side alone
(on a positive barrier below both asset values and a positive variance) the
factor is `1 - hitDown`, with the up side alone (both asset values positive and
below the barrier) it is `1 - hitUp`, and with both sides active it is
`1 - min(1, hitDown + hitUp)`. -/
theorem assetBarrierNoHit_factors (sim : MCSimulationT ℝ) (hc : sim.cacheSorted) (idx_ : Nat)
    (tStart tEnd down up side : ℝ) (a : String)
    (hreads : ∀ u ∈ Path.barrierTimes sim tStart tEnd, ∃ v, (Path.asset sim idx_ u a).1 = .ok v)
    (hno : ∀ t ∈ Path.barrierTimes sim tStart tEnd,
      ¬ (side ≤ 0 ∧ Path.assetValue sim idx_ a t ≤ down) ∧
        ¬ (side ≥ 0 ∧ Path.assetValue sim idx_ a t ≥ up)) :
    (Path.assetBarrierNoHit Real.exp Real.log sim idx_ tStart tEnd down up side a).1
        = .ok (noHitProduct
            (fun S1 S2 v => 1 - barrierHit Real.exp Real.log down up side S1 S2 v)
            (Path.assetValue sim idx_ a) (Path.volatility sim idx_ a)
            (Path.barrierTimes sim tStart tEnd)) ∧
      (∀ S1 S2 v, side < 0 → 0 < down → down < S1 → down < S2 → 0 < v →
        barrierHit Real.exp Real.log down up side S1 S2 v
          = Real.exp (-2 * Real.log (down / S1) * Real.log (down / S2) / v)) ∧
      (∀ S1 S2 v, 0 < side → 0 < S1 → 0 < S2 → S1 < up → S2 < up → 0 < v →
        barrierHit Real.exp Real.log down up side S1 S2 v
          = Real.exp (-2 * Real.log (up / S1) * Real.log (up / S2) / v)) ∧
      (∀ S1 S2 v, side = 0 →
        barrierHit Real.exp Real.log down up side S1 S2 v
          = min 1 (Real.exp (-2 * Real.log (down / S1) * Real.log (down / S2) / v)
              + Real.exp (-2 * Real.log (up / S1) * Real.log (up / S2) / v))) := by
  refine ⟨?_, ?_, ?_, ?_⟩
  · rw [assetBarrierNoHit_eq Real.exp Real.log sim hc idx_ tStart tEnd down up side a hreads,
      barrierValue_product Real.exp Real.log _ _ down up side _ 0 0 1 0 0 hno
        (fun h => absurd rfl h)]
    simp
  · intro S1 S2 v hs hd h1 h2 hv
    have hle := downHit_le_one down S1 S2 v hd h1 h2 hv
    unfold barrierHit
    simp only [hs.le, if_true, zero_add, ge_iff_le, not_le.2 hs, if_false, gt_iff_lt,
      not_lt.2 hle]
  · intro S1 S2 v hs h1 h2 h3 h4 hv
    have hle := upHit_le_one up S1 S2 v h1 h2 h3 h4 hv
    unfold barrierHit
    simp only [not_le.2 hs, if_false, ge_iff_le, hs.le, if_true, zero_add, gt_iff_lt,
      not_lt.2 hle]
  · intro S1 S2 v hs
    subst hs
    unfold barrierHit
    simp only [le_refl, if_true, zero_add, ge_iff_le, gt_iff_lt]
    split_ifs with h
    · exact (min_eq_left h.le).symm
    · exact (min_eq_right (not_lt.1 h)).symm

theorem barrierSimulation_reads_real (idx_ : Nat) (hi : idx_ < 2) (a : String) :
    ∀ u ∈ Path.barrierTimes (barrierSimulation ℝ) 0 2,
      ∃ v, (Path.asset (barrierSimulation ℝ) idx_ u a).1 = .ok v := by
  have hA := barrierSimulation_asset ℝ a
  rw [barrierSimulation_times]
  intro u hu
  simp only [List.mem_cons, List.mem_singleton, List.not_mem_nil, or_false] at hu
  have hi2 : idx_ = 0 ∨ idx_ = 1 := by omega
  rcases hi2 with rfl | rfl <;> rcases hu with rfl | rfl | rfl
  · exact ⟨_, hA.1⟩
  · exact ⟨_, hA.2.1⟩
  · exact ⟨_, hA.2.2.1⟩
  · exact ⟨_, hA.2.2.2.1⟩
  · exact ⟨_, hA.2.2.2.2.1⟩
  · exact ⟨_, hA.2.2.2.2.2⟩

theorem barrierSimulation_volatility (idx_ : Nat) (a : String) (t : ℝ) :
    Path.volatility (barrierSimulation ℝ) idx_ a t = 1 := by
  simp [Path.volatility, barrierSimulation, MCSimulationT.build,
    MCSimulationT.reallocateMemory, assetProcess]

theorem bothSides_factor_lt (v : ℝ) (hv : 0 < v) :
    0 ≤ 1 - barrierHit Real.exp Real.log 1 4 0 2 2 v ∧
      1 - barrierHit Real.exp Real.log 1 4 0 2 2 v
        < barrierFactorSpec Real.exp Real.log 1 4 0 2 2 v := by
  have hd1 : Real.exp (-2 * Real.log (1 / 2) * Real.log (1 / 2) / v) < 1 := by
    have l : Real.log (1 / 2) < 0 := Real.log_neg (by norm_num) (by norm_num)
    have hneg : -2 * Real.log (1 / 2) * Real.log (1 / 2) / v < 0 :=
      div_neg_of_neg_of_pos (by nlinarith [mul_pos_of_neg_of_neg l l]) hv
    have h := Real.exp_lt_exp.2 hneg
    rwa [Real.exp_zero] at h
  have hu1 : Real.exp (-2 * Real.log (4 / 2) * Real.log (4 / 2) / v) < 1 := by
    have l : 0 < Real.log (4 / 2) := Real.log_pos (by norm_num)
    have hneg : -2 * Real.log (4 / 2) * Real.log (4 / 2) / v < 0 :=
      div_neg_of_neg_of_pos (by nlinarith [mul_pos l l]) hv
    have h := Real.exp_lt_exp.2 hneg
    rwa [Real.exp_zero] at h
  have hd0 := Real.exp_pos (-2 * Real.log (1 / 2) * Real.log (1 / 2) / v)
  have hu0 := Real.exp_pos (-2 * Real.log (4 / 2) * Real.log (4 / 2) / v)
  unfold barrierHit barrierFactorSpec
  simp only [le_refl, if_true, zero_add, ge_iff_le, gt_iff_lt]
  split_ifs with h
  · exact ⟨by norm_num, by nlinarith [mul_pos (sub_pos.2 hd1) (sub_pos.2 hu1)]⟩
  · exact ⟨by linarith [not_lt.1 h], by nlinarith [mul_pos hd0 hu0]⟩

/-- C26 fails as stated: on the second path of the simulation (asset 2 at the
nodes 0, 1, 2, volatility 1) with the barriers 1 and 4, both active, the value
of `assetBarrierNoHit` is below the product of the factors
`(1 - hitDown) * (1 - hitUp)`: the loop adds the two hit probabilities and
multiplies by `1 - min(1, hitDown + hitUp)`. -/
theorem assetBarrierNoHit_both_sides_counterexample :
    ∃ v, (Path.assetBarrierNoHit Real.exp Real.log (barrierSimulation ℝ) 1 0 2 1 4 0 "S").1
        = .ok v ∧
      v < noHitProduct (barrierFactorSpec Real.exp Real.log 1 4 0)
          (Path.assetValue (barrierSimulation ℝ) 1 "S")
          (Path.volatility (barrierSimulation ℝ) 1 "S")
          (Path.barrierTimes (barrierSimulation ℝ) 0 2) := by
  have hS := barrierSimulation_assetValue "S"
  have hcs : (barrierSimulation ℝ).cacheSorted := by
    simp [MCSimulationT.cacheSorted, barrierSimulation, MCSimulationT.build,
      MCSimulationT.reallocateMemory]
  refine ⟨_, assetBarrierNoHit_eq Real.exp Real.log (barrierSimulation ℝ) hcs 1 0 2 1 4 0 "S"
    (barrierSimulation_reads_real 1 (by decide) "S"), ?_⟩
  rw [barrierSimulation_times,
    barrierValue_product Real.exp Real.log _ _ 1 4 0 [0, 1, 2] 0 0 1 0 0
      (by
        intro t ht
        simp only [List.mem_cons, List.mem_singleton, List.not_mem_nil, or_false] at ht
        rcases ht with rfl | rfl | rfl
        · rw [hS.2.1]; norm_num
        · rw [hS.2.2.1]; norm_num
        · rw [hS.2.2.2]; norm_num)
      (fun h => absurd rfl h)]
  simp only [if_true, one_mul, noHitProduct, mul_one, hS.2.1, hS.2.2.1, hS.2.2.2,
    barrierSimulation_volatility]
  have h1 := bothSides_factor_lt ((1 + 1) * (1 - 0) / 2) (by norm_num)
  have h2 := bothSides_factor_lt ((1 + 1) * (2 - 1) / 2) (by norm_num)
  exact mul_lt_mul'' h1.2 h2.2 h1.1 h2.1

theorem assetBarrierNoHit_factors_witness :
    (Path.assetBarrierNoHit Real.exp Real.log (barrierSimulation ℝ) 1 0 2 1 3 1 "S").1
      = .ok (noHitProduct (fun S1 S2 v => 1 - barrierHit Real.exp Real.log 1 3 1 S1 S2 v)
          (Path.assetValue (barrierSimulation ℝ) 1 "S")
          (Path.volatility (barrierSimulation ℝ) 1 "S")
          (Path.barrierTimes (barrierSimulation ℝ) 0 2)) :=
  (assetBarrierNoHit_factors (barrierSimulation ℝ)
    (by simp [MCSimulationT.cacheSorted, barrierSimulation, MCSimulationT.build,
      MCSimulationT.reallocateMemory])
    1 0 2 1 3 1 "S" (barrierSimulation_reads_real 1 (by decide) "S")
    (by
      have hS := barrierSimulation_assetValue "S"
      rw [barrierSimulation_times]
      intro t ht
      simp only [List.mem_cons, List.mem_singleton, List.not_mem_nil, or_false] at ht
      rcases ht with rfl | rfl | rfl
      · rw [hS.2.1]; norm_num
      · rw [hS.2.2.1]; norm_num
      · rw [hS.2.2.2]; norm_num)).1

set_option maxHeartbeats 2000000 in
theorem barrierSimulation_calibrated :
    ((barrierSimulation ℚ).calculateAssetAdjuster (fun x => x) [0, 1] ["A", "B"]).1 = .ok () ∧
    ((barrierSimulation ℚ).calculateAssetAdjuster (fun x => x) [0, 1] ["A", "B"]).2.assetAdjuster_
      = [[-1, -2], [-1, -2]] ∧
    ((barrierSimulation ℚ).calculateAssetAdjuster (fun x => x) [0, 1] ["A", "B"]).2.assetIndex_
      = [("A", 0), ("B", 1)] := by
  refine ⟨rfl, ?_, rfl⟩
  · (norm_num [MCSimulationT.calculateAssetAdjuster, barrierSimulation, MCSimulationT.build,
      MCSimulationT.reallocateMemory, buildObsTimes, ascendingCheck, numAt, forLoop,
      List.range_succ, MCSimulationT.nPaths, MCSimulationT.assetAdjusterRow,
      MCSimulationT.assetAdjusterTime, MCSimulationT.assetAdjusterStep, mapAssign,
      state_def, TemplateAuxilliaries.idx, rowAt, MCSimulationT.numeraireAdjuster, assetProcess,
      (by decide : ¬ "A" = "B")]
     rfl)

theorem forLoop_invariant {σ : Type} (body : Nat → σ → Except String Unit × σ) (P : σ → Prop)
    (hstep : ∀ i s, P s → P (body i s).2) :
    ∀ (l : List Nat) (s : σ), P s → P (forLoop body l s).2 := by
  intro l
  induction l with
  | nil => intro s hs; exact hs
  | cons i rest ih =>
    intro s hs
    rw [forLoop]
    have h := hstep i s hs
    have hpair : body i s = ((body i s).1, (body i s).2) := rfl
    rw [hpair]
    cases (body i s).1 with
    | error e => exact h
    | ok u => exact ih _ h

theorem mapAssign_keys (m : List (String × Nat)) (key : String) (v : Nat) :
    (∀ k ∈ m.map Prod.fst, k ∈ (mapAssign m key v).map Prod.fst) ∧
      key ∈ (mapAssign m key v).map Prod.fst := by
  unfold mapAssign
  split_ifs with hany
  · have hmap : (m.map fun p => if (p.1 == key) = true then (p.1, v) else p).map Prod.fst
        = m.map Prod.fst := by
      rw [List.map_map]
      apply List.map_congr_left
      intro p _
      simp only [Function.comp]
      split_ifs <;> rfl
    rw [hmap]
    refine ⟨fun k hk => hk, ?_⟩
    obtain ⟨p, hp, hpk⟩ := List.any_eq_true.1 hany
    exact List.mem_map.2 ⟨p, hp, by simpa using hpk⟩
  · rw [List.map_append]
    exact ⟨fun k hk => List.mem_append_left _ hk, by simp⟩

theorem foldl_mapAssign_keys (aliases : List String) (m0 : List (String × Nat)) (K : Nat) :
    (∀ k ∈ m0.map Prod.fst,
      k ∈ ((List.range K).foldl (fun m k => mapAssign m (aliases.getD k "") k) m0).map
        Prod.fst) ∧
    ∀ r < K, aliases.getD r "" ∈
      ((List.range K).foldl (fun m k => mapAssign m (aliases.getD k "") k) m0).map Prod.fst := by
  induction K with
  | zero => exact ⟨fun k hk => hk, fun r hr => absurd hr (Nat.not_lt_zero r)⟩
  | succ K ih =>
    rw [List.range_succ, List.foldl_append]
    simp only [List.foldl_cons, List.foldl_nil]
    refine ⟨fun k hk => (mapAssign_keys _ _ _).1 k (ih.1 k hk), fun r hr => ?_⟩
    rcases Nat.lt_succ_iff_lt_or_eq.1 hr with hlt | rfl
    · exact (mapAssign_keys _ _ _).1 _ (ih.2 r hlt)
    · exact (mapAssign_keys _ _ _).2

theorem mapAt_ok_mem (m : List (String × Nat)) (key : String) (r : Nat)
    (h : mapAt m key = .ok r) : key ∈ m.map Prod.fst := by
  unfold mapAt at h
  cases hf : m.find? (fun p => p.1 == key) with
  | none => rw [hf] at h; simp at h
  | some q =>
    have hq := List.find?_some hf
    have hm := List.mem_of_find?_eq_some hf
    exact List.mem_map.2 ⟨q, hm, by simpa using hq⟩

theorem calculateAssetAdjuster_stale (exp : α → α) (sim : MCSimulationT α) (times : List α)
    (aliases : List String) (key : String) (hkey : key ∈ sim.assetIndex_.map Prod.fst)
    (hnot : key ∉ aliases) (hnd : aliases.Nodup) (h1 : times.length > 1)
    (h2 : numAt times 0 ≥ 0) (h3 : ascendingCheck times = true) (h4 : aliases.length > 0) :
    (sim.calculateAssetAdjuster exp times aliases).1
      = .error "TemplateMCSimulation: duplicate aliases found" := by
  have hk := foldl_mapAssign_keys aliases sim.assetIndex_ aliases.length
  have hsub : (key :: aliases) ⊆ ((List.range aliases.length).foldl
      (fun m k => mapAssign m (aliases.getD k "") k) sim.assetIndex_).map Prod.fst := by
    intro a ha
    rcases List.mem_cons.1 ha with rfl | ha
    · exact hk.1 _ hkey
    · obtain ⟨r, hr, rfl⟩ := List.getElem_of_mem ha
      have := hk.2 r hr
      rwa [List.getD_eq_getElem _ _ hr] at this
  have hlen := ((List.nodup_cons.2 ⟨hnot, hnd⟩).subperm hsub).length_le
  rw [List.length_cons, List.length_map] at hlen
  unfold MCSimulationT.calculateAssetAdjuster
  dsimp only
  rw [if_neg (not_not.2 h1), if_neg (not_not.2 h2), if_neg (by simpa using h3),
    if_neg (not_not.2 h4), if_pos (by omega)]

/-- C27 does not hold for the code: after a calibration of the asset adjuster
for the aliases A, B has succeeded, a calibration of the same simulator for the
single alias C raises "duplicate aliases found": the map `assetIndex_` still
holds A and B, so its size 3 differs from the number of aliases. -/
theorem calculateAssetAdjuster_recalibration_raises :
    ∃ sim1, (barrierSimulation ℚ).calculateAssetAdjuster (fun x => x) [0, 1] ["A", "B"]
        = (.ok (), sim1) ∧
      (sim1.calculateAssetAdjuster (fun x => x) [0, 1] ["C"]).1
        = .error "TemplateMCSimulation: duplicate aliases found" := by
  have h1 := barrierSimulation_calibrated.1
  have hok : (barrierSimulation ℚ).calculateAssetAdjuster (fun x => x) [0, 1] ["A", "B"]
      = (.ok (), ((barrierSimulation ℚ).calculateAssetAdjuster (fun x => x) [0, 1]
          ["A", "B"]).2) := Prod.ext h1 rfl
  refine ⟨_, hok, ?_⟩
  obtain ⟨-, -, -, -, -, -, -, hmap, -⟩ := calculateAssetAdjuster_ok (fun x => x)
    (barrierSimulation ℚ) _ [0, 1] ["A", "B"]
    (by simp [MCSimulationT.cacheSorted, barrierSimulation, MCSimulationT.build,
      MCSimulationT.reallocateMemory]) hok
  obtain ⟨r, -, hr, -⟩ := hmap 0 (by decide)
  exact calculateAssetAdjuster_stale (fun x => x) _ [0, 1] ["C"] "A"
    (mapAt_ok_mem _ _ r hr) (by decide) (by decide) (by decide) (by norm_num [numAt])
    (by norm_num [ascendingCheck]) (by decide)

theorem state_pair (s : MCSimulationT α) (k : Nat) (t : α) :
    ∃ T Y, s.state k t = ((s.state k t).1, { s with addObsTimes_ := T, Y_ := Y }) := by
  obtain ⟨T, Y, h⟩ := state_step_record s k t
  exact ⟨T, Y, Prod.ext rfl h⟩

theorem numeraireStep_frame (sim : MCSimulationT α) (k i : Nat) (s : MCSimulationT α)
    (h : sim.numeraireFrame s) :
    sim.numeraireFrame (MCSimulationT.numeraireAdjusterStep k i s).2 := by
  obtain ⟨T, Y, nt, na, rfl⟩ := h
  unfold MCSimulationT.numeraireAdjusterStep
  obtain ⟨T1, Y1, h1⟩ := state_pair
    ({ sim with addObsTimes_ := T, Y_ := Y, numeraireObservTimes_ := nt,
                numeraireAdjuster_ := na } : MCSimulationT α) k (numAt nt i)
  rw [h1]
  cases (MCSimulationT.state
    ({ sim with addObsTimes_ := T, Y_ := Y, numeraireObservTimes_ := nt,
                numeraireAdjuster_ := na } : MCSimulationT α) k (numAt nt i)).1 with
  | error e => exact ⟨_, _, _, _, rfl⟩
  | ok v => exact ⟨_, _, _, _, rfl⟩

theorem calculateNumeraireAdjuster_error (log : α → α) (sim : MCSimulationT α) (times : List α)
    (e : String) (h : (sim.calculateNumeraireAdjuster log times).1 = .error e) :
    sim.numeraireFrame (sim.calculateNumeraireAdjuster log times).2 := by
  unfold MCSimulationT.calculateNumeraireAdjuster at h ⊢
  dsimp only at h ⊢
  by_cases c1 : ¬ times.length > 1
  · rw [if_pos c1]; exact ⟨_, _, _, _, rfl⟩
  rw [if_neg c1] at h ⊢
  by_cases c2 : ¬ numAt times 0 > 0
  · rw [if_pos c2]; exact ⟨_, _, _, _, rfl⟩
  rw [if_neg c2] at h ⊢
  by_cases c3 : (!ascendingCheck times) = true
  · rw [if_pos c3]; exact ⟨_, _, _, _, rfl⟩
  rw [if_neg c3] at h ⊢
  have key : ∀ (l : List Nat) (s0 : MCSimulationT α) (r : Except String Unit × MCSimulationT α),
      forLoop (fun k => forLoop (MCSimulationT.numeraireAdjusterStep k)
        (List.range times.length)) l s0 = r → sim.numeraireFrame s0 → sim.numeraireFrame r.2 :=
    fun l s0 r hr h0 => hr ▸ forLoop_invariant _ _
      (fun k s hs => forLoop_invariant (MCSimulationT.numeraireAdjusterStep k) _
        (fun i s hs => numeraireStep_frame sim k i s hs) _ s hs) l s0 h0
  split at h
  · rename_i e1 sim3 heq
    exact key _ _ _ heq ⟨_, _, _, _, rfl⟩
  · simp at h

theorem zcbStep_frame (exp : α → α) (sim : MCSimulationT α) (k i : Nat)
    (st : List (List α) × MCSimulationT α) (h : sim.zcbFrame st.2) :
    sim.zcbFrame (MCSimulationT.zcbAdjusterStep exp k i st).2.2 := by
  obtain ⟨zcb, s⟩ := st
  obtain ⟨T, Y, zt, zo, za, rfl⟩ := h
  unfold MCSimulationT.zcbAdjusterStep
  obtain ⟨T1, Y1, h1⟩ := state_pair
    ({ sim with addObsTimes_ := T, Y_ := Y, zcbObservTimes_ := zt, zcbOffsetTimes_ := zo,
                zcbAdjuster_ := za } : MCSimulationT α) k (numAt zt i)
  dsimp only
  rw [h1]
  cases (MCSimulationT.state
    ({ sim with addObsTimes_ := T, Y_ := Y, zcbObservTimes_ := zt, zcbOffsetTimes_ := zo,
                zcbAdjuster_ := za } : MCSimulationT α) k (numAt zt i)).1 with
  | error e => exact ⟨_, _, _, _, _, rfl⟩
  | ok v => exact ⟨_, _, _, _, _, rfl⟩

theorem calculateZCBAdjuster_error (exp log : α → α) (sim : MCSimulationT α)
    (times offsets : List α) (e : String)
    (h : (sim.calculateZCBAdjuster exp log times offsets).1 = .error e) :
    sim.zcbFrame (sim.calculateZCBAdjuster exp log times offsets).2 := by
  unfold MCSimulationT.calculateZCBAdjuster at h ⊢
  dsimp only at h ⊢
  by_cases c1 : ¬ times.length > 1
  · rw [if_pos c1]; exact ⟨_, _, _, _, _, rfl⟩
  rw [if_neg c1] at h ⊢
  by_cases c2 : ¬ numAt times 0 > 0
  · rw [if_pos c2]; exact ⟨_, _, _, _, _, rfl⟩
  rw [if_neg c2] at h ⊢
  by_cases c3 : (!ascendingCheck times) = true
  · rw [if_pos c3]; exact ⟨_, _, _, _, _, rfl⟩
  rw [if_neg c3] at h ⊢
  by_cases c4 : ¬ offsets.length > 1
  · rw [if_pos c4]; exact ⟨_, _, _, _, _, rfl⟩
  rw [if_neg c4] at h ⊢
  by_cases c5 : ¬ numAt offsets 0 > 0
  · rw [if_pos c5]; exact ⟨_, _, _, _, _, rfl⟩
  rw [if_neg c5] at h ⊢
  by_cases c6 : (!ascendingCheck offsets) = true
  · rw [if_pos c6]; exact ⟨_, _, _, _, _, rfl⟩
  rw [if_neg c6] at h ⊢
  have key : ∀ (l : List Nat) (s0 : List (List α) × MCSimulationT α)
      (r : Except String Unit × (List (List α) × MCSimulationT α)),
      forLoop (fun k => forLoop (MCSimulationT.zcbAdjusterStep exp k)
        (List.range times.length)) l s0 = r → sim.zcbFrame s0.2 → sim.zcbFrame r.2.2 :=
    fun l s0 r hr h0 => hr ▸ forLoop_invariant _ (fun st => sim.zcbFrame st.2)
      (fun k s hs => forLoop_invariant (MCSimulationT.zcbAdjusterStep exp k) _
        (fun i s hs => zcbStep_frame exp sim k i s hs) _ s hs) l s0 h0
  split at h
  · rename_i e1 st heq
    exact key _ _ _ heq ⟨_, _, _, _, _, rfl⟩
  · simp at h

theorem assetStep_frame (exp : α → α) (sim : MCSimulationT α) (aliases : List String)
    (k i j : Nat) (st : List α × List α × MCSimulationT α) (h : sim.assetFrame st.2.2) :
    sim.assetFrame (MCSimulationT.assetAdjusterStep exp aliases k i j st).2.2.2 := by
  obtain ⟨a1, a2, s⟩ := st
  obtain ⟨T, Y, ai, at_, aa, rfl⟩ := h
  unfold MCSimulationT.assetAdjusterStep
  obtain ⟨T1, Y1, h1⟩ := state_pair
    ({ sim with addObsTimes_ := T, Y_ := Y, assetIndex_ := ai, assetObservTimes_ := at_,
                assetAdjuster_ := aa } : MCSimulationT α) j (numAt at_ i)
  dsimp only
  rw [h1]
  cases (MCSimulationT.state
    ({ sim with addObsTimes_ := T, Y_ := Y, assetIndex_ := ai, assetObservTimes_ := at_,
                assetAdjuster_ := aa } : MCSimulationT α) j (numAt at_ i)).1 with
  | error e => exact ⟨_, _, _, _, _, rfl⟩
  | ok v => exact ⟨_, _, _, _, _, rfl⟩

theorem assetTime_frame (exp : α → α) (sim : MCSimulationT α) (aliases : List String)
    (k i : Nat) (st : List α × List α × MCSimulationT α) (h : sim.assetFrame st.2.2) :
    sim.assetFrame (MCSimulationT.assetAdjusterTime exp aliases k i st).2.2.2 := by
  have hloop := forLoop_invariant (MCSimulationT.assetAdjusterStep exp aliases k i)
    (fun st => sim.assetFrame st.2.2)
    (fun j s hs => assetStep_frame exp sim aliases k i j s hs) (List.range st.2.2.nPaths) st h
  unfold MCSimulationT.assetAdjusterTime
  revert hloop
  generalize forLoop (MCSimulationT.assetAdjusterStep exp aliases k i)
    (List.range st.2.2.nPaths) st = r
  intro hloop
  obtain ⟨r1, r2⟩ := r
  cases r1 with
  | error e => exact hloop
  | ok u =>
    obtain ⟨T, Y, ai, at_, aa, h2⟩ := hloop
    dsimp only at h2 ⊢
    rw [h2]
    exact ⟨_, _, _, _, _, rfl⟩

theorem assetRow_frame (exp : α → α) (sim : MCSimulationT α) (aliases : List String)
    (k : Nat) (s : MCSimulationT α) (h : sim.assetFrame s) :
    sim.assetFrame (MCSimulationT.assetAdjusterRow exp aliases k s).2 := by
  have hloop := forLoop_invariant (MCSimulationT.assetAdjusterTime exp aliases k)
    (fun st => sim.assetFrame st.2.2)
    (fun i st hs => assetTime_frame exp sim aliases k i st hs)
    (List.range s.assetObservTimes_.length)
    (List.replicate s.assetObservTimes_.length 0, List.replicate s.assetObservTimes_.length 0, s)
    h
  unfold MCSimulationT.assetAdjusterRow
  dsimp only
  revert hloop
  generalize forLoop (MCSimulationT.assetAdjusterTime exp aliases k) _ _ = r
  intro hloop
  obtain ⟨r1, r2⟩ := r
  cases r1 with
  | error e => exact hloop
  | ok u => exact hloop

theorem calculateAssetAdjuster_error (exp : α → α) (sim : MCSimulationT α)
    (times : List α) (aliases : List String) (e : String)
    (h : (sim.calculateAssetAdjuster exp times aliases).1 = .error e) :
    sim.assetFrame (sim.calculateAssetAdjuster exp times aliases).2 := by
  unfold MCSimulationT.calculateAssetAdjuster at h ⊢
  dsimp only at h ⊢
  by_cases c1 : ¬ times.length > 1
  · rw [if_pos c1]; exact ⟨_, _, _, _, _, rfl⟩
  rw [if_neg c1] at h ⊢
  by_cases c2 : ¬ numAt times 0 ≥ 0
  · rw [if_pos c2]; exact ⟨_, _, _, _, _, rfl⟩
  rw [if_neg c2] at h ⊢
  by_cases c3 : (!ascendingCheck times) = true
  · rw [if_pos c3]; exact ⟨_, _, _, _, _, rfl⟩
  rw [if_neg c3] at h ⊢
  by_cases c4 : ¬ aliases.length > 0
  · rw [if_pos c4]; exact ⟨_, _, _, _, _, rfl⟩
  rw [if_neg c4] at h ⊢
  by_cases c5 : ¬ ((List.range aliases.length).foldl
      (fun m k => mapAssign m (aliases.getD k "") k) sim.assetIndex_).length = aliases.length
  · rw [if_pos c5]; exact ⟨_, _, _, _, _, rfl⟩
  rw [if_neg c5] at h ⊢
  have key : ∀ (l : List Nat) (s0 : MCSimulationT α) (r : Except String Unit × MCSimulationT α),
      forLoop (MCSimulationT.assetAdjusterRow exp aliases) l s0 = r →
        sim.assetFrame s0 → sim.assetFrame r.2 :=
    fun l s0 r hr h0 => hr ▸ forLoop_invariant _ _
      (fun k s hs => assetRow_frame exp sim aliases k s hs) l s0 h0
  split at h
  · rename_i e1 sim4 heq
    exact key _ _ _ heq ⟨_, _, _, _, _, rfl⟩
  · simp at h

/-- C28 fails as stated: after a calibration of the asset adjuster on the
times 0, 1 has succeeded, a call with the times -1, 1 raises
"assetObservTimes_>=0 required" and leaves the calibration times -1, 1 in the
object, with the table and the flag of the earlier calibration;
`assetAdjuster(1/2, "A")` returns -3/2 before the failed call and -7/4 after
it. -/
theorem calibration_failure_counterexample :
    ∃ sim1 sim2, (barrierSimulation ℚ).calculateAssetAdjuster (fun x => x) [0, 1] ["A", "B"]
        = (.ok (), sim1) ∧
      sim1.calculateAssetAdjuster (fun x => x) [-1, 1] ["A", "B"]
        = (.error "TemplateMCSimulation: assetObservTimes_>=0 required", sim2) ∧
      sim2.assetObservTimes_ = [-1, 1] ∧
      sim1.assetAdjuster (1 / 2) "A" = .ok (-3 / 2) ∧
      sim2.assetAdjuster (1 / 2) "A" = .ok (-7 / 4) := by
  obtain ⟨h1, hA, hI⟩ := barrierSimulation_calibrated
  have hok : (barrierSimulation ℚ).calculateAssetAdjuster (fun x => x) [0, 1] ["A", "B"]
      = (.ok (), ((barrierSimulation ℚ).calculateAssetAdjuster (fun x => x) [0, 1]
          ["A", "B"]).2) := Prod.ext h1 rfl
  obtain ⟨-, hF, hT, -⟩ := calculateAssetAdjuster_ok (fun x => x)
    (barrierSimulation ℚ) _ [0, 1] ["A", "B"]
    (by simp [MCSimulationT.cacheSorted, barrierSimulation, MCSimulationT.build,
      MCSimulationT.reallocateMemory]) hok
  revert hok hA hI hF hT
  generalize ((barrierSimulation ℚ).calculateAssetAdjuster (fun x => x) [0, 1]
    ["A", "B"]).2 = sim1
  intro hA hI hok hF hT
  refine ⟨sim1, { sim1 with assetObservTimes_ := [-1, 1] }, hok, ?_, rfl, ?_, ?_⟩
  · norm_num [MCSimulationT.calculateAssetAdjuster, numAt]
  · norm_num [MCSimulationT.assetAdjuster, hF, hT, hA, hI, mapAt, TemplateAuxilliaries.idx,
      numAt, rowAt]
  · norm_num [MCSimulationT.assetAdjuster, hF, hA, hI, mapAt, TemplateAuxilliaries.idx,
      numAt, rowAt]

/-- C28 (amended): if `calculateNumeraireAdjuster`, `calculateZCBAdjuster` or
`calculateAssetAdjuster` raises an error, the apply flag of that adjuster is
as before and the two other adjusters return the same values as before; the
adjuster itself returns the same values as before if it was not applied
before the failed call.  Its calibration times are the rejected input, and
its table may have been reset. -/
theorem calibration_failure_frame (exp log : α → α) (sim : MCSimulationT α) :
    (∀ times e, (sim.calculateNumeraireAdjuster log times).1 = .error e →
      (sim.calculateNumeraireAdjuster log times).2.applyNumeraireAdjuster_
        = sim.applyNumeraireAdjuster_ ∧
      (∀ t T, (sim.calculateNumeraireAdjuster log times).2.zcbAdjuster exp t T
        = sim.zcbAdjuster exp t T) ∧
      (∀ t a, (sim.calculateNumeraireAdjuster log times).2.assetAdjuster t a
        = sim.assetAdjuster t a) ∧
      (sim.applyNumeraireAdjuster_ = false →
        ∀ t, (sim.calculateNumeraireAdjuster log times).2.numeraireAdjuster exp t
          = sim.numeraireAdjuster exp t)) ∧
    (∀ times offsets e, (sim.calculateZCBAdjuster exp log times offsets).1 = .error e →
      (sim.calculateZCBAdjuster exp log times offsets).2.applyZcbAdjuster_
        = sim.applyZcbAdjuster_ ∧
      (∀ t, (sim.calculateZCBAdjuster exp log times offsets).2.numeraireAdjuster exp t
        = sim.numeraireAdjuster exp t) ∧
      (∀ t a, (sim.calculateZCBAdjuster exp log times offsets).2.assetAdjuster t a
        = sim.assetAdjuster t a) ∧
      (sim.applyZcbAdjuster_ = false →
        ∀ t T, (sim.calculateZCBAdjuster exp log times offsets).2.zcbAdjuster exp t T
          = sim.zcbAdjuster exp t T)) ∧
    (∀ times aliases e, (sim.calculateAssetAdjuster exp times aliases).1 = .error e →
      (sim.calculateAssetAdjuster exp times aliases).2.applyAssetAdjuster_
        = sim.applyAssetAdjuster_ ∧
      (∀ t, (sim.calculateAssetAdjuster exp times aliases).2.numeraireAdjuster exp t
        = sim.numeraireAdjuster exp t) ∧
      (∀ t T, (sim.calculateAssetAdjuster exp times aliases).2.zcbAdjuster exp t T
        = sim.zcbAdjuster exp t T) ∧
      (sim.applyAssetAdjuster_ = false →
        ∀ t a, (sim.calculateAssetAdjuster exp times aliases).2.assetAdjuster t a
          = sim.assetAdjuster t a)) := by
  refine ⟨fun times e h => ?_, fun times offsets e h => ?_, fun times aliases e h => ?_⟩
  · obtain ⟨T, Y, nt, na, hs⟩ := calculateNumeraireAdjuster_error log sim times e h
    rw [hs]
    exact ⟨rfl, fun _ _ => rfl, fun _ _ => rfl, fun hf t => by
      simp [MCSimulationT.numeraireAdjuster, hf]⟩
  · obtain ⟨T, Y, zt, zo, za, hs⟩ := calculateZCBAdjuster_error exp log sim times offsets e h
    rw [hs]
    exact ⟨rfl, fun _ => rfl, fun _ _ => rfl, fun hf t T => by
      simp [MCSimulationT.zcbAdjuster, hf]⟩
  · obtain ⟨T, Y, ai, at_, aa, hs⟩ := calculateAssetAdjuster_error exp sim times aliases e h
    rw [hs]
    exact ⟨rfl, fun _ => rfl, fun _ _ => rfl, fun hf t a => by
      simp [MCSimulationT.assetAdjuster, hf]⟩

theorem calibration_failure_frame_witness :
    ((barrierSimulation ℚ).calculateAssetAdjuster (fun x => x) [-1, 1]
        ["A"]).2.applyAssetAdjuster_ = (barrierSimulation ℚ).applyAssetAdjuster_ ∧
      ∀ t a, ((barrierSimulation ℚ).calculateAssetAdjuster (fun x => x) [-1, 1]
        ["A"]).2.assetAdjuster t a = (barrierSimulation ℚ).assetAdjuster t a :=
  have h := (calibration_failure_frame (fun x => x) (fun x => x) (barrierSimulation ℚ)).2.2
    [-1, 1] ["A"] "TemplateMCSimulation: assetObservTimes_>=0 required"
    (by norm_num [MCSimulationT.calculateAssetAdjuster, numAt])
  ⟨h.1, h.2.2.2 rfl⟩

set_option maxHeartbeats 2000000 in
theorem slicedRun_eq :
    slicedRun = { slicedSimulation with
      rsg_ := some ⟨1, 0, 4⟩
      dW_ := [[[3], []]]
      X_ := [[[0], [1], [4]], [[0], [2], [6]]] } := by
  norm_num [slicedRun, slicedSimulation, MCSimulationT.prepareForSlicedSimulation,
    MCSimulationT.simulateIdx, MCSimulationT.sliceEulerStep, MCSimulationT.nextSequence,
    sampleRsg, MCSimulationT.build, MCSimulationT.reallocateMemory, buildObsTimes,
    buildSimTimes, mergeTimes, skipNonPositive, sameTimes, unitProcess, forLoop,
    List.range_succ, numAt, rowAt, OneDay]
  rfl

set_option maxHeartbeats 2000000 in
theorem slicedQueried_eq :
    slicedQueried = { slicedSimulation with
      rsg_ := some ⟨1, 0, 4⟩
      dW_ := [[[3], []]]
      X_ := [[[0], [1], [4]], [[0], [2], [6]]]
      addObsTimes_ := [3 / 2]
      Y_ := [[[5 / 2], [4]]] } := by
  rw [slicedQueried, slicedRun_eq]
  norm_num [state_def, slicedSimulation, MCSimulationT.build, MCSimulationT.reallocateMemory,
    buildObsTimes, buildSimTimes, mergeTimes, skipNonPositive, unitProcess,
    TemplateAuxilliaries.idx, MCSimulationT.addInterpolatedState,
    MCSimulationT.interpolatedStates, MCSimulationT.nPaths, sortedIndices, List.range_succ,
    numAt, rowAt, OneDay]

theorem getNextBrownianIncrements_cache (rsg : Nat → Nat → Nat → List α) (sim : MCSimulationT α) :
    (sim.getNextBrownianIncrements rsg).2.addObsTimes_ = sim.addObsTimes_
      ∧ (sim.getNextBrownianIncrements rsg).2.Y_ = sim.Y_ := by
  unfold MCSimulationT.getNextBrownianIncrements
  cases sim.rsg_ with
  | none => exact ⟨rfl, rfl⟩
  | some g =>
    dsimp only
    split_ifs <;> exact ⟨rfl, rfl⟩

theorem storeIncrements_cache (rsg : Nat → Nat → Nat → List α) (k : Nat)
    (sim : MCSimulationT α) :
    (MCSimulationT.storeIncrements rsg k sim).2.addObsTimes_ = sim.addObsTimes_
      ∧ (MCSimulationT.storeIncrements rsg k sim).2.Y_ = sim.Y_ := by
  have h := getNextBrownianIncrements_cache rsg sim
  unfold MCSimulationT.storeIncrements
  generalize sim.getNextBrownianIncrements rsg = r at h
  obtain ⟨r1, r2⟩ := r
  cases r1 with
  | error e => exact h
  | ok dW => exact h

theorem simulatePath_cache (rsg : Nat → Nat → Nat → List α) (sqrt : α → α)
    (sim : MCSimulationT α) (path : Nat) :
    (sim.simulatePath rsg sqrt path).2.addObsTimes_ = sim.addObsTimes_
      ∧ (sim.simulatePath rsg sqrt path).2.Y_ = sim.Y_ := by
  unfold MCSimulationT.simulatePath
  by_cases hp : ¬ path < sim.X_.length
  · rw [if_pos hp]
    exact ⟨rfl, rfl⟩
  · rw [if_neg hp]
    have h : (sim.getBrownianIncrementsByPath rsg path).2.addObsTimes_ = sim.addObsTimes_
        ∧ (sim.getBrownianIncrementsByPath rsg path).2.Y_ = sim.Y_ := by
      unfold MCSimulationT.getBrownianIncrementsByPath
      by_cases hs : sim.storeBrownians_ = true
      · rw [if_pos hs]
        split_ifs <;> exact ⟨rfl, rfl⟩
      · rw [if_neg hs]
        have h := getNextBrownianIncrements_cache rsg sim
        generalize sim.getNextBrownianIncrements rsg = r at h
        obtain ⟨r1, r2⟩ := r
        cases r1 with
        | error e => exact h
        | ok dW => exact h
    generalize sim.getBrownianIncrementsByPath rsg path = r at h
    obtain ⟨r1, r2⟩ := r
    cases r1 with
    | error e => exact h
    | ok dW => exact h

theorem nextSequence_cache {γ : Type} (rsg : Nat → Nat → Nat → List γ) (sim : MCSimulationT γ) :
    (sim.nextSequence rsg).2.addObsTimes_ = sim.addObsTimes_
      ∧ (sim.nextSequence rsg).2.Y_ = sim.Y_ := by
  unfold MCSimulationT.nextSequence
  cases sim.rsg_ with
  | none => exact ⟨rfl, rfl⟩
  | some g => exact ⟨rfl, rfl⟩

theorem sliceIncrements_cache {γ : Type} (rsg : Nat → Nat → Nat → List γ) (sim : MCSimulationT γ)
    (idx path : Nat) :
    (sim.sliceIncrements rsg idx path).2.addObsTimes_ = sim.addObsTimes_
      ∧ (sim.sliceIncrements rsg idx path).2.Y_ = sim.Y_ := by
  unfold MCSimulationT.sliceIncrements
  by_cases hs : sim.storeBrownians_ = true
  · rw [if_pos hs]
    exact ⟨rfl, rfl⟩
  · rw [if_neg hs]
    have h1 := nextSequence_cache rsg sim
    generalize sim.nextSequence rsg = r at h1
    obtain ⟨r1, s1⟩ := r
    cases r1 with
    | error e => exact h1
    | ok v1 =>
      dsimp only
      have h2 := nextSequence_cache rsg
        { s1 with dW_ := s1.dW_.set 0 ((rowAt s1.dW_ 0).set 0 v1) }
      generalize MCSimulationT.nextSequence rsg
        { s1 with dW_ := s1.dW_.set 0 ((rowAt s1.dW_ 0).set 0 v1) } = q at h2
      obtain ⟨q1, s2⟩ := q
      cases q1 with
      | error e => exact ⟨h2.1.trans h1.1, h2.2.trans h1.2⟩
      | ok v2 => exact ⟨h2.1.trans h1.1, h2.2.trans h1.2⟩

theorem sliceRichardsonStep_cache (rsg : Nat → Nat → Nat → List α) (sqrt : α → α)
    (idx : Nat) (dt : α) (path : Nat) (c : SliceLoopState α) :
    (MCSimulationT.sliceRichardsonStep rsg sqrt idx dt path c).2.sim.addObsTimes_
        = c.sim.addObsTimes_
      ∧ (MCSimulationT.sliceRichardsonStep rsg sqrt idx dt path c).2.sim.Y_ = c.sim.Y_ := by
  have h := sliceIncrements_cache rsg c.sim idx path
  unfold MCSimulationT.sliceRichardsonStep
  generalize c.sim.sliceIncrements rsg idx path = r at h
  obtain ⟨r1, s⟩ := r
  cases r1 with
  | error e => exact h
  | ok dW => exact h

theorem sliceEulerStep_cache (rsg : Nat → Nat → Nat → List α) (idx : Nat) (dt : α)
    (path : Nat) (sim : MCSimulationT α) :
    (MCSimulationT.sliceEulerStep rsg idx dt path sim).2.addObsTimes_ = sim.addObsTimes_
      ∧ (MCSimulationT.sliceEulerStep rsg idx dt path sim).2.Y_ = sim.Y_ := by
  unfold MCSimulationT.sliceEulerStep
  by_cases hs : sim.storeBrownians_ = true
  · rw [if_pos hs]
    exact ⟨rfl, rfl⟩
  · rw [if_neg hs]
    have h1 := nextSequence_cache rsg sim
    generalize sim.nextSequence rsg = r at h1
    obtain ⟨r1, s1⟩ := r
    cases r1 with
    | error e => exact h1
    | ok v => exact h1

theorem simulate_cache (rsg : Nat → Nat → Nat → List α) (sqrt : α → α)
    (sim : MCSimulationT α) :
    (sim.simulate rsg sqrt).2.addObsTimes_ = [] ∧ (sim.simulate rsg sqrt).2.Y_ = [] := by
  have hstore : ∀ (l : List Nat) (s : MCSimulationT α), (s.addObsTimes_ = [] ∧ s.Y_ = []) →
      ((forLoop (fun k s => MCSimulationT.storeIncrements rsg k s) l s).2.addObsTimes_ = []
        ∧ (forLoop (fun k s => MCSimulationT.storeIncrements rsg k s) l s).2.Y_ = []) :=
    forLoop_invariant _ (fun s => s.addObsTimes_ = [] ∧ s.Y_ = [])
      (fun i s hs => ⟨(storeIncrements_cache rsg i s).1.trans hs.1,
        (storeIncrements_cache rsg i s).2.trans hs.2⟩)
  have hpath : ∀ (l : List Nat) (s : MCSimulationT α), (s.addObsTimes_ = [] ∧ s.Y_ = []) →
      ((forLoop (fun k s => s.simulatePath rsg sqrt k) l s).2.addObsTimes_ = []
        ∧ (forLoop (fun k s => s.simulatePath rsg sqrt k) l s).2.Y_ = []) :=
    forLoop_invariant _ (fun s => s.addObsTimes_ = [] ∧ s.Y_ = [])
      (fun i s hs => ⟨(simulatePath_cache rsg sqrt s i).1.trans hs.1,
        (simulatePath_cache rsg sqrt s i).2.trans hs.2⟩)
  unfold MCSimulationT.simulate
  dsimp only
  have h0 : ∀ s : MCSimulationT α, (s.initialiseRSG).addObsTimes_ = s.addObsTimes_
      ∧ (s.initialiseRSG).Y_ = s.Y_ := fun s => ⟨rfl, rfl⟩
  have key : ∀ r : Except String Unit × MCSimulationT α,
      (r.2.addObsTimes_ = [] ∧ r.2.Y_ = []) →
      ((match r with
        | (.error e, sim3) => (.error e, sim3)
        | (.ok _, sim3) =>
          forLoop (fun k s => s.simulatePath rsg sqrt k) (List.range sim3.X_.length) sim3 :
          Except String Unit × MCSimulationT α).2.addObsTimes_ = []
        ∧ (match r with
        | (.error e, sim3) => (.error e, sim3)
        | (.ok _, sim3) =>
          forLoop (fun k s => s.simulatePath rsg sqrt k) (List.range sim3.X_.length) sim3 :
          Except String Unit × MCSimulationT α).2.Y_ = []) := by
    intro r hr
    obtain ⟨r1, s3⟩ := r
    cases r1 with
    | error e => exact hr
    | ok u => exact hpath _ _ hr
  apply key
  split_ifs
  · exact hstore _ _ ⟨rfl, rfl⟩
  · exact ⟨rfl, rfl⟩

theorem simulateIdx_cache (rsg : Nat → Nat → Nat → List α) (sqrt : α → α)
    (sim : MCSimulationT α) (idx : Nat) (clearInterpolation : Bool) :
    (sim.simulateIdx rsg sqrt idx clearInterpolation).2.addObsTimes_
        = (if clearInterpolation then [] else sim.addObsTimes_)
      ∧ (sim.simulateIdx rsg sqrt idx clearInterpolation).2.Y_
        = (if clearInterpolation then [] else sim.Y_) := by
  have hE : ∀ (dt : α) (l : List Nat) (s : MCSimulationT α),
      (forLoop (MCSimulationT.sliceEulerStep rsg idx dt) l s).2.addObsTimes_ = s.addObsTimes_
        ∧ (forLoop (MCSimulationT.sliceEulerStep rsg idx dt) l s).2.Y_ = s.Y_ := by
    intro dt l s
    exact forLoop_invariant _ (fun s1 => s1.addObsTimes_ = s.addObsTimes_ ∧ s1.Y_ = s.Y_)
      (fun i s1 hs => ⟨(sliceEulerStep_cache rsg idx dt i s1).1.trans hs.1,
        (sliceEulerStep_cache rsg idx dt i s1).2.trans hs.2⟩) l s ⟨rfl, rfl⟩
  have hR : ∀ (dt : α) (l : List Nat) (c : SliceLoopState α),
      (forLoop (MCSimulationT.sliceRichardsonStep rsg sqrt idx dt) l c).2.sim.addObsTimes_
          = c.sim.addObsTimes_
        ∧ (forLoop (MCSimulationT.sliceRichardsonStep rsg sqrt idx dt) l c).2.sim.Y_
          = c.sim.Y_ := by
    intro dt l c
    exact forLoop_invariant _
      (fun c1 => c1.sim.addObsTimes_ = c.sim.addObsTimes_ ∧ c1.sim.Y_ = c.sim.Y_)
      (fun i c1 hs => ⟨(sliceRichardsonStep_cache rsg sqrt idx dt i c1).1.trans hs.1,
        (sliceRichardsonStep_cache rsg sqrt idx dt i c1).2.trans hs.2⟩) l c ⟨rfl, rfl⟩
  have hbase : ∀ s : MCSimulationT α,
      (s.simulateIdx rsg sqrt idx false).2.addObsTimes_ = s.addObsTimes_
        ∧ (s.simulateIdx rsg sqrt idx false).2.Y_ = s.Y_ := by
    intro s
    unfold MCSimulationT.simulateIdx
    dsimp only
    rw [if_neg Bool.false_ne_true]
    by_cases h1 : ¬ idx < s.obsTimes_.length
    · rw [if_pos h1]
      exact ⟨rfl, rfl⟩
    · rw [if_neg h1]
      by_cases h2 : idx = 0
      · rw [if_pos h2]
        exact ⟨rfl, rfl⟩
      · rw [if_neg h2]
        by_cases h3 : s.richardsonExtrapolation_ = true
        · rw [if_pos h3]
          exact hR _ _ _
        · rw [if_neg h3]
          exact hE _ _ _
  cases clearInterpolation with
  | false => exact hbase sim
  | true =>
    have h := hbase { sim with addObsTimes_ := [], Y_ := [] }
    have e : sim.simulateIdx rsg sqrt idx true
        = MCSimulationT.simulateIdx rsg sqrt { sim with addObsTimes_ := [], Y_ := [] } idx
            false := by
      unfold MCSimulationT.simulateIdx
      rfl
    rw [e]
    exact h

set_option maxHeartbeats 2000000 in
theorem slicedRerun_eq :
    slicedQueried.simulateIdx (sampleRsg ℚ) (fun x => x) 2 false
      = (.ok (), { slicedSimulation with
          rsg_ := some ⟨1, 0, 6⟩
          dW_ := [[[5], []]]
          X_ := [[[0], [1], [6]], [[0], [2], [8]]]
          addObsTimes_ := [3 / 2]
          Y_ := [[[5 / 2], [4]]] }) := by
  rw [slicedQueried_eq]
  norm_num [slicedSimulation, MCSimulationT.simulateIdx, MCSimulationT.sliceEulerStep,
    MCSimulationT.nextSequence, sampleRsg, MCSimulationT.build, MCSimulationT.reallocateMemory,
    buildObsTimes, buildSimTimes, mergeTimes, skipNonPositive, unitProcess, forLoop,
    List.range_succ, numAt, rowAt, OneDay]

/-- C25 fails as stated: on a sliced simulator of two paths whose cache holds
the state interpolated at time 3/2, `simulate(2)` succeeds and overwrites the
stored states of the last slice, yet the cache is as before, and the query
`state(0, 3/2)` still returns the state 5/2 interpolated from the previous
stored path, where the new stored path gives 7/2. -/
theorem simulateIdx_keeps_cache_counterexample :
    ∃ sim1 : MCSimulationT ℚ,
      slicedQueried.simulateIdx (sampleRsg ℚ) (fun x => x) 2 false = (.ok (), sim1)
        ∧ slicedQueried.X_ = [[[0], [1], [4]], [[0], [2], [6]]]
        ∧ sim1.X_ = [[[0], [1], [6]], [[0], [2], [8]]]
        ∧ sim1.addObsTimes_ = [3 / 2]
        ∧ sim1.Y_ = [[[5 / 2], [4]]]
        ∧ (sim1.state 0 (3 / 2)).1 = .ok [5 / 2]
        ∧ (MCSimulationT.state { sim1 with addObsTimes_ := [], Y_ := [] } 0 (3 / 2)).1
            = .ok [7 / 2] := by
  refine ⟨_, slicedRerun_eq, ?_, rfl, rfl, rfl, ?_, ?_⟩
  · rw [slicedQueried_eq]
  · norm_num [state_def, slicedSimulation, MCSimulationT.build, MCSimulationT.reallocateMemory,
      buildObsTimes, buildSimTimes, mergeTimes, skipNonPositive, unitProcess,
      TemplateAuxilliaries.idx, MCSimulationT.addInterpolatedState,
      MCSimulationT.interpolatedStates, MCSimulationT.nPaths, sortedIndices, List.range_succ,
      numAt, rowAt, OneDay]
  · norm_num [state_def, slicedSimulation, MCSimulationT.build, MCSimulationT.reallocateMemory,
      buildObsTimes, buildSimTimes, mergeTimes, skipNonPositive, unitProcess,
      TemplateAuxilliaries.idx, MCSimulationT.addInterpolatedState,
      MCSimulationT.interpolatedStates, MCSimulationT.nPaths, sortedIndices, List.range_succ,
      numAt, rowAt, OneDay]

/-- C25 (amended): after `simulate()` the interpolation cache (`addObsTimes_`,
`Y_`) is empty, and so it is after a sliced `simulate(idx, true)`; a sliced
`simulate(idx)` with the default `clearInterpolation = false` leaves the cache
as it was before the call.  Each holds for any outcome of the call. -/
theorem rerun_cache (rsg : Nat → Nat → Nat → List α) (sqrt : α → α) (sim : MCSimulationT α)
    (idx : Nat) :
    ((sim.simulate rsg sqrt).2.addObsTimes_ = [] ∧ (sim.simulate rsg sqrt).2.Y_ = [])
      ∧ ((sim.simulateIdx rsg sqrt idx true).2.addObsTimes_ = []
        ∧ (sim.simulateIdx rsg sqrt idx true).2.Y_ = [])
      ∧ ((sim.simulateIdx rsg sqrt idx false).2.addObsTimes_ = sim.addObsTimes_
        ∧ (sim.simulateIdx rsg sqrt idx false).2.Y_ = sim.Y_) :=
  ⟨simulate_cache rsg sqrt sim, simulateIdx_cache rsg sqrt sim idx true,
    simulateIdx_cache rsg sqrt sim idx false⟩

end Models

/-! ### The frame of an evaluation -/

section EvaluationFrame

variable {α : Type} [LinearOrderedField α]

mutual
theorem sameFrame_refl {γ : Type} : ∀ x : Payoff γ, x.sameFrame x
  | .FixedAmount _ => by simp only [Payoff.sameFrame]
  | .Cash _ _ => by simp only [Payoff.sameFrame]
  | .ZeroBond _ _ _ => by simp only [Payoff.sameFrame]
  | .Asset _ _ _ _ => by simp only [Payoff.sameFrame]
  | .AssetBarrierNoHit _ _ _ _ _ _ => by simp only [Payoff.sameFrame]
  | .VanillaOption _ _ _ _ => by simp only [Payoff.sameFrame]
  | .GeneralSwaption _ _ _ _ _ _ _ => by simp only [Payoff.sameFrame]
  | .SwapRate _ _ _ _ _ _ => by simp only [Payoff.sameFrame]
  | .Clone t x => by
    simp only [Payoff.sameFrame]
    exact ⟨x, rfl, sameFrame_refl x⟩
  | .Pay x payTime => by
    simp only [Payoff.sameFrame]
    exact ⟨x, rfl, sameFrame_refl x⟩
  | .Axpy a x none => by
    simp only [Payoff.sameFrame]
    exact ⟨x, rfl, sameFrame_refl x⟩
  | .Axpy a x (some y) => by
    simp only [Payoff.sameFrame]
    exact ⟨x, y, rfl, sameFrame_refl x, sameFrame_refl y⟩
  | .Mult x y => by
    simp only [Payoff.sameFrame]
    exact ⟨x, y, rfl, sameFrame_refl x, sameFrame_refl y⟩
  | .Division x y => by
    simp only [Payoff.sameFrame]
    exact ⟨x, y, rfl, sameFrame_refl x, sameFrame_refl y⟩
  | .Max x y => by
    simp only [Payoff.sameFrame]
    exact ⟨x, y, rfl, sameFrame_refl x, sameFrame_refl y⟩
  | .Min x y => by
    simp only [Payoff.sameFrame]
    exact ⟨x, y, rfl, sameFrame_refl x, sameFrame_refl y⟩
  | .Exponential x => by
    simp only [Payoff.sameFrame]
    exact ⟨x, rfl, sameFrame_refl x⟩
  | .Logarithm x => by
    simp only [Payoff.sameFrame]
    exact ⟨x, rfl, sameFrame_refl x⟩
  | .Squareroot x => by
    simp only [Payoff.sameFrame]
    exact ⟨x, rfl, sameFrame_refl x⟩
  | .Logical x y op => by
    simp only [Payoff.sameFrame]
    exact ⟨x, y, rfl, sameFrame_refl x, sameFrame_refl y⟩
  | .IfThenElse x y z => by
    simp only [Payoff.sameFrame]
    exact ⟨x, y, z, rfl, sameFrame_refl x, sameFrame_refl y, sameFrame_refl z⟩
  | .Cache x lastPath lastPayoff => by
    simp only [Payoff.sameFrame]
    exact ⟨x, lastPath, lastPayoff, rfl, sameFrame_refl x⟩
  | .Basket underlyings weights true => by
    simp only [Payoff.sameFrame]
    exact ⟨underlyings, underlyings, rfl, List.Perm.refl _, sameFrameList_refl underlyings⟩
  | .Basket underlyings weights false => by
    simp only [Payoff.sameFrame]
    exact ⟨underlyings, rfl, sameFrameList_refl underlyings⟩
theorem sameFrameList_refl {γ : Type} : ∀ l : List (Payoff γ), Payoff.sameFrameList l l
  | [] => by simp only [Payoff.sameFrameList]
  | x :: rest => by
    simp only [Payoff.sameFrameList]
    exact ⟨x, rest, rfl, sameFrame_refl x, sameFrameList_refl rest⟩
end

theorem sameFrameList_iff {γ : Type} : ∀ l l1 : List (Payoff γ),
    Payoff.sameFrameList l l1 ↔ List.Forall₂ Payoff.sameFrame l l1
  | [], l1 => by
    simp only [Payoff.sameFrameList]
    constructor
    · rintro rfl
      exact List.Forall₂.nil
    · intro h
      cases h
      rfl
  | x :: rest, l1 => by
    simp only [Payoff.sameFrameList]
    constructor
    · rintro ⟨x1, rest1, rfl, hx, hr⟩
      exact List.Forall₂.cons hx ((sameFrameList_iff rest rest1).1 hr)
    · intro h
      cases h with
      | cons hx hr => exact ⟨_, _, rfl, hx, (sameFrameList_iff rest _).2 hr⟩

mutual
theorem sameFrame_trans {γ : Type} : ∀ x y z : Payoff γ, x.sameFrame y → y.sameFrame z → x.sameFrame z
  | .FixedAmount _, y, z, h1, h2 => by
    simp only [Payoff.sameFrame] at h1
    subst h1
    exact h2
  | .Cash _ _, y, z, h1, h2 => by
    simp only [Payoff.sameFrame] at h1
    subst h1
    exact h2
  | .ZeroBond _ _ _, y, z, h1, h2 => by
    simp only [Payoff.sameFrame] at h1
    subst h1
    exact h2
  | .Asset _ _ _ _, y, z, h1, h2 => by
    simp only [Payoff.sameFrame] at h1
    subst h1
    exact h2
  | .AssetBarrierNoHit _ _ _ _ _ _, y, z, h1, h2 => by
    simp only [Payoff.sameFrame] at h1
    subst h1
    exact h2
  | .VanillaOption _ _ _ _, y, z, h1, h2 => by
    simp only [Payoff.sameFrame] at h1
    subst h1
    exact h2
  | .GeneralSwaption _ _ _ _ _ _ _, y, z, h1, h2 => by
    simp only [Payoff.sameFrame] at h1
    subst h1
    exact h2
  | .SwapRate _ _ _ _ _ _, y, z, h1, h2 => by
    simp only [Payoff.sameFrame] at h1
    subst h1
    exact h2
  | .Clone t x, y0, z0, h1, h2 => by
    simp only [Payoff.sameFrame] at h1
    obtain ⟨x1, rfl, hx⟩ := h1
    simp only [Payoff.sameFrame] at h2 ⊢
    obtain ⟨x2, rfl, kx⟩ := h2
    exact ⟨x2, rfl, sameFrame_trans x x1 x2 hx kx⟩
  | .Pay x payTime, y0, z0, h1, h2 => by
    simp only [Payoff.sameFrame] at h1
    obtain ⟨x1, rfl, hx⟩ := h1
    simp only [Payoff.sameFrame] at h2 ⊢
    obtain ⟨x2, rfl, kx⟩ := h2
    exact ⟨x2, rfl, sameFrame_trans x x1 x2 hx kx⟩
  | .Axpy a x none, y0, z0, h1, h2 => by
    simp only [Payoff.sameFrame] at h1
    obtain ⟨x1, rfl, hx⟩ := h1
    simp only [Payoff.sameFrame] at h2 ⊢
    obtain ⟨x2, rfl, kx⟩ := h2
    exact ⟨x2, rfl, sameFrame_trans x x1 x2 hx kx⟩
  | .Axpy a x (some y), y0, z0, h1, h2 => by
    simp only [Payoff.sameFrame] at h1
    obtain ⟨x1, y1, rfl, hx, hy⟩ := h1
    simp only [Payoff.sameFrame] at h2 ⊢
    obtain ⟨x2, y2, rfl, kx, ky⟩ := h2
    exact ⟨x2, y2, rfl, sameFrame_trans x x1 x2 hx kx, sameFrame_trans y y1 y2 hy ky⟩
  | .Mult x y, y0, z0, h1, h2 => by
    simp only [Payoff.sameFrame] at h1
    obtain ⟨x1, y1, rfl, hx, hy⟩ := h1
    simp only [Payoff.sameFrame] at h2 ⊢
    obtain ⟨x2, y2, rfl, kx, ky⟩ := h2
    exact ⟨x2, y2, rfl, sameFrame_trans x x1 x2 hx kx, sameFrame_trans y y1 y2 hy ky⟩
  | .Division x y, y0, z0, h1, h2 => by
    simp only [Payoff.sameFrame] at h1
    obtain ⟨x1, y1, rfl, hx, hy⟩ := h1
    simp only [Payoff.sameFrame] at h2 ⊢
    obtain ⟨x2, y2, rfl, kx, ky⟩ := h2
    exact ⟨x2, y2, rfl, sameFrame_trans x x1 x2 hx kx, sameFrame_trans y y1 y2 hy ky⟩
  | .Max x y, y0, z0, h1, h2 => by
    simp only [Payoff.sameFrame] at h1
    obtain ⟨x1, y1, rfl, hx, hy⟩ := h1
    simp only [Payoff.sameFrame] at h2 ⊢
    obtain ⟨x2, y2, rfl, kx, ky⟩ := h2
    exact ⟨x2, y2, rfl, sameFrame_trans x x1 x2 hx kx, sameFrame_trans y y1 y2 hy ky⟩
  | .Min x y, y0, z0, h1, h2 => by
    simp only [Payoff.sameFrame] at h1
    obtain ⟨x1, y1, rfl, hx, hy⟩ := h1
    simp only [Payoff.sameFrame] at h2 ⊢
    obtain ⟨x2, y2, rfl, kx, ky⟩ := h2
    exact ⟨x2, y2, rfl, sameFrame_trans x x1 x2 hx kx, sameFrame_trans y y1 y2 hy ky⟩
  | .Exponential x, y0, z0, h1, h2 => by
    simp only [Payoff.sameFrame] at h1
    obtain ⟨x1, rfl, hx⟩ := h1
    simp only [Payoff.sameFrame] at h2 ⊢
    obtain ⟨x2, rfl, kx⟩ := h2
    exact ⟨x2, rfl, sameFrame_trans x x1 x2 hx kx⟩
  | .Logarithm x, y0, z0, h1, h2 => by
    simp only [Payoff.sameFrame] at h1
    obtain ⟨x1, rfl, hx⟩ := h1
    simp only [Payoff.sameFrame] at h2 ⊢
    obtain ⟨x2, rfl, kx⟩ := h2
    exact ⟨x2, rfl, sameFrame_trans x x1 x2 hx kx⟩
  | .Squareroot x, y0, z0, h1, h2 => by
    simp only [Payoff.sameFrame] at h1
    obtain ⟨x1, rfl, hx⟩ := h1
    simp only [Payoff.sameFrame] at h2 ⊢
    obtain ⟨x2, rfl, kx⟩ := h2
    exact ⟨x2, rfl, sameFrame_trans x x1 x2 hx kx⟩
  | .Logical x y op, y0, z0, h1, h2 => by
    simp only [Payoff.sameFrame] at h1
    obtain ⟨x1, y1, rfl, hx, hy⟩ := h1
    simp only [Payoff.sameFrame] at h2 ⊢
    obtain ⟨x2, y2, rfl, kx, ky⟩ := h2
    exact ⟨x2, y2, rfl, sameFrame_trans x x1 x2 hx kx, sameFrame_trans y y1 y2 hy ky⟩
  | .IfThenElse x y z, y0, z0, h1, h2 => by
    simp only [Payoff.sameFrame] at h1
    obtain ⟨x1, y1, z1, rfl, hx, hy, hz⟩ := h1
    simp only [Payoff.sameFrame] at h2 ⊢
    obtain ⟨x2, y2, z2, rfl, kx, ky, kz⟩ := h2
    exact ⟨x2, y2, z2, rfl, sameFrame_trans x x1 x2 hx kx, sameFrame_trans y y1 y2 hy ky, sameFrame_trans z z1 z2 hz kz⟩
  | .Cache x _ _, y0, z0, h1, h2 => by
    simp only [Payoff.sameFrame] at h1
    obtain ⟨x1, lp1, lv1, rfl, hx⟩ := h1
    simp only [Payoff.sameFrame] at h2 ⊢
    obtain ⟨x2, lp2, lv2, rfl, kx⟩ := h2
    exact ⟨x2, lp2, lv2, rfl, sameFrame_trans x x1 x2 hx kx⟩
  | .Basket underlyings weights true, y0, z0, h1, h2 => by
    simp only [Payoff.sameFrame] at h1
    obtain ⟨us1, l1, rfl, hp1, hl1⟩ := h1
    simp only [Payoff.sameFrame] at h2 ⊢
    obtain ⟨us2, l2, rfl, hp2, hl2⟩ := h2
    obtain ⟨l3, hl3, hp3⟩ := List.perm_comp_forall₂ hp1 ((sameFrameList_iff us1 l2).1 hl2)
    exact ⟨us2, l3, rfl, hp3.trans hp2,
      sameFrameList_trans underlyings l1 l3 hl1 ((sameFrameList_iff l1 l3).2 hl3)⟩
  | .Basket underlyings weights false, y0, z0, h1, h2 => by
    simp only [Payoff.sameFrame] at h1
    obtain ⟨us1, rfl, hl1⟩ := h1
    simp only [Payoff.sameFrame] at h2 ⊢
    obtain ⟨us2, rfl, hl2⟩ := h2
    exact ⟨us2, rfl, sameFrameList_trans underlyings us1 us2 hl1 hl2⟩
theorem sameFrameList_trans {γ : Type} : ∀ l l1 l2 : List (Payoff γ),
    Payoff.sameFrameList l l1 → Payoff.sameFrameList l1 l2 → Payoff.sameFrameList l l2
  | [], l1, l2, h1, h2 => by
    simp only [Payoff.sameFrameList] at h1
    subst h1
    exact h2
  | x :: rest, l1, l2, h1, h2 => by
    simp only [Payoff.sameFrameList] at h1
    obtain ⟨x1, rest1, rfl, hx, hr⟩ := h1
    simp only [Payoff.sameFrameList] at h2 ⊢
    obtain ⟨x2, rest2, rfl, kx, kr⟩ := h2
    exact ⟨x2, rest2, rfl, sameFrame_trans x x1 x2 hx kx,
      sameFrameList_trans rest rest1 rest2 hr kr⟩
end

mutual
theorem sameFrame_eraseMemo : ∀ x y : Payoff α, x.sameFrame y → x.noRainbow = true →
    y.eraseMemo = x.eraseMemo
  | .FixedAmount _, y, h, _ => by
    simp only [Payoff.sameFrame] at h
    rw [h]
  | .Cash _ _, y, h, _ => by
    simp only [Payoff.sameFrame] at h
    rw [h]
  | .ZeroBond _ _ _, y, h, _ => by
    simp only [Payoff.sameFrame] at h
    rw [h]
  | .Asset _ _ _ _, y, h, _ => by
    simp only [Payoff.sameFrame] at h
    rw [h]
  | .AssetBarrierNoHit _ _ _ _ _ _, y, h, _ => by
    simp only [Payoff.sameFrame] at h
    rw [h]
  | .VanillaOption _ _ _ _, y, h, _ => by
    simp only [Payoff.sameFrame] at h
    rw [h]
  | .GeneralSwaption _ _ _ _ _ _ _, y, h, _ => by
    simp only [Payoff.sameFrame] at h
    rw [h]
  | .SwapRate _ _ _ _ _ _, y, h, _ => by
    simp only [Payoff.sameFrame] at h
    rw [h]
  | .Clone t x, y0, h, hn => by
    simp only [Payoff.sameFrame] at h
    obtain ⟨x1, rfl, hx⟩ := h
    have hx0 : x.noRainbow = true := by simpa only [Payoff.noRainbow] using hn
    simp only [Payoff.eraseMemo, sameFrame_eraseMemo x x1 hx hx0]
  | .Pay x payTime, y0, h, hn => by
    simp only [Payoff.sameFrame] at h
    obtain ⟨x1, rfl, hx⟩ := h
    have hx0 : x.noRainbow = true := by simpa only [Payoff.noRainbow] using hn
    simp only [Payoff.eraseMemo, sameFrame_eraseMemo x x1 hx hx0]
  | .Axpy a x none, y0, h, hn => by
    simp only [Payoff.sameFrame] at h
    obtain ⟨x1, rfl, hx⟩ := h
    have hx0 : x.noRainbow = true := by simpa only [Payoff.noRainbow] using hn
    simp only [Payoff.eraseMemo, sameFrame_eraseMemo x x1 hx hx0]
  | .Axpy a x (some y), y0, h, hn => by
    simp only [Payoff.sameFrame] at h
    obtain ⟨x1, y1, rfl, hx, hy⟩ := h
    simp only [Payoff.noRainbow, Bool.and_eq_true] at hn
    simp only [Payoff.eraseMemo, sameFrame_eraseMemo x x1 hx hn.1, sameFrame_eraseMemo y y1 hy hn.2]
  | .Mult x y, y0, h, hn => by
    simp only [Payoff.sameFrame] at h
    obtain ⟨x1, y1, rfl, hx, hy⟩ := h
    simp only [Payoff.noRainbow, Bool.and_eq_true] at hn
    simp only [Payoff.eraseMemo, sameFrame_eraseMemo x x1 hx hn.1, sameFrame_eraseMemo y y1 hy hn.2]
  | .Division x y, y0, h, hn => by
    simp only [Payoff.sameFrame] at h
    obtain ⟨x1, y1, rfl, hx, hy⟩ := h
    simp only [Payoff.noRainbow, Bool.and_eq_true] at hn
    simp only [Payoff.eraseMemo, sameFrame_eraseMemo x x1 hx hn.1, sameFrame_eraseMemo y y1 hy hn.2]
  | .Max x y, y0, h, hn => by
    simp only [Payoff.sameFrame] at h
    obtain ⟨x1, y1, rfl, hx, hy⟩ := h
    simp only [Payoff.noRainbow, Bool.and_eq_true] at hn
    simp only [Payoff.eraseMemo, sameFrame_eraseMemo x x1 hx hn.1, sameFrame_eraseMemo y y1 hy hn.2]
  | .Min x y, y0, h, hn => by
    simp only [Payoff.sameFrame] at h
    obtain ⟨x1, y1, rfl, hx, hy⟩ := h
    simp only [Payoff.noRainbow, Bool.and_eq_true] at hn
    simp only [Payoff.eraseMemo, sameFrame_eraseMemo x x1 hx hn.1, sameFrame_eraseMemo y y1 hy hn.2]
  | .Exponential x, y0, h, hn => by
    simp only [Payoff.sameFrame] at h
    obtain ⟨x1, rfl, hx⟩ := h
    have hx0 : x.noRainbow = true := by simpa only [Payoff.noRainbow] using hn
    simp only [Payoff.eraseMemo, sameFrame_eraseMemo x x1 hx hx0]
  | .Logarithm x, y0, h, hn => by
    simp only [Payoff.sameFrame] at h
    obtain ⟨x1, rfl, hx⟩ := h
    have hx0 : x.noRainbow = true := by simpa only [Payoff.noRainbow] using hn
    simp only [Payoff.eraseMemo, sameFrame_eraseMemo x x1 hx hx0]
  | .Squareroot x, y0, h, hn => by
    simp only [Payoff.sameFrame] at h
    obtain ⟨x1, rfl, hx⟩ := h
    have hx0 : x.noRainbow = true := by simpa only [Payoff.noRainbow] using hn
    simp only [Payoff.eraseMemo, sameFrame_eraseMemo x x1 hx hx0]
  | .Logical x y op, y0, h, hn => by
    simp only [Payoff.sameFrame] at h
    obtain ⟨x1, y1, rfl, hx, hy⟩ := h
    simp only [Payoff.noRainbow, Bool.and_eq_true] at hn
    simp only [Payoff.eraseMemo, sameFrame_eraseMemo x x1 hx hn.1, sameFrame_eraseMemo y y1 hy hn.2]
  | .IfThenElse x y z, y0, h, hn => by
    simp only [Payoff.sameFrame] at h
    obtain ⟨x1, y1, z1, rfl, hx, hy, hz⟩ := h
    simp only [Payoff.noRainbow, Bool.and_eq_true] at hn
    simp only [Payoff.eraseMemo, sameFrame_eraseMemo x x1 hx hn.1.1, sameFrame_eraseMemo y y1 hy hn.1.2, sameFrame_eraseMemo z z1 hz hn.2]
  | .Cache x _ _, y0, h, hn => by
    simp only [Payoff.sameFrame] at h
    obtain ⟨x1, lp1, lv1, rfl, hx⟩ := h
    have hx0 : x.noRainbow = true := by simpa only [Payoff.noRainbow] using hn
    simp only [Payoff.eraseMemo, sameFrame_eraseMemo x x1 hx hx0]
  | .Basket underlyings weights true, y0, h, hn => by
    simp [Payoff.noRainbow] at hn
  | .Basket underlyings weights false, y0, h, hn => by
    simp only [Payoff.sameFrame] at h
    obtain ⟨us1, rfl, hl⟩ := h
    have hl0 : Payoff.noRainbowList underlyings = true := by
      simpa [Payoff.noRainbow] using hn
    simp only [Payoff.eraseMemo, sameFrameList_eraseMemo underlyings us1 hl hl0]
theorem sameFrameList_eraseMemo : ∀ l l1 : List (Payoff α), Payoff.sameFrameList l l1 →
    Payoff.noRainbowList l = true → Payoff.eraseMemoList l1 = Payoff.eraseMemoList l
  | [], l1, h, _ => by
    simp only [Payoff.sameFrameList] at h
    rw [h]
  | x :: rest, l1, h, hn => by
    simp only [Payoff.sameFrameList] at h
    obtain ⟨x1, rest1, rfl, hx, hr⟩ := h
    simp only [Payoff.noRainbowList, Bool.and_eq_true] at hn
    simp only [Payoff.eraseMemoList, sameFrame_eraseMemo x x1 hx hn.1,
      sameFrameList_eraseMemo rest rest1 hr hn.2]
end

theorem evalEach_frame {γ : Type} (f : Payoff γ → Except String γ × Payoff γ)
    (hf : ∀ u : Payoff γ, u.sameFrame (f u).2) :
    ∀ us : List (Payoff γ), Payoff.sameFrameList us (evalEach f us).2
      ∧ ∀ vs, (evalEach f us).1 = .ok vs → vs.length = (evalEach f us).2.length := by
  intro us
  induction us with
  | nil =>
    refine ⟨by simp only [evalEach, Payoff.sameFrameList], ?_⟩
    intro vs h
    simp only [evalEach, Except.ok.injEq] at h
    rw [← h]
    rfl
  | cons u rest ih =>
    have hu := hf u
    simp only [evalEach]
    generalize f u = r at hu
    obtain ⟨r1, u1⟩ := r
    cases r1 with
    | error e =>
      refine ⟨?_, fun vs h => by simp at h⟩
      simp only [Payoff.sameFrameList]
      exact ⟨u1, rest, rfl, hu, sameFrameList_refl rest⟩
    | ok v =>
      dsimp only
      generalize evalEach f rest = q at ih
      obtain ⟨q1, rest1⟩ := q
      cases q1 with
      | error e =>
        refine ⟨?_, fun vs h => by simp at h⟩
        simp only [Payoff.sameFrameList]
        exact ⟨u1, rest1, rfl, hu, ih.1⟩
      | ok ws =>
        refine ⟨?_, ?_⟩
        · simp only [Payoff.sameFrameList]
          exact ⟨u1, rest1, rfl, hu, ih.1⟩
        · intro vs h
          simp only [Except.ok.injEq] at h
          rw [← h, List.length_cons, List.length_cons, ih.2 ws rfl]

theorem basketSum_frame (f : Payoff α → Except String α × Payoff α)
    (hf : ∀ u : Payoff α, u.sameFrame (f u).2) (weights_ : List α) :
    ∀ (us : List (Payoff α)) (k : Nat) (res : α),
      Payoff.sameFrameList us (basketSum f weights_ us k res).2 := by
  intro us
  induction us with
  | nil =>
    intro k res
    simp only [basketSum, Payoff.sameFrameList]
  | cons u rest ih =>
    intro k res
    have hu := hf u
    simp only [basketSum]
    generalize f u = r at hu
    obtain ⟨r1, u1⟩ := r
    cases r1 with
    | error e =>
      simp only [Payoff.sameFrameList]
      exact ⟨u1, rest, rfl, hu, sameFrameList_refl rest⟩
    | ok v =>
      simp only [Payoff.sameFrameList]
      exact ⟨u1, _, rfl, hu, ih (k + 1) (res + numAt weights_ k * v)⟩

theorem sorted_underlyings_perm (vs : List α) (us : List (Payoff α))
    (h : vs.length = us.length) :
    List.Perm (((vs.zip us).insertionSort (fun a b => a.1 ≥ b.1)).map (·.2)) us := by
  have h1 := (List.perm_insertionSort (fun a b : α × Payoff α => a.1 ≥ b.1) (vs.zip us)).map
    (·.2)
  have h2 : (vs.zip us).map (·.2) = us := List.map_snd_zip vs us (le_of_eq h.symm)
  rw [h2] at h1
  exact h1

theorem atPathFuel_frame (exp log sqrt : α → α) (p : PathType α) :
    ∀ (n : Nat) (x : Payoff α), x.sameFrame (x.atPathFuel exp log sqrt n p).2 := by
  intro n
  induction n with
  | zero =>
    intro x
    cases x <;> exact sameFrame_refl _
  | succ n ih =>
    intro x
    cases x with
    | FixedAmount amount => rw [Payoff.atPathFuel]; exact sameFrame_refl _
    | Cash obsTime payTime => rw [Payoff.atPathFuel]; exact sameFrame_refl _
    | ZeroBond obsTime payTime alias_ => rw [Payoff.atPathFuel]; exact sameFrame_refl _
    | Asset obsTime alias_ history fixed => rw [Payoff.atPathFuel]; exact sameFrame_refl _
    | AssetBarrierNoHit tStart tEnd down up side alias_ =>
      rw [Payoff.atPathFuel]; exact sameFrame_refl _
    | VanillaOption obsTime alias_ strike callOrPut =>
      rw [Payoff.atPathFuel]; exact sameFrame_refl _
    | GeneralSwaption obsTime floatTimes floatWeights fixedTimes fixedWeights strikeRate payOrRec =>
      rw [Payoff.atPathFuel]; exact sameFrame_refl _
    | SwapRate obsTime floatTimes floatWeights fixedTimes fixedWeights index =>
      rw [Payoff.atPathFuel]; exact sameFrame_refl _
    | Clone t x =>
      rw [Payoff.atPathFuel]
      simp only [Payoff.sameFrame]
      exact ⟨_, rfl, ih x⟩
    | Pay x payTime =>
      rw [Payoff.atPathFuel]
      simp only [Payoff.sameFrame]
      exact ⟨_, rfl, ih x⟩
    | Cache x lastPath lastPayoff =>
      rw [Payoff.atPathFuel]
      by_cases hl : lastPath ≠ some p.addr
      · rw [if_pos hl]
        have hx := ih x
        generalize Payoff.atPathFuel exp log sqrt n x p = rx at hx
        obtain ⟨r1, x1⟩ := rx
        simp only [Payoff.sameFrame]
        cases r1 with
        | error e => exact ⟨_, _, _, rfl, hx⟩
        | ok v => exact ⟨_, _, _, rfl, hx⟩
      · rw [if_neg hl]
        exact sameFrame_refl _
    | Axpy a x y =>
      cases y with
      | none =>
        rw [Payoff.atPathFuel]
        have hx := ih x
        generalize Payoff.atPathFuel exp log sqrt n x p = rx at hx
        obtain ⟨r1, x1⟩ := rx
        simp only [Payoff.sameFrame]
        cases r1 with
        | error e => exact ⟨_, rfl, hx⟩
        | ok v => exact ⟨_, rfl, hx⟩
      | some y =>
        rw [Payoff.atPathFuel]
        have hx := ih x
        have hy := ih y
        generalize Payoff.atPathFuel exp log sqrt n x p = rx at hx
        generalize Payoff.atPathFuel exp log sqrt n y p = ry at hy
        obtain ⟨r1, x1⟩ := rx
        obtain ⟨r2, y1⟩ := ry
        simp only [Payoff.sameFrame]
        cases r1 with
        | error e => exact ⟨_, _, rfl, hx, sameFrame_refl y⟩
        | ok v =>
          cases r2 with
          | error e => exact ⟨_, _, rfl, hx, hy⟩
          | ok w => exact ⟨_, _, rfl, hx, hy⟩
    | Exponential x =>
      rw [Payoff.atPathFuel]
      have hx := ih x
      generalize Payoff.atPathFuel exp log sqrt n x p = rx at hx
      obtain ⟨r1, x1⟩ := rx
      simp only [Payoff.sameFrame]
      cases r1 with
      | error e => exact ⟨_, rfl, hx⟩
      | ok v => exact ⟨_, rfl, hx⟩
    | Logarithm x =>
      rw [Payoff.atPathFuel]
      have hx := ih x
      generalize Payoff.atPathFuel exp log sqrt n x p = rx at hx
      obtain ⟨r1, x1⟩ := rx
      simp only [Payoff.sameFrame]
      cases r1 with
      | error e => exact ⟨_, rfl, hx⟩
      | ok v => exact ⟨_, rfl, hx⟩
    | Squareroot x =>
      rw [Payoff.atPathFuel]
      have hx := ih x
      generalize Payoff.atPathFuel exp log sqrt n x p = rx at hx
      obtain ⟨r1, x1⟩ := rx
      simp only [Payoff.sameFrame]
      cases r1 with
      | error e => exact ⟨_, rfl, hx⟩
      | ok v => exact ⟨_, rfl, hx⟩
    | Mult x y =>
      rw [Payoff.atPathFuel]
      have hx := ih x
      have hy := ih y
      generalize Payoff.atPathFuel exp log sqrt n x p = rx at hx
      generalize Payoff.atPathFuel exp log sqrt n y p = ry at hy
      obtain ⟨r1, x1⟩ := rx
      obtain ⟨r2, y1⟩ := ry
      simp only [Payoff.sameFrame]
      cases r1 with
      | error e => exact ⟨_, _, rfl, hx, sameFrame_refl y⟩
      | ok v =>
        cases r2 with
        | error e => exact ⟨_, _, rfl, hx, hy⟩
        | ok w => exact ⟨_, _, rfl, hx, hy⟩
    | Division x y =>
      rw [Payoff.atPathFuel]
      have hx := ih x
      have hy := ih y
      generalize Payoff.atPathFuel exp log sqrt n x p = rx at hx
      generalize Payoff.atPathFuel exp log sqrt n y p = ry at hy
      obtain ⟨r1, x1⟩ := rx
      obtain ⟨r2, y1⟩ := ry
      simp only [Payoff.sameFrame]
      cases r1 with
      | error e => exact ⟨_, _, rfl, hx, sameFrame_refl y⟩
      | ok v =>
        cases r2 with
        | error e => exact ⟨_, _, rfl, hx, hy⟩
        | ok w => exact ⟨_, _, rfl, hx, hy⟩
    | Logical x y op =>
      rw [Payoff.atPathFuel]
      have hx := ih x
      have hy := ih y
      generalize Payoff.atPathFuel exp log sqrt n x p = rx at hx
      generalize Payoff.atPathFuel exp log sqrt n y p = ry at hy
      obtain ⟨r1, x1⟩ := rx
      obtain ⟨r2, y1⟩ := ry
      simp only [Payoff.sameFrame]
      cases r1 with
      | error e => exact ⟨_, _, rfl, hx, sameFrame_refl y⟩
      | ok v =>
        cases r2 with
        | error e => exact ⟨_, _, rfl, hx, hy⟩
        | ok w => exact ⟨_, _, rfl, hx, hy⟩
    | Max x y =>
      rw [Payoff.atPathFuel]
      have hx := ih x
      have hy := ih y
      generalize Payoff.atPathFuel exp log sqrt n x p = rx at hx
      generalize Payoff.atPathFuel exp log sqrt n y p = ry at hy
      obtain ⟨r1, x1⟩ := rx
      obtain ⟨r2, y1⟩ := ry
      simp only [Payoff.sameFrame]
      cases r1 with
      | error e => exact ⟨_, _, rfl, hx, sameFrame_refl y⟩
      | ok v =>
        cases r2 with
        | error e => exact ⟨_, _, rfl, hx, hy⟩
        | ok w =>
          dsimp only
          by_cases hvw : v > w
          · rw [if_pos hvw]
            exact ⟨_, _, rfl, sameFrame_trans _ _ _ hx (ih x1), hy⟩
          · rw [if_neg hvw]
            exact ⟨_, _, rfl, hx, sameFrame_trans _ _ _ hy (ih y1)⟩
    | Min x y =>
      rw [Payoff.atPathFuel]
      have hx := ih x
      have hy := ih y
      generalize Payoff.atPathFuel exp log sqrt n x p = rx at hx
      generalize Payoff.atPathFuel exp log sqrt n y p = ry at hy
      obtain ⟨r1, x1⟩ := rx
      obtain ⟨r2, y1⟩ := ry
      simp only [Payoff.sameFrame]
      cases r1 with
      | error e => exact ⟨_, _, rfl, hx, sameFrame_refl y⟩
      | ok v =>
        cases r2 with
        | error e => exact ⟨_, _, rfl, hx, hy⟩
        | ok w =>
          dsimp only
          by_cases hvw : v < w
          · rw [if_pos hvw]
            exact ⟨_, _, rfl, sameFrame_trans _ _ _ hx (ih x1), hy⟩
          · rw [if_neg hvw]
            exact ⟨_, _, rfl, hx, sameFrame_trans _ _ _ hy (ih y1)⟩
    | IfThenElse x y z =>
      rw [Payoff.atPathFuel]
      have hx := ih x
      generalize Payoff.atPathFuel exp log sqrt n x p = rx at hx
      obtain ⟨r1, x1⟩ := rx
      simp only [Payoff.sameFrame]
      cases r1 with
      | error e => exact ⟨_, _, _, rfl, hx, sameFrame_refl y, sameFrame_refl z⟩
      | ok v =>
        dsimp only
        by_cases hv : v ≠ 0
        · rw [if_pos hv]
          exact ⟨_, _, _, rfl, hx, ih y, sameFrame_refl z⟩
        · rw [if_neg hv]
          exact ⟨_, _, _, rfl, hx, sameFrame_refl y, ih z⟩
    | Basket underlyings weights rainbow =>
      rw [Payoff.atPathFuel]
      cases rainbow with
      | false =>
        rw [if_neg Bool.false_ne_true]
        simp only [Payoff.sameFrame]
        exact ⟨_, rfl, basketSum_frame _ (fun u => ih u) weights underlyings 0 0⟩
      | true =>
        rw [if_pos rfl]
        have he := evalEach_frame (fun u => Payoff.atPathFuel exp log sqrt n u p)
          (fun u => ih u) underlyings
        generalize evalEach (fun u => Payoff.atPathFuel exp log sqrt n u p) underlyings = r
          at he
        obtain ⟨r1, us1⟩ := r
        simp only [Payoff.sameFrame]
        cases r1 with
        | error e => exact ⟨_, _, rfl, List.Perm.refl _, he.1⟩
        | ok vs =>
          dsimp only
          have hp := sorted_underlyings_perm vs us1 (he.2 vs rfl)
          have hb := basketSum_frame (fun u => Payoff.atPathFuel exp log sqrt n u p)
            (fun u => ih u) weights
            (((vs.zip us1).insertionSort (fun a b => a.1 ≥ b.1)).map (·.2)) 0 0
          obtain ⟨l3, hl3, hp3⟩ := List.perm_comp_forall₂ hp.symm
            ((sameFrameList_iff _ _).1 hb)
          exact ⟨_, l3, rfl, hp3, sameFrameList_trans _ _ _ he.1
            ((sameFrameList_iff _ _).2 hl3)⟩

theorem discountedAt_snd (exp log sqrt : α → α) (x : Payoff α) (p : PathType α) :
    (x.discountedAt exp log sqrt p).2 = (x.atPath exp log sqrt p).2 := by
  rw [discountedAt_eq]
  by_cases hs : x.isSwapRate = true
  · rw [if_pos hs]
  · rw [if_neg hs]
    generalize x.atPath exp log sqrt p = r
    obtain ⟨r1, x1⟩ := r
    cases r1 with
    | error e => rfl
    | ok v =>
      dsimp only
      cases p.numeraire x.observationTime with
      | error e => rfl
      | ok N => rfl

/-- C21 fails as stated: the node `Basket([FixedAmount(1), FixedAmount(2)],
[1, 0], rainbow = true)` is accepted by the constructor; `at(p)` on the first
path of the simulation returns 2 and leaves the underlyings in the order
`FixedAmount(2)`, `FixedAmount(1)`, and so does `discountedAt(p)`: the field
`underlyings_` of a node that is no `Cache` node has changed. -/
theorem rainbow_basket_reordered_counterexample :
    Payoff.mkBasket [.FixedAmount (1 : ℚ), .FixedAmount 2] [1, 0] true
        = .ok (.Basket [.FixedAmount 1, .FixedAmount 2] [1, 0] true)
      ∧ (Payoff.Basket [.FixedAmount (1 : ℚ), .FixedAmount 2] [1, 0] true).atPath
          (fun x => x) (fun x => x) (fun x => x)
          ((barrierSimulation ℚ).path (fun x => x) (fun x => x) 0 0)
        = (.ok 2, .Basket [.FixedAmount 2, .FixedAmount 1] [1, 0] true)
      ∧ ((Payoff.Basket [.FixedAmount (1 : ℚ), .FixedAmount 2] [1, 0] true).discountedAt
          (fun x => x) (fun x => x) (fun x => x)
          ((barrierSimulation ℚ).path (fun x => x) (fun x => x) 0 0)).2
        = .Basket [.FixedAmount 2, .FixedAmount 1] [1, 0] true
      ∧ Payoff.Basket [.FixedAmount (2 : ℚ), .FixedAmount 1] [1, 0] true
        ≠ .Basket [.FixedAmount 1, .FixedAmount 2] [1, 0] true := by
  have h : (Payoff.Basket [.FixedAmount (1 : ℚ), .FixedAmount 2] [1, 0] true).atPath
      (fun x => x) (fun x => x) (fun x => x)
      ((barrierSimulation ℚ).path (fun x => x) (fun x => x) 0 0)
      = (.ok 2, .Basket [.FixedAmount 2, .FixedAmount 1] [1, 0] true) := by
    norm_num [Payoff.atPath, Payoff.atPathFuel, Payoff.height, Payoff.heightList, evalEach,
      basketSum, List.insertionSort, List.orderedInsert, numAt]
  refine ⟨?_, h, ?_, ?_⟩
  · simp [Payoff.mkBasket]
  · rw [discountedAt_snd, h]
  · simp

/-- C21 (amended): `at(p)` and `discountedAt(p)` leave every field of every
node of the tree as it is, apart from the memo fields `lastPath_`,
`lastPayoff_` of `Cache` nodes and the order of the `underlyings_` of `Basket`
nodes with `rainbow_` set; on a tree without a rainbow `Basket` the tree after
the call is the tree before it up to the memo fields of its `Cache` nodes. -/
theorem evaluation_frame (exp log sqrt : α → α) (x : Payoff α) (p : PathType α) :
    x.sameFrame (x.atPath exp log sqrt p).2
      ∧ x.sameFrame (x.discountedAt exp log sqrt p).2
      ∧ (x.noRainbow = true →
        (x.atPath exp log sqrt p).2.eraseMemo = x.eraseMemo
          ∧ (x.discountedAt exp log sqrt p).2.eraseMemo = x.eraseMemo) := by
  have h : x.sameFrame (x.atPath exp log sqrt p).2 := atPathFuel_frame exp log sqrt p _ x
  refine ⟨h, ?_, fun hn => ⟨sameFrame_eraseMemo _ _ h hn, ?_⟩⟩
  · rw [discountedAt_snd]
    exact h
  · rw [discountedAt_snd]
    exact sameFrame_eraseMemo _ _ h hn

theorem evaluation_frame_witness :
    (Payoff.Mult (.Cache (.FixedAmount (2 : ℚ)) none 0)
        (.Basket [.FixedAmount 1, .FixedAmount 2] [1, 0] false)).noRainbow = true
      ∧ ((Payoff.Mult (.Cache (.FixedAmount (2 : ℚ)) none 0)
          (.Basket [.FixedAmount 1, .FixedAmount 2] [1, 0] false)).atPath
          (fun x => x) (fun x => x) (fun x => x)
          ((barrierSimulation ℚ).path (fun x => x) (fun x => x) 0 0)).2.eraseMemo
        = (Payoff.Mult (.Cache (.FixedAmount (2 : ℚ)) none 0)
          (.Basket [.FixedAmount 1, .FixedAmount 2] [1, 0] false)).eraseMemo
      ∧ ((Payoff.Mult (.Cache (.FixedAmount (2 : ℚ)) none 0)
          (.Basket [.FixedAmount 1, .FixedAmount 2] [1, 0] false)).discountedAt
          (fun x => x) (fun x => x) (fun x => x)
          ((barrierSimulation ℚ).path (fun x => x) (fun x => x) 0 0)).2.eraseMemo
        = (Payoff.Mult (.Cache (.FixedAmount (2 : ℚ)) none 0)
          (.Basket [.FixedAmount 1, .FixedAmount 2] [1, 0] false)).eraseMemo :=
  ⟨rfl, (evaluation_frame (fun x => x) (fun x => x) (fun x => x)
    (Payoff.Mult (.Cache (.FixedAmount (2 : ℚ)) none 0)
      (.Basket [.FixedAmount 1, .FixedAmount 2] [1, 0] false))
    ((barrierSimulation ℚ).path (fun x => x) (fun x => x) 0 0)).2.2 rfl⟩

end EvaluationFrame

/-! ### Domain, steps, caches and baskets -/

section Behaviour

variable {α : Type} [LinearOrderedField α]

theorem truncateOps_key_cases (m : QuasiGaussianModelT α) (j : Nat)
    (hj : j ∈ m.truncateOps.map (·.1)) :
    (numAt m.procLimit_ 2 > 0 ∧ j < m.d_)
      ∨ (numAt m.procLimit_ 1 > 0 ∧ m.d_ ≤ j ∧ j < m.d_ + m.d_ * m.d_)
      ∨ (numAt m.procLimit_ 0 > 0 ∧ j = m.d_ + m.d_ * m.d_) := by
  obtain ⟨op, hop, rfl⟩ := List.mem_map.1 hj
  unfold QuasiGaussianModelT.truncateOps at hop
  simp only [List.mem_append] at hop
  rcases hop with (hop | hop) | hop
  · split_ifs at hop with h
    · obtain ⟨k, hk, rfl⟩ := List.mem_map.1 hop
      exact Or.inl ⟨h, List.mem_range.1 hk⟩
    · simp at hop
  · split_ifs at hop with h
    · obtain ⟨k, hk, rfl⟩ := List.mem_map.1 hop
      obtain ⟨i, hi, rfl⟩ := List.mem_map.1 hk
      have := List.mem_range.1 hi
      exact Or.inr (Or.inl ⟨h, by omega, by omega⟩)
    · simp at hop
  · split_ifs at hop with h
    · rw [List.mem_singleton] at hop
      subst hop
      exact Or.inr (Or.inr ⟨h, rfl⟩)
    · simp at hop

theorem truncate_bounds (m : QuasiGaussianModelT α) (t : α) (X : List α)
    (hX : X.length = m.size) :
    (m.truncate t X).2.length = X.length
      ∧ (∀ j, j ∉ m.truncateOps.map (·.1) → numAt (m.truncate t X).2 j = numAt X j)
      ∧ ∀ op ∈ m.truncateOps,
        op.2.1 ≤ numAt (m.truncate t X).2 op.1 ∧ numAt (m.truncate t X).2 op.1 ≤ op.2.2 := by
  have hsub := truncateOps_keys m
  have hnd : (m.truncateOps.map (·.1)).Nodup := (List.nodup_range _).sublist hsub
  have hlt : ∀ op ∈ m.truncateOps, op.1 < X.length := by
    intro op hop
    have := List.mem_range.1 (hsub.subset (List.mem_map_of_mem (·.1) hop))
    rw [hX]
    unfold QuasiGaussianModelT.size
    omega
  obtain ⟨r1, r2, r3, -, -⟩ := clampFold m.truncateOps hnd (truncateOps_bounds m) false X hlt
  rw [truncate_eq_fold m t]
  exact ⟨r1, r2, r3⟩

/-- C32 fails as stated: the default `procLimit = VecP(0)` becomes the limits
(0, 0, 0) in `checkModelParameters`, and with these limits `truncate` leaves a
state vector with the variance component -1 as it is and returns `false`. -/
theorem truncate_default_limits_counterexample :
    adjustProcLimit ([] : List ℚ) = [0, 0, 0]
      ∧ (skewModel ℚ).procLimit_ = adjustProcLimit ([] : List ℚ)
      ∧ (skewModel ℚ).truncate 0 [0, 0, 0, 0, 0, 0, -1, 0] = (false, [0, 0, 0, 0, 0, 0, -1, 0])
      ∧ numAt ((skewModel ℚ).truncate 0 [0, 0, 0, 0, 0, 0, -1, 0]).2
          ((skewModel ℚ).d_ + (skewModel ℚ).d_ * (skewModel ℚ).d_) < 0 := by
  have h : (skewModel ℚ).truncate 0 [0, 0, 0, 0, 0, 0, -1, 0]
      = (false, [0, 0, 0, 0, 0, 0, -1, 0]) := by
    norm_num [QuasiGaussianModelT.truncate, skewModel, numAt]
  refine ⟨?_, ?_, h, ?_⟩
  · norm_num [adjustProcLimit, List.range_succ, numAt]
  · norm_num [adjustProcLimit, List.range_succ, numAt, skewModel]
  · rw [h]
    norm_num [skewModel, numAt]

/-- C32 (amended): after `truncate(t, X)` on a state vector of the size of the
model, the variance component `X[d+d*d]` lies in `[0, procLimit_[0]]` if
`procLimit_[0] > 0`, every x component lies in `[-procLimit_[2], procLimit_[2]]`
if `procLimit_[2] > 0`, and every y component lies in
`[-procLimit_[1], procLimit_[1]]` if `procLimit_[1] > 0`; a block whose limit is
not positive (the default 0) is left as it is, and so is the component `s`. -/
theorem truncate_domain (m : QuasiGaussianModelT α) (t : α) (X : List α)
    (hX : X.length = m.size) :
    (numAt m.procLimit_ 0 > 0 →
        0 ≤ numAt (m.truncate t X).2 (m.d_ + m.d_ * m.d_)
          ∧ numAt (m.truncate t X).2 (m.d_ + m.d_ * m.d_) ≤ numAt m.procLimit_ 0)
      ∧ (numAt m.procLimit_ 2 > 0 → ∀ k, k < m.d_ →
        -(numAt m.procLimit_ 2) ≤ numAt (m.truncate t X).2 k
          ∧ numAt (m.truncate t X).2 k ≤ numAt m.procLimit_ 2)
      ∧ (numAt m.procLimit_ 1 > 0 → ∀ k, m.d_ ≤ k → k < m.d_ + m.d_ * m.d_ →
        -(numAt m.procLimit_ 1) ≤ numAt (m.truncate t X).2 k
          ∧ numAt (m.truncate t X).2 k ≤ numAt m.procLimit_ 1)
      ∧ (¬ numAt m.procLimit_ 0 > 0 →
        numAt (m.truncate t X).2 (m.d_ + m.d_ * m.d_) = numAt X (m.d_ + m.d_ * m.d_))
      ∧ (¬ numAt m.procLimit_ 2 > 0 → ∀ k, k < m.d_ → numAt (m.truncate t X).2 k = numAt X k)
      ∧ (¬ numAt m.procLimit_ 1 > 0 → ∀ k, m.d_ ≤ k → k < m.d_ + m.d_ * m.d_ →
        numAt (m.truncate t X).2 k = numAt X k)
      ∧ numAt (m.truncate t X).2 (m.d_ + m.d_ * m.d_ + 1) = numAt X (m.d_ + m.d_ * m.d_ + 1)
      ∧ (m.truncate t X).2.length = X.length := by
  obtain ⟨r1, r2, r3⟩ := truncate_bounds m t X hX
  refine ⟨?_, ?_, ?_, ?_, ?_, ?_, ?_, r1⟩
  · intro h
    exact r3 (m.d_ + m.d_ * m.d_, 0, numAt m.procLimit_ 0) (by
      unfold QuasiGaussianModelT.truncateOps
      rw [if_pos h]
      simp)
  · intro h k hk
    exact r3 (k, -(numAt m.procLimit_ 2), numAt m.procLimit_ 2) (by
      unfold QuasiGaussianModelT.truncateOps
      rw [if_pos h]
      exact List.mem_append_left _ (List.mem_append_left _
        (List.mem_map.2 ⟨k, List.mem_range.2 hk, rfl⟩)))
  · intro h k hk1 hk2
    exact r3 (k, -(numAt m.procLimit_ 1), numAt m.procLimit_ 1) (by
      unfold QuasiGaussianModelT.truncateOps
      rw [if_pos h]
      refine List.mem_append_left _ (List.mem_append_right _ (List.mem_map.2 ⟨k, ?_, rfl⟩))
      exact List.mem_map.2 ⟨k - m.d_, List.mem_range.2 (by omega), by omega⟩)
  · intro h
    refine r2 _ (fun hj => ?_)
    rcases truncateOps_key_cases m _ hj with h1 | h1 | h1
    · omega
    · omega
    · exact h h1.1
  · intro h k hk
    refine r2 _ (fun hj => ?_)
    rcases truncateOps_key_cases m _ hj with h1 | h1 | h1
    · exact h h1.1
    · omega
    · omega
  · intro h k hk1 hk2
    refine r2 _ (fun hj => ?_)
    rcases truncateOps_key_cases m _ hj with h1 | h1 | h1
    · omega
    · exact h h1.1
    · omega
  · refine r2 _ (fun hj => ?_)
    rcases truncateOps_key_cases m _ hj with h1 | h1 | h1 <;> omega

theorem truncate_domain_witness :
    ([5, -7, 9, 0] : List ℚ).length = (limitedModel ℚ).size
      ∧ 0 ≤ numAt ((limitedModel ℚ).truncate 0 [5, -7, 9, 0]).2
          ((limitedModel ℚ).d_ + (limitedModel ℚ).d_ * (limitedModel ℚ).d_)
      ∧ numAt ((limitedModel ℚ).truncate 0 [5, -7, 9, 0]).2
          ((limitedModel ℚ).d_ + (limitedModel ℚ).d_ * (limitedModel ℚ).d_)
        ≤ numAt (limitedModel ℚ).procLimit_ 0 :=
  ⟨rfl, (truncate_domain (limitedModel ℚ) 0 [5, -7, 9, 0] rfl).1
    (by norm_num [limitedModel, numAt])⟩

theorem numeraireAdjusterStep_times (k i : Nat) (s : MCSimulationT α) :
    (MCSimulationT.numeraireAdjusterStep k i s).2.numeraireObservTimes_
      = s.numeraireObservTimes_ := by
  obtain ⟨T, Y, h⟩ := state_pair s k (numAt s.numeraireObservTimes_ i)
  unfold MCSimulationT.numeraireAdjusterStep
  rw [h]
  cases (s.state k (numAt s.numeraireObservTimes_ i)).1 with
  | error e => rfl
  | ok v => rfl

theorem calculateNumeraireAdjuster_grid (log : α → α) (sim sim' : MCSimulationT α)
    (times : List α) (hok : sim.calculateNumeraireAdjuster log times = (.ok (), sim')) :
    1 < times.length ∧ 0 < numAt times 0 ∧ times.Sorted (· < ·) ∧
      sim'.applyNumeraireAdjuster_ = true ∧ sim'.numeraireObservTimes_ = times ∧
      sim'.numeraireAdjuster_.length = times.length := by
  have hloop : ∀ (n : Nat) (l : List Nat) (s : MCSimulationT α),
      (forLoop (fun k => forLoop (MCSimulationT.numeraireAdjusterStep k) (List.range n)) l
        s).2.numeraireObservTimes_ = s.numeraireObservTimes_ := by
    intro n l s
    refine forLoop_invariant _ (fun s1 => s1.numeraireObservTimes_ = s.numeraireObservTimes_)
      (fun k s1 hs1 => ?_) l s rfl
    exact forLoop_invariant _ (fun s2 => s2.numeraireObservTimes_ = s.numeraireObservTimes_)
      (fun i s2 hs2 => (numeraireAdjusterStep_times k i s2).trans hs2) _ s1 hs1
  unfold MCSimulationT.calculateNumeraireAdjuster at hok
  dsimp only at hok
  by_cases h1 : ¬ times.length > 1
  · rw [if_pos h1] at hok
    cases hok
  · rw [if_neg h1] at hok
    by_cases h2 : ¬ numAt times 0 > 0
    · rw [if_pos h2] at hok
      cases hok
    · rw [if_neg h2] at hok
      by_cases h3 : (!ascendingCheck times) = true
      · rw [if_pos h3] at hok
        cases hok
      · rw [if_neg h3] at hok
        have hl := hloop times.length (List.range (MCSimulationT.nPaths
          { sim with numeraireObservTimes_ := times
                     numeraireAdjuster_ := List.replicate times.length 0 }))
          { sim with numeraireObservTimes_ := times
                     numeraireAdjuster_ := List.replicate times.length 0 }
        generalize forLoop _ _ _ = r at hok hl
        obtain ⟨r1, s3⟩ := r
        cases r1 with
        | error e => cases hok
        | ok u =>
          dsimp only at hok hl
          have hs : sim' = _ := (Prod.mk.inj hok).2.symm
          subst hs
          refine ⟨not_not.1 h1, not_not.1 h2, (ascendingCheck_iff times).1 (by simpa using h3),
            rfl, hl, ?_⟩
          simp [hl]

theorem interp_below (v : List α) (hs : v.Sorted (· < ·)) (hlen : 1 < v.length) (t : α)
    (ht : t ≤ numAt v 0) : interpIndex v t = 1 ∧ interpWeight v t = 0 := by
  have hidx : TemplateAuxilliaries.idx v t = 0 :=
    idx_of_bracket v 0 t (by omega) (fun j hj => absurd hj (Nat.not_lt_zero j)) ht
  have hI : interpIndex v t = 1 := by
    unfold interpIndex
    rw [hidx]
    simp
  refine ⟨hI, ?_⟩
  have hlt : numAt v 0 < numAt v 1 :=
    calc numAt v 0 = v[0] := numAt_eq_getElem v 0 (by omega)
      _ < v[1] := List.pairwise_iff_getElem.1 hs 0 1 (by omega) hlen (by omega)
      _ = numAt v 1 := (numAt_eq_getElem v 1 hlen).symm
  have hq : (t - numAt v 0) / (numAt v 1 - numAt v 0) ≤ 0 :=
    div_nonpos_of_nonpos_of_nonneg (sub_nonpos.2 ht) (sub_nonneg.2 hlt.le)
  unfold interpWeight
  rw [hI]
  simp only [Nat.sub_self]
  by_cases hneg : (t - numAt v 0) / (numAt v 1 - numAt v 0) < 0
  · simp [hneg]
  · have h0 : (t - numAt v 0) / (numAt v 1 - numAt v 0) = 0 := le_antisymm hq (not_lt.1 hneg)
    simp [h0]

theorem interp_between (v : List α) (hs : v.Sorted (· < ·)) (i : Nat) (hi0 : 0 < i)
    (hi : i < v.length) (t : α) (hlo : numAt v (i - 1) < t) (hhi : t ≤ numAt v i) :
    interpIndex v t = i ∧
      interpWeight v t = (t - numAt v (i - 1)) / (numAt v i - numAt v (i - 1)) := by
  have hidx : TemplateAuxilliaries.idx v t = i :=
    idx_of_bracket v i t hi
      (fun j hj => lt_of_le_of_lt (numAt_mono_of_sorted v hs j (i - 1) (by omega) (by omega)) hlo)
      hhi
  have hI : interpIndex v t = i := by
    unfold interpIndex
    rw [hidx, if_neg (by omega)]
  refine ⟨hI, ?_⟩
  have hpos : 0 < numAt v i - numAt v (i - 1) := sub_pos.2 (lt_of_lt_of_le hlo hhi)
  have hq0 : ¬ (t - numAt v (i - 1)) / (numAt v i - numAt v (i - 1)) < 0 :=
    not_lt.2 (div_nonneg (sub_nonneg.2 hlo.le) hpos.le)
  have hq1 : ¬ (t - numAt v (i - 1)) / (numAt v i - numAt v (i - 1)) > 1 := by
    rw [gt_iff_lt, not_lt, div_le_one hpos]
    linarith
  unfold interpWeight
  rw [hI, if_neg hq0, if_neg hq1]

theorem interp_above (v : List α) (hs : v.Sorted (· < ·)) (hlen : 1 < v.length) (t : α)
    (ht : numAt v (v.length - 1) ≤ t) :
    interpIndex v t = v.length - 1 ∧ interpWeight v t = 1 := by
  rcases eq_or_lt_of_le ht with heq | hgt
  · rw [← heq]
    rcases interp_node v hs (v.length - 1) (by omega) with ⟨h0, -, -⟩ | ⟨-, hI, hW⟩
    · omega
    · exact ⟨hI, hW⟩
  · have hidx : TemplateAuxilliaries.idx v t = v.length - 1 := by
      refine idx_of_above v t (by intro h; rw [h] at hlen; simp at hlen) (fun x hx => ?_)
      obtain ⟨j, hj, rfl⟩ := List.getElem_of_mem hx
      rw [← numAt_eq_getElem v j hj]
      exact lt_of_le_of_lt (numAt_mono_of_sorted v hs j (v.length - 1) (by omega) (by omega)) hgt
    have hI : interpIndex v t = v.length - 1 := by
      unfold interpIndex
      rw [hidx, if_neg (by omega)]
    refine ⟨hI, ?_⟩
    have hlt : numAt v (v.length - 1 - 1) < numAt v (v.length - 1) :=
      calc numAt v (v.length - 1 - 1) = v[v.length - 1 - 1] :=
            numAt_eq_getElem v _ (by omega)
        _ < v[v.length - 1] :=
            List.pairwise_iff_getElem.1 hs _ _ (by omega) (by omega) (by omega)
        _ = numAt v (v.length - 1) := (numAt_eq_getElem v _ (by omega)).symm
    have hpos : 0 < numAt v (v.length - 1) - numAt v (v.length - 1 - 1) := sub_pos.2 hlt
    have hq1 : (t - numAt v (v.length - 1 - 1))
        / (numAt v (v.length - 1) - numAt v (v.length - 1 - 1)) > 1 := by
      rw [gt_iff_lt, one_lt_div hpos]
      linarith
    have hq0 : ¬ (t - numAt v (v.length - 1 - 1))
        / (numAt v (v.length - 1) - numAt v (v.length - 1 - 1)) < 0 :=
      not_lt.2 (le_trans zero_le_one hq1.le)
    unfold interpWeight
    rw [hI, if_neg hq0, if_pos hq1]

/-- C36: after a successful `calculateNumeraireAdjuster(times)` the grid has
at least two strictly ascending times and one calibrated rate `z_i` per time,
and `numeraireAdjuster(t)` is `exp(z(t) * t)` with `z(t) = z_0` for `t <= t_0`,
`z(t) = z_n` for `t >= t_n`, and between two consecutive calibration times
`t_(i-1) <= t <= t_i` the linear interpolation
`z_(i-1) * (1 - rho) + z_i * rho`, `rho = (t - t_(i-1)) / (t_i - t_(i-1))`; at a
calibration time `t_i` it is `exp(z_i * t_i)`, and `numeraireAdjuster(0) = 1`
when `exp(0) = 1`. -/
theorem numeraireAdjuster_interpolation (exp log : α → α) (sim sim' : MCSimulationT α)
    (times : List α) (hok : sim.calculateNumeraireAdjuster log times = (.ok (), sim'))
    (hexp : exp 0 = 1) :
    (1 < times.length ∧ times.Sorted (· < ·) ∧ sim'.numeraireAdjuster_.length = times.length)
      ∧ (∀ t, t ≤ numAt times 0 →
        sim'.numeraireAdjuster exp t = exp (numAt sim'.numeraireAdjuster_ 0 * t))
      ∧ (∀ t, numAt times (times.length - 1) ≤ t →
        sim'.numeraireAdjuster exp t
          = exp (numAt sim'.numeraireAdjuster_ (times.length - 1) * t))
      ∧ (∀ i t, 0 < i → i < times.length → numAt times (i - 1) ≤ t → t ≤ numAt times i →
        sim'.numeraireAdjuster exp t
          = exp ((numAt sim'.numeraireAdjuster_ (i - 1)
                * (1 - (t - numAt times (i - 1)) / (numAt times i - numAt times (i - 1)))
              + numAt sim'.numeraireAdjuster_ i
                * ((t - numAt times (i - 1)) / (numAt times i - numAt times (i - 1)))) * t))
      ∧ (∀ i, i < times.length →
        sim'.numeraireAdjuster exp (numAt times i)
          = exp (numAt sim'.numeraireAdjuster_ i * numAt times i))
      ∧ sim'.numeraireAdjuster exp 0 = 1 := by
  obtain ⟨hlen, h0, hs, happ, ht, hz⟩ := calculateNumeraireAdjuster_grid log sim sim' times hok
  have hbelow : ∀ t, t ≤ numAt times 0 →
      sim'.numeraireAdjuster exp t = exp (numAt sim'.numeraireAdjuster_ 0 * t) := by
    intro t htt
    obtain ⟨hI, hW⟩ := interp_below times hs hlen t htt
    rw [numeraireAdjuster_eq, happ, ht, hI, hW]
    simp
  have hnode : ∀ i, i < times.length →
      sim'.numeraireAdjuster exp (numAt times i)
        = exp (numAt sim'.numeraireAdjuster_ i * numAt times i) := by
    intro i hi
    have := numeraireAdjuster_node exp sim' happ (by rw [ht]; exact hs) i (by rw [ht]; exact hi)
    rw [ht] at this
    exact this
  refine ⟨⟨hlen, hs, hz⟩, hbelow, ?_, ?_, hnode, ?_⟩
  · intro t htt
    obtain ⟨hI, hW⟩ := interp_above times hs hlen t htt
    rw [numeraireAdjuster_eq, happ, ht, hI, hW]
    simp
  · intro i t hi0 hi hlo hhi
    rcases eq_or_lt_of_le hlo with heq | hlt
    · rw [← heq, sub_self, zero_div, sub_zero, mul_one, mul_zero, add_zero]
      exact hnode (i - 1) (by omega)
    · obtain ⟨hI, hW⟩ := interp_between times hs i hi0 hi t hlt hhi
      rw [numeraireAdjuster_eq, happ, ht, hI, hW]
      simp
  · rw [hbelow 0 h0.le, mul_zero, hexp]

theorem numeraireAdjuster_interpolation_witness :
    ∃ sim', (MCSimulationT.build (unitProcess ℝ) [1, 2] [1, 2] 2 1234 true false false
        ).calculateNumeraireAdjuster Real.log [1, 2] = (.ok (), sim') ∧ Real.exp 0 = 1 ∧
      sim'.numeraireAdjuster Real.exp 0 = 1 :=
  have h1 : ((MCSimulationT.build (unitProcess ℝ) [1, 2] [1, 2] 2 1234 true false false
      ).calculateNumeraireAdjuster Real.log [1, 2]).1 = .ok () := by
    norm_num [MCSimulationT.calculateNumeraireAdjuster, MCSimulationT.build,
      MCSimulationT.reallocateMemory, buildObsTimes, ascendingCheck, numAt, forLoop,
      List.range_succ, MCSimulationT.nPaths, MCSimulationT.numeraireAdjusterStep,
      state_def, TemplateAuxilliaries.idx, rowAt]
  ⟨_, Prod.ext h1 rfl, Real.exp_zero,
    (numeraireAdjuster_interpolation Real.exp Real.log _ _ [1, 2] (Prod.ext h1 rfl)
      Real.exp_zero).2.2.2.2.2⟩

theorem addInterpolatedState_coherent (sim : MCSimulationT α) (hc : sim.cacheSorted)
    (hcoh : sim.cacheCoherent) (t : α) (ht : t ∉ sim.addObsTimes_) :
    (sim.addInterpolatedState (TemplateAuxilliaries.idx sim.obsTimes_ t) t).cacheCoherent := by
  have hc1 := addInterpolatedState_cacheSorted sim hc (TemplateAuxilliaries.idx sim.obsTimes_ t)
    t ht
  intro k hk
  have hmem := numAt_mem _ k hk
  have hidx := idx_numAt _ hc1.1 k hk
  rw [addInterpolatedState_mem] at hmem
  have hint : ∀ i u, (sim.addInterpolatedState (TemplateAuxilliaries.idx sim.obsTimes_ t)
      t).interpolatedStates i u = sim.interpolatedStates i u := fun _ _ => rfl
  have hobs : (sim.addInterpolatedState (TemplateAuxilliaries.idx sim.obsTimes_ t) t).obsTimes_
      = sim.obsTimes_ := rfl
  rw [hint, hobs]
  generalize hu : numAt (sim.addInterpolatedState (TemplateAuxilliaries.idx sim.obsTimes_ t)
    t).addObsTimes_ k = u at hmem hidx
  rcases hmem with h1 | h2
  · obtain ⟨j, hj, hjt⟩ := List.getElem_of_mem h1
    have hj' : j < (sim.addObsTimes_ ++ [t]).length := by simp; omega
    have hnum : numAt (sim.addObsTimes_ ++ [t]) j = u := by
      rw [numAt_eq_getElem _ _ hj', List.getElem_append_left hj, hjt]
    have hl := addInterpolatedState_lookup sim hc (TemplateAuxilliaries.idx sim.obsTimes_ t) t ht
      j hj'
    rw [hnum, hidx] at hl
    rw [hl]
    have hjY : j < sim.Y_.length := by rw [hc.2]; exact hj
    have hr : rowAt (sim.Y_ ++ [sim.interpolatedStates (TemplateAuxilliaries.idx sim.obsTimes_ t)
        t]) j = rowAt sim.Y_ j := by
      unfold rowAt
      rw [List.getD_append _ _ _ _ hjY]
    rw [hr, hcoh j hj, numAt_eq_getElem _ _ hj, hjt]
  · subst h2
    have hj' : sim.addObsTimes_.length < (sim.addObsTimes_ ++ [u]).length := by simp
    have hnum : numAt (sim.addObsTimes_ ++ [u]) sim.addObsTimes_.length = u := by
      rw [numAt_eq_getElem _ _ hj']; simp
    have hl := addInterpolatedState_lookup sim hc (TemplateAuxilliaries.idx sim.obsTimes_ u) u ht
      _ hj'
    rw [hnum, hidx] at hl
    rw [hl, ← hc.2]
    unfold rowAt
    rw [List.getD_append_right _ _ _ _ (le_refl _)]
    simp

theorem state_cache_invariants (sim : MCSimulationT α) (hc : sim.cacheSorted)
    (hcoh : sim.cacheCoherent) (hoff : sim.cacheOffGrid) (k : Nat) (t : α) :
    (sim.state k t).2.cacheSorted ∧ (sim.state k t).2.cacheCoherent
      ∧ (sim.state k t).2.cacheOffGrid := by
  rw [state_def]
  split_ifs with h1 h2 h3 h4 h5 h6
  all_goals try exact ⟨hc, hcoh, hoff⟩
  have ht : t ∉ sim.addObsTimes_ := fun hmem => h6 ((cacheHit_iff _ hc.1 t).2 hmem)
  refine ⟨addInterpolatedState_cacheSorted sim hc _ t ht,
    addInterpolatedState_coherent sim hc hcoh t ht, ?_⟩
  intro u hu
  rw [addInterpolatedState_mem] at hu
  rcases hu with hu | rfl
  · exact hoff u hu
  · exact ⟨h2, h4, h5⟩

theorem state_cached (sim : MCSimulationT α) (hti : sim.timeInterpolation_ = true)
    (hc : sim.cacheSorted) (hcoh : sim.cacheCoherent) (hoff : sim.cacheOffGrid) (q : Nat)
    (hq : q < sim.nPaths) (u : α) (hu : u ∈ sim.addObsTimes_) :
    sim.state q u
      = (.ok (rowAt (sim.interpolatedStates (TemplateAuxilliaries.idx sim.obsTimes_ u) u) q),
        sim) := by
  obtain ⟨h2, h4, h5⟩ := hoff u hu
  have h6 := (cacheHit_iff _ hc.1 u).2 hu
  obtain ⟨j, hj, hjt⟩ := List.getElem_of_mem hu
  have hidx : TemplateAuxilliaries.idx sim.addObsTimes_ u = j := by
    rw [← hjt, ← numAt_eq_getElem _ _ hj, idx_numAt _ hc.1 j hj]
  have hq' : q < sim.X_.length := hq
  rw [state_def, if_neg (not_not.2 hq'), if_neg h2, if_neg (by simp [hti]), if_neg h4, if_neg h5,
    if_pos h6, hidx, hcoh j hj, numAt_eq_getElem _ _ hj, hjt]

/-- C35: on a simulator with time interpolation enabled whose cache is
strictly ascending, holds for every cached time the linear interpolation of the
stored states of all paths, and holds only times `state` caches (as the empty
cache does), a `state(p, t)` call leaves the stored paths and the grid as they
are and the cache with the same three properties; afterwards a query
`state(q, u)` at a cached time `u` returns the interpolated state of path `q`
and leaves the simulator, with `addObsTimes_` and `Y_`, unchanged. -/
theorem state_cache_kept (sim : MCSimulationT α) (hti : sim.timeInterpolation_ = true)
    (hc : sim.cacheSorted) (hcoh : sim.cacheCoherent) (hoff : sim.cacheOffGrid) (p : Nat)
    (t : α) :
    ((sim.state p t).2.addObsTimes_.Sorted (· < ·)
        ∧ (sim.state p t).2.Y_.length = (sim.state p t).2.addObsTimes_.length
        ∧ (∀ k, k < (sim.state p t).2.addObsTimes_.length →
          rowAt (sim.state p t).2.Y_ k
            = sim.interpolatedStates
                (TemplateAuxilliaries.idx sim.obsTimes_
                  (numAt (sim.state p t).2.addObsTimes_ k))
                (numAt (sim.state p t).2.addObsTimes_ k))
        ∧ (sim.state p t).2.cacheOffGrid)
      ∧ ((sim.state p t).2.X_ = sim.X_ ∧ (sim.state p t).2.obsTimes_ = sim.obsTimes_)
      ∧ ∀ q u, q < sim.nPaths → u ∈ (sim.state p t).2.addObsTimes_ →
        (sim.state p t).2.state q u
          = (.ok (rowAt (sim.interpolatedStates (TemplateAuxilliaries.idx sim.obsTimes_ u) u) q),
            (sim.state p t).2) := by
  obtain ⟨h1, h2, h3⟩ := state_cache_invariants sim hc hcoh hoff p t
  obtain ⟨T, Y, hpair⟩ := state_pair sim p t
  have hs : (sim.state p t).2 = { sim with addObsTimes_ := T, Y_ := Y } := by rw [hpair]
  have hX : (sim.state p t).2.X_ = sim.X_ := by rw [hs]
  have hO : (sim.state p t).2.obsTimes_ = sim.obsTimes_ := by rw [hs]
  have hI : ∀ i u, (sim.state p t).2.interpolatedStates i u = sim.interpolatedStates i u := by
    intro i u
    rw [hs]
    rfl
  refine ⟨⟨h1.1, h1.2, ?_, h3⟩, ⟨hX, hO⟩, ?_⟩
  · intro k hk
    have := h2 k hk
    rw [hI, hO] at this
    exact this
  · intro q u hq hu
    have := state_cached (sim.state p t).2 (by rw [hs]; exact hti) h1 h2 h3 q
      (by unfold MCSimulationT.nPaths; rw [hX]; exact hq) u hu
    rw [hI, hO] at this
    exact this

theorem state_cache_kept_witness :
    slicedRun.timeInterpolation_ = true ∧ slicedRun.cacheSorted ∧ slicedRun.cacheCoherent
      ∧ slicedRun.cacheOffGrid
      ∧ (slicedRun.state 0 (3 / 2)).2.addObsTimes_ = [3 / 2]
      ∧ (slicedRun.state 0 (3 / 2)).2.state 1 (3 / 2)
        = (.ok (rowAt (slicedRun.interpolatedStates
              (TemplateAuxilliaries.idx slicedRun.obsTimes_ (3 / 2)) (3 / 2)) 1),
            (slicedRun.state 0 (3 / 2)).2) := by
  have hT : slicedRun.addObsTimes_ = [] := by rw [slicedRun_eq]; rfl
  have hti : slicedRun.timeInterpolation_ = true := by rw [slicedRun_eq]; rfl
  have hc : slicedRun.cacheSorted := by
    refine ⟨by rw [hT]; exact List.sorted_nil, ?_⟩
    rw [slicedRun_eq]
    rfl
  have hcoh : slicedRun.cacheCoherent := by
    intro k hk
    rw [hT] at hk
    exact absurd hk (Nat.not_lt_zero k)
  have hoff : slicedRun.cacheOffGrid := by
    intro u hu
    rw [hT] at hu
    exact absurd hu (List.not_mem_nil u)
  have hq : (slicedRun.state 0 (3 / 2)).2.addObsTimes_ = [3 / 2] := by
    have h := slicedQueried_eq
    rw [slicedQueried] at h
    rw [h]
  refine ⟨hti, hc, hcoh, hoff, hq, ?_⟩
  exact (state_cache_kept slicedRun hti hc hcoh hoff 0 (3 / 2)).2.2 1 (3 / 2)
    (by rw [slicedRun_eq]; decide) (by rw [hq]; exact List.mem_singleton_self _)

theorem map_range_zipWith {β γ δ : Type} (f : β → γ → δ) (a : List β) (b : List γ)
    (ga : Nat → β) (gb : Nat → γ) (n : Nat) (ha : a.length = n) (hb : b.length = n)
    (hga : ∀ k (hk : k < a.length), ga k = a[k]) (hgb : ∀ k (hk : k < b.length), gb k = b[k]) :
    (List.range n).map (fun k => f (ga k) (gb k)) = List.zipWith f a b := by
  apply List.ext_getElem
  · simp [ha, hb]
  · intro k h1 h2
    simp only [List.length_map, List.length_range] at h1
    simp only [List.getElem_map, List.getElem_range, List.getElem_zipWith]
    rw [hga k (by omega), hgb k (by omega)]

theorem simulateStep_X1 (sqrt : α → α) (sim : MCSimulationT α) (dWt : List (List α))
    (i : Nat) (c : PathLoopState α) :
    (sim.simulateStep sqrt dWt i c).X1
        = (if sim.richardsonExtrapolation_ then
            (sim.process_.truncate (numAt sim.simTimes_ i)
              ((List.range (sim.process_.evolve (numAt sim.simTimes_ (i - 1)) c.X0
                  (numAt sim.simTimes_ i - numAt sim.simTimes_ (i - 1))
                  ((List.range c.dW.length).map fun k =>
                    (numAt (rowAt dWt (2 * (i - 1))) k + numAt (rowAt dWt (2 * (i - 1) + 1)) k)
                      / sqrt 2) c.X1).length).map fun k =>
                2 * numAt (sim.process_.evolve (numAt sim.simTimes_ (i - 1)
                      + (numAt sim.simTimes_ i - numAt sim.simTimes_ (i - 1)) / 2)
                    (sim.process_.evolve (numAt sim.simTimes_ (i - 1)) c.X0
                      ((numAt sim.simTimes_ i - numAt sim.simTimes_ (i - 1)) / 2)
                      (rowAt dWt (2 * (i - 1))) c.X12)
                    ((numAt sim.simTimes_ i - numAt sim.simTimes_ (i - 1)) / 2)
                    (rowAt dWt (2 * (i - 1) + 1)) c.X0) k
                  - numAt (sim.process_.evolve (numAt sim.simTimes_ (i - 1)) c.X0
                    (numAt sim.simTimes_ i - numAt sim.simTimes_ (i - 1))
                    ((List.range c.dW.length).map fun k =>
                      (numAt (rowAt dWt (2 * (i - 1))) k
                        + numAt (rowAt dWt (2 * (i - 1) + 1)) k) / sqrt 2) c.X1) k)).2
          else
            sim.process_.evolve (numAt sim.simTimes_ (i - 1)) c.X0
              (numAt sim.simTimes_ i - numAt sim.simTimes_ (i - 1)) (rowAt dWt (i - 1)) c.X1)
      ∧ (sim.simulateStep sqrt dWt i c).X0 = (sim.simulateStep sqrt dWt i c).X1 := by
  unfold MCSimulationT.simulateStep
  dsimp only
  refine ⟨?_, rfl⟩
  by_cases hr : sim.richardsonExtrapolation_ = true
  · rw [if_pos hr, if_pos hr]
    split_ifs <;> rfl
  · rw [if_neg hr, if_neg hr]
    split_ifs <;> rfl

theorem simulateStep_richardson (sqrt : α → α) (sim : MCSimulationT α) (dWt : List (List α))
    (i : Nat) (c : PathLoopState α) (ev : α → List α → α → List α → List α)
    (hr : sim.richardsonExtrapolation_ = true)
    (hev : ∀ t X dt dW out, sim.process_.evolve t X dt dW out = ev t X dt dW)
    (hlen : ∀ t X dt dW t2 X2 dt2 dW2, (ev t X dt dW).length = (ev t2 X2 dt2 dW2).length)
    (ha : (rowAt dWt (2 * (i - 1))).length = c.dW.length)
    (hb : (rowAt dWt (2 * (i - 1) + 1)).length = c.dW.length) :
    (sim.simulateStep sqrt dWt i c).X1
        = richardsonStepSpec ev (fun t X => (sim.process_.truncate t X).2) sqrt
            (numAt sim.simTimes_ (i - 1)) c.X0
            (numAt sim.simTimes_ i - numAt sim.simTimes_ (i - 1))
            (rowAt dWt (2 * (i - 1))) (rowAt dWt (2 * (i - 1) + 1)) := by
  rw [(simulateStep_X1 sqrt sim dWt i c).1, if_pos hr]
  simp only [hev]
  unfold richardsonStepSpec
  have hdW : ((List.range c.dW.length).map fun k =>
      (numAt (rowAt dWt (2 * (i - 1))) k + numAt (rowAt dWt (2 * (i - 1) + 1)) k) / sqrt 2)
      = List.zipWith (fun a b => (a + b) / sqrt 2) (rowAt dWt (2 * (i - 1)))
          (rowAt dWt (2 * (i - 1) + 1)) :=
    map_range_zipWith (fun a b => (a + b) / sqrt 2) _ _ _ _ _ ha hb
      (fun k hk => numAt_eq_getElem _ k hk) (fun k hk => numAt_eq_getElem _ k hk)
  rw [hdW]
  have hX : ∀ (A B : List α), A.length = B.length →
      ((List.range B.length).map fun k => 2 * numAt A k - numAt B k)
        = List.zipWith (fun h f => 2 * h - f) A B := by
    intro A B hAB
    exact map_range_zipWith (fun h f => 2 * h - f) A B _ _ _ hAB rfl
      (fun k hk => numAt_eq_getElem _ k hk) (fun k hk => numAt_eq_getElem _ k hk)
  rw [hX _ _ (hlen _ _ _ _ _ _ _ _), add_sub_cancel]

theorem simulateStep_euler (sqrt : α → α) (sim : MCSimulationT α) (dWt : List (List α))
    (i : Nat) (c : PathLoopState α) (ev : α → List α → α → List α → List α)
    (hr : sim.richardsonExtrapolation_ = false)
    (hev : ∀ t X dt dW out, sim.process_.evolve t X dt dW out = ev t X dt dW) :
    (sim.simulateStep sqrt dWt i c).X1
        = ev (numAt sim.simTimes_ (i - 1)) c.X0
            (numAt sim.simTimes_ i - numAt sim.simTimes_ (i - 1)) (rowAt dWt (i - 1)) := by
  rw [(simulateStep_X1 sqrt sim dWt i c).1, hr]
  simp only [Bool.false_eq_true, if_false, hev]

/-- C33: for a process whose `evolve` is a function `ev` of its four inputs
with outputs of one length, one pass of the loop of `simulatePath` at the
simulation index `i`, from the state `X0` at the time `t = simTimes_[i-1]` with
`dt = simTimes_[i] - t`, leaves in `X1` with Richardson extrapolation the
vector `truncate(t + dt, 2 * X_half - X_full)` of the specification (the two
increments `dWt[2(i-1)]`, `dWt[2(i-1)+1]` having the length of `dW`), and
without it the vector `evolve(t, X0, dt, dWt[i-1])` with no `truncate`; the
next pass starts from that vector. -/
theorem richardson_step (sqrt : α → α) (sim : MCSimulationT α) (dWt : List (List α))
    (i : Nat) (c : PathLoopState α) (ev : α → List α → α → List α → List α)
    (hev : ∀ t X dt dW out, sim.process_.evolve t X dt dW out = ev t X dt dW)
    (hlen : ∀ t X dt dW t2 X2 dt2 dW2, (ev t X dt dW).length = (ev t2 X2 dt2 dW2).length) :
    (sim.richardsonExtrapolation_ = true →
        (rowAt dWt (2 * (i - 1))).length = c.dW.length →
        (rowAt dWt (2 * (i - 1) + 1)).length = c.dW.length →
        (sim.simulateStep sqrt dWt i c).X1
          = richardsonStepSpec ev (fun t X => (sim.process_.truncate t X).2) sqrt
              (numAt sim.simTimes_ (i - 1)) c.X0
              (numAt sim.simTimes_ i - numAt sim.simTimes_ (i - 1))
              (rowAt dWt (2 * (i - 1))) (rowAt dWt (2 * (i - 1) + 1)))
      ∧ (sim.richardsonExtrapolation_ = false →
        (sim.simulateStep sqrt dWt i c).X1
          = ev (numAt sim.simTimes_ (i - 1)) c.X0
              (numAt sim.simTimes_ i - numAt sim.simTimes_ (i - 1)) (rowAt dWt (i - 1)))
      ∧ (sim.simulateStep sqrt dWt i c).X0 = (sim.simulateStep sqrt dWt i c).X1 :=
  ⟨fun hr ha hb => simulateStep_richardson sqrt sim dWt i c ev hr hev hlen ha hb,
    fun hr => simulateStep_euler sqrt sim dWt i c ev hr hev,
    (simulateStep_X1 sqrt sim dWt i c).2⟩

theorem richardson_step_witness :
    (MCSimulationT.build (unitProcess ℚ) [1, 2] [1, 2] 1 0 true false true
        ).richardsonExtrapolation_ = true
      ∧ ((MCSimulationT.build (unitProcess ℚ) [1, 2] [1, 2] 1 0 true false true).simulateStep
          (fun x => x) [[1], [2], [3], [4]] 1
          { X0 := [0], X1 := [0], X12 := [0], dW := [0], obs_idx := 1
            Xpath := [[0], [0], [0]] }).X1
        = richardsonStepSpec (fun _ X0 dt dW => [numAt X0 0 + dt + numAt dW 0])
            (fun t X => ((unitProcess ℚ).truncate t X).2) (fun x => x)
            (numAt (MCSimulationT.build (unitProcess ℚ) [1, 2] [1, 2] 1 0 true false
              true).simTimes_ (1 - 1)) [0]
            (numAt (MCSimulationT.build (unitProcess ℚ) [1, 2] [1, 2] 1 0 true false
                true).simTimes_ 1
              - numAt (MCSimulationT.build (unitProcess ℚ) [1, 2] [1, 2] 1 0 true false
                true).simTimes_ (1 - 1))
            (rowAt [[1], [2], [3], [4]] (2 * (1 - 1)))
            (rowAt [[1], [2], [3], [4]] (2 * (1 - 1) + 1)) :=
  ⟨rfl, (richardson_step (fun x => x)
    (MCSimulationT.build (unitProcess ℚ) [1, 2] [1, 2] 1 0 true false true)
    [[1], [2], [3], [4]] 1
    { X0 := [0], X1 := [0], X12 := [0], dW := [0], obs_idx := 1, Xpath := [[0], [0], [0]] }
    (fun _ X0 dt dW => [numAt X0 0 + dt + numAt dW 0])
    (fun _ _ _ _ _ => rfl) (fun _ _ _ _ _ _ _ _ => rfl)).1 rfl rfl rfl⟩

theorem weightedSum_eq (ws : List α) :
    ∀ (vs : List α) (k : Nat) (res : α),
      weightedSum ws vs k res = res + (List.zipWith (· * ·) (ws.drop k) vs).sum := by
  intro vs
  induction vs with
  | nil => intro k res; simp [weightedSum]
  | cons v rest ih =>
    intro k res
    rw [weightedSum, ih]
    by_cases hk : k < ws.length
    · rw [List.drop_eq_getElem_cons hk, List.zipWith_cons_cons, List.sum_cons,
        numAt_eq_getElem ws k hk]
      ring
    · have h1 : ws.drop k = [] := List.drop_eq_nil_of_le (by omega)
      have h2 : ws.drop (k + 1) = [] := List.drop_eq_nil_of_le (by omega)
      have h3 : numAt ws k = 0 := by
        unfold numAt
        rw [List.getD_eq_default _ _ (by omega)]
      rw [h1, h2, h3]
      simp

theorem sortDescending_perm (vs vs1 : List α) (h : vs1.Perm vs) :
    vs1.insertionSort (· ≥ ·) = vs.insertionSort (· ≥ ·) :=
  List.eq_of_perm_of_sorted
    (((List.perm_insertionSort (· ≥ ·) vs1).trans h).trans
      (List.perm_insertionSort (· ≥ ·) vs).symm)
    (List.sorted_insertionSort (· ≥ ·) vs1) (List.sorted_insertionSort (· ≥ ·) vs)

theorem basket_value (exp log sqrt : α → α) (heap : Nat → Option (PathType α))
    (p : PathType α) (hp : heap p.addr = some p) (us : List (Payoff α)) (ws : List α)
    (rainbow : Bool) (hc : Payoff.coherentList exp log sqrt heap us) (vs : List α)
    (hv : List.Forall₂ (fun u v => (Payoff.atPath exp log sqrt u p).1 = .ok v) us vs) :
    ((Payoff.Basket us ws rainbow).atPath exp log sqrt p).1
      = .ok (List.zipWith (· * ·) ws (if rainbow then vs.insertionSort (· ≥ ·) else vs)).sum := by
  have hcx : (Payoff.Basket us ws rainbow).coherent exp log sqrt heap := by
    simp only [Payoff.coherent]
    exact hc
  have hv1 : List.Forall₂ (fun u v => Payoff.value exp log sqrt u p = .ok v) us vs := by
    have hall := (coherentList_iff exp log sqrt heap us).1 hc
    clear hc hcx
    induction hv with
    | nil => exact List.Forall₂.nil
    | @cons u v us1 vs1 h1 _ ih =>
      refine List.Forall₂.cons ?_ (ih (fun w hw => hall w (List.mem_cons_of_mem _ hw)))
      rw [← atPath_fst exp log sqrt heap p hp u (hall u (List.mem_cons_self _ _))]
      exact h1
  rw [atPath_fst exp log sqrt heap p hp _ hcx]
  simp only [Payoff.value, (valueList_ok_iff exp log sqrt p us vs).2 hv1]
  rw [weightedSum_eq, List.drop_zero, zero_add]

/-- C38: for a `Basket` whose memoized values are right and whose underlyings
`u_k` return the values `v_k` on the path, `at(p)` returns `sum_k w_k * v_k`
without rainbow and `sum_k w_k * v_(k)` with rainbow, where `v_(1) >= v_(2) >=
...` is the descending rearrangement of the values; so the rainbow value is the
same for underlyings supplied in another order, and the same after an
evaluation on another path.  The constructor raises exactly when the list of
underlyings is empty or its length is not that of the weights. -/
theorem basket_at (exp log sqrt : α → α) (heap : Nat → Option (PathType α))
    (p : PathType α) (hp : heap p.addr = some p) (us : List (Payoff α)) (ws : List α)
    (rainbow : Bool) (hc : Payoff.coherentList exp log sqrt heap us) (vs : List α)
    (hv : List.Forall₂ (fun u v => (Payoff.atPath exp log sqrt u p).1 = .ok v) us vs) :
    (rainbow = false →
        ((Payoff.Basket us ws rainbow).atPath exp log sqrt p).1
          = .ok (List.zipWith (· * ·) ws vs).sum)
      ∧ (rainbow = true →
        ((Payoff.Basket us ws rainbow).atPath exp log sqrt p).1
            = .ok (List.zipWith (· * ·) ws (vs.insertionSort (· ≥ ·))).sum
          ∧ (vs.insertionSort (· ≥ ·)).Sorted (· ≥ ·)
          ∧ (vs.insertionSort (· ≥ ·)).Perm vs)
      ∧ (∀ (us1 : List (Payoff α)) (vs1 : List α),
        Payoff.coherentList exp log sqrt heap us1 →
        List.Forall₂ (fun u v => (Payoff.atPath exp log sqrt u p).1 = .ok v) us1 vs1 →
        vs1.Perm vs →
        ((Payoff.Basket us1 ws true).atPath exp log sqrt p).1
          = ((Payoff.Basket us ws true).atPath exp log sqrt p).1)
      ∧ (∀ (q : PathType α) (w : α), heap q.addr = some q →
        ((Payoff.Basket us ws rainbow).atPath exp log sqrt q).1 = .ok w →
        (((Payoff.Basket us ws rainbow).atPath exp log sqrt q).2.atPath exp log sqrt p).1
          = ((Payoff.Basket us ws rainbow).atPath exp log sqrt p).1)
      ∧ ((∃ e, Payoff.mkBasket us ws rainbow = .error e)
        ↔ us = [] ∨ us.length ≠ ws.length)
      ∧ ((∀ e, Payoff.mkBasket us ws rainbow ≠ .error e)
        → Payoff.mkBasket us ws rainbow = .ok (.Basket us ws rainbow)) := by
  have hval := basket_value exp log sqrt heap p hp us ws rainbow hc vs hv
  have hcx : (Payoff.Basket us ws rainbow).coherent exp log sqrt heap := by
    simp only [Payoff.coherent]
    exact hc
  refine ⟨?_, ?_, ?_, ?_, ?_, ?_⟩
  · intro hr
    rw [hval, hr]
    simp
  · intro hr
    refine ⟨?_, List.sorted_insertionSort (· ≥ ·) vs, List.perm_insertionSort (· ≥ ·) vs⟩
    rw [hval, hr]
    simp
  · intro us1 vs1 hc1 hv1 hperm
    rw [basket_value exp log sqrt heap p hp us1 ws true hc1 vs1 hv1,
      basket_value exp log sqrt heap p hp us ws true hc vs hv]
    simp only [if_true]
    rw [sortDescending_perm vs vs1 hperm]
  · intro q w hq hw
    have hvq : (Payoff.Basket us ws rainbow).value exp log sqrt q = .ok w := by
      rw [← atPath_fst exp log sqrt heap q hq _ hcx]
      exact hw
    obtain ⟨h1, -, h3⟩ := atPath_updated exp log sqrt heap q hq _ hcx w hvq
    rw [atPath_fst exp log sqrt heap p hp _ h1, atPath_fst exp log sqrt heap p hp _ hcx]
    have hvp := hval
    rw [atPath_fst exp log sqrt heap p hp _ hcx] at hvp
    rw [hvp]
    exact h3 p _ hvp
  · unfold Payoff.mkBasket
    constructor
    · rintro ⟨e, he⟩
      by_cases h1 : ¬ us.length > 0
      · left
        exact List.length_eq_zero.1 (by omega)
      · rw [if_neg h1] at he
        by_cases h2 : ¬ us.length = ws.length
        · exact Or.inr h2
        · rw [if_neg h2] at he
          cases he
    · rintro (h | h)
      · subst h
        exact ⟨_, if_pos (by simp)⟩
      · by_cases h1 : ¬ us.length > 0
        · exact ⟨_, if_pos h1⟩
        · exact ⟨_, by rw [if_neg h1, if_pos h]⟩
  · intro h
    unfold Payoff.mkBasket at h ⊢
    by_cases h1 : ¬ us.length > 0
    · rw [if_pos h1] at h
      exact absurd rfl (h _)
    · rw [if_neg h1] at h ⊢
      by_cases h2 : ¬ us.length = ws.length
      · rw [if_pos h2] at h
        exact absurd rfl (h _)
      · rw [if_neg h2]

theorem basket_at_witness :
    (fun a : Nat => if a = 0 then
        some ((barrierSimulation ℚ).path (fun x => x) (fun x => x) 0 0) else none)
        ((barrierSimulation ℚ).path (fun x => x) (fun x => x) 0 0).addr
        = some ((barrierSimulation ℚ).path (fun x => x) (fun x => x) 0 0)
      ∧ ((Payoff.Basket [.FixedAmount (1 : ℚ), .FixedAmount 2] [1, 0] true).atPath
          (fun x => x) (fun x => x) (fun x => x)
          ((barrierSimulation ℚ).path (fun x => x) (fun x => x) 0 0)).1
        = .ok (List.zipWith (· * ·) [1, 0] (([1, 2] : List ℚ).insertionSort (· ≥ ·))).sum :=
  ⟨rfl, ((basket_at (fun x => x) (fun x => x) (fun x => x)
    (fun a : Nat => if a = 0 then
      some ((barrierSimulation ℚ).path (fun x => x) (fun x => x) 0 0) else none)
    ((barrierSimulation ℚ).path (fun x => x) (fun x => x) 0 0) rfl
    [.FixedAmount (1 : ℚ), .FixedAmount 2] [1, 0] true
    (by simp [Payoff.coherentList, Payoff.coherent]) [1, 2]
    (List.Forall₂.cons rfl (List.Forall₂.cons rfl List.Forall₂.nil))).2.1 rfl).1⟩

set_option maxHeartbeats 2000000 in
theorem freshSimulation_simulate :
    freshSimulation.simulate (sampleRsg ℚ) (fun x => x)
      = (.ok (), { freshSimulation with
          rsg_ := some ⟨2, 0, 2⟩
          dW_ := [[[0], [1]], [[1], [2]]]
          X_ := [[[1], [2], [4]], [[1], [3], [6]]] }) := by
  norm_num [freshSimulation, MCSimulationT.simulate, MCSimulationT.initialiseRSG,
    MCSimulationT.storeIncrements, MCSimulationT.getNextBrownianIncrements,
    MCSimulationT.simulatePath, MCSimulationT.getBrownianIncrementsByPath,
    MCSimulationT.simulateStep, sampleRsg, MCSimulationT.build, MCSimulationT.reallocateMemory,
    buildObsTimes, buildSimTimes, mergeTimes, skipNonPositive, assetProcess, forLoop,
    List.range_succ, numAt, rowAt, OneDay]
  exact ⟨rfl, rfl⟩

theorem cache_hit (exp log sqrt : α → α) (x : Payoff α) (lastPath : Option Nat)
    (lastPayoff : α) (p : PathType α) (h : lastPath = some p.addr) :
    (Payoff.Cache x lastPath lastPayoff).atPath exp log sqrt p
      = (.ok lastPayoff, .Cache x lastPath lastPayoff) := by
  unfold Payoff.atPath
  simp only [Payoff.height]
  rw [Payoff.atPathFuel, if_neg (not_not.2 h)]

theorem cache_miss (exp log sqrt : α → α) (x : Payoff α) (lastPath : Option Nat)
    (lastPayoff : α) (p : PathType α) (h : lastPath ≠ some p.addr) :
    ((Payoff.Cache x lastPath lastPayoff).atPath exp log sqrt p).1 = (x.atPath exp log sqrt p).1
      ∧ ∃ v1, ((Payoff.Cache x lastPath lastPayoff).atPath exp log sqrt p).2
          = .Cache (x.atPath exp log sqrt p).2 (some p.addr) v1
        ∧ ∀ v, (x.atPath exp log sqrt p).1 = .ok v → v1 = v := by
  unfold Payoff.atPath
  simp only [Payoff.height]
  rw [Payoff.atPathFuel, if_pos h]
  generalize Payoff.atPathFuel exp log sqrt (x.height + 1) x p = r
  obtain ⟨r1, x1⟩ := r
  cases r1 with
  | error e => exact ⟨rfl, lastPayoff, rfl, fun v hv => by cases hv⟩
  | ok w => exact ⟨rfl, w, rfl, fun v hv => by cases hv; rfl⟩

/-- C37 fails as stated: a `Cache` of `Asset(1, "S")` is evaluated on the path
object of the first path before `simulate()`, where the stored state is at its
allocation default and the asset is 0; `simulate()` then writes the asset 2
into that state, and the next evaluation on the same path object returns the
memoized 0 and leaves the node as it is, while the child returns 2. -/
theorem cache_stale_counterexample :
    ∃ sim2 : MCSimulationT ℚ,
      freshSimulation.simulate (sampleRsg ℚ) (fun x => x) = (.ok (), sim2)
        ∧ (Payoff.mkCache (.Asset (1 : ℚ) "S" [] 0)).atPath (fun x => x) (fun x => x)
            (fun x => x) (freshSimulation.path (fun x => x) (fun x => x) 0 7)
          = (.ok 0, .Cache (.Asset 1 "S" [] 0) (some 7) 0)
        ∧ (Payoff.Cache (.Asset (1 : ℚ) "S" [] 0) (some 7) 0).atPath (fun x => x) (fun x => x)
            (fun x => x) (sim2.path (fun x => x) (fun x => x) 0 7)
          = (.ok 0, .Cache (.Asset 1 "S" [] 0) (some 7) 0)
        ∧ ((Payoff.Asset (1 : ℚ) "S" [] 0).atPath (fun x => x) (fun x => x) (fun x => x)
            (sim2.path (fun x => x) (fun x => x) 0 7)).1 = .ok 2 := by
  refine ⟨_, freshSimulation_simulate, ?_, ?_, ?_⟩
  · norm_num [Payoff.mkCache, Payoff.atPath, Payoff.atPathFuel, Payoff.height,
      MCSimulationT.path, Path.asset, MCSimulationT.assetAdjuster, state_def, freshSimulation,
      MCSimulationT.build, MCSimulationT.reallocateMemory, buildObsTimes,
      TemplateAuxilliaries.idx, assetProcess, numAt, rowAt]
  · exact cache_hit _ _ _ _ _ _ _ rfl
  · norm_num [Payoff.atPath, Payoff.atPathFuel, Payoff.height,
      MCSimulationT.path, Path.asset, MCSimulationT.assetAdjuster, state_def, freshSimulation,
      MCSimulationT.build, MCSimulationT.reallocateMemory, buildObsTimes,
      TemplateAuxilliaries.idx, assetProcess, numAt, rowAt]

/-- C37 (amended): a `Cache` node returns its memoized value, and stays as it
is, exactly when the path object passed to `at(p)` is the one of its previous
evaluation (`lastPath_ == p`), whatever happened to the stored paths in
between; for any other path object it evaluates its child, returns what the
child returns and memoizes the value returned for that path object.  So
`Cache(x).at(p)` returns what `x.at(p)` returns whenever the memoized value, if
it is for `p`, is the value of `x` on `p`. -/
theorem cache_at (exp log sqrt : α → α) (x : Payoff α) (lastPath : Option Nat)
    (lastPayoff : α) (p : PathType α) :
    (lastPath = some p.addr →
        (Payoff.Cache x lastPath lastPayoff).atPath exp log sqrt p
          = (.ok lastPayoff, .Cache x lastPath lastPayoff))
      ∧ (lastPath ≠ some p.addr →
        ((Payoff.Cache x lastPath lastPayoff).atPath exp log sqrt p).1
            = (x.atPath exp log sqrt p).1
          ∧ ∃ v1, ((Payoff.Cache x lastPath lastPayoff).atPath exp log sqrt p).2
              = .Cache (x.atPath exp log sqrt p).2 (some p.addr) v1
            ∧ ∀ v, (x.atPath exp log sqrt p).1 = .ok v → v1 = v)
      ∧ ((lastPath = some p.addr → (x.atPath exp log sqrt p).1 = .ok lastPayoff) →
        ((Payoff.Cache x lastPath lastPayoff).atPath exp log sqrt p).1
          = (x.atPath exp log sqrt p).1) := by
  refine ⟨cache_hit exp log sqrt x lastPath lastPayoff p,
    cache_miss exp log sqrt x lastPath lastPayoff p, fun h => ?_⟩
  by_cases hl : lastPath = some p.addr
  · rw [cache_hit exp log sqrt x lastPath lastPayoff p hl, h hl]
  · exact (cache_miss exp log sqrt x lastPath lastPayoff p hl).1

theorem cache_at_witness :
    (some 7 : Option Nat) = some (freshSimulation.path (fun x => x) (fun x => x) 0 7).addr
      ∧ (Payoff.Cache (.Asset (1 : ℚ) "S" [] 0) (some 7) 0).atPath (fun x => x) (fun x => x)
          (fun x => x) (freshSimulation.path (fun x => x) (fun x => x) 0 7)
        = (.ok 0, .Cache (.Asset 1 "S" [] 0) (some 7) 0) :=
  ⟨rfl, (cache_at (fun x => x) (fun x => x) (fun x => x) (.Asset (1 : ℚ) "S" [] 0) (some 7) 0
    (freshSimulation.path (fun x => x) (fun x => x) 0 7)).1 rfl⟩

end Behaviour

/-! ### Construction of the quasi-Gaussian model -/

section Construction

variable {α : Type} [LinearOrderedField α]

theorem oneFactorArguments_accepted :
    oneFactorArguments.checkModelParameters = .ok [0, 0, 0] := by
  norm_num [QuasiGaussianArguments.checkModelParameters, QuasiGaussianArguments.checks,
    oneFactorArguments, requireAll, adjustProcLimit, List.range_succ, numAt, rowAt]

theorem oneFactorArguments_entry (exp : ℚ → ℚ) :
    (∃ r, oneFactorArguments.rescaleEntry exp 0 0 = .ok r)
      ∧ oneFactorArguments.rescaleEntry exp 0 1 = .error "vector index out of range" := by
  have hc : ∀ q : ℚ, q + 1 - q = 1 := fun q => by ring
  refine ⟨?_, ?_⟩
  · simp [QuasiGaussianArguments.rescaleEntry, QuasiGaussianArguments.swapGrad,
      QuasiGaussianArguments.swapGradLoop, QuasiGaussianArguments.zcbGradient,
      QuasiGaussianArguments.zcbGradientLoop, QuasiGaussianArguments.G,
      QuasiGaussianArguments.rescaleSum, checkedAt, oneFactorArguments, numAt,
      List.range_succ]
  · simp [QuasiGaussianArguments.rescaleEntry, QuasiGaussianArguments.swapGrad,
      QuasiGaussianArguments.swapGradLoop, QuasiGaussianArguments.zcbGradient,
      QuasiGaussianArguments.zcbGradientLoop, QuasiGaussianArguments.G,
      QuasiGaussianArguments.rescaleSum, checkedAt, oneFactorArguments, numAt,
      List.range_succ, hc]

theorem requireAll_ok_iff (l : List (Bool × String)) :
    requireAll l = .ok () ↔ ∀ c ∈ l, c.1 = true := by
  induction l with
  | nil => simp [requireAll]
  | cons c rest ih =>
    obtain ⟨b, msg⟩ := c
    cases b with
    | false => simp [requireAll]
    | true => simp [requireAll, ih]

theorem checkModelParameters_accepted (p : QuasiGaussianArguments α) (L : List α)
    (h : p.checkModelParameters = .ok L) :
    1 ≤ p.d ∧ 1 ≤ p.times.length ∧ p.delta.length = p.d ∧ p.chi.length = p.d := by
  unfold QuasiGaussianArguments.checkModelParameters at h
  have hall : ∀ c ∈ p.checks, c.1 = true := by
    rw [← requireAll_ok_iff]
    cases hr : requireAll p.checks with
    | error e => rw [hr] at h; cases h
    | ok u => rfl
  have h1 := hall (decide (¬ p.d < 1), "QuasiGaussianModel number of factors larger zero required.")
    (by simp [QuasiGaussianArguments.checks])
  have h2 := hall (decide (¬ p.times.length < 1),
    "QuasiGaussianModel non-empty time-grid required.") (by simp [QuasiGaussianArguments.checks])
  have h3 := hall (decide (p.delta.length = p.d), "QuasiGaussianModel wrong delta dimension.")
    (by simp [QuasiGaussianArguments.checks])
  have h4 := hall (decide (p.chi.length = p.d), "QuasiGaussianModel wrong chi i-dimension.")
    (by simp [QuasiGaussianArguments.checks])
  simp only [decide_eq_true_eq] at h1 h2 h3 h4
  exact ⟨by omega, by omega, h3, h4⟩

theorem collectEach_ok_iff {β : Type} (f : Nat → Except String β) (l : List Nat) :
    (∃ ys, collectEach f l = .ok ys) ↔ ∀ i ∈ l, ∃ y, f i = .ok y := by
  induction l with
  | nil => simp [collectEach]
  | cons i rest ih =>
    simp only [collectEach, List.mem_cons, forall_eq_or_imp]
    cases hf : f i with
    | error e => simp
    | ok y =>
      rw [← ih]
      cases hr : collectEach f rest with
      | error e => simp
      | ok ys => simp

theorem zcbGradientLoop_ok (exp : α → α) (p : QuasiGaussianArguments α) (T : α) :
    ∀ l : List Nat, (∀ k ∈ l, k < p.chi.length) →
      ∃ g, p.zcbGradientLoop exp T l = .ok g ∧ g.length = l.length := by
  intro l
  induction l with
  | nil => intro _; exact ⟨[], rfl, rfl⟩
  | cons k rest ih =>
    intro h
    obtain ⟨g, hg, hlen⟩ := ih (fun j hj => h j (List.mem_cons_of_mem _ hj))
    have hk := h k (List.mem_cons_self _ _)
    refine ⟨-(p.discount T) * ((1 - exp (-(numAt p.chi k) * (T - 0))) / numAt p.chi k) :: g,
      ?_, ?_⟩
    · simp only [QuasiGaussianArguments.zcbGradientLoop, QuasiGaussianArguments.G, checkedAt,
        if_pos hk, hg]
    · simp [hlen]

theorem zcbGradient_ok (exp : α → α) (p : QuasiGaussianArguments α) (T : α)
    (hchi : p.chi.length = p.d) :
    ∃ g, p.zcbGradient exp T = .ok g ∧ g.length = p.d := by
  obtain ⟨g, hg, hlen⟩ := zcbGradientLoop_ok exp p T (List.range p.d)
    (fun k hk => by rw [hchi]; exact List.mem_range.1 hk)
  exact ⟨g, hg, by simpa using hlen⟩

theorem swapGradLoop_ok (exp : α → α) (p : QuasiGaussianArguments α) (TN dS : α)
    (hchi : p.chi.length = p.d) :
    ∀ (starts grad : List α),
      ∃ g, p.swapGradLoop exp TN dS starts grad = .ok g ∧ g.length = grad.length := by
  intro starts
  induction starts with
  | nil => intro grad; exact ⟨grad, rfl, rfl⟩
  | cons Ti rest ih =>
    intro grad
    obtain ⟨gZ, hgZ, -⟩ := zcbGradient_ok exp p (if Ti + 1 > TN then TN else Ti + 1) hchi
    obtain ⟨g, hg, hlen⟩ := ih ((List.range grad.length).map fun k =>
      numAt grad k + dS * ((if Ti + 1 > TN then TN else Ti + 1) - Ti) * numAt gZ k)
    refine ⟨g, ?_, ?_⟩
    · simp only [QuasiGaussianArguments.swapGradLoop, hgZ, hg]
    · simpa using hlen

theorem swapGrad_ok [FloorRing α] (exp : α → α) (p : QuasiGaussianArguments α) (T0 TN : α)
    (hchi : p.chi.length = p.d) :
    ∃ g s, p.swapGrad exp T0 TN = .ok (g, s) ∧ g.length = p.d := by
  obtain ⟨g0, hg0, hl0⟩ := zcbGradient_ok exp p T0 hchi
  obtain ⟨gN, hgN, -⟩ := zcbGradient_ok exp p TN hchi
  unfold QuasiGaussianArguments.swapGrad
  simp only [hg0, hgN]
  obtain ⟨g, hg, hlen⟩ := swapGradLoop_ok exp p TN
    (-((p.discount T0 - p.discount TN) /
        ((List.range ⌈TN - T0⌉₊).map fun m => T0 + (m : α)).foldl (fun den Ti =>
          den + ((if Ti + 1 > TN then TN else Ti + 1) - Ti)
            * p.discount (if Ti + 1 > TN then TN else Ti + 1)) 0) /
      ((List.range ⌈TN - T0⌉₊).map fun m => T0 + (m : α)).foldl (fun den Ti =>
          den + ((if Ti + 1 > TN then TN else Ti + 1) - Ti)
            * p.discount (if Ti + 1 > TN then TN else Ti + 1)) 0) hchi
    ((List.range ⌈TN - T0⌉₊).map fun m => T0 + (m : α))
    ((List.range g0.length).map fun k => (numAt g0 k - numAt gN k) /
      ((List.range ⌈TN - T0⌉₊).map fun m => T0 + (m : α)).foldl (fun den Ti =>
          den + ((if Ti + 1 > TN then TN else Ti + 1) - Ti)
            * p.discount (if Ti + 1 > TN then TN else Ti + 1)) 0)
  rw [hg]
  exact ⟨g, _, rfl, by simpa [hl0] using hlen⟩

theorem rescaleSum_ok_iff (exp : α → α) (p : QuasiGaussianArguments α) (grad : List α)
    (i : Nat) :
    ∀ (l : List Nat) (D : α), (∀ j ∈ l, j < grad.length ∧ j < p.chi.length) →
      ((∃ r, p.rescaleSum exp grad i l D = .ok r) ↔ (l = [] ∨ i < p.delta.length)) := by
  intro l
  induction l with
  | nil => intro D _; simp [QuasiGaussianArguments.rescaleSum]
  | cons j rest ih =>
    intro D h
    obtain ⟨h1, h2⟩ := h j (List.mem_cons_self _ _)
    simp only [QuasiGaussianArguments.rescaleSum, checkedAt, if_pos h1, if_pos h2]
    by_cases hi : i < p.delta.length
    · rw [if_pos hi]
      dsimp only
      rw [ih _ (fun m hm => h m (List.mem_cons_of_mem _ hm))]
      simp [hi]
    · rw [if_neg hi]
      simp [hi]

theorem rescaleEntry_ok_iff [FloorRing α] (exp : α → α) (p : QuasiGaussianArguments α)
    (L : List α) (hacc : p.checkModelParameters = .ok L) (k i : Nat) (hk : k < p.d)
    (hi : i < p.times.length) :
    (∃ r, p.rescaleEntry exp k i = .ok r) ↔ i < p.d := by
  obtain ⟨hd, -, hdelta, hchi⟩ := checkModelParameters_accepted p L hacc
  obtain ⟨g, s, hg, hlen⟩ := swapGrad_ok exp p (numAt p.times i)
    (numAt p.times i + numAt p.delta k) hchi
  unfold QuasiGaussianArguments.rescaleEntry
  simp only [checkedAt, if_pos hi, if_pos (hdelta.symm ▸ hk), hg]
  have hsum := rescaleSum_ok_iff exp p g i (List.range p.d) 0
    (fun j hj => ⟨by rw [hlen]; exact List.mem_range.1 hj,
      by rw [hchi]; exact List.mem_range.1 hj⟩)
  have hne : List.range p.d ≠ [] := by
    intro h
    have := congrArg List.length h
    simp at this
    omega
  rw [hdelta] at hsum
  rw [← (show (List.range p.d = [] ∨ i < p.d) ↔ i < p.d from by simp [hne]), ← hsum]
  cases p.rescaleSum exp g i (List.range p.d) 0 with
  | error e => simp
  | ok D => simp

theorem rescaleAlphaB_ok_iff [FloorRing α] (exp : α → α) (p : QuasiGaussianArguments α)
    (L : List α) (hacc : p.checkModelParameters = .ok L) :
    (∃ r, p.rescaleAlphaB exp = .ok r) ↔ p.times.length ≤ p.d := by
  obtain ⟨hd, hn, -, -⟩ := checkModelParameters_accepted p L hacc
  have hrows : (∃ rows, collectEach (fun k => collectEach (fun i => p.rescaleEntry exp k i)
      (List.range p.times.length)) (List.range p.d) = .ok rows) ↔ p.times.length ≤ p.d := by
    rw [collectEach_ok_iff]
    constructor
    · intro h
      have h0 := (collectEach_ok_iff _ _).1 (h 0 (List.mem_range.2 (by omega)))
        (p.times.length - 1) (List.mem_range.2 (by omega))
      have := (rescaleEntry_ok_iff exp p L hacc 0 (p.times.length - 1) (by omega)
        (by omega)).1 h0
      omega
    · intro h k hk
      rw [collectEach_ok_iff]
      intro i hi
      exact (rescaleEntry_ok_iff exp p L hacc k i (List.mem_range.1 hk)
        (List.mem_range.1 hi)).2 (by have := List.mem_range.1 hi; omega)
  rw [← hrows]
  unfold QuasiGaussianArguments.rescaleAlphaB
  cases collectEach (fun k => collectEach (fun i => p.rescaleEntry exp k i)
      (List.range p.times.length)) (List.range p.d) with
  | error e => simp
  | ok rows => simp

/-- C31 does not hold for the code: the arguments with one factor and the
time grid 0, 1 pass `checkModelParameters`; in `rescaleAlphaB` the entry for
the factor 0 and the time index 0 is computed with reads in bounds, and for
the time index 1 the read `delta_[1]` of line 288 is past the one entry of
`delta_`, so `rescaleAlphaB`, and with it the constructor after a
factorisation that succeeds, ends in a read out of bounds, for every
exponential function. -/
theorem rescaleAlphaB_reads_past_delta (exp : ℚ → ℚ) :
    oneFactorArguments.checkModelParameters = .ok [0, 0, 0]
      ∧ oneFactorArguments.useSwapRateScaling = true
      ∧ oneFactorArguments.delta.length = 1 ∧ oneFactorArguments.times.length = 2
      ∧ (∃ r, oneFactorArguments.rescaleEntry exp 0 0 = .ok r)
      ∧ checkedAt oneFactorArguments.delta 1 = .error "vector index out of range"
      ∧ oneFactorArguments.rescaleEntry exp 0 1 = .error "vector index out of range"
      ∧ oneFactorArguments.rescaleAlphaB exp = .error "vector index out of range"
      ∧ oneFactorArguments.construct exp (fun _ => .ok ())
          = .error "vector index out of range" := by
  have h1 := oneFactorArguments_accepted
  obtain ⟨h2, h3⟩ := oneFactorArguments_entry exp
  have h4 : oneFactorArguments.rescaleAlphaB exp = .error "vector index out of range" := by
    obtain ⟨r, hr⟩ := h2
    simp [QuasiGaussianArguments.rescaleAlphaB, collectEach, List.range_succ, hr, h3,
      show oneFactorArguments.times.length = 2 from rfl, show oneFactorArguments.d = 1 from rfl]
  refine ⟨h1, rfl, rfl, rfl, h2, ?_, h3, h4, ?_⟩
  · simp [checkedAt, oneFactorArguments]
  · simp [QuasiGaussianArguments.construct, h1, h4,
      show oneFactorArguments.useSwapRateScaling = true from rfl]

end Construction

/-! ### Multi-indices of the regression -/

section MultiIndex

variable {α : Type} [LinearOrderedField α]

theorem foldl_option_append {β : Type} (F : Option (List β) → Nat → Option (List β))
    (g : Nat → List β) (l : List Nat) (_hnone : ∀ k, F none k = none)
    (hf : ∀ k ∈ l, ∀ m, F (some m) k = some (m ++ g k)) :
    ∀ m : List β, l.foldl F (some m) = some (m ++ l.flatMap g) := by
  induction l with
  | nil => intro m; simp
  | cons k rest ih =>
    intro m
    rw [List.foldl_cons, hf k (List.mem_cons_self _ _),
      ih (fun j hj => hf j (List.mem_cons_of_mem _ hj))]
    simp [List.flatMap_cons, List.append_assoc]

theorem divide_eq : ∀ (n : Nat) (x : List Nat) (idx degree : Nat) (m : List (List Nat)),
    idx + n + 1 = x.length →
    Regression.divide x idx degree m
      = some (m ++ (compositions n degree).map fun c => x.take idx ++ c) := by
  intro n
  induction n with
  | zero =>
    intro x idx degree m h
    rw [Regression.divide, if_neg (by omega), if_pos (by omega)]
    have hx : x.set idx degree = x.take idx ++ [degree] := by
      apply List.ext_getElem
      · simp
        omega
      · intro i h1 h2
        rw [List.getElem_set]
        by_cases hi : idx = i
        · subst hi
          rw [if_pos rfl, List.getElem_append_right (by simp)]
          simp
        · rw [if_neg hi]
          have : i < idx := by
            simp only [List.length_set] at h1
            omega
          rw [List.getElem_append_left (by simp; omega)]
          simp
    simp [compositions, hx]
  | succ n ih =>
    intro x idx degree m h
    rw [Regression.divide, if_neg (by omega), if_neg (by omega), dif_pos (by omega)]
    have hstep : ∀ k ∈ List.range (degree + 1), ∀ m1 : List (List Nat),
        Regression.divide (x.set idx k) (idx + 1) (degree - k) m1
          = some (m1 ++ (compositions n (degree - k)).map fun c => x.take idx ++ (k :: c)) := by
      intro k _ m1
      rw [ih (x.set idx k) (idx + 1) (degree - k) m1 (by simp; omega)]
      have ht : (x.set idx k).take (idx + 1) = x.take idx ++ [k] := by
        apply List.ext_getElem
        · simp
          omega
        · intro i h1 h2
          rw [List.getElem_take]
          rw [List.getElem_set]
          by_cases hi : idx = i
          · subst hi
            rw [if_pos rfl, List.getElem_append_right (by simp)]
            simp
          · rw [if_neg hi]
            have : i < idx := by
              simp only [List.length_take, List.length_set] at h1
              omega
            rw [List.getElem_append_left (by simp; omega)]
            simp
      simp [ht]
    rw [foldl_option_append _ _ _ (fun _ => rfl) hstep]
    simp [compositions, List.map_flatMap, List.map_map, Function.comp_def]

theorem setUpMultiIndex_eq (dim maxDegree : Nat) (hdim : 1 ≤ dim) :
    Regression.setUpMultiIndex dim maxDegree
      = some ((List.range (maxDegree + 1)).flatMap fun k => compositions (dim - 1) k) := by
  unfold Regression.setUpMultiIndex
  rw [foldl_option_append _
    (fun k => compositions (dim - 1) k) _ (fun _ => rfl)
    (fun k _ m => by
      show Regression.divide (List.replicate dim 0) 0 k m = _
      rw [divide_eq (dim - 1) (List.replicate dim 0) 0 k m (by simp; omega)]
      simp)]
  simp

theorem mem_compositions : ∀ (n degree : Nat) (c : List Nat),
    c ∈ compositions n degree ↔ c.length = n + 1 ∧ c.sum = degree
  | 0, degree, c => by
    simp only [compositions, List.mem_singleton]
    constructor
    · rintro rfl
      simp
    · rintro ⟨h1, h2⟩
      match c, h1, h2 with
      | [a], _, h2 =>
        simp only [List.sum_cons, List.sum_nil, Nat.add_zero] at h2
        rw [h2]
  | n + 1, degree, c => by
    simp only [compositions, List.mem_flatMap, List.mem_range, List.mem_map]
    constructor
    · rintro ⟨k, hk, t, ht, rfl⟩
      rw [mem_compositions n (degree - k) t] at ht
      simp only [List.length_cons, List.sum_cons]
      omega
    · rintro ⟨h1, h2⟩
      cases c with
      | nil => simp at h1
      | cons a t =>
        simp only [List.length_cons, List.sum_cons] at h1 h2
        exact ⟨a, by omega, t,
          (mem_compositions n (degree - a) t).2 ⟨by omega, by omega⟩, rfl⟩

theorem nodup_compositions : ∀ (n degree : Nat), (compositions n degree).Nodup
  | 0, degree => by simp [compositions]
  | n + 1, degree => by
    rw [compositions, List.nodup_flatMap]
    constructor
    · intro k _
      exact (nodup_compositions n (degree - k)).map
        (fun a b h => List.tail_eq_of_cons_eq h)
    · refine List.Pairwise.imp ?_ (List.nodup_range (degree + 1))
      intro a b hab c hca hcb
      simp only [List.mem_map] at hca hcb
      obtain ⟨t, _, rfl⟩ := hca
      obtain ⟨s, _, hs⟩ := hcb
      exact hab (List.head_eq_of_cons_eq hs).symm

theorem choose_sum_rev (n : Nat) : ∀ d : Nat,
    ((List.range (d + 1)).map fun k => Nat.choose (n + (d - k)) n).sum
      = Nat.choose (n + 1 + d) (n + 1)
  | 0 => by simp
  | d + 1 => by
    rw [List.range_succ_eq_map, List.map_cons, List.sum_cons, List.map_map]
    have h : ((fun k => Nat.choose (n + (d + 1 - k)) n) ∘ Nat.succ)
        = fun k => Nat.choose (n + (d - k)) n := by
      funext k
      simp only [Function.comp, Nat.succ_eq_add_one, Nat.add_sub_add_right]
    rw [h, choose_sum_rev n d]
    have h2 : n + 1 + (d + 1) = (n + 1 + d) + 1 := by omega
    have h3 : n + (d + 1 - 0) = n + 1 + d := by omega
    rw [h2, h3, Nat.choose_succ_succ]

theorem choose_sum (n : Nat) : ∀ d : Nat,
    ((List.range (d + 1)).map fun k => Nat.choose (n + k) n).sum
      = Nat.choose (n + 1 + d) (n + 1)
  | 0 => by simp [List.range_succ]
  | d + 1 => by
    rw [List.range_succ, List.map_append, List.sum_append, choose_sum n d]
    have h2 : n + 1 + (d + 1) = (n + 1 + d) + 1 := by omega
    have h3 : n + (d + 1) = n + 1 + d := by omega
    simp only [List.map_cons, List.map_nil, List.sum_cons, List.sum_nil, Nat.add_zero]
    rw [h2, h3, Nat.choose_succ_succ, Nat.add_comm]

theorem length_flatMap_sum {β γ : Type} (f : β → List γ) (l : List β) :
    (l.flatMap f).length = (l.map fun a => (f a).length).sum := by
  induction l with
  | nil => rfl
  | cons a t ih => simp [List.flatMap_cons, ih]

theorem length_compositions : ∀ (n degree : Nat),
    (compositions n degree).length = Nat.choose (n + degree) n
  | 0, degree => by simp [compositions]
  | n + 1, degree => by
    rw [compositions, length_flatMap_sum]
    have h : (fun k => ((compositions n (degree - k)).map (k :: ·)).length)
        = fun k => Nat.choose (n + (degree - k)) n := by
      funext k
      rw [List.length_map, length_compositions n (degree - k)]
    rw [h, choose_sum_rev n degree]

theorem compositions_zero : ∀ n : Nat, compositions n 0 = [List.replicate (n + 1) 0]
  | 0 => rfl
  | n + 1 => by
    rw [compositions]
    simp [compositions_zero n, List.replicate_succ, List.range_succ]

/-- The table of all multi-indices up to the degree `maxDegree`, block by
block in the total degree: the closed form of `setUpMultiIndex`. -/
theorem mem_table (n maxDegree : Nat) (c : List Nat) :
    c ∈ (List.range (maxDegree + 1)).flatMap (fun k => compositions n k)
      ↔ c.length = n + 1 ∧ c.sum ≤ maxDegree := by
  simp only [List.mem_flatMap, List.mem_range, mem_compositions]
  constructor
  · rintro ⟨k, hk, h1, h2⟩
    exact ⟨h1, by omega⟩
  · rintro ⟨h1, h2⟩
    exact ⟨c.sum, by omega, h1, rfl⟩

theorem nodup_table (n maxDegree : Nat) :
    ((List.range (maxDegree + 1)).flatMap fun k => compositions n k).Nodup := by
  rw [List.nodup_flatMap]
  refine ⟨fun k _ => nodup_compositions n k, ?_⟩
  refine List.Pairwise.imp ?_ (List.nodup_range (maxDegree + 1))
  intro a b hab c hca hcb
  rw [mem_compositions] at hca hcb
  exact hab (hca.2.symm.trans hcb.2)

theorem sorted_table (n maxDegree : Nat) :
    (((List.range (maxDegree + 1)).flatMap fun k => compositions n k).map List.sum).Sorted
      (· ≤ ·) := by
  unfold List.Sorted
  rw [List.pairwise_map, List.pairwise_flatMap]
  constructor
  · intro k _
    rw [List.pairwise_iff_forall_sublist]
    intro a b hab
    have ha := hab.subset (List.mem_cons_self _ _)
    have hb := hab.subset (List.mem_cons_of_mem _ (List.mem_cons_self _ _))
    rw [mem_compositions] at ha hb
    omega
  · refine List.Pairwise.imp ?_ (List.pairwise_lt_range (maxDegree + 1))
    intro a b hab x hx y hy
    rw [mem_compositions] at hx hy
    omega

theorem length_table (n maxDegree : Nat) :
    ((List.range (maxDegree + 1)).flatMap fun k => compositions n k).length
      = Nat.choose (n + 1 + maxDegree) (n + 1) := by
  rw [length_flatMap_sum]
  have h : (fun k => (compositions n k).length) = fun k => Nat.choose (n + k) n := by
    funext k
    rw [length_compositions]
  rw [h, choose_sum]

theorem head_table (n maxDegree : Nat) :
    ((List.range (maxDegree + 1)).flatMap fun k => compositions n k).head?
      = some (List.replicate (n + 1) 0) := by
  rw [List.range_succ_eq_map, List.flatMap_cons, compositions_zero]
  rfl

theorem foldl_repeated_mul (a : α) : ∀ (e : Nat) (y : α),
    (List.range e).foldl (fun y _ => y * a) y = y * a ^ e
  | 0, y => by simp
  | e + 1, y => by
    rw [List.range_succ, List.foldl_append, foldl_repeated_mul a e y]
    simp only [List.foldl_cons, List.foldl_nil]
    rw [pow_succ, mul_assoc]

theorem foldl_mul_prod {β : Type} (g : β → α) : ∀ (l : List β) (y : α),
    l.foldl (fun y j => y * g j) y = y * (l.map g).prod
  | [], y => by simp
  | j :: l, y => by
    rw [List.foldl_cons, foldl_mul_prod g l (y * g j)]
    simp [mul_assoc]

theorem monomials_eq (multIdx_ : List (List Nat)) (x : List α)
    (h0 : multIdx_.length ≠ 0) (hx : (rowAt multIdx_ 0).length = x.length) :
    Regression.monomials multIdx_ x
      = (List.range multIdx_.length).map fun i =>
          ((List.range x.length).map fun j =>
            numAt x j ^ ((rowAt multIdx_ i).getD j 0)).prod := by
  unfold Regression.monomials
  rw [if_neg (by
    rintro (h | h)
    · exact h0 h
    · exact h hx)]
  apply List.map_congr_left
  intro i _
  have h1 : (fun (y : α) (j : Nat) =>
      (List.range ((rowAt multIdx_ i).getD j 0)).foldl (fun y _ => y * numAt x j) y)
        = fun y j => y * (numAt x j ^ ((rowAt multIdx_ i).getD j 0)) := by
    funext y j
    exact foldl_repeated_mul (numAt x j) _ y
  rw [h1, foldl_mul_prod, one_mul]

theorem setUpMultiIndex_two_two :
    Regression.setUpMultiIndex 2 2
      = some [[0, 0], [0, 1], [1, 0], [0, 2], [1, 1], [2, 0]] := by
  rw [setUpMultiIndex_eq 2 2 (by decide)]
  rfl

theorem monomials_two_two :
    Regression.monomials [[0, 0], [0, 1], [1, 0], [0, 2], [1, 1], [2, 0]] [(2 : ℚ), 3]
      = [1, 3, 2, 9, 6, 4] := by
  norm_num [Regression.monomials, rowAt, numAt, List.range_succ]

/-- C39: for `dim >= 1` the call `setUpMultiIndex(dim, maxDegree)` returns, and
`multIdx_` then holds exactly the multi-indices with `dim` entries and a sum of
at most `maxDegree`, each once, in the order of non-decreasing sum; it has
`binomial(dim + maxDegree, dim)` entries, the first one is the zero index, and
for an argument `x` with `dim` entries `monomials(x)` has one entry for each
multi-index, the product of the powers `x[j] ^ multIdx_[i][j]`. -/
theorem setUpMultiIndex_table (dim maxDegree : Nat) (hdim : 1 ≤ dim) :
    ∃ multIdx_ : List (List Nat),
      Regression.setUpMultiIndex dim maxDegree = some multIdx_
        ∧ (∀ c : List Nat, c ∈ multIdx_ ↔ c.length = dim ∧ c.sum ≤ maxDegree)
        ∧ multIdx_.Nodup
        ∧ (multIdx_.map List.sum).Sorted (· ≤ ·)
        ∧ multIdx_.length = Nat.choose (dim + maxDegree) dim
        ∧ rowAt multIdx_ 0 = List.replicate dim 0
        ∧ ∀ x : List α, x.length = dim →
            (Regression.monomials multIdx_ x).length = multIdx_.length
              ∧ ∀ i, i < multIdx_.length →
                  numAt (Regression.monomials multIdx_ x) i
                    = ((List.range dim).map fun j =>
                        numAt x j ^ ((rowAt multIdx_ i).getD j 0)).prod := by
  obtain ⟨n, rfl⟩ : ∃ n, dim = n + 1 := ⟨dim - 1, by omega⟩
  refine ⟨_, setUpMultiIndex_eq (n + 1) maxDegree hdim, ?_, ?_, ?_, ?_, ?_, ?_⟩
  · exact mem_table n maxDegree
  · exact nodup_table n maxDegree
  · exact sorted_table n maxDegree
  · exact length_table n maxDegree
  · have h := head_table n maxDegree
    simp only [Nat.add_sub_cancel] at h ⊢
    unfold rowAt
    rw [List.getD_eq_getElem?_getD, ← List.head?_eq_getElem?, h]
    rfl
  · intro x hx
    have hlen := length_table n maxDegree
    have hpos : 0 < Nat.choose (n + 1 + maxDegree) (n + 1) :=
      Nat.choose_pos (by omega)
    have hrow : (rowAt ((List.range (maxDegree + 1)).flatMap fun k => compositions n k) 0).length
        = x.length := by
      have h := head_table n maxDegree
      unfold rowAt
      rw [List.getD_eq_getElem?_getD, ← List.head?_eq_getElem?, h, hx]
      simp
    simp only [Nat.add_sub_cancel]
    rw [monomials_eq _ x (by omega) hrow]
    refine ⟨by simp, ?_⟩
    intro i hi
    unfold numAt
    rw [List.getD_eq_getElem?_getD, List.getElem?_map, List.getElem?_range hi, hx]
    rfl

theorem setUpMultiIndex_table_witness :
    1 ≤ 2 ∧ ∃ multIdx_ : List (List Nat),
      Regression.setUpMultiIndex 2 2 = some multIdx_
        ∧ (∀ c : List Nat, c ∈ multIdx_ ↔ c.length = 2 ∧ c.sum ≤ 2)
        ∧ multIdx_.Nodup
        ∧ (multIdx_.map List.sum).Sorted (· ≤ ·)
        ∧ multIdx_.length = Nat.choose (2 + 2) 2
        ∧ rowAt multIdx_ 0 = List.replicate 2 0
        ∧ ∀ x : List ℚ, x.length = 2 →
            (Regression.monomials multIdx_ x).length = multIdx_.length
              ∧ ∀ i, i < multIdx_.length →
                  numAt (Regression.monomials multIdx_ x) i
                    = ((List.range 2).map fun j =>
                        numAt x j ^ ((rowAt multIdx_ i).getD j 0)).prod :=
  ⟨by decide, setUpMultiIndex_table 2 2 (by decide)⟩

end MultiIndex

/-! ### The table of stored states -/

section Table

variable {α : Type} [LinearOrderedField α]

theorem mergeTimes_sublist (s o : List α) : o.Sublist (mergeTimes s o) := by
  induction s, o using mergeTimes.induct with
  | case1 => simp [mergeTimes]
  | case2 s ss ih => simp
  | case3 o os ih =>
    rw [mergeTimes]
    exact List.cons_sublist_cons.2 ih
  | case4 s ss o os h ih =>
    rw [mergeTimes, if_pos h]
    exact List.cons_sublist_cons.2 ih
  | case5 s ss o os h h2 ih =>
    rw [mergeTimes, if_neg h, if_pos h2]
    exact List.Sublist.cons _ ih
  | case6 s ss o os h h2 ih =>
    rw [mergeTimes, if_neg h, if_neg h2]
    exact List.cons_sublist_cons.2 ih

theorem build_grids_sublist (process : ProcessType α) (simTimes obsTimes : List α)
    (nPaths seed : Nat) (r i s : Bool) :
    ((MCSimulationT.build process simTimes obsTimes nPaths seed r i s).obsTimes_.drop 1).Sublist
        ((MCSimulationT.build process simTimes obsTimes nPaths seed r i s).simTimes_.drop 1)
      ∧ 1 ≤ (MCSimulationT.build process simTimes obsTimes nPaths seed r i s).obsTimes_.length := by
  have h := mergeTimes_sublist (skipNonPositive simTimes)
    (skipNonPositive (buildObsTimes obsTimes))
  rw [skipNonPositive_buildObsTimes] at h
  constructor
  · show ((buildObsTimes obsTimes).drop 1).Sublist ((buildSimTimes simTimes obsTimes).drop 1)
    unfold buildSimTimes
    rw [skipNonPositive_buildObsTimes]
    exact h
  · show 1 ≤ (buildObsTimes obsTimes).length
    simp [buildObsTimes]

theorem pathLoop_zero (sqrt : α → α) (sim : MCSimulationT α) (dWt row : List (List α)) :
    (sim.pathLoop sqrt dWt row 0).Xpath = row.set 0 sim.process_.initialValues
      ∧ (sim.pathLoop sqrt dWt row 0).obs_idx = 1 := ⟨rfl, rfl⟩

theorem pathLoop_succ (sqrt : α → α) (sim : MCSimulationT α) (dWt row : List (List α))
    (n : Nat) :
    sim.pathLoop sqrt dWt row (n + 1)
      = sim.simulateStep sqrt dWt (n + 1) (sim.pathLoop sqrt dWt row n) := by
  unfold MCSimulationT.pathLoop
  rw [List.range_succ, List.map_append, List.foldl_append]
  rfl

theorem simulateStep_slot (sqrt : α → α) (sim : MCSimulationT α) (dWt : List (List α))
    (i : Nat) (c : PathLoopState α) :
    ((sim.simulateStep sqrt dWt i c).obs_idx
        = if c.obs_idx < sim.obsTimes_.length ∧
            numAt sim.simTimes_ i = numAt sim.obsTimes_ c.obs_idx then c.obs_idx + 1
          else c.obs_idx)
      ∧ (sim.simulateStep sqrt dWt i c).Xpath
        = if c.obs_idx < sim.obsTimes_.length ∧
            numAt sim.simTimes_ i = numAt sim.obsTimes_ c.obs_idx then
            c.Xpath.set c.obs_idx (sim.simulateStep sqrt dWt i c).X1
          else c.Xpath := by
  unfold MCSimulationT.simulateStep
  dsimp only
  by_cases hr : sim.richardsonExtrapolation_ = true
  · by_cases hc : c.obs_idx < sim.obsTimes_.length ∧
        numAt sim.simTimes_ i = numAt sim.obsTimes_ c.obs_idx
    · simp only [hr, if_true, if_pos hc]
      exact ⟨trivial, trivial⟩
    · simp only [hr, if_true, if_neg hc]
      exact ⟨trivial, trivial⟩
  · by_cases hc : c.obs_idx < sim.obsTimes_.length ∧
        numAt sim.simTimes_ i = numAt sim.obsTimes_ c.obs_idx
    · simp only [hr, Bool.false_eq_true, if_false, if_pos hc]
      exact ⟨trivial, trivial⟩
    · simp only [hr, Bool.false_eq_true, if_false, if_neg hc]
      exact ⟨trivial, trivial⟩

theorem pathLoop_obs (sqrt : α → α) (sim : MCSimulationT α) (dWt row : List (List α)) :
    ∀ n, (sim.pathLoop sqrt dWt row n).obs_idx = sim.obsIndex n
  | 0 => rfl
  | n + 1 => by
    rw [pathLoop_succ, (simulateStep_slot sqrt sim dWt (n + 1) _).1, pathLoop_obs sqrt sim dWt row n]
    rfl

theorem pathLoop_write (sqrt : α → α) (sim : MCSimulationT α) (dWt row : List (List α))
    (n : Nat) :
    (sim.pathLoop sqrt dWt row (n + 1)).Xpath
      = if sim.obsIndex n < sim.obsTimes_.length ∧
          numAt sim.simTimes_ (n + 1) = numAt sim.obsTimes_ (sim.obsIndex n) then
          (sim.pathLoop sqrt dWt row n).Xpath.set (sim.obsIndex n)
            (sim.pathLoop sqrt dWt row (n + 1)).X1
        else (sim.pathLoop sqrt dWt row n).Xpath := by
  have h := (simulateStep_slot sqrt sim dWt (n + 1) (sim.pathLoop sqrt dWt row n)).2
  rw [pathLoop_obs, ← pathLoop_succ] at h
  exact h

theorem pathLoop_length (sqrt : α → α) (sim : MCSimulationT α) (dWt row : List (List α)) :
    ∀ n, (sim.pathLoop sqrt dWt row n).Xpath.length = row.length
  | 0 => by simp [(pathLoop_zero sqrt sim dWt row).1]
  | n + 1 => by
    rw [pathLoop_write]
    split_ifs
    · rw [List.length_set, pathLoop_length sqrt sim dWt row n]
    · exact pathLoop_length sqrt sim dWt row n

theorem obsIndex_succ (sim : MCSimulationT α) (n : Nat) :
    sim.obsIndex (n + 1)
      = if sim.obsIndex n < sim.obsTimes_.length ∧
          numAt sim.simTimes_ (n + 1) = numAt sim.obsTimes_ (sim.obsIndex n) then
          sim.obsIndex n + 1
        else sim.obsIndex n := rfl

theorem obsIndex_step (sim : MCSimulationT α) (n : Nat) :
    sim.obsIndex n ≤ sim.obsIndex (n + 1) ∧ sim.obsIndex (n + 1) ≤ sim.obsIndex n + 1 := by
  rw [obsIndex_succ]
  split_ifs <;> omega

theorem obsIndex_mono (sim : MCSimulationT α) (a b : Nat) (hab : a ≤ b) :
    sim.obsIndex a ≤ sim.obsIndex b := by
  induction b with
  | zero =>
    have : a = 0 := by omega
    rw [this]
  | succ b ih =>
    by_cases h : a = b + 1
    · rw [h]
    · exact le_trans (ih (by omega)) (obsIndex_step sim b).1

theorem obsIndex_pos (sim : MCSimulationT α) (n : Nat) : 1 ≤ sim.obsIndex n :=
  obsIndex_mono sim 0 n (Nat.zero_le n)

theorem obsIndex_le (sim : MCSimulationT α) (hm : 1 ≤ sim.obsTimes_.length) :
    ∀ n, sim.obsIndex n ≤ sim.obsTimes_.length
  | 0 => hm
  | n + 1 => by
    have ih := obsIndex_le sim hm n
    rw [obsIndex_succ]
    split_ifs with h
    · exact h.1
    · exact ih

theorem obsIndex_sublist (sim : MCSimulationT α)
    (hgrid : (sim.obsTimes_.drop 1).Sublist (sim.simTimes_.drop 1)) :
    ∀ n, (sim.obsTimes_.drop (sim.obsIndex n)).Sublist (sim.simTimes_.drop (n + 1))
  | 0 => hgrid
  | n + 1 => by
    have ih := obsIndex_sublist sim hgrid n
    rw [obsIndex_succ]
    by_cases hM : n + 1 < sim.simTimes_.length
    · rw [List.drop_eq_getElem_cons hM] at ih
      have hMn : numAt sim.simTimes_ (n + 1) = sim.simTimes_[n + 1] := by
        unfold numAt
        rw [List.getD_eq_getElem _ _ hM]
      by_cases hO : sim.obsIndex n < sim.obsTimes_.length
      · rw [List.drop_eq_getElem_cons hO] at ih
        have hOn : numAt sim.obsTimes_ (sim.obsIndex n) = sim.obsTimes_[sim.obsIndex n] := by
          unfold numAt
          rw [List.getD_eq_getElem _ _ hO]
        by_cases he : sim.simTimes_[n + 1] = sim.obsTimes_[sim.obsIndex n]
        · rw [if_pos ⟨hO, by rw [hMn, hOn, he]⟩]
          exact ih.of_cons_cons
        · rw [if_neg (fun h => he (by rw [← hMn, ← hOn]; exact h.2)),
            List.drop_eq_getElem_cons hO]
          rcases List.sublist_cons_iff.1 ih with h | ⟨r, hr, _⟩
          · exact h
          · exact absurd (List.head_eq_of_cons_eq hr).symm he
      · rw [if_neg (fun h => hO h.1), List.drop_of_length_le (by omega)]
        exact List.nil_sublist _
    · rw [List.drop_of_length_le (by omega : sim.simTimes_.length ≤ n + 1)] at ih
      have hnil := List.sublist_nil.1 ih
      have hlen : sim.obsTimes_.length ≤ sim.obsIndex n := by
        have := congrArg List.length hnil
        simp only [List.length_drop, List.length_nil] at this
        omega
      rw [if_neg (fun h => by omega), hnil]
      exact List.nil_sublist _

theorem obsIndex_final (sim : MCSimulationT α)
    (hgrid : (sim.obsTimes_.drop 1).Sublist (sim.simTimes_.drop 1))
    (hm : 1 ≤ sim.obsTimes_.length) :
    sim.obsIndex (sim.simTimes_.length - 1) = sim.obsTimes_.length := by
  have h := obsIndex_sublist sim hgrid (sim.simTimes_.length - 1)
  rw [List.drop_of_length_le
    (show sim.simTimes_.length ≤ sim.simTimes_.length - 1 + 1 by omega)] at h
  have hlen := congrArg List.length (List.sublist_nil.1 h)
  simp only [List.length_drop, List.length_nil] at hlen
  have := obsIndex_le sim hm (sim.simTimes_.length - 1)
  omega

theorem obsIndex_reached (sim : MCSimulationT α) (j : Nat) (hj : 1 ≤ j) :
    ∀ n, j < sim.obsIndex n →
      ∃ k, 1 ≤ k ∧ k ≤ n ∧ sim.obsIndex (k - 1) = j ∧ sim.obsIndex k = j + 1
        ∧ j < sim.obsTimes_.length ∧ numAt sim.simTimes_ k = numAt sim.obsTimes_ j
  | 0 => fun h => absurd h (by
      show ¬ j < 1
      omega)
  | n + 1 => by
    intro h
    by_cases hn : j < sim.obsIndex n
    · obtain ⟨k, h1, h2, h3⟩ := obsIndex_reached sim j hj n hn
      exact ⟨k, h1, by omega, h3⟩
    · have hs := obsIndex_step sim n
      have hjn : sim.obsIndex n = j := by omega
      have hsucc := obsIndex_succ sim n
      by_cases hc : sim.obsIndex n < sim.obsTimes_.length ∧
          numAt sim.simTimes_ (n + 1) = numAt sim.obsTimes_ (sim.obsIndex n)
      · rw [if_pos hc] at hsucc
        refine ⟨n + 1, by omega, le_rfl, hjn, by omega, by omega, ?_⟩
        rw [← hjn]
        exact hc.2
      · rw [if_neg hc] at hsucc
        omega

theorem pathLoop_slot_zero (sqrt : α → α) (sim : MCSimulationT α) (dWt row : List (List α))
    (hrow : 0 < row.length) :
    ∀ n, rowAt (sim.pathLoop sqrt dWt row n).Xpath 0 = sim.process_.initialValues
  | 0 => by
    rw [(pathLoop_zero sqrt sim dWt row).1, rowAt_set, if_pos ⟨rfl, hrow⟩]
  | n + 1 => by
    rw [pathLoop_write]
    split_ifs
    · rw [rowAt_set, if_neg (fun h => by
        have := obsIndex_pos sim n
        omega)]
      exact pathLoop_slot_zero sqrt sim dWt row hrow n
    · exact pathLoop_slot_zero sqrt sim dWt row hrow n

theorem pathLoop_slot (sqrt : α → α) (sim : MCSimulationT α) (dWt row : List (List α))
    (j k : Nat) (hj : 1 ≤ j) (hjrow : j < row.length) (hk : 1 ≤ k)
    (hbefore : sim.obsIndex (k - 1) = j) (hafter : sim.obsIndex k = j + 1) :
    ∀ n, rowAt (sim.pathLoop sqrt dWt row n).Xpath j
      = if n < k then rowAt row j else (sim.pathLoop sqrt dWt row k).X1
  | 0 => by
    rw [if_pos (by omega), (pathLoop_zero sqrt sim dWt row).1, rowAt_set,
      if_neg (fun h => by omega)]
  | n + 1 => by
    have ih := pathLoop_slot sqrt sim dWt row j k hj hjrow hk hbefore hafter n
    have hs := obsIndex_succ sim n
    rw [pathLoop_write]
    rcases Nat.lt_trichotomy (n + 1) k with hlt | heq | hgt
    · have hle : sim.obsIndex (n + 1) ≤ j := by
        rw [← hbefore]
        exact obsIndex_mono sim _ _ (by omega)
      rw [if_pos hlt]
      rw [if_pos (by omega : n < k)] at ih
      split_ifs with hc
      · rw [if_pos hc] at hs
        rw [rowAt_set, if_neg (fun h => by omega)]
        exact ih
      · exact ih
    · have hn : sim.obsIndex n = j := by
        rw [← hbefore, ← heq]
        rfl
      rw [if_neg (by omega : ¬ n + 1 < k)]
      have hc : sim.obsIndex n < sim.obsTimes_.length ∧
          numAt sim.simTimes_ (n + 1) = numAt sim.obsTimes_ (sim.obsIndex n) := by
        by_contra hc
        rw [if_neg hc, heq] at hs
        omega
      rw [if_pos hc, rowAt_set, if_pos ⟨hn, by
        rw [pathLoop_length, hn]
        exact hjrow⟩, heq]
    · have hge : j + 1 ≤ sim.obsIndex n := by
        rw [← hafter]
        exact obsIndex_mono sim _ _ (by omega)
      rw [if_neg (by omega : ¬ n + 1 < k)]
      rw [if_neg (by omega : ¬ n < k)] at ih
      split_ifs with hc
      · rw [rowAt_set, if_neg (fun h => by omega)]
        exact ih
      · exact ih

theorem obsIndex_lt_of_lt (sim : MCSimulationT α) (a b : Nat)
    (h : sim.obsIndex a < sim.obsIndex b) : a < b := by
  by_contra hab
  have := obsIndex_mono sim b a (by omega)
  omega

/-- The steps at which the slots of a row are written: on grids as the
constructor builds them every slot `j >= 1` has one pass `k j` of the loop, at
the grid point equal to the observation time, that moves `obs_idx` from `j` to
`j + 1`. -/
theorem obsIndex_steps (sim : MCSimulationT α)
    (hgrid : (sim.obsTimes_.drop 1).Sublist (sim.simTimes_.drop 1))
    (hm : 1 ≤ sim.obsTimes_.length) :
    ∃ k : Nat → Nat, ∀ j, 1 ≤ j → j < sim.obsTimes_.length →
      1 ≤ k j ∧ k j ≤ sim.simTimes_.length - 1 ∧ sim.obsIndex (k j - 1) = j
        ∧ sim.obsIndex (k j) = j + 1 ∧ numAt sim.simTimes_ (k j) = numAt sim.obsTimes_ j
        ∧ (j + 1 < sim.obsTimes_.length → k j < k (j + 1)) := by
  have hex : ∀ j, ∃ k, 1 ≤ j → j < sim.obsTimes_.length →
      1 ≤ k ∧ k ≤ sim.simTimes_.length - 1 ∧ sim.obsIndex (k - 1) = j
        ∧ sim.obsIndex k = j + 1 ∧ numAt sim.simTimes_ k = numAt sim.obsTimes_ j := by
    intro j
    by_cases hj : 1 ≤ j ∧ j < sim.obsTimes_.length
    · obtain ⟨k, h1, h2, h3, h4, _, h6⟩ := obsIndex_reached sim j hj.1
        (sim.simTimes_.length - 1) (by rw [obsIndex_final sim hgrid hm]; exact hj.2)
      exact ⟨k, fun _ _ => ⟨h1, h2, h3, h4, h6⟩⟩
    · exact ⟨0, fun h1 h2 => absurd ⟨h1, h2⟩ hj⟩
  choose k hk using hex
  refine ⟨k, fun j hj hjm => ?_⟩
  obtain ⟨h1, h2, h3, h4, h5⟩ := hk j hj hjm
  refine ⟨h1, h2, h3, h4, h5, fun hj1 => ?_⟩
  obtain ⟨g1, _, g3, _, _⟩ := hk (j + 1) (by omega) hj1
  have := obsIndex_lt_of_lt sim (k j - 1) (k (j + 1) - 1) (by omega)
  omega

theorem simulatePath_stored_eq (rsg : Nat → Nat → Nat → List α) (sqrt : α → α)
    (s : MCSimulationT α) (hsb : s.storeBrownians_ = true) (path : Nat)
    (hd : path < s.dW_.length) (X : List (List (List α))) (hX : path < X.length) :
    MCSimulationT.simulatePath rsg sqrt { s with X_ := X } path
      = (.ok (), { s with
          X_ := X.set path
            (s.pathLoop sqrt (rowAt s.dW_ path) (rowAt X path)
              (s.simTimes_.length - 1)).Xpath }) := by
  have hg : MCSimulationT.getBrownianIncrementsByPath rsg { s with X_ := X } path
      = (.ok (rowAt s.dW_ path), { s with X_ := X }) := by
    unfold MCSimulationT.getBrownianIncrementsByPath
    rw [if_pos (show ({ s with X_ := X } : MCSimulationT α).storeBrownians_ = true from hsb),
      if_neg (not_not.2 hd)]
  unfold MCSimulationT.simulatePath
  rw [if_neg (not_not.2 hX), hg]
  rfl

theorem simulatePath_drawn_eq (rsg : Nat → Nat → Nat → List α) (sqrt : α → α)
    (hdim : ∀ d s n, (rsg d s n).length = d)
    (s : MCSimulationT α) (hsb : s.storeBrownians_ = false) (j path : Nat)
    (D X : List (List (List α))) (hX : path < X.length) :
    MCSimulationT.simulatePath rsg sqrt
        { s with
          rsg_ := some ⟨(if s.richardsonExtrapolation_ then 2 else 1)
            * (s.simTimes_.length - 1) * s.process_.factors, s.seed_, j⟩
          dW_ := D
          X_ := X } path
      = (.ok (), { s with
          rsg_ := some ⟨(if s.richardsonExtrapolation_ then 2 else 1)
            * (s.simTimes_.length - 1) * s.process_.factors, s.seed_, j + 1⟩
          dW_ := D.set 0 (s.increments rsg j)
          X_ := X.set path
            (s.pathLoop sqrt (s.increments rsg j) (rowAt X path)
              (s.simTimes_.length - 1)).Xpath }) := by
  have hg : MCSimulationT.getBrownianIncrementsByPath rsg
        { s with
          rsg_ := some ⟨(if s.richardsonExtrapolation_ then 2 else 1)
            * (s.simTimes_.length - 1) * s.process_.factors, s.seed_, j⟩
          dW_ := D
          X_ := X } path
      = (.ok (s.increments rsg j), { s with
          rsg_ := some ⟨(if s.richardsonExtrapolation_ then 2 else 1)
            * (s.simTimes_.length - 1) * s.process_.factors, s.seed_, j + 1⟩
          dW_ := D.set 0 (s.increments rsg j)
          X_ := X }) := by
    unfold MCSimulationT.getBrownianIncrementsByPath MCSimulationT.getNextBrownianIncrements
    dsimp only
    rw [if_neg (by rw [hsb]; exact Bool.false_ne_true),
      if_neg (not_not.2 (hdim _ _ _))]
    rfl
  unfold MCSimulationT.simulatePath
  rw [if_neg (not_not.2 hX), hg]
  rfl

theorem rows_of_loop {γ : Type} (X X0 : List (List (List γ))) (f : Nat → List (List γ))
    (hlen : X.length = X0.length) (hrow : ∀ p, p < X0.length → rowAt X p = f p) :
    X = (List.range X0.length).map f := by
  apply List.ext_getElem (by simp [hlen])
  intro k h1 h2
  rw [← rowAt_eq_getElem X k h1, hrow k (by rw [← hlen]; exact h1)]
  simp

theorem simulate_rows_stored (rsg : Nat → Nat → Nat → List α) (sqrt : α → α)
    (hdim : ∀ d s n, (rsg d s n).length = d) (sim : MCSimulationT α)
    (hsb : sim.storeBrownians_ = true) (hD : sim.X_.length ≤ sim.dW_.length) :
    sim.simulate rsg sqrt
      = (.ok (), { sim.withIncrements rsg with
          X_ := (List.range sim.X_.length).map fun p =>
            (sim.pathLoop sqrt (sim.increments rsg p) (rowAt sim.X_ p)
              (sim.simTimes_.length - 1)).Xpath }) := by
  obtain ⟨sf, hrun, X', hsf, hlen, hlo, _⟩ := forLoop_range_total
    (fun k st => MCSimulationT.simulatePath rsg sqrt st k)
    (fun j st => ∃ X' : List (List (List α)),
      st = { sim.withIncrements rsg with X_ := X' } ∧ X'.length = sim.X_.length ∧
      (∀ p, p < j → rowAt X' p = (sim.pathLoop sqrt (sim.increments rsg p) (rowAt sim.X_ p)
          (sim.simTimes_.length - 1)).Xpath) ∧
      (∀ p, j ≤ p → rowAt X' p = rowAt sim.X_ p))
    sim.X_.length (sim.withIncrements rsg)
    ⟨sim.X_, rfl, rfl, fun p hp => absurd hp (Nat.not_lt_zero p), fun _ _ => rfl⟩
    (by
      rintro j st hj ⟨X', rfl, hlen, hlo, hhi⟩
      have hdj : j < (sim.withIncrements rsg).dW_.length := by
        simp only [MCSimulationT.withIncrements, List.length_map, List.length_range]
        omega
      have hinc : rowAt (sim.withIncrements rsg).dW_ j = sim.increments rsg j :=
        rowAt_map_range _ _ _ (by omega)
      refine ⟨_, simulatePath_stored_eq rsg sqrt (sim.withIncrements rsg) hsb j hdj X'
        (by rw [hlen]; exact hj), _, rfl, by rw [List.length_set, hlen], fun p hp => ?_,
        fun p hp => ?_⟩
      · rw [rowAt_set]
        by_cases hpj : j = p
        · rw [if_pos ⟨hpj, by rw [hlen]; exact hj⟩, hinc, hhi j le_rfl, hpj]
          rfl
        · rw [if_neg (fun h => hpj h.1)]
          exact hlo p (by omega)
      · rw [rowAt_set, if_neg (fun h => by omega)]
        exact hhi p (by omega))
  rw [simulate_eq rsg sqrt hdim sim hsb]
  have hrun' : forLoop (fun k st => MCSimulationT.simulatePath rsg sqrt st k)
      (List.range sim.X_.length) (sim.withIncrements rsg) = (.ok (), sf) := hrun
  rw [hrun', hsf, rows_of_loop X' sim.X_ _ hlen hlo]

theorem simulate_rows_drawn (rsg : Nat → Nat → Nat → List α) (sqrt : α → α)
    (hdim : ∀ d s n, (rsg d s n).length = d) (sim : MCSimulationT α)
    (hsb : sim.storeBrownians_ = false) :
    ∃ s1, sim.simulate rsg sqrt = (.ok (), s1) ∧ s1.obsTimes_ = sim.obsTimes_ ∧
      s1.X_ = (List.range sim.X_.length).map fun p =>
        (sim.pathLoop sqrt (sim.increments rsg p) (rowAt sim.X_ p)
          (sim.simTimes_.length - 1)).Xpath := by
  obtain ⟨sf, hrun, X', D, hsf, hlen, hlo, _⟩ := forLoop_range_total
    (fun k st => MCSimulationT.simulatePath rsg sqrt st k)
    (fun j st => ∃ X' D : List (List (List α)),
      st = { sim with
          addObsTimes_ := []
          Y_ := []
          rsg_ := some ⟨(if sim.richardsonExtrapolation_ then 2 else 1)
            * (sim.simTimes_.length - 1) * sim.process_.factors, sim.seed_, j⟩
          dW_ := D
          X_ := X' } ∧ X'.length = sim.X_.length ∧
      (∀ p, p < j → rowAt X' p = (sim.pathLoop sqrt (sim.increments rsg p) (rowAt sim.X_ p)
          (sim.simTimes_.length - 1)).Xpath) ∧
      (∀ p, j ≤ p → rowAt X' p = rowAt sim.X_ p))
    sim.X_.length (MCSimulationT.initialiseRSG { sim with addObsTimes_ := [], Y_ := [] })
    ⟨sim.X_, sim.dW_, rfl, rfl, fun p hp => absurd hp (Nat.not_lt_zero p), fun _ _ => rfl⟩
    (by
      rintro j st hj ⟨X', D, rfl, hlen, hlo, hhi⟩
      refine ⟨_, simulatePath_drawn_eq rsg sqrt hdim { sim with addObsTimes_ := [], Y_ := [] }
        hsb j j D X' (by rw [hlen]; exact hj), _, _, rfl, by rw [List.length_set, hlen],
        fun p hp => ?_, fun p hp => ?_⟩
      · rw [rowAt_set]
        by_cases hpj : j = p
        · rw [if_pos ⟨hpj, by rw [hlen]; exact hj⟩, hhi j le_rfl, hpj]
          rfl
        · rw [if_neg (fun h => hpj h.1)]
          exact hlo p (by omega)
      · rw [rowAt_set, if_neg (fun h => by omega)]
        exact hhi p (by omega))
  refine ⟨sf, ?_, by rw [hsf], ?_⟩
  · unfold MCSimulationT.simulate
    dsimp only
    rw [if_neg (show ¬ (MCSimulationT.initialiseRSG
      { sim with addObsTimes_ := [], Y_ := [] }).storeBrownians_ = true from by
        rw [show (MCSimulationT.initialiseRSG
          { sim with addObsTimes_ := [], Y_ := [] }).storeBrownians_ = false from hsb]
        exact Bool.false_ne_true)]
    exact hrun
  · rw [hsf]
    exact rows_of_loop X' sim.X_ _ hlen hlo

theorem simulate_rows (rsg : Nat → Nat → Nat → List α) (sqrt : α → α)
    (hdim : ∀ d s n, (rsg d s n).length = d) (sim : MCSimulationT α)
    (hD : sim.storeBrownians_ = true → sim.X_.length ≤ sim.dW_.length) :
    ∃ s1, sim.simulate rsg sqrt = (.ok (), s1) ∧ s1.obsTimes_ = sim.obsTimes_ ∧
      s1.X_ = (List.range sim.X_.length).map fun p =>
        (sim.pathLoop sqrt (sim.increments rsg p) (rowAt sim.X_ p)
          (sim.simTimes_.length - 1)).Xpath := by
  by_cases hsb : sim.storeBrownians_ = true
  · exact ⟨_, simulate_rows_stored rsg sqrt hdim sim hsb (hD hsb), rfl, rfl⟩
  · exact simulate_rows_drawn rsg sqrt hdim sim (by simpa using hsb)

theorem build_rows (process : ProcessType α) (simTimes obsTimes : List α)
    (nPaths seed : Nat) (r i s : Bool) :
    (MCSimulationT.build process simTimes obsTimes nPaths seed r i s).X_.length = nPaths
      ∧ (∀ p, p < nPaths →
          rowAt (MCSimulationT.build process simTimes obsTimes nPaths seed r i s).X_ p
            = List.replicate (buildObsTimes obsTimes).length (List.replicate process.size 0))
      ∧ ((MCSimulationT.build process simTimes obsTimes nPaths seed r i s).storeBrownians_ = true →
          (MCSimulationT.build process simTimes obsTimes nPaths seed r i s).X_.length
            ≤ (MCSimulationT.build process simTimes obsTimes nPaths seed r i s).dW_.length) := by
  refine ⟨by simp [MCSimulationT.build, MCSimulationT.reallocateMemory], fun p hp => ?_,
    fun h => ?_⟩
  · simp [MCSimulationT.build, MCSimulationT.reallocateMemory, rowAt, List.getD_eq_getElem?_getD,
      List.getElem?_replicate, hp]
  · have hs : s = true := h
    simp [MCSimulationT.build, MCSimulationT.reallocateMemory, hs]

end Table

/-! ### Sliced simulation -/

section Slices

variable {α : Type} [LinearOrderedField α]

theorem sameTimes_iff (a b : List α) (h : a.length = b.length) :
    sameTimes a b = true ↔ a = b := by
  induction a generalizing b with
  | nil =>
    cases b with
    | nil => simp [sameTimes]
    | cons y ys => simp at h
  | cons x xs ih =>
    cases b with
    | nil => simp at h
    | cons y ys =>
      simp only [List.length_cons, Nat.add_right_cancel_iff] at h
      simp only [sameTimes, Bool.and_eq_true, decide_eq_true_eq, ih ys h, List.cons.injEq]

theorem prepare_stored (rsg : Nat → Nat → Nat → List α)
    (hdim : ∀ d s n, (rsg d s n).length = d) (sim : MCSimulationT α)
    (hsb : sim.storeBrownians_ = true) (hT : sim.simTimes_ = sim.obsTimes_) :
    sim.prepareForSlicedSimulation rsg
      = (.ok (), { sim with
          rsg_ := some ⟨(if sim.richardsonExtrapolation_ then 2 else 1)
            * (sim.simTimes_.length - 1) * sim.process_.factors, sim.seed_, sim.dW_.length⟩
          dW_ := (List.range sim.dW_.length).map (sim.increments rsg) }) := by
  unfold MCSimulationT.prepareForSlicedSimulation
  rw [if_neg (not_not.2 (congrArg List.length hT)),
    if_neg (by
      rw [(sameTimes_iff _ _ (congrArg List.length hT)).2 hT]
      simp),
    if_pos hsb]
  exact storeIncrements_loop rsg hdim sim

theorem prepare_raises_iff (rsg : Nat → Nat → Nat → List α)
    (hdim : ∀ d s n, (rsg d s n).length = d) (sim : MCSimulationT α) :
    (∃ e s, sim.prepareForSlicedSimulation rsg = (.error e, s))
      ↔ sim.simTimes_ ≠ sim.obsTimes_ := by
  constructor
  · rintro ⟨e, s, h⟩ hT
    unfold MCSimulationT.prepareForSlicedSimulation at h
    rw [if_neg (not_not.2 (congrArg List.length hT)),
      if_neg (by
        rw [(sameTimes_iff _ _ (congrArg List.length hT)).2 hT]
        simp)] at h
    by_cases hsb : sim.storeBrownians_ = true
    · rw [if_pos hsb, storeIncrements_loop rsg hdim sim] at h
      cases h
    · rw [if_neg hsb] at h
      cases h
  · intro hT
    unfold MCSimulationT.prepareForSlicedSimulation
    by_cases hl : sim.simTimes_.length = sim.obsTimes_.length
    · rw [if_neg (not_not.2 hl), if_pos (by
        have : ¬ sameTimes sim.simTimes_ sim.obsTimes_ = true :=
          fun h => hT ((sameTimes_iff _ _ hl).1 h)
        simpa using this)]
      exact ⟨_, _, rfl⟩
    · rw [if_pos hl]
      exact ⟨_, _, rfl⟩

theorem obsIndex_same_grid (sim : MCSimulationT α) (hT : sim.simTimes_ = sim.obsTimes_) :
    ∀ n, n < sim.obsTimes_.length → sim.obsIndex n = n + 1
  | 0 => fun _ => rfl
  | n + 1 => by
    intro hn
    have ih := obsIndex_same_grid sim hT n (by omega)
    rw [obsIndex_succ, ih, if_pos ⟨hn, by rw [hT]⟩]

theorem pathLoop_X0_zero (sqrt : α → α) (sim : MCSimulationT α) (dWt row : List (List α)) :
    (sim.pathLoop sqrt dWt row 0).X0 = sim.process_.initialValues := rfl

theorem pathLoop_X0_succ (sqrt : α → α) (sim : MCSimulationT α) (dWt row : List (List α))
    (n : Nat) :
    (sim.pathLoop sqrt dWt row (n + 1)).X0 = (sim.pathLoop sqrt dWt row (n + 1)).X1 := by
  rw [pathLoop_succ]
  exact (simulateStep_X1 sqrt sim dWt (n + 1) _).2

theorem simulateStep_dW_length (sqrt : α → α) (sim : MCSimulationT α) (dWt : List (List α))
    (i : Nat) (c : PathLoopState α) :
    (sim.simulateStep sqrt dWt i c).dW.length = c.dW.length := by
  unfold MCSimulationT.simulateStep
  dsimp only
  by_cases hr : sim.richardsonExtrapolation_ = true
  · by_cases hc : c.obs_idx < sim.obsTimes_.length ∧
        numAt sim.simTimes_ i = numAt sim.obsTimes_ c.obs_idx
    · simp only [hr, if_true, if_pos hc, List.length_map, List.length_range]
    · simp only [hr, if_true, if_neg hc, List.length_map, List.length_range]
  · by_cases hc : c.obs_idx < sim.obsTimes_.length ∧
        numAt sim.simTimes_ i = numAt sim.obsTimes_ c.obs_idx
    · simp only [hr, Bool.false_eq_true, if_false, if_pos hc]
    · simp only [hr, Bool.false_eq_true, if_false, if_neg hc]

theorem pathLoop_dW_length (sqrt : α → α) (sim : MCSimulationT α) (dWt row : List (List α)) :
    ∀ n, (sim.pathLoop sqrt dWt row n).dW.length = sim.process_.factors
  | 0 => by
    show (List.replicate sim.process_.factors (0 : α)).length = _
    simp
  | n + 1 => by
    rw [pathLoop_succ, simulateStep_dW_length]
    exact pathLoop_dW_length sqrt sim dWt row n

theorem simulateStep_X1_congr (sqrt : α → α) (sim : MCSimulationT α) (dWt : List (List α))
    (hev : ∀ t X dt dW out out',
      sim.process_.evolve t X dt dW out = sim.process_.evolve t X dt dW out')
    (i : Nat) (c c' : PathLoopState α) (hX0 : c.X0 = c'.X0)
    (hdW : c.dW.length = c'.dW.length) :
    (sim.simulateStep sqrt dWt i c).X1 = (sim.simulateStep sqrt dWt i c').X1 := by
  have hev' : ∀ t X dt dW out,
      sim.process_.evolve t X dt dW out = sim.process_.evolve t X dt dW [] :=
    fun t X dt dW out => hev t X dt dW out []
  rw [(simulateStep_X1 sqrt sim dWt i c).1, (simulateStep_X1 sqrt sim dWt i c').1]
  simp only [hev', hX0, hdW]

theorem foldl_set_all (X : List α) : ∀ (n : Nat) (slot : List α), n ≤ X.length →
    slot.length = X.length →
    ((List.range n).foldl (fun r k => r.set k (numAt X k)) slot).length = X.length
      ∧ ∀ k, k < X.length →
        numAt ((List.range n).foldl (fun r k => r.set k (numAt X k)) slot) k
          = if k < n then numAt X k else numAt slot k
  | 0, slot, _, hs => by simp [hs]
  | n + 1, slot, hn, hs => by
    obtain ⟨h1, h2⟩ := foldl_set_all X n slot (by omega) hs
    rw [List.range_succ, List.foldl_append]
    simp only [List.foldl_cons, List.foldl_nil]
    refine ⟨by rw [List.length_set, h1], fun k hk => ?_⟩
    rw [numAt_set, h1]
    by_cases hkn : n = k
    · rw [if_pos ⟨hkn, by omega⟩, if_pos (by omega), hkn]
    · rw [if_neg (fun h => hkn h.1), h2 k hk]
      by_cases hlt : k < n
      · rw [if_pos hlt, if_pos (by omega)]
      · rw [if_neg hlt, if_neg (by omega)]

theorem foldl_set_eq (X slot : List α) (hs : slot.length = X.length) :
    (List.range X.length).foldl (fun r k => r.set k (numAt X k)) slot = X := by
  obtain ⟨h1, h2⟩ := foldl_set_all X X.length slot le_rfl hs
  apply List.ext_getElem h1
  intro k hk1 hk2
  have := h2 k hk2
  rw [if_pos hk2] at this
  rw [← numAt_eq_getElem _ k hk1, ← numAt_eq_getElem _ k hk2]
  exact this

theorem stepFrom_eq (sqrt : α → α) (sim : MCSimulationT α) (dWt : List (List α))
    (hev : ∀ t X dt dW out out',
      sim.process_.evolve t X dt dW out = sim.process_.evolve t X dt dW out')
    (i : Nat) (c : PathLoopState α) (hdW : c.dW.length = sim.process_.factors) :
    (sim.simulateStep sqrt dWt i c).X1 = sim.stepFrom sqrt dWt i c.X0 :=
  simulateStep_X1_congr sqrt sim dWt hev i c _ rfl (by rw [hdW]; simp)

theorem pathLoop_stepFrom (sqrt : α → α) (sim : MCSimulationT α) (dWt row : List (List α))
    (hev : ∀ t X dt dW out out',
      sim.process_.evolve t X dt dW out = sim.process_.evolve t X dt dW out')
    (n : Nat) :
    (sim.pathLoop sqrt dWt row (n + 1)).X0
      = sim.stepFrom sqrt dWt (n + 1) (sim.pathLoop sqrt dWt row n).X0 := by
  rw [pathLoop_X0_succ, pathLoop_succ,
    stepFrom_eq sqrt sim dWt hev (n + 1) _ (pathLoop_dW_length sqrt sim dWt row n)]

theorem sliceEulerStep_stored (rsg : Nat → Nat → Nat → List α) (sqrt : α → α)
    (s : MCSimulationT α) (hsb : s.storeBrownians_ = true)
    (hr : s.richardsonExtrapolation_ = false) (hT : s.simTimes_ = s.obsTimes_)
    (hev : ∀ t X dt dW out out',
      s.process_.evolve t X dt dW out = s.process_.evolve t X dt dW out')
    (idx path : Nat) (X : List (List (List α))) :
    MCSimulationT.sliceEulerStep rsg idx
        (numAt s.obsTimes_ idx - numAt s.obsTimes_ (idx - 1)) path { s with X_ := X }
      = (.ok (), { s with
          X_ := X.set path ((rowAt X path).set idx
            (s.stepFrom sqrt (rowAt s.dW_ path) idx (rowAt (rowAt X path) (idx - 1)))) }) := by
  have hval : s.stepFrom sqrt (rowAt s.dW_ path) idx (rowAt (rowAt X path) (idx - 1))
      = s.process_.evolve (numAt s.obsTimes_ (idx - 1)) (rowAt (rowAt X path) (idx - 1))
          (numAt s.obsTimes_ idx - numAt s.obsTimes_ (idx - 1))
          (rowAt (rowAt s.dW_ path) (idx - 1)) (rowAt (rowAt X path) idx) := by
    unfold MCSimulationT.stepFrom
    rw [(simulateStep_X1 sqrt s _ idx _).1, if_neg (by rw [hr]; exact Bool.false_ne_true), hT]
    exact hev _ _ _ _ _ _
  rw [hval]
  unfold MCSimulationT.sliceEulerStep
  rw [if_pos (show ({ s with X_ := X } : MCSimulationT α).storeBrownians_ = true from hsb)]

theorem sliceRichardsonStep_stored (rsg : Nat → Nat → Nat → List α) (sqrt : α → α)
    (s : MCSimulationT α) (hsb : s.storeBrownians_ = true)
    (hr : s.richardsonExtrapolation_ = true) (hT : s.simTimes_ = s.obsTimes_)
    (hev : ∀ t X dt dW out out',
      s.process_.evolve t X dt dW out = s.process_.evolve t X dt dW out')
    (idx path : Nat) (X : List (List (List α))) (c : SliceLoopState α)
    (hc : c.sim = { s with X_ := X }) (hdW : c.dWT.length = s.process_.factors) :
    ∃ c', MCSimulationT.sliceRichardsonStep rsg sqrt idx
          (numAt s.obsTimes_ idx - numAt s.obsTimes_ (idx - 1)) path c = (.ok (), c')
      ∧ c'.dWT.length = s.process_.factors
      ∧ c'.sim = { s with
          X_ := X.set path ((rowAt X path).set idx
            ((List.range
                (s.stepFrom sqrt (rowAt s.dW_ path) idx (rowAt (rowAt X path) (idx - 1))).length).foldl
              (fun r k => r.set k
                (numAt (s.stepFrom sqrt (rowAt s.dW_ path) idx
                  (rowAt (rowAt X path) (idx - 1))) k))
              (rowAt (rowAt X path) idx))) } := by
  obtain ⟨c0, c1, c12, cdW, cs⟩ := c
  simp only at hc hdW
  subst hc
  have hev' : ∀ t X dt dW out,
      s.process_.evolve t X dt dW out = s.process_.evolve t X dt dW [] :=
    fun t X dt dW out => hev t X dt dW out []
  have hval : s.stepFrom sqrt (rowAt s.dW_ path) idx (rowAt (rowAt X path) (idx - 1))
      = (s.process_.truncate (numAt s.obsTimes_ idx)
          ((List.range (s.process_.evolve (numAt s.obsTimes_ (idx - 1))
              (rowAt (rowAt X path) (idx - 1))
              (numAt s.obsTimes_ idx - numAt s.obsTimes_ (idx - 1))
              ((List.range cdW.length).map fun k =>
                (numAt (rowAt (rowAt s.dW_ path) (2 * (idx - 1))) k
                  + numAt (rowAt (rowAt s.dW_ path) (2 * (idx - 1) + 1)) k) / sqrt 2)
              []).length).map fun k =>
            2 * numAt (s.process_.evolve (numAt s.obsTimes_ (idx - 1)
                  + (numAt s.obsTimes_ idx - numAt s.obsTimes_ (idx - 1)) / 2)
                (s.process_.evolve (numAt s.obsTimes_ (idx - 1))
                  (rowAt (rowAt X path) (idx - 1))
                  ((numAt s.obsTimes_ idx - numAt s.obsTimes_ (idx - 1)) / 2)
                  (rowAt (rowAt s.dW_ path) (2 * (idx - 1))) [])
                ((numAt s.obsTimes_ idx - numAt s.obsTimes_ (idx - 1)) / 2)
                (rowAt (rowAt s.dW_ path) (2 * (idx - 1) + 1)) []) k
              - numAt (s.process_.evolve (numAt s.obsTimes_ (idx - 1))
                (rowAt (rowAt X path) (idx - 1))
                (numAt s.obsTimes_ idx - numAt s.obsTimes_ (idx - 1))
                ((List.range cdW.length).map fun k =>
                  (numAt (rowAt (rowAt s.dW_ path) (2 * (idx - 1))) k
                    + numAt (rowAt (rowAt s.dW_ path) (2 * (idx - 1) + 1)) k) / sqrt 2)
                []) k)).2 := by
    unfold MCSimulationT.stepFrom
    rw [(simulateStep_X1 sqrt s _ idx _).1, if_pos hr, hT, hdW]
    simp only [hev', List.length_replicate]
  rw [hval]
  unfold MCSimulationT.sliceRichardsonStep MCSimulationT.sliceIncrements
  dsimp only
  rw [if_pos hsb]
  dsimp only
  refine ⟨_, rfl, by simpa using hdW, ?_⟩
  dsimp only
  simp only [hev']

theorem rowLoop {σ γ : Type} (body : Nat → σ → Except String Unit × σ) (Inv : σ → Prop)
    (tab : σ → List (List γ)) (G : Nat → List γ → List γ) (n : Nat) (s0 : σ)
    (h0 : Inv s0) (hlen : (tab s0).length = n)
    (hstep : ∀ j st, j < n → Inv st → (tab st).length = n →
      ∃ st', body j st = (.ok (), st') ∧ Inv st'
        ∧ tab st' = (tab st).set j (G j (rowAt (tab st) j))) :
    ∃ sf, forLoop body (List.range n) s0 = (.ok (), sf) ∧ Inv sf
      ∧ tab sf = (List.range n).map fun p => G p (rowAt (tab s0) p) := by
  obtain ⟨sf, hrun, hI, hl, hlo, _⟩ := forLoop_range_total body
    (fun j st => Inv st ∧ (tab st).length = n ∧
      (∀ p, p < j → rowAt (tab st) p = G p (rowAt (tab s0) p)) ∧
      (∀ p, j ≤ p → rowAt (tab st) p = rowAt (tab s0) p))
    n s0 ⟨h0, hlen, fun p hp => absurd hp (Nat.not_lt_zero p), fun _ _ => rfl⟩
    (by
      rintro j st hj ⟨hI, hl, hlo, hhi⟩
      obtain ⟨st', hb, hI', ht⟩ := hstep j st hj hI hl
      refine ⟨st', hb, hI', by rw [ht, List.length_set, hl], fun p hp => ?_, fun p hp => ?_⟩
      · rw [ht, rowAt_set]
        by_cases hpj : j = p
        · rw [if_pos ⟨hpj, by rw [hl]; exact hj⟩, hhi j le_rfl, hpj]
        · rw [if_neg (fun h => hpj h.1)]
          exact hlo p (by omega)
      · rw [ht, rowAt_set, if_neg (fun h => by omega)]
        exact hhi p (by omega))
  refine ⟨sf, hrun, hI, ?_⟩
  apply List.ext_getElem (by simp [hl])
  intro k h1 h2
  rw [← rowAt_eq_getElem (tab sf) k h1, hlo k (by rw [← hl]; exact h1)]
  simp

theorem simulateIdx_zero (rsg : Nat → Nat → Nat → List α) (sqrt : α → α)
    (s : MCSimulationT α) (hm : 0 < s.obsTimes_.length) (X : List (List (List α))) :
    MCSimulationT.simulateIdx rsg sqrt { s with X_ := X } 0 false
      = (.ok (), { s with X_ := X.map fun row => row.set 0 s.process_.initialValues }) := by
  unfold MCSimulationT.simulateIdx
  simp only [Bool.false_eq_true, if_false]
  rw [if_neg (not_not.2 hm), if_pos trivial]

theorem simulateIdx_stored (rsg : Nat → Nat → Nat → List α) (sqrt : α → α)
    (s : MCSimulationT α) (hsb : s.storeBrownians_ = true) (hT : s.simTimes_ = s.obsTimes_)
    (hev : ∀ t X dt dW out out',
      s.process_.evolve t X dt dW out = s.process_.evolve t X dt dW out')
    (idx : Nat) (h1 : 1 ≤ idx) (hidx : idx < s.obsTimes_.length) (X : List (List (List α))) :
    MCSimulationT.simulateIdx rsg sqrt { s with X_ := X } idx false
      = (.ok (), { s with
          X_ := (List.range X.length).map fun p =>
            (rowAt X p).set idx
              (if s.richardsonExtrapolation_ then
                (List.range
                    (s.stepFrom sqrt (rowAt s.dW_ p) idx (rowAt (rowAt X p) (idx - 1))).length).foldl
                  (fun r k => r.set k
                    (numAt (s.stepFrom sqrt (rowAt s.dW_ p) idx (rowAt (rowAt X p) (idx - 1))) k))
                  (rowAt (rowAt X p) idx)
              else s.stepFrom sqrt (rowAt s.dW_ p) idx (rowAt (rowAt X p) (idx - 1))) }) := by
  unfold MCSimulationT.simulateIdx
  simp only [Bool.false_eq_true, if_false]
  rw [if_neg (not_not.2 hidx), if_neg (by omega)]
  by_cases hr : s.richardsonExtrapolation_ = true
  · simp only [if_pos hr]
    obtain ⟨cf, hrun, ⟨hI, _⟩, htab⟩ := rowLoop
      (MCSimulationT.sliceRichardsonStep rsg sqrt idx
        (numAt s.obsTimes_ idx - numAt s.obsTimes_ (idx - 1)))
      (fun c => c.sim = { s with X_ := c.sim.X_ } ∧ c.dWT.length = s.process_.factors)
      (fun c => c.sim.X_)
      (fun p row => row.set idx
        ((List.range (s.stepFrom sqrt (rowAt s.dW_ p) idx (rowAt row (idx - 1))).length).foldl
          (fun r k => r.set k (numAt (s.stepFrom sqrt (rowAt s.dW_ p) idx (rowAt row (idx - 1))) k))
          (rowAt row idx)))
      X.length
      { X0T := s.process_.initialValues
        X1T := List.replicate s.process_.initialValues.length 0
        X12T := List.replicate s.process_.initialValues.length 0
        dWT := List.replicate s.process_.factors 0
        sim := { s with X_ := X } }
      ⟨rfl, by simp⟩ rfl
      (by
        rintro j c _ ⟨hc, hdW⟩ _
        obtain ⟨c', hb, hd', hs'⟩ := sliceRichardsonStep_stored rsg sqrt s hsb hr hT hev idx j
          c.sim.X_ c hc hdW
        refine ⟨c', hb, ⟨?_, hd'⟩, ?_⟩
        · rw [hs']
        · show c'.sim.X_ = _
          rw [hs'])
    have hrun' : forLoop (MCSimulationT.sliceRichardsonStep rsg sqrt idx
          (numAt s.obsTimes_ idx - numAt s.obsTimes_ (idx - 1)))
        (List.range X.length)
        { X0T := s.process_.initialValues
          X1T := List.replicate s.process_.initialValues.length 0
          X12T := List.replicate s.process_.initialValues.length 0
          dWT := List.replicate s.process_.factors 0
          sim := { s with X_ := X } } = (.ok (), cf) := hrun
    rw [hrun']
    show ((.ok () : Except String Unit), cf.sim) = _
    rw [hI, htab]
  · have hr' : s.richardsonExtrapolation_ = false := by simpa using hr
    simp only [if_neg hr]
    obtain ⟨sf, hrun, hI, htab⟩ := rowLoop
      (MCSimulationT.sliceEulerStep rsg idx
        (numAt s.obsTimes_ idx - numAt s.obsTimes_ (idx - 1)))
      (fun st => st = { s with X_ := st.X_ })
      (fun st => st.X_)
      (fun p row => row.set idx (s.stepFrom sqrt (rowAt s.dW_ p) idx (rowAt row (idx - 1))))
      X.length { s with X_ := X } rfl rfl
      (by
        rintro j st _ hI _
        refine ⟨_, by rw [hI]; exact sliceEulerStep_stored rsg sqrt s hsb hr' hT hev idx j st.X_,
          rfl, rfl⟩)
    have hrun' : forLoop (MCSimulationT.sliceEulerStep rsg idx
          (numAt s.obsTimes_ idx - numAt s.obsTimes_ (idx - 1)))
        (List.range X.length) { s with X_ := X } = (.ok (), sf) := hrun
    refine hrun'.trans ?_
    rw [hI, htab]

theorem rowAt_map {β γ : Type} (f : List β → List γ) (hf : f [] = [])
    (X : List (List β)) (p : Nat) : rowAt (X.map f) p = f (rowAt X p) := by
  unfold rowAt
  rw [List.getD_eq_getElem?_getD, List.getD_eq_getElem?_getD, List.getElem?_map]
  cases X[p]? with
  | none => exact hf.symm
  | some r => rfl

theorem stepFrom_length (sqrt : α → α) (sim : MCSimulationT α) (dWt : List (List α))
    (hr : sim.richardsonExtrapolation_ = true)
    (hsize : ∀ t X dt dW out, (sim.process_.evolve t X dt dW out).length = sim.process_.size)
    (htr : ∀ t X, (sim.process_.truncate t X).2.length = X.length)
    (i : Nat) (x : List α) :
    (sim.stepFrom sqrt dWt i x).length = sim.process_.size := by
  unfold MCSimulationT.stepFrom
  rw [(simulateStep_X1 sqrt sim dWt i _).1, if_pos hr, htr, List.length_map, List.length_range,
    hsize]

theorem sliced_loop (rsg : Nat → Nat → Nat → List α) (sqrt : α → α) (sim : MCSimulationT α)
    (hsb : sim.storeBrownians_ = true) (hT : sim.simTimes_ = sim.obsTimes_)
    (hD : sim.X_.length ≤ sim.dW_.length)
    (hrows : ∀ p, p < sim.X_.length → (rowAt sim.X_ p).length = sim.obsTimes_.length)
    (hslots : ∀ p, p < sim.X_.length → ∀ j, j < sim.obsTimes_.length →
      (rowAt (rowAt sim.X_ p) j).length = sim.process_.size)
    (hev : ∀ t X dt dW out out',
      sim.process_.evolve t X dt dW out = sim.process_.evolve t X dt dW out')
    (hsize : ∀ t X dt dW out, (sim.process_.evolve t X dt dW out).length = sim.process_.size)
    (htr : ∀ t X, (sim.process_.truncate t X).2.length = X.length) :
    ∃ s3, forLoop (fun idx st => MCSimulationT.simulateIdx rsg sqrt st idx false)
          (List.range sim.obsTimes_.length) (sim.prepared rsg) = (.ok (), s3)
      ∧ s3.X_.length = sim.X_.length
      ∧ ∀ p, p < sim.X_.length →
          (rowAt s3.X_ p).length = sim.obsTimes_.length
            ∧ ∀ j, j < sim.obsTimes_.length →
              rowAt (rowAt s3.X_ p) j
                = (sim.pathLoop sqrt (sim.increments rsg p) (rowAt sim.X_ p) j).X0 := by
  obtain ⟨sf, hrun, X', hsf, hlen, hinv⟩ := forLoop_range_total
    (fun idx st => MCSimulationT.simulateIdx rsg sqrt st idx false)
    (fun i st => ∃ X' : List (List (List α)),
      st = { sim.prepared rsg with X_ := X' } ∧ X'.length = sim.X_.length ∧
      ∀ p, p < sim.X_.length →
        (rowAt X' p).length = sim.obsTimes_.length
          ∧ (∀ j, j < i → rowAt (rowAt X' p) j
              = (sim.pathLoop sqrt (sim.increments rsg p) (rowAt sim.X_ p) j).X0)
          ∧ (∀ j, i ≤ j → rowAt (rowAt X' p) j = rowAt (rowAt sim.X_ p) j))
    sim.obsTimes_.length (sim.prepared rsg)
    ⟨sim.X_, rfl, rfl, fun p hp =>
      ⟨hrows p hp, fun j hj => absurd hj (Nat.not_lt_zero j), fun _ _ => rfl⟩⟩
    (by
      rintro i st hi ⟨X', rfl, hlen, hinv⟩
      rcases Nat.eq_zero_or_pos i with h0 | hpos
      · subst h0
        refine ⟨_, simulateIdx_zero rsg sqrt (sim.prepared rsg) hi X', _, rfl,
          by rw [List.length_map, hlen], fun p hp => ?_⟩
        obtain ⟨h1, _, h3⟩ := hinv p hp
        rw [rowAt_map _ (by simp) X' p]
        refine ⟨by rw [List.length_set, h1], fun j hj => ?_, fun j hj => ?_⟩
        · have hj0 : j = 0 := by omega
          subst hj0
          rw [rowAt_set, if_pos ⟨rfl, by rw [h1]; exact hi⟩]
          rfl
        · rw [rowAt_set, if_neg (fun h => by omega)]
          exact h3 j (by omega)
      · refine ⟨_, simulateIdx_stored rsg sqrt (sim.prepared rsg) hsb hT hev i hpos hi X', _,
          rfl, by simp [hlen], fun p hp => ?_⟩
        obtain ⟨h1, h2, h3⟩ := hinv p hp
        rw [rowAt_map_range _ _ _ (by rw [hlen]; exact hp)]
        have hinc : rowAt (sim.prepared rsg).dW_ p = sim.increments rsg p :=
          rowAt_map_range _ _ _ (by omega)
        have hprev : rowAt (rowAt X' p) (i - 1)
            = (sim.pathLoop sqrt (sim.increments rsg p) (rowAt sim.X_ p) (i - 1)).X0 :=
          h2 (i - 1) (by omega)
        have hval : MCSimulationT.stepFrom sqrt (sim.prepared rsg) (rowAt (sim.prepared rsg).dW_ p)
            i (rowAt (rowAt X' p) (i - 1))
            = (sim.pathLoop sqrt (sim.increments rsg p) (rowAt sim.X_ p) i).X0 := by
          rw [hinc, hprev]
          have hstep := pathLoop_stepFrom sqrt sim (sim.increments rsg p) (rowAt sim.X_ p)
            hev (i - 1)
          rw [show i - 1 + 1 = i by omega] at hstep
          rw [hstep]
          rfl
        have hnew : (if (sim.prepared rsg).richardsonExtrapolation_ then
              (List.range (MCSimulationT.stepFrom sqrt (sim.prepared rsg)
                  (rowAt (sim.prepared rsg).dW_ p) i (rowAt (rowAt X' p) (i - 1))).length).foldl
                (fun r k => r.set k (numAt (MCSimulationT.stepFrom sqrt (sim.prepared rsg)
                  (rowAt (sim.prepared rsg).dW_ p) i (rowAt (rowAt X' p) (i - 1))) k))
                (rowAt (rowAt X' p) i)
            else MCSimulationT.stepFrom sqrt (sim.prepared rsg)
              (rowAt (sim.prepared rsg).dW_ p) i (rowAt (rowAt X' p) (i - 1)))
            = (sim.pathLoop sqrt (sim.increments rsg p) (rowAt sim.X_ p) i).X0 := by
          by_cases hr : sim.richardsonExtrapolation_ = true
          · rw [if_pos (show (sim.prepared rsg).richardsonExtrapolation_ = true from hr)]
            have hl : (rowAt (rowAt X' p) i).length
                = (MCSimulationT.stepFrom sqrt (sim.prepared rsg)
                  (rowAt (sim.prepared rsg).dW_ p) i (rowAt (rowAt X' p) (i - 1))).length := by
              rw [h3 i le_rfl, hslots p hp i hi]
              exact (stepFrom_length sqrt sim _ hr hsize htr i _).symm
            rw [foldl_set_eq _ _ hl, hval]
          · rw [if_neg (show ¬ (sim.prepared rsg).richardsonExtrapolation_ = true from hr), hval]
        rw [hnew]
        refine ⟨by rw [List.length_set, h1], fun j hj => ?_, fun j hj => ?_⟩
        · rw [rowAt_set]
          by_cases hji : i = j
          · rw [if_pos ⟨hji, by rw [h1]; exact hi⟩, hji]
          · rw [if_neg (fun h => hji h.1)]
            exact h2 j (by omega)
        · rw [rowAt_set, if_neg (fun h => by omega)]
          exact h3 j (by omega))
  refine ⟨sf, hrun, by rw [hsf]; exact hlen, fun p hp => ?_⟩
  obtain ⟨h1, h2, _⟩ := hinv p hp
  rw [hsf]
  exact ⟨h1, h2⟩

theorem richardsonSimulation_grids :
    richardsonSimulation.simTimes_ = [0, 1, 2] ∧ richardsonSimulation.obsTimes_ = [0, 1, 2]
      ∧ richardsonSimulation.X_ = [[[0], [0], [0]], [[0], [0], [0]]]
      ∧ richardsonSimulation.dW_ = [[], []] := by
  norm_num [richardsonSimulation, MCSimulationT.build, MCSimulationT.reallocateMemory,
    buildObsTimes, buildSimTimes, mergeTimes, skipNonPositive, assetProcess, OneDay]
  exact ⟨rfl, rfl⟩

/-- C40: `prepareForSlicedSimulation()` raises exactly when `simTimes_` differs
from `obsTimes_`.  With stored increments and equal grids, on a table of
`obsTimes_.size()` slots of `process.size()` entries per path and for a
process whose `evolve` returns `size()` entries that do not depend on the
content of its output vector and whose `truncate` keeps the length,
`simulate()` succeeds, `prepareForSlicedSimulation()` followed by
`simulate(idx)` for `idx = 0, ..., obsTimes_.size() - 1` succeeds, and both
leave the same table `X_`, with and without Richardson extrapolation. -/
theorem sliced_simulation (rsg : Nat → Nat → Nat → List α) (sqrt : α → α)
    (hdim : ∀ d s n, (rsg d s n).length = d) (sim : MCSimulationT α) :
    ((∃ e s, sim.prepareForSlicedSimulation rsg = (.error e, s))
        ↔ sim.simTimes_ ≠ sim.obsTimes_)
      ∧ (sim.storeBrownians_ = true → sim.simTimes_ = sim.obsTimes_ →
          sim.X_.length ≤ sim.dW_.length →
          (∀ p, p < sim.X_.length → (rowAt sim.X_ p).length = sim.obsTimes_.length) →
          (∀ p, p < sim.X_.length → ∀ j, j < sim.obsTimes_.length →
            (rowAt (rowAt sim.X_ p) j).length = sim.process_.size) →
          (∀ t X dt dW out out',
            sim.process_.evolve t X dt dW out = sim.process_.evolve t X dt dW out') →
          (∀ t X dt dW out, (sim.process_.evolve t X dt dW out).length = sim.process_.size) →
          (∀ t X, (sim.process_.truncate t X).2.length = X.length) →
          ∃ s1 s2 s3,
            sim.simulate rsg sqrt = (.ok (), s1)
              ∧ sim.prepareForSlicedSimulation rsg = (.ok (), s2)
              ∧ forLoop (fun idx st => MCSimulationT.simulateIdx rsg sqrt st idx false)
                  (List.range sim.obsTimes_.length) s2 = (.ok (), s3)
              ∧ s3.X_ = s1.X_) := by
  refine ⟨prepare_raises_iff rsg hdim sim, ?_⟩
  intro hsb hT hD hrows hslots hev hsize htr
  obtain ⟨s3, hrun, hlen, hrow⟩ := sliced_loop rsg sqrt sim hsb hT hD hrows hslots hev hsize htr
  refine ⟨_, _, s3, simulate_rows_stored rsg sqrt hdim sim hsb hD,
    prepare_stored rsg hdim sim hsb hT, hrun, ?_⟩
  show s3.X_ = (List.range sim.X_.length).map fun p =>
    (sim.pathLoop sqrt (sim.increments rsg p) (rowAt sim.X_ p) (sim.simTimes_.length - 1)).Xpath
  apply rows_of_loop s3.X_ sim.X_ _ hlen
  intro p hp
  obtain ⟨h1, h2⟩ := hrow p hp
  apply List.ext_getElem
  · rw [h1, pathLoop_length, hrows p hp]
  · intro j hj1 hj2
    have hj : j < sim.obsTimes_.length := by
      rw [← h1]
      exact hj1
    rw [← rowAt_eq_getElem _ j hj1, ← rowAt_eq_getElem _ j hj2, h2 j hj]
    rcases Nat.eq_zero_or_pos j with h0 | hpos
    · subst h0
      rw [pathLoop_slot_zero sqrt sim _ _ (by rw [hrows p hp]; exact hj)]
      rfl
    · have hb := obsIndex_same_grid sim hT (j - 1) (by omega)
      rw [show j - 1 + 1 = j by omega] at hb
      rw [pathLoop_slot sqrt sim (sim.increments rsg p) (rowAt sim.X_ p) j j hpos
        (by rw [hrows p hp]; exact hj) hpos hb (obsIndex_same_grid sim hT j hj),
        if_neg (by rw [hT]; omega)]
      obtain ⟨n, rfl⟩ : ∃ n, j = n + 1 := ⟨j - 1, by omega⟩
      exact pathLoop_X0_succ sqrt sim _ _ n

theorem sliced_simulation_witness :
    ∃ s1 s2 s3,
      richardsonSimulation.simulate (sampleRsg ℚ) (fun x => x) = (.ok (), s1)
        ∧ richardsonSimulation.prepareForSlicedSimulation (sampleRsg ℚ) = (.ok (), s2)
        ∧ forLoop (fun idx st => MCSimulationT.simulateIdx (sampleRsg ℚ) (fun x => x) st idx false)
            (List.range richardsonSimulation.obsTimes_.length) s2 = (.ok (), s3)
        ∧ s3.X_ = s1.X_ :=
  (sliced_simulation (sampleRsg ℚ) (fun x => x) (by intro d s n; simp [sampleRsg])
    richardsonSimulation).2 rfl
    (by rw [richardsonSimulation_grids.1, richardsonSimulation_grids.2.1])
    (by rw [richardsonSimulation_grids.2.2.1, richardsonSimulation_grids.2.2.2]; decide)
    (by
      rw [richardsonSimulation_grids.2.2.1, richardsonSimulation_grids.2.1]
      intro p hp
      have hp2 : p < 2 := hp
      interval_cases p <;> rfl)
    (by
      rw [richardsonSimulation_grids.2.2.1, richardsonSimulation_grids.2.1]
      intro p hp j hj
      have hp2 : p < 2 := hp
      have hj3 : j < 3 := hj
      interval_cases p <;> interval_cases j <;> rfl)
    (fun _ _ _ _ _ _ => rfl) (fun _ _ _ _ _ => rfl) (fun _ _ => rfl)

end Slices

/-! ### A stale interpolation cache -/

section StaleCache

theorem slicedRerun_record :
    slicedRerun = { slicedSimulation with
      rsg_ := some ⟨1, 0, 6⟩
      dW_ := [[[5], []]]
      X_ := [[[0], [1], [6]], [[0], [2], [8]]]
      addObsTimes_ := [3 / 2]
      Y_ := [[[5 / 2], [4]]] } := by
  unfold slicedRerun
  rw [slicedRerun_eq]

set_option maxHeartbeats 2000000 in
theorem slicedRerun_state :
    (slicedRerun.state 0 (3 / 2)).1 = .ok [5 / 2] := by
  rw [slicedRerun_record]
  norm_num [state_def, slicedSimulation, MCSimulationT.build, MCSimulationT.reallocateMemory,
    buildObsTimes, buildSimTimes, mergeTimes, skipNonPositive, unitProcess,
    TemplateAuxilliaries.idx, MCSimulationT.addInterpolatedState,
    MCSimulationT.interpolatedStates, MCSimulationT.nPaths, sortedIndices, List.range_succ,
    numAt, rowAt, OneDay]

/-- C11 does not hold as stated: the simulator `slicedRerun` has time
interpolation enabled, the observation grid 0, 1, 2 and the stored path
0, 1, 6 for the path 0, and the time 3/2 lies strictly between the observation
times 1 and 2; the claimed value of `state(0, 3/2)` is `(1/2)*1 + (1/2)*6 =
7/2`, and the call returns 5/2, the row the cache holds for the time 3/2 from
before the last slice was simulated anew. -/
theorem state_interpolation_stale_counterexample :
    slicedRerun.timeInterpolation_ = true
      ∧ slicedRerun.obsTimes_ = [0, 1, 2]
      ∧ 0 < slicedRerun.nPaths
      ∧ slicedRerun.process_.size = 1
      ∧ rowAt slicedRerun.X_ 0 = [[0], [1], [6]]
      ∧ slicedRerun.addObsTimes_ = [3 / 2]
      ∧ numAt slicedRerun.obsTimes_ (2 - 1) < 3 / 2 ∧ 3 / 2 < numAt slicedRerun.obsTimes_ 2
      ∧ (slicedRerun.state 0 (3 / 2)).1 = .ok [5 / 2]
      ∧ (1 - ((3 / 2 : ℚ) - numAt slicedRerun.obsTimes_ (2 - 1)) /
              (numAt slicedRerun.obsTimes_ 2 - numAt slicedRerun.obsTimes_ (2 - 1)))
            * numAt (rowAt (rowAt slicedRerun.X_ 0) (2 - 1)) 0
          + ((3 / 2 : ℚ) - numAt slicedRerun.obsTimes_ (2 - 1)) /
              (numAt slicedRerun.obsTimes_ 2 - numAt slicedRerun.obsTimes_ (2 - 1))
            * numAt (rowAt (rowAt slicedRerun.X_ 0) 2) 0 = 7 / 2
      ∧ ¬ ∃ v, (slicedRerun.state 0 (3 / 2)).1 = .ok v ∧
          ∀ k, k < slicedRerun.process_.size →
            numAt v k =
              (1 - ((3 / 2 : ℚ) - numAt slicedRerun.obsTimes_ (2 - 1)) /
                  (numAt slicedRerun.obsTimes_ 2 - numAt slicedRerun.obsTimes_ (2 - 1)))
                * numAt (rowAt (rowAt slicedRerun.X_ 0) (2 - 1)) k
              + ((3 / 2 : ℚ) - numAt slicedRerun.obsTimes_ (2 - 1)) /
                  (numAt slicedRerun.obsTimes_ 2 - numAt slicedRerun.obsTimes_ (2 - 1))
                * numAt (rowAt (rowAt slicedRerun.X_ 0) 2) k := by
  have hobs : slicedRerun.obsTimes_ = [0, 1, 2] := by
    rw [slicedRerun_record]
    norm_num [slicedSimulation, MCSimulationT.build, MCSimulationT.reallocateMemory,
      buildObsTimes]
  have hX : slicedRerun.X_ = [[[0], [1], [6]], [[0], [2], [8]]] := by
    rw [slicedRerun_record]
  have hval : (1 - ((3 / 2 : ℚ) - numAt slicedRerun.obsTimes_ (2 - 1)) /
              (numAt slicedRerun.obsTimes_ 2 - numAt slicedRerun.obsTimes_ (2 - 1)))
            * numAt (rowAt (rowAt slicedRerun.X_ 0) (2 - 1)) 0
          + ((3 / 2 : ℚ) - numAt slicedRerun.obsTimes_ (2 - 1)) /
              (numAt slicedRerun.obsTimes_ 2 - numAt slicedRerun.obsTimes_ (2 - 1))
            * numAt (rowAt (rowAt slicedRerun.X_ 0) 2) 0 = 7 / 2 := by
    rw [hobs, hX]
    norm_num [numAt, rowAt]
  have hsize : slicedRerun.process_.size = 1 := by
    rw [slicedRerun_record]
    rfl
  refine ⟨by rw [slicedRerun_record]; rfl, hobs, by rw [MCSimulationT.nPaths, hX]; decide,
    hsize, by rw [hX]; rfl, by rw [slicedRerun_record], by rw [hobs]; norm_num [numAt],
    by rw [hobs]; norm_num [numAt], slicedRerun_state, hval, ?_⟩
  rintro ⟨v, hv, hk⟩
  rw [slicedRerun_state] at hv
  have hv' : v = [5 / 2] := (Except.ok.inj hv).symm
  have h := hk 0 (by rw [hsize]; decide)
  rw [hval, hv'] at h
  norm_num [numAt] at h

end StaleCache

/-! ### The stored states as the stepped states -/

section SteppedStates

variable {α : Type} [LinearOrderedField α]

theorem increments_row_length (rsg : Nat → Nat → Nat → List α) (sim : MCSimulationT α)
    (n i : Nat)
    (hi : i < (if sim.richardsonExtrapolation_ then 2 else 1) * (sim.simTimes_.length - 1)) :
    (rowAt (sim.increments rsg n) i).length = sim.process_.factors := by
  unfold MCSimulationT.increments
  rw [rowAt_map_range _ _ _ hi]
  simp

theorem steppedStateSpec_succ (ev : α → List α → α → List α → List α)
    (trunc : α → List α → List α) (sqrt : α → α) (richardson : Bool) (simTimes : List α)
    (dWt : List (List α)) (X0 : List α) (n : Nat) :
    steppedStateSpec ev trunc sqrt richardson simTimes dWt X0 (n + 1)
      = if richardson then
          richardsonStepSpec ev trunc sqrt (numAt simTimes n)
            (steppedStateSpec ev trunc sqrt richardson simTimes dWt X0 n)
            (numAt simTimes (n + 1) - numAt simTimes n) (rowAt dWt (2 * n))
            (rowAt dWt (2 * n + 1))
        else
          ev (numAt simTimes n) (steppedStateSpec ev trunc sqrt richardson simTimes dWt X0 n)
            (numAt simTimes (n + 1) - numAt simTimes n) (rowAt dWt n) := rfl

theorem pathLoop_spec (sqrt : α → α) (sim : MCSimulationT α) (dWt row : List (List α))
    (ev : α → List α → α → List α → List α)
    (hev : ∀ t X dt dW out, sim.process_.evolve t X dt dW out = ev t X dt dW)
    (hlen : sim.richardsonExtrapolation_ = true →
      ∀ t X dt dW t2 X2 dt2 dW2, (ev t X dt dW).length = (ev t2 X2 dt2 dW2).length)
    (hrows : sim.richardsonExtrapolation_ = true →
      ∀ i, i < 2 * (sim.simTimes_.length - 1) → (rowAt dWt i).length = sim.process_.factors) :
    ∀ n, n ≤ sim.simTimes_.length - 1 →
      (sim.pathLoop sqrt dWt row n).X0
        = steppedStateSpec ev (fun t X => (sim.process_.truncate t X).2) sqrt
            sim.richardsonExtrapolation_ sim.simTimes_ dWt sim.process_.initialValues n
  | 0 => fun _ => rfl
  | n + 1 => by
    intro hn
    have ih := pathLoop_spec sqrt sim dWt row ev hev hlen hrows n (by omega)
    rw [pathLoop_X0_succ, pathLoop_succ, steppedStateSpec_succ]
    by_cases hr : sim.richardsonExtrapolation_ = true
    · have hd := pathLoop_dW_length sqrt sim dWt row n
      rw [simulateStep_richardson sqrt sim dWt (n + 1) _ ev hr hev (hlen hr)
        (by rw [hd]; exact hrows hr _ (by omega))
        (by rw [hd]; exact hrows hr _ (by omega)), if_pos hr, ih]
      simp only [Nat.add_sub_cancel]
    · have hr' : sim.richardsonExtrapolation_ = false := by simpa using hr
      rw [simulateStep_euler sqrt sim dWt (n + 1) _ ev hr' hev, if_neg hr, ih]
      simp only [Nat.add_sub_cancel]

/-- C34: on a simulator as the constructor builds it, with a generator that
returns sequences of its dimension, `simulate()` succeeds and the table keeps
its `nPaths` rows of `obsTimes_.size()` slots.  Every slot `j >= 1` has one
pass `k j` of the loop of `simulatePath`, at a grid point equal to
`obsTimes_[j]` and later than the pass of the slot before: the slot keeps its
allocation default through the passes before `k j` and holds the state `X1`
reached by the pass `k j` from then on, so also in the final table.  For a
process whose `evolve` is a function `ev` of its four inputs this state is the
one the specification describes, the initial values taken through the steps
`1, ..., k j` of the simulation grid (`steppedStateSpec`).  The slot 0 holds
the initial values. -/
theorem simulate_table (rsg : Nat → Nat → Nat → List α) (sqrt : α → α)
    (hdim : ∀ d s n, (rsg d s n).length = d) (sim : MCSimulationT α)
    (process : ProcessType α) (simTimes obsTimes : List α) (nPaths seed : Nat)
    (richardsonExtrapolation timeInterpolation storeBrownians : Bool)
    (hsim : sim = MCSimulationT.build process simTimes obsTimes nPaths seed
      richardsonExtrapolation timeInterpolation storeBrownians) :
    ∃ (s1 : MCSimulationT α) (k : Nat → Nat),
      sim.simulate rsg sqrt = (.ok (), s1)
        ∧ s1.obsTimes_ = sim.obsTimes_
        ∧ s1.X_.length = nPaths
        ∧ (∀ j, 1 ≤ j → j < sim.obsTimes_.length →
            1 ≤ k j ∧ k j ≤ sim.simTimes_.length - 1
              ∧ numAt sim.simTimes_ (k j) = numAt sim.obsTimes_ j
              ∧ (j + 1 < sim.obsTimes_.length → k j < k (j + 1)))
        ∧ ∀ p, p < nPaths →
            (rowAt s1.X_ p).length = sim.obsTimes_.length
              ∧ rowAt s1.X_ p
                = (sim.pathLoop sqrt (sim.increments rsg p) (rowAt sim.X_ p)
                    (sim.simTimes_.length - 1)).Xpath
              ∧ rowAt (rowAt s1.X_ p) 0 = process.initialValues
              ∧ ∀ j, 1 ≤ j → j < sim.obsTimes_.length →
                  rowAt (rowAt s1.X_ p) j
                      = (sim.pathLoop sqrt (sim.increments rsg p) (rowAt sim.X_ p) (k j)).X1
                    ∧ (∀ n, rowAt (sim.pathLoop sqrt (sim.increments rsg p)
                          (rowAt sim.X_ p) n).Xpath j
                        = if n < k j then List.replicate process.size 0
                          else (sim.pathLoop sqrt (sim.increments rsg p)
                            (rowAt sim.X_ p) (k j)).X1)
                    ∧ ∀ ev : α → List α → α → List α → List α,
                        (∀ t X dt dW out, process.evolve t X dt dW out = ev t X dt dW) →
                        (richardsonExtrapolation = true →
                          ∀ t X dt dW t2 X2 dt2 dW2,
                            (ev t X dt dW).length = (ev t2 X2 dt2 dW2).length) →
                        rowAt (rowAt s1.X_ p) j
                          = steppedStateSpec ev (fun t X => (process.truncate t X).2) sqrt
                              richardsonExtrapolation sim.simTimes_ (sim.increments rsg p)
                              process.initialValues (k j) := by
  obtain ⟨hgrid, hm⟩ := build_grids_sublist process simTimes obsTimes nPaths seed
    richardsonExtrapolation timeInterpolation storeBrownians
  obtain ⟨hlenX, hrow0, hD⟩ := build_rows process simTimes obsTimes nPaths seed
    richardsonExtrapolation timeInterpolation storeBrownians
  rw [← hsim] at hgrid hm hlenX hrow0 hD
  have hO : (buildObsTimes obsTimes).length = sim.obsTimes_.length := by
    rw [hsim]
    rfl
  have hP : sim.process_ = process := by
    rw [hsim]
    rfl
  have hR : sim.richardsonExtrapolation_ = richardsonExtrapolation := by
    rw [hsim]
    rfl
  obtain ⟨k, hk⟩ := obsIndex_steps sim hgrid hm
  obtain ⟨s1, hrun, hobs, hX⟩ := simulate_rows rsg sqrt hdim sim hD
  have hrowlen : ∀ p, p < nPaths → (rowAt sim.X_ p).length = sim.obsTimes_.length := by
    intro p hp
    rw [hrow0 p hp, List.length_replicate, hO]
  refine ⟨s1, k, hrun, hobs, by rw [hX]; simp [hlenX], fun j hj hjm => ?_, fun p hp => ?_⟩
  · obtain ⟨h1, h2, _, _, h5, h6⟩ := hk j hj hjm
    exact ⟨h1, h2, h5, h6⟩
  · have hrow : rowAt s1.X_ p
        = (sim.pathLoop sqrt (sim.increments rsg p) (rowAt sim.X_ p)
            (sim.simTimes_.length - 1)).Xpath := by
      rw [hX, rowAt_map_range _ _ _ (by rw [hlenX]; exact hp)]
    refine ⟨by rw [hrow, pathLoop_length, hrowlen p hp], hrow, ?_, fun j hj hjm => ?_⟩
    · rw [hrow, pathLoop_slot_zero sqrt sim _ _ (by rw [hrowlen p hp]; omega), hP]
    · obtain ⟨h1, h2, h3, h4, _, _⟩ := hk j hj hjm
      have hslot := pathLoop_slot sqrt sim (sim.increments rsg p) (rowAt sim.X_ p) j (k j) hj
        (by rw [hrowlen p hp]; exact hjm) h1 h3 h4
      have hdef : rowAt (rowAt sim.X_ p) j = List.replicate process.size 0 := by
        rw [hrow0 p hp]
        unfold rowAt
        rw [List.getD_eq_getElem?_getD, List.getElem?_replicate, if_pos (by rw [hO]; exact hjm)]
        rfl
      have hfinal : rowAt (rowAt s1.X_ p) j
          = (sim.pathLoop sqrt (sim.increments rsg p) (rowAt sim.X_ p) (k j)).X1 := by
        rw [hrow, hslot, if_neg (by omega)]
      refine ⟨hfinal, fun n => ?_, fun ev hev hlen => ?_⟩
      · rw [hslot, hdef]
      · obtain ⟨m, hm1⟩ : ∃ m, k j = m + 1 := ⟨k j - 1, by omega⟩
        have hspec := pathLoop_spec sqrt sim (sim.increments rsg p) (rowAt sim.X_ p) ev
          (by rw [hP]; exact hev) (by rw [hR]; exact hlen)
          (fun hr i hi => increments_row_length rsg sim p i (by rw [if_pos hr]; exact hi))
          (k j) h2
        rw [hP, hR] at hspec
        rw [hfinal, ← hspec, hm1, pathLoop_X0_succ]

theorem simulate_table_witness :
    ∃ (s1 : MCSimulationT ℚ) (k : Nat → Nat),
      freshSimulation.simulate (sampleRsg ℚ) (fun x => x) = (.ok (), s1)
        ∧ s1.obsTimes_ = freshSimulation.obsTimes_
        ∧ s1.X_.length = 2
        ∧ (∀ j, 1 ≤ j → j < freshSimulation.obsTimes_.length →
            1 ≤ k j ∧ k j ≤ freshSimulation.simTimes_.length - 1
              ∧ numAt freshSimulation.simTimes_ (k j) = numAt freshSimulation.obsTimes_ j
              ∧ (j + 1 < freshSimulation.obsTimes_.length → k j < k (j + 1)))
        ∧ ∀ p, p < 2 →
            (rowAt s1.X_ p).length = freshSimulation.obsTimes_.length
              ∧ rowAt s1.X_ p
                = (freshSimulation.pathLoop (fun x => x)
                    (freshSimulation.increments (sampleRsg ℚ) p) (rowAt freshSimulation.X_ p)
                    (freshSimulation.simTimes_.length - 1)).Xpath
              ∧ rowAt (rowAt s1.X_ p) 0 = (assetProcess ℚ).initialValues
              ∧ ∀ j, 1 ≤ j → j < freshSimulation.obsTimes_.length →
                  rowAt (rowAt s1.X_ p) j
                      = (freshSimulation.pathLoop (fun x => x)
                          (freshSimulation.increments (sampleRsg ℚ) p)
                          (rowAt freshSimulation.X_ p) (k j)).X1
                    ∧ (∀ n, rowAt (freshSimulation.pathLoop (fun x => x)
                          (freshSimulation.increments (sampleRsg ℚ) p)
                          (rowAt freshSimulation.X_ p) n).Xpath j
                        = if n < k j then List.replicate (assetProcess ℚ).size 0
                          else (freshSimulation.pathLoop (fun x => x)
                            (freshSimulation.increments (sampleRsg ℚ) p)
                            (rowAt freshSimulation.X_ p) (k j)).X1)
                    ∧ ∀ ev : ℚ → List ℚ → ℚ → List ℚ → List ℚ,
                        (∀ t X dt dW out, (assetProcess ℚ).evolve t X dt dW out = ev t X dt dW) →
                        (false = true →
                          ∀ t X dt dW t2 X2 dt2 dW2,
                            (ev t X dt dW).length = (ev t2 X2 dt2 dW2).length) →
                        rowAt (rowAt s1.X_ p) j
                          = steppedStateSpec ev (fun t X => ((assetProcess ℚ).truncate t X).2)
                              (fun x => x) false freshSimulation.simTimes_
                              (freshSimulation.increments (sampleRsg ℚ) p)
                              (assetProcess ℚ).initialValues (k j) :=
  simulate_table (sampleRsg ℚ) (fun x => x) (by intro d s n; simp [sampleRsg])
    freshSimulation (assetProcess ℚ) [1, 2] [1, 2] 2 0 false false true rfl

theorem steppedStateSpec_sample :
    steppedStateSpec (fun t X dt dW => (assetProcess ℚ).evolve t X dt dW [])
        (fun t X => ((assetProcess ℚ).truncate t X).2) (fun x => x) false [0, 1, 2]
        [[0], [1]] [1] 1 = [2]
      ∧ steppedStateSpec (fun t X dt dW => (assetProcess ℚ).evolve t X dt dW [])
        (fun t X => ((assetProcess ℚ).truncate t X).2) (fun x => x) false [0, 1, 2]
        [[0], [1]] [1] 2 = [4] := by
  norm_num [steppedStateSpec, assetProcess, numAt, rowAt]

end SteppedStates

end QuantLib
